import Mathlib

/-! # TritonRoute detailed router: the maze search of `src/dr/FlexGridGraph_maze.cpp`

A shallow embedding of the A* maze search (`FlexGridGraph::search`, `expandWavefront`,
`expand`, `isExpandable`, `getEstCost`, `getNextPathCost`, `getTailIdx`, `traceBackPath`)
and machine-checked statements about it.

Conventions of the embedding.

* `frCoord` (a signed machine integer) is an unbounded `Int`; its largest value, used by the
  source as the "no via / no turn yet" sentinel, is `frCoordMax`.
* `frCost` (an unsigned machine integer) is a `Nat` below `2 ^ costBits`; every result that the
  source stores in an `frCost` goes through `toCost`, the reduction modulo `2 ^ costBits`.
* The grid object is a record of its accessors.  The accessors whose bodies live in headers
  (`hasEdge`, `isSrc`, `getEdgeLength`, `getPoint`, ...) are fields of `FlexGridGraph`; the state
  that `search` mutates (`prevAstarNodeDir` and the member `wavefront`) is threaded explicitly.
* Loops that the source writes as `while` take a fuel argument and return `none` when the fuel
  runs out before the loop exits.
-/

namespace fr

/-! ## Directions and maze indices -/

/-- Direction enum of the router.  Modelled from the spec: the closed set
`E, S, W, N, U, D, UNKNOWN` encoded in 3 bits, with `UNKNOWN` the value of an empty buffer
slot (encoding `UNKNOWN = 0, D = 1, S = 2, W = 3, E = 4, N = 5, U = 6`). -/
inductive frDirEnum where
  | UNKNOWN
  | D
  | S
  | W
  | E
  | N
  | U
  deriving DecidableEq, Repr

/-- Integer value of a direction, used for bit packing. -/
def frDirEnum.toBits : frDirEnum → Nat
  | .UNKNOWN => 0
  | .D => 1
  | .S => 2
  | .W => 3
  | .E => 4
  | .N => 5
  | .U => 6

/-- The `static_cast<frDirEnum>` of a 3-bit value.  The value 7 names no direction and is
never stored in a buffer; it is read as `UNKNOWN`. -/
def frDirEnum.ofBits : Nat → frDirEnum
  | 1 => .D
  | 2 => .S
  | 3 => .W
  | 4 => .E
  | 5 => .N
  | 6 => .U
  | _ => .UNKNOWN

/-- Opposite direction.  Modelled from the spec: reverse(d) swaps pairs. -/
def frDirEnum.opposite : frDirEnum → frDirEnum
  | .E => .W
  | .W => .E
  | .N => .S
  | .S => .N
  | .U => .D
  | .D => .U
  | .UNKNOWN => .UNKNOWN

/-- Maze index `(x, y, z)` of a grid cell. -/
structure FlexMazeIdx where
  x : Int
  y : Int
  z : Int
  deriving DecidableEq, Repr

/-- Source `FlexGridGraph::getNextGrid`: the neighbour of a cell in direction `dir`. -/
def getNextGrid (c : FlexMazeIdx) (dir : frDirEnum) : FlexMazeIdx :=
  match dir with
  | .E => { c with x := c.x + 1 }
  | .S => { c with y := c.y - 1 }
  | .W => { c with x := c.x - 1 }
  | .N => { c with y := c.y + 1 }
  | .U => { c with z := c.z + 1 }
  | .D => { c with z := c.z - 1 }
  | .UNKNOWN => c

/-- Source `FlexGridGraph::getPrevGrid`: the cell from which `c` is entered by a move `dir`. -/
def getPrevGrid (c : FlexMazeIdx) (dir : frDirEnum) : FlexMazeIdx :=
  match dir with
  | .E => { c with x := c.x - 1 }
  | .S => { c with y := c.y + 1 }
  | .W => { c with x := c.x + 1 }
  | .N => { c with y := c.y - 1 }
  | .U => { c with z := c.z - 1 }
  | .D => { c with z := c.z + 1 }
  | .UNKNOWN => c

/-- Modelled from the spec: the four-argument `reverse(x, y, z, dir)` of the grid header, which
`isExpandable` calls on its by-value copies.  It steps to the neighbour in direction `dir` and
replaces `dir` by its opposite (the spec: reverse(d) swaps pairs; the neighbour n = step(curr, d)
is what the source then tests with `isSrc` and `getPrevAstarNodeDir`). -/
def reverse (c : FlexMazeIdx) (dir : frDirEnum) : FlexMazeIdx × frDirEnum :=
  (getNextGrid c dir, dir.opposite)

/-! ## Constants, technology and worker context -/

/-- Largest `frCoord`, the sentinel `std::numeric_limits<frCoord>::max()`.
Modelled from the spec: the value written there as infinity ("no via seen yet", "no turn yet"). -/
def frCoordMax : Int := 2147483647

/-- Conversion of an integer result to the signed 32-bit coordinate type `frCoord`: the value
with the same residue modulo `2^32` in the range `-2^31 .. 2^31 - 1`. -/
def toCoord (i : Int) : Int := (i + 2147483648) % 4294967296 - 2147483648

/-- Width of one direction in the back-trace buffer (`DIRBITSIZE`). -/
def DIRBITSIZE : Nat := 3

/-- Process-wide constants read by the search. -/
structure Globals where
  GRIDCOST : Nat
  SHAPECOST : Nat
  BLOCKCOST : Nat
  GUIDECOST : Nat
  ggDRCCost : Nat
  ggMarkerCost : Nat
  BOTTOM_ROUTING_LAYER : Int
  DBPROCESSNODE : String
  /-- Number of directions held by the back-trace buffer. -/
  WAVEFRONTBUFFERSIZE : Nat
  /-- Number of bits of the unsigned cost type `frCost`. -/
  costBits : Nat

/-- Number of bits of the back-trace buffer (`WAVEFRONTBITSIZE`). -/
def Globals.WAVEFRONTBITSIZE (G : Globals) : Nat := G.WAVEFRONTBUFFERSIZE * DIRBITSIZE

/-- Conversion of an integer result to the unsigned cost type `frCost`. -/
def toCost (G : Globals) (i : Int) : Nat := (i % (2 : Int) ^ G.costBits).toNat

/-- The detailed-routing worker as seen by the search (`getDRIter`, `getRipupMode`). -/
structure FlexDRWorker where
  DRIter : Int
  RipupMode : Int

/-- Technology rules and layer data read by the search.  Layers are addressed by layer
number, forbidden-length tables by maze `z`. -/
structure frTechObject where
  /-- Query `isVia2ViaForbiddenLen(z, isPrevDown, isCurrDown, isCurrDirX, len, isOverlap)`. -/
  isVia2ViaForbiddenLen : Int → Bool → Bool → Bool → Int → Bool → Bool
  /-- Query `isViaForbiddenTurnLen(z, isDown, isCurrDirX, len)`. -/
  isViaForbiddenTurnLen : Int → Bool → Bool → Int → Bool
  /-- Width `getLayer(lNum)->getWidth()`. -/
  layerWidth : Int → Nat
  /-- Pitch `getLayer(lNum)->getPitch()`. -/
  layerPitch : Int → Nat
  /-- Whether `getLayer(lNum)->getDir()` is the horizontal preferred direction. -/
  layerIsHorz : Int → Bool
  /-- Minimum area of `getLayer(lNum)->getAreaConstraint()`, when the layer has one. -/
  layerMinArea : Int → Option Int
  topLayerNum : Int

/-! ## Wavefront cells -/

/-- One frontier state (`FlexWavefrontGrid`). -/
structure FlexWavefrontGrid where
  xIdx : Int
  yIdx : Int
  zIdx : Int
  layerPathArea : Int
  vLengthX : Int
  vLengthY : Int
  prevViaUp : Bool
  tLength : Int
  dist : Int
  pathCost : Nat
  cost : Nat
  backTraceBuffer : Nat
  deriving DecidableEq, Repr

/-- Position of a wavefront cell. -/
def FlexWavefrontGrid.idx (w : FlexWavefrontGrid) : FlexMazeIdx := ⟨w.xIdx, w.yIdx, w.zIdx⟩

/-- Source `FlexGridGraph::getLastDir`: the three low-order bits of a buffer. -/
def getLastDir (buffer : Nat) : frDirEnum := frDirEnum.ofBits (buffer % 8)

/-- Last direction taken by a wavefront cell (`FlexWavefrontGrid::getLastDir`). -/
def FlexWavefrontGrid.getLastDir (w : FlexWavefrontGrid) : frDirEnum :=
  fr.getLastDir w.backTraceBuffer

/-- Modelled from the spec: `FlexWavefrontGrid::shiftAddBuffer(d)` inserts `d` at the low bits
of the back-trace buffer, shifting the existing contents up; the direction shifted out (from
position `B`) is returned, `UNKNOWN` if the buffer is not yet full. -/
def FlexWavefrontGrid.shiftAddBuffer (G : Globals) (w : FlexWavefrontGrid) (dir : frDirEnum) :
    frDirEnum × FlexWavefrontGrid :=
  (frDirEnum.ofBits (w.backTraceBuffer / 2 ^ (G.WAVEFRONTBITSIZE - DIRBITSIZE)),
   { w with backTraceBuffer :=
      (w.backTraceBuffer * 2 ^ DIRBITSIZE) % 2 ^ G.WAVEFRONTBITSIZE + dir.toBits })

/-- Modelled from the spec: `resetLayerPathArea`, used during via transitions. -/
def FlexWavefrontGrid.resetLayerPathArea (w : FlexWavefrontGrid) : FlexWavefrontGrid :=
  { w with layerPathArea := 0 }

/-- Modelled from the spec: `resetLength`, used during via transitions (`vLengthX = vLengthY = 0`). -/
def FlexWavefrontGrid.resetLength (w : FlexWavefrontGrid) : FlexWavefrontGrid :=
  { w with vLengthX := 0, vLengthY := 0 }

/-- Setter `setPrevViaUp`. -/
def FlexWavefrontGrid.setPrevViaUp (w : FlexWavefrontGrid) (b : Bool) : FlexWavefrontGrid :=
  { w with prevViaUp := b }

/-- Accumulator `addLayerPathArea`. -/
def FlexWavefrontGrid.addLayerPathArea (w : FlexWavefrontGrid) (a : Int) : FlexWavefrontGrid :=
  { w with layerPathArea := w.layerPathArea + a }

/-! ## The wavefront (priority queue) -/

/-- Modelled from the spec: the strict order of the wavefront heap, `totalCost` ascending, then
`pathCost` ascending, then `distToCenter` ascending. -/
def FlexWavefrontGrid.before (a b : FlexWavefrontGrid) : Bool :=
  if a.cost ≠ b.cost then decide (a.cost < b.cost)
  else if a.pathCost ≠ b.pathCost then decide (a.pathCost < b.pathCost)
  else decide (a.dist < b.dist)

/-- Selection of the top of the heap among `c :: rest`: the first cell (in insertion order)
that no other cell is strictly before; returns it with the remaining cells in insertion order.
Modelled from the spec: insertion order as the final tie-break. -/
def pickMin : FlexWavefrontGrid → List FlexWavefrontGrid → FlexWavefrontGrid × List FlexWavefrontGrid
  | c, [] => (c, [])
  | c, d :: rest =>
    let r := pickMin d rest
    if r.1.before c then (r.1, c :: r.2) else (c, d :: rest)

/-- The pair `wavefront.top()`, `wavefront.pop()`; `none` when the wavefront is empty.
The wavefront is kept as the list of its cells in insertion order. -/
def wavefrontPop : List FlexWavefrontGrid → Option (FlexWavefrontGrid × List FlexWavefrontGrid)
  | [] => none
  | c :: rest => some (pickMin c rest)

/-! ## The grid graph -/

/-- The grid graph object.  Its accessors are fields; `prevAstarNodeDir` and `wavefront` are the
state mutated by a search. -/
structure FlexGridGraph where
  xDim : Int
  yDim : Int
  zDim : Int
  hasEdge : FlexMazeIdx → frDirEnum → Bool
  hasGridCost : FlexMazeIdx → frDirEnum → Bool
  hasDRCCost : FlexMazeIdx → frDirEnum → Bool
  hasMarkerCost : FlexMazeIdx → frDirEnum → Bool
  hasShapeCost : FlexMazeIdx → frDirEnum → Bool
  isBlocked : FlexMazeIdx → frDirEnum → Bool
  hasGuide : FlexMazeIdx → frDirEnum → Bool
  isSrc : FlexMazeIdx → Bool
  isDst : FlexMazeIdx → Bool
  prevAstarNodeDir : FlexMazeIdx → frDirEnum
  getEdgeLength : FlexMazeIdx → frDirEnum → Int
  /-- Database x coordinate of track `x` (`getPoint`). -/
  xCoord : Int → Int
  /-- Database y coordinate of track `y` (`getPoint`). -/
  yCoord : Int → Int
  getZHeight : Int → Int
  getLayerNum : Int → Int
  getZDir : Int → Bool
  getHalfViaEncArea : Int → Bool → Int
  tech : frTechObject
  drWorker : Option FlexDRWorker
  wavefront : List FlexWavefrontGrid

namespace FlexGridGraph

/-- Reader `getPrevAstarNodeDir`. -/
def getPrevAstarNodeDir (g : FlexGridGraph) (c : FlexMazeIdx) : frDirEnum := g.prevAstarNodeDir c

/-- Writer `setPrevAstarNodeDir`: the only accessor with a side effect. -/
def setPrevAstarNodeDir (g : FlexGridGraph) (c : FlexMazeIdx) (d : frDirEnum) : FlexGridGraph :=
  { g with prevAstarNodeDir := fun c' => if c' = c then d else g.prevAstarNodeDir c' }

/-- Member call `wavefront.push`. -/
def wavefrontPush (g : FlexGridGraph) (w : FlexWavefrontGrid) : FlexGridGraph :=
  { g with wavefront := g.wavefront ++ [w] }

/-- Whether a worker exists and its iteration counter is at least `n`. -/
def drIterAtLeast (g : FlexGridGraph) (n : Int) : Bool :=
  match g.drWorker with
  | some w => decide (n ≤ w.DRIter)
  | none => false

/-- The local `forbiddenPenalty` of `getEstCost` as it stands at the `return`
("avoid propagating to location that will cause fobidden via spacing to boundary pin"). -/
def forbiddenPenalty (G : Globals) (g : FlexGridGraph) (src dstMazeIdx1 dstMazeIdx2 : FlexMazeIdx)
    (dir : frDirEnum) : Int :=
  let next := getNextGrid src dir
  let nextPointX := g.xCoord next.x
  let nextPointY := g.yCoord next.y
  let gridZ := next.z
  if G.DBPROCESSNODE = "GF14_13M_3Mx_2Cx_4Kx_2Hx_2Gx_LB" then
    match g.drWorker with
    | none => 0
    | some worker =>
      if 30 ≤ worker.DRIter ∧ worker.RipupMode = 0 then
        if dstMazeIdx1 = dstMazeIdx2 ∧ gridZ = dstMazeIdx1.z then
          let layerNum := (gridZ + 1) * 2
          let isH := g.tech.layerIsHorz layerNum
          if isH = true then
            let gap : Int := |nextPointY - g.yCoord dstMazeIdx1.y|
            if gap ≠ 0
                ∧ (g.tech.isVia2ViaForbiddenLen gridZ false false false gap false = true
                    ∨ layerNum - 2 < G.BOTTOM_ROUTING_LAYER)
                ∧ (g.tech.isVia2ViaForbiddenLen gridZ true true false gap false = true
                    ∨ layerNum + 2 > g.tech.topLayerNum) then
              (g.tech.layerPitch layerNum : Int) * G.ggDRCCost * 20
            else 0
          else
            let gap : Int := |nextPointX - g.xCoord dstMazeIdx1.x|
            if gap ≠ 0
                ∧ (g.tech.isVia2ViaForbiddenLen gridZ false false true gap false = true
                    ∨ layerNum - 2 < G.BOTTOM_ROUTING_LAYER)
                ∧ (g.tech.isVia2ViaForbiddenLen gridZ true true true gap false = true
                    ∨ layerNum + 2 > g.tech.topLayerNum) then
              (g.tech.layerPitch layerNum : Int) * G.ggDRCCost * 20
            else 0
        else 0
      else 0
  else 0

/-- Source `FlexGridGraph::getEstCost`: the A* heuristic from `src` to the destination box
`dstMazeIdx1 .. dstMazeIdx2`, for a cell entered by a move `dir`.  The sum is formed in
`frCoord` and returned as an `frCost`. -/
def getEstCost (G : Globals) (g : FlexGridGraph) (src dstMazeIdx1 dstMazeIdx2 : FlexMazeIdx)
    (dir : frDirEnum) : Nat :=
  -- bend cost
  let minCostX : Int :=
    max (max (g.xCoord dstMazeIdx1.x - g.xCoord src.x) (g.xCoord src.x - g.xCoord dstMazeIdx2.x)) 0 * 1
  let minCostY : Int :=
    max (max (g.yCoord dstMazeIdx1.y - g.yCoord src.y) (g.yCoord src.y - g.yCoord dstMazeIdx2.y)) 0 * 1
  let minCostZ : Int :=
    max (max (g.getZHeight dstMazeIdx1.z - g.getZHeight src.z)
      (g.getZHeight src.z - g.getZHeight dstMazeIdx2.z)) 0 * 1
  let bendCnt : Int :=
    (if minCostX ≠ 0 ∧ dir ≠ .UNKNOWN ∧ dir ≠ .E ∧ dir ≠ .W then 1 else 0)
    + (if minCostY ≠ 0 ∧ dir ≠ .UNKNOWN ∧ dir ≠ .S ∧ dir ≠ .N then 1 else 0)
    + (if minCostZ ≠ 0 ∧ dir ≠ .UNKNOWN ∧ dir ≠ .U ∧ dir ≠ .D then 1 else 0)
  toCost G (minCostX + minCostY + minCostZ + bendCnt
    + g.forbiddenPenalty G src dstMazeIdx1 dstMazeIdx2 dir)

/-- The local `isForbiddenVia2Via` of `getNextPathCost` as it stands when it is tested, inside
`if (dir == U || dir == D)`.  The five-argument calls of `isVia2ViaForbiddenLen` pass the
default `isOverlap = false`. -/
def isForbiddenVia2Via (g : FlexGridGraph) (currGrid : FlexWavefrontGrid) (dir : frDirEnum) : Bool :=
  let gridZ := currGrid.zIdx
  let currVLengthX := currGrid.vLengthX
  let currVLengthY := currGrid.vLengthY
  let isCurrViaUp : Bool := decide (dir = .U)
  -- check only y
  if currVLengthX = 0 ∧ currVLengthY > 0
      ∧ g.tech.isVia2ViaForbiddenLen gridZ (!currGrid.prevViaUp) (!isCurrViaUp) false
          currVLengthY false = true then true
  -- check only x
  else if currVLengthX > 0 ∧ currVLengthY = 0
      ∧ g.tech.isVia2ViaForbiddenLen gridZ (!currGrid.prevViaUp) (!isCurrViaUp) true
          currVLengthX false = true then true
  -- check both x and y
  else if currVLengthX > 0 ∧ currVLengthY > 0
      ∧ (g.tech.isVia2ViaForbiddenLen gridZ (!currGrid.prevViaUp) (!isCurrViaUp) false
          currVLengthY false = true
        ∧ g.tech.isVia2ViaForbiddenLen gridZ (!currGrid.prevViaUp) (!isCurrViaUp) true
          currVLengthX false = true) then true
  else false

/-- The local `isForbiddenTLen` of `getNextPathCost` as it stands when it is tested, inside
`if (currDir != UNKNOWN && currDir != dir)`.  The local `tLength` still holds its initial
value `numeric_limits<frCoord>::max()` when the via branch tests it. -/
def isForbiddenTLen (g : FlexGridGraph) (currGrid : FlexWavefrontGrid) (dir : frDirEnum) : Bool :=
  let gridZ := currGrid.zIdx
  let currDir := currGrid.getLastDir
  let tLength : Int := frCoordMax
  if dir = .U ∨ dir = .D then
    -- next dir is a via
    let isTLengthViaUp : Bool := decide (dir = .U)
    -- if there was a turn before
    if tLength ≠ frCoordMax then
      if currDir = .W ∨ currDir = .E then
        g.tech.isViaForbiddenTurnLen gridZ (!isTLengthViaUp) true currGrid.tLength
      else if currDir = .S ∨ currDir = .N then
        g.tech.isViaForbiddenTurnLen gridZ (!isTLengthViaUp) false currGrid.tLength
      else false
    else false
  else
    -- curr is a planar turn
    let isTLengthViaUp : Bool := currGrid.prevViaUp
    if currDir = .W ∨ currDir = .E then
      g.tech.isViaForbiddenTurnLen gridZ (!isTLengthViaUp) true currGrid.vLengthX
    else if currDir = .S ∨ currDir = .N then
      g.tech.isViaForbiddenTurnLen gridZ (!isTLengthViaUp) false currGrid.vLengthY
    else false

/-- Source `FlexGridGraph::getNextPathCost`: the path cost of the cell reached from `currGrid`
by a move `dir`.  Every update of the `frCost` accumulator is reduced by `toCost`. -/
def getNextPathCost (G : Globals) (g : FlexGridGraph) (currGrid : FlexWavefrontGrid)
    (dir : frDirEnum) : Nat :=
  let gridIdx := currGrid.idx
  let nextPathCost0 : Nat := currGrid.pathCost
  -- bending cost
  let currDir := currGrid.getLastDir
  let lNum := g.getLayerNum currGrid.zIdx
  let pathWidth := g.tech.layerWidth lNum
  let edgeLength := g.getEdgeLength gridIdx dir
  let nextPathCost1 : Nat :=
    if currDir ≠ dir ∧ currDir ≠ .UNKNOWN then toCost G (nextPathCost0 + 1) else nextPathCost0
  -- via2viaForbiddenLen enablement
  let nextPathCost2 : Nat :=
    if dir = .U ∨ dir = .D then
      if g.isForbiddenVia2Via currGrid dir = true then
        if g.drIterAtLeast 3 = true then toCost G (nextPathCost1 + G.ggMarkerCost * edgeLength)
        else toCost G (nextPathCost1 + G.ggDRCCost * edgeLength)
      else nextPathCost1
    else nextPathCost1
  -- via2turn forbidden len enablement
  let nextPathCost3 : Nat :=
    if currDir ≠ .UNKNOWN ∧ currDir ≠ dir then
      if g.isForbiddenTLen currGrid dir = true then
        if g.drIterAtLeast 3 = true then toCost G (nextPathCost2 + G.ggDRCCost * edgeLength)
        else toCost G (nextPathCost2 + G.ggMarkerCost * edgeLength)
      else nextPathCost2
    else nextPathCost2
  let gridCost := g.hasGridCost gridIdx dir
  let drcCost := g.hasDRCCost gridIdx dir
  let markerCost := g.hasMarkerCost gridIdx dir
  let shapeCost := g.hasShapeCost gridIdx dir
  let blockCost := g.isBlocked gridIdx dir
  let guideCost := g.hasGuide gridIdx dir
  toCost G (nextPathCost3 + (edgeLength
    + (if gridCost = true then G.GRIDCOST * edgeLength else 0)
    + (if drcCost = true then G.ggDRCCost * edgeLength else 0)
    + (if markerCost = true then G.ggMarkerCost * edgeLength else 0)
    + (if shapeCost = true then G.SHAPECOST * edgeLength else 0)
    + (if blockCost = true then (G.BLOCKCOST : Int) * pathWidth * 20 else 0)
    + (if guideCost = false then G.GUIDECOST * edgeLength else 0)))

/-- The loop of `getTailIdx`: `n` times, read the low direction of the buffer
(`buffer - ((buffer >> DIRBITSIZE) << DIRBITSIZE)`), shift the buffer right and step back. -/
def getTailIdxLoop : Nat → FlexMazeIdx → Nat → FlexMazeIdx
  | 0, c, _ => c
  | n + 1, c, buffer =>
    let currDirVal := buffer - (buffer / 2 ^ DIRBITSIZE) * 2 ^ DIRBITSIZE
    let currDir := frDirEnum.ofBits currDirVal
    getTailIdxLoop n (getPrevGrid c currDir) (buffer / 2 ^ DIRBITSIZE)

/-- Source `FlexGridGraph::getTailIdx`: the cell `WAVEFRONTBUFFERSIZE` buffer steps behind
`currIdx`. -/
def getTailIdx (G : Globals) (currIdx : FlexMazeIdx) (currGrid : FlexWavefrontGrid) : FlexMazeIdx :=
  getTailIdxLoop G.WAVEFRONTBUFFERSIZE currIdx currGrid.backTraceBuffer

/-- Source `FlexGridGraph::isExpandable`. -/
def isExpandable (g : FlexGridGraph) (currGrid : FlexWavefrontGrid) (dir : frDirEnum) : Bool :=
  let hg := g.hasEdge currGrid.idx dir
  let r := reverse currGrid.idx dir
  if hg = false ∨ g.isSrc r.1 = true ∨ g.getPrevAstarNodeDir r.1 ≠ .UNKNOWN
      ∨ currGrid.getLastDir = r.2 then false
  else true

/-- The local `nextWavefrontGrid` of `expand` as constructed and adjusted for a via, before
its buffer is shifted: position, costs and history fields of the cell reached from `currGrid`
by a move `dir`.  The sums stored in the `frCoord` fields `layerPathArea`, `vLengthX`,
`vLengthY` and `tLength` are reduced by `toCoord`. -/
def nextWavefrontGrid (G : Globals) (g : FlexGridGraph) (currGrid : FlexWavefrontGrid)
    (dir : frDirEnum) (dstMazeIdx1 dstMazeIdx2 : FlexMazeIdx) (centerPt : Int × Int) :
    FlexWavefrontGrid :=
  let nextIdx := getNextGrid currGrid.idx dir
  -- get cost
  let nextEstCost := g.getEstCost G nextIdx dstMazeIdx1 dstMazeIdx2 dir
  let nextPathCost := g.getNextPathCost G currGrid dir
  let lNum := g.getLayerNum currGrid.zIdx
  let pathWidth := g.tech.layerWidth lNum
  let currDist : Int := |g.xCoord nextIdx.x - centerPt.1| + |g.yCoord nextIdx.y - centerPt.2|
  let edgeLength := g.getEdgeLength currGrid.idx dir
  -- vlength calculation
  let currVLengthX := currGrid.vLengthX
  let currVLengthY := currGrid.vLengthY
  let nextVLengthX : Int :=
    if dir = .U ∨ dir = .D then 0
    else if currVLengthX ≠ frCoordMax ∧ currVLengthY ≠ frCoordMax then
      if dir = .W ∨ dir = .E then toCoord (currVLengthX + edgeLength) else currVLengthX
    else currVLengthX
  let nextVLengthY : Int :=
    if dir = .U ∨ dir = .D then 0
    else if currVLengthX ≠ frCoordMax ∧ currVLengthY ≠ frCoordMax then
      if dir = .W ∨ dir = .E then currVLengthY else toCoord (currVLengthY + edgeLength)
    else currVLengthY
  let nextIsPrevViaUp : Bool :=
    if dir = .U ∨ dir = .D then decide (dir = .D) else currGrid.prevViaUp
  -- tlength calculation
  let currTLength := currGrid.tLength
  -- if there was a turn, then add tlength
  let nextTLength0 : Int :=
    if currTLength ≠ frCoordMax then toCoord (currTLength + edgeLength) else currTLength
  -- if current is a turn, then reset tlength
  let nextTLength1 : Int :=
    if currGrid.getLastDir ≠ .UNKNOWN ∧ currGrid.getLastDir ≠ dir then edgeLength else nextTLength0
  -- if current is a via, then reset tlength
  let nextTLength : Int :=
    if dir = .U ∨ dir = .D then frCoordMax else nextTLength1
  let nextWavefrontGrid0 : FlexWavefrontGrid :=
    { xIdx := nextIdx.x, yIdx := nextIdx.y, zIdx := nextIdx.z,
      layerPathArea := toCoord (currGrid.layerPathArea + edgeLength * pathWidth),
      vLengthX := nextVLengthX, vLengthY := nextVLengthY, prevViaUp := nextIsPrevViaUp,
      tLength := nextTLength, dist := currDist,
      pathCost := nextPathCost, cost := toCost G (nextPathCost + nextEstCost),
      backTraceBuffer := currGrid.backTraceBuffer }
  if dir = .U ∨ dir = .D then
    ((nextWavefrontGrid0.resetLayerPathArea.resetLength).setPrevViaUp
        (if dir = .U then false else true)).addLayerPathArea
      (if dir = .U then g.getHalfViaEncArea currGrid.zIdx false
       else g.getHalfViaEncArea nextIdx.z true)
  else nextWavefrontGrid0

/-- Source `FlexGridGraph::expand`: build the wavefront cell reached from `currGrid` by a move
`dir` (`nextWavefrontGrid`), shift `dir` into its buffer, commit the direction shifted out when
the dedup rule allows it, and push the cell. -/
def expand (G : Globals) (g : FlexGridGraph) (currGrid : FlexWavefrontGrid) (dir : frDirEnum)
    (dstMazeIdx1 dstMazeIdx2 : FlexMazeIdx) (centerPt : Int × Int) : FlexGridGraph :=
  let nextIdx := getNextGrid currGrid.idx dir
  -- update wavefront buffer
  let shifted :=
    (g.nextWavefrontGrid G currGrid dir dstMazeIdx1 dstMazeIdx2 centerPt).shiftAddBuffer G dir
  let tailDir := shifted.1
  let nextGrid := shifted.2
  -- commit grid prev direction if needed
  let tailIdx := getTailIdx G nextIdx nextGrid
  if tailDir ≠ .UNKNOWN then
    if g.getPrevAstarNodeDir tailIdx = .UNKNOWN ∨ g.getPrevAstarNodeDir tailIdx = tailDir then
      (g.setPrevAstarNodeDir tailIdx tailDir).wavefrontPush nextGrid
    else g
  else
    -- add to wavefront
    g.wavefrontPush nextGrid

/-- One guarded expansion of `expandWavefront`: `if (isExpandable(..)) expand(..)`. -/
def expandIf (G : Globals) (dstMazeIdx1 dstMazeIdx2 : FlexMazeIdx) (centerPt : Int × Int)
    (currGrid : FlexWavefrontGrid) (g : FlexGridGraph) (dir : frDirEnum) : FlexGridGraph :=
  if g.isExpandable currGrid dir = true then g.expand G currGrid dir dstMazeIdx1 dstMazeIdx2 centerPt
  else g

/-- Order in which `expandWavefront` tries the six directions. -/
def expandOrder : List frDirEnum := [.N, .E, .S, .W, .U, .D]

/-- Source `FlexGridGraph::expandWavefront`: the six guarded expansions, in the order
N, E, S, W, U, D.  (The call of `comp_exp_funcs_simd` only fills scratch registers and prints
timings; it does not touch the grid or the wavefront.) -/
def expandWavefront (G : Globals) (g : FlexGridGraph) (currGrid : FlexWavefrontGrid)
    (dstMazeIdx1 dstMazeIdx2 : FlexMazeIdx) (centerPt : Int × Int) : FlexGridGraph :=
  expandOrder.foldl (expandIf G dstMazeIdx1 dstMazeIdx2 centerPt currGrid) g

/-! ## Back-trace -/

/-- Local variables of `traceBackPath` while it walks back: the current cell, the previous
direction, the output vectors `path` and `root`, and the number of warnings printed. -/
structure TraceState where
  curr : FlexMazeIdx
  prevDir : frDirEnum
  path : List FlexMazeIdx
  root : List FlexMazeIdx
  warnings : Nat

/-- First loop of `traceBackPath` ("pop content in buffer"): at most `n` iterations over the
back-trace buffer. -/
def traceBuffer (g : FlexGridGraph) : Nat → Nat → TraceState → TraceState
  | 0, _, t => t
  | n + 1, buffer, t =>
    -- current grid is src
    if g.isSrc t.curr = true then t
    else
      -- get last direction
      let currDir := fr.getLastDir buffer
      let buffer1 := buffer / 2 ^ DIRBITSIZE
      if currDir = .UNKNOWN then { t with warnings := t.warnings + 1 }
      else
        let root1 := t.root ++ [t.curr]
        -- push point to path
        let path1 := if currDir ≠ t.prevDir then t.path ++ [t.curr] else t.path
        traceBuffer g n buffer1
          { curr := getPrevGrid t.curr currDir, prevDir := currDir, path := path1, root := root1,
            warnings := t.warnings }

/-- Second loop of `traceBackPath` ("trace back according to grid prev dir"), a `while` loop:
`none` when the fuel runs out before the loop exits. -/
def traceGrid (g : FlexGridGraph) : Nat → TraceState → Option TraceState
  | 0, _ => none
  | fuel + 1, t =>
    if g.isSrc t.curr = false then
      -- get last direction
      let currDir := g.getPrevAstarNodeDir t.curr
      let root1 := t.root ++ [t.curr]
      if currDir = .UNKNOWN then some { t with root := root1, warnings := t.warnings + 1 }
      else
        let path1 := if currDir ≠ t.prevDir then t.path ++ [t.curr] else t.path
        traceGrid g fuel
          { curr := getPrevGrid t.curr currDir, prevDir := currDir, path := path1, root := root1,
            warnings := t.warnings }
    else some t

/-- Elementwise minimum of two maze indices. -/
def mazeIdxMin (a b : FlexMazeIdx) : FlexMazeIdx := ⟨min a.x b.x, min a.y b.y, min a.z b.z⟩

/-- Elementwise maximum of two maze indices. -/
def mazeIdxMax (a b : FlexMazeIdx) : FlexMazeIdx := ⟨max a.x b.x, max a.y b.y, max a.z b.z⟩

/-- Outputs of `traceBackPath`. -/
structure TraceResult where
  path : List FlexMazeIdx
  root : List FlexMazeIdx
  ccMazeIdx1 : FlexMazeIdx
  ccMazeIdx2 : FlexMazeIdx
  warnings : Nat

/-- Source `FlexGridGraph::traceBackPath`: walk back from `currGrid` through its buffer and
then through the committed directions, appending to `path` and `root`, close the path with
the cell where the walk stopped and widen `ccMazeIdx1`, `ccMazeIdx2` over `path`. -/
def traceBackPath (G : Globals) (g : FlexGridGraph) (fuel : Nat) (currGrid : FlexWavefrontGrid)
    (path root : List FlexMazeIdx) (ccMazeIdx1 ccMazeIdx2 : FlexMazeIdx) : Option TraceResult :=
  let t0 : TraceState :=
    { curr := currGrid.idx, prevDir := .UNKNOWN, path := path, root := root, warnings := 0 }
  let t1 := traceBuffer g G.WAVEFRONTBUFFERSIZE currGrid.backTraceBuffer t0
  match traceGrid g fuel t1 with
  | none => none
  | some t2 =>
    -- add final path to src, only add when path exists; no path exists (src = dst)
    let path3 := if t2.path ≠ [] then t2.path ++ [t2.curr] else t2.path
    some
      { path := path3, root := t2.root,
        ccMazeIdx1 := path3.foldl mazeIdxMin ccMazeIdx1,
        ccMazeIdx2 := path3.foldl mazeIdxMax ccMazeIdx2,
        warnings := t2.warnings }

/-! ## Search -/

/-- The wavefront cell with which `search` seeds a connected-component cell `idx`. -/
def seedGrid (G : Globals) (g : FlexGridGraph) (dstMazeIdx1 dstMazeIdx2 : FlexMazeIdx)
    (centerPt : Int × Int) (idx : FlexMazeIdx) : FlexWavefrontGrid :=
  -- get min area min length
  let lNum := g.getLayerNum idx.z
  let fakeArea : Int :=
    match g.tech.layerMinArea lNum with
    | some a => a
    | none => 0
  let currDist : Int := |g.xCoord idx.x - centerPt.1| + |g.yCoord idx.y - centerPt.2|
  { xIdx := idx.x, yIdx := idx.y, zIdx := idx.z, layerPathArea := fakeArea,
    vLengthX := frCoordMax, vLengthY := frCoordMax, prevViaUp := true, tLength := frCoordMax,
    dist := currDist, pathCost := 0,
    cost := g.getEstCost G idx dstMazeIdx1 dstMazeIdx2 .UNKNOWN, backTraceBuffer := 0 }

/-- The loop "init wavefront" of `search` over `connComps`: the first cell that is a destination
stops the loop (the source returns `true` there); every earlier cell is pushed as a seed. -/
def searchInit (G : Globals) (dstMazeIdx1 dstMazeIdx2 : FlexMazeIdx) (centerPt : Int × Int) :
    List FlexMazeIdx → FlexGridGraph → Option FlexMazeIdx × FlexGridGraph
  | [], g => (none, g)
  | idx :: rest, g =>
    if g.isDst idx = true then (some idx, g)
    else
      searchInit G dstMazeIdx1 dstMazeIdx2 centerPt rest
        (g.wavefrontPush (g.seedGrid G dstMazeIdx1 dstMazeIdx2 centerPt idx))

/-- How the main loop of `search` ended, with the grid at that moment and the number of
iterations that passed the stale test (the iterations the source counts in `stepCnt` when its
output is enabled). -/
structure LoopResult where
  /-- The destination cell popped, or `none` when the wavefront emptied. -/
  reached : Option FlexWavefrontGrid
  grid : FlexGridGraph
  visited : Nat

/-- One evaluation of the loop test and body of `while (!wavefront.empty())` in `search`:
either the loop exits (wavefront empty, or a destination popped, where the source calls
`traceBackPath` and returns), or it goes on with a new grid state and visit count. -/
def searchIter (G : Globals) (dstMazeIdx1 dstMazeIdx2 : FlexMazeIdx) (centerPt : Int × Int)
    (g : FlexGridGraph) (visited : Nat) : LoopResult ⊕ (FlexGridGraph × Nat) :=
  match wavefrontPop g.wavefront with
  | none => .inl { reached := none, grid := g, visited := visited }
  | some (currGrid, rest) =>
    let g1 : FlexGridGraph := { g with wavefront := rest }
    if g1.getPrevAstarNodeDir currGrid.idx ≠ .UNKNOWN then .inr (g1, visited)
    else if g1.isDst currGrid.idx = true then
      .inl { reached := some currGrid, grid := g1, visited := visited + 1 }
    else
      -- expand and update wavefront
      .inr (g1.expandWavefront G currGrid dstMazeIdx1 dstMazeIdx2 centerPt, visited + 1)

/-- The main loop `while (!wavefront.empty())` of `search`; `none` when the fuel runs out
before the loop exits. -/
def searchLoop (G : Globals) (dstMazeIdx1 dstMazeIdx2 : FlexMazeIdx) (centerPt : Int × Int) :
    Nat → FlexGridGraph → Nat → Option LoopResult
  | 0, _, _ => none
  | fuel + 1, g, visited =>
    match searchIter G dstMazeIdx1 dstMazeIdx2 centerPt g visited with
    | .inl r => some r
    | .inr (g1, visited1) => searchLoop G dstMazeIdx1 dstMazeIdx2 centerPt fuel g1 visited1

/-- Grid state and visit count after `n` iterations of the main loop of `search` started in
`g` (unchanged once the loop has exited). -/
def loopState (G : Globals) (dstMazeIdx1 dstMazeIdx2 : FlexMazeIdx) (centerPt : Int × Int) :
    Nat → FlexGridGraph → Nat → FlexGridGraph × Nat
  | 0, g, visited => (g, visited)
  | n + 1, g, visited =>
    match searchIter G dstMazeIdx1 dstMazeIdx2 centerPt g visited with
    | .inl r => (r.grid, r.visited)
    | .inr (g1, visited1) => loopState G dstMazeIdx1 dstMazeIdx2 centerPt n g1 visited1

/-- Everything `search` returns or leaves behind: the boolean result, the vectors `path` and
`connComps` (which `traceBackPath` extends as its `root`), the box `ccMazeIdx1`, `ccMazeIdx2`,
the grid object with its wavefront, the number of visited cells and of warnings printed. -/
structure SearchResult where
  found : Bool
  path : List FlexMazeIdx
  connComps : List FlexMazeIdx
  ccMazeIdx1 : FlexMazeIdx
  ccMazeIdx2 : FlexMazeIdx
  grid : FlexGridGraph
  visited : Nat
  warnings : Nat

/-- Lower corner of the destination box computed by `search` from the access patterns. -/
def dstBoxLo (g : FlexGridGraph) (nextPin : List FlexMazeIdx) : FlexMazeIdx :=
  nextPin.foldl mazeIdxMin ⟨g.xDim - 1, g.yDim - 1, g.zDim - 1⟩

/-- Upper corner of the destination box computed by `search` from the access patterns. -/
def dstBoxHi (nextPin : List FlexMazeIdx) : FlexMazeIdx :=
  nextPin.foldl mazeIdxMax ⟨0, 0, 0⟩

/-- Source `FlexGridGraph::search`.  `nextPin` lists the maze indices of the access patterns of
the next pin; `fuel` bounds the iterations of each `while` loop, and the result is `none` when
a loop does not exit within it. -/
def search (G : Globals) (g : FlexGridGraph) (fuel : Nat) (connComps : List FlexMazeIdx)
    (nextPin : List FlexMazeIdx) (path : List FlexMazeIdx) (ccMazeIdx1 ccMazeIdx2 : FlexMazeIdx)
    (centerPt : Int × Int) : Option SearchResult :=
  -- prep nextPinBox
  let dstMazeIdx1 := g.dstBoxLo nextPin
  let dstMazeIdx2 := dstBoxHi nextPin
  let g0 : FlexGridGraph := { g with wavefront := [] }
  -- init wavefront
  match searchInit G dstMazeIdx1 dstMazeIdx2 centerPt connComps g0 with
  | (some idx, g1) =>
    some { found := true, path := path ++ [idx], connComps := connComps,
           ccMazeIdx1 := ccMazeIdx1, ccMazeIdx2 := ccMazeIdx2, grid := g1,
           visited := 0, warnings := 0 }
  | (none, g1) =>
    match searchLoop G dstMazeIdx1 dstMazeIdx2 centerPt fuel g1 0 with
    | none => none
    | some r =>
      match r.reached with
      | none =>
        some { found := false, path := path, connComps := connComps,
               ccMazeIdx1 := ccMazeIdx1, ccMazeIdx2 := ccMazeIdx2, grid := r.grid,
               visited := r.visited, warnings := 0 }
      | some currGrid =>
        match traceBackPath G r.grid fuel currGrid path connComps ccMazeIdx1 ccMazeIdx2 with
        | none => none
        | some t =>
          some { found := true, path := t.path, connComps := t.root,
                 ccMazeIdx1 := t.ccMazeIdx1, ccMazeIdx2 := t.ccMazeIdx2, grid := r.grid,
                 visited := r.visited, warnings := t.warnings }

end FlexGridGraph

/-! ## Quantities named by the specification -/

/-- Whether the cell `c` lies in the box of maze indices `lo .. hi`. -/
def inBox (lo hi c : FlexMazeIdx) : Prop :=
  lo.x ≤ c.x ∧ c.x ≤ hi.x ∧ lo.y ≤ c.y ∧ c.y ≤ hi.y ∧ lo.z ≤ c.z ∧ c.z ≤ hi.z

instance instDecidableInBox (lo hi c : FlexMazeIdx) : Decidable (inBox lo hi c) := by
  unfold inBox
  exact inferInstance

/-! ## Reading a back-trace buffer as a list of directions -/

/-- The `n` low-order directions of a buffer, most recent first. -/
def bufDirs : Nat → Nat → List frDirEnum
  | 0, _ => []
  | n + 1, buffer => frDirEnum.ofBits (buffer % 8) :: bufDirs n (buffer / 8)

/-- The directions held by the buffer of a wavefront cell, most recent first; an empty slot
reads `UNKNOWN`. -/
def FlexWavefrontGrid.dirs (G : Globals) (w : FlexWavefrontGrid) : List frDirEnum :=
  bufDirs G.WAVEFRONTBUFFERSIZE w.backTraceBuffer

/-- The direction that `shiftAddBuffer` shifts out of the buffer of `w`. -/
def FlexWavefrontGrid.tailDir (G : Globals) (w : FlexWavefrontGrid) : frDirEnum :=
  frDirEnum.ofBits (w.backTraceBuffer / 2 ^ (G.WAVEFRONTBITSIZE - DIRBITSIZE))

/-- The cell `WAVEFRONTBUFFERSIZE - 1` buffer steps behind `w`: the tail of the cells that
`expand` pushes from `w`. -/
def FlexWavefrontGrid.tailIdx (G : Globals) (w : FlexWavefrontGrid) : FlexMazeIdx :=
  (bufDirs (G.WAVEFRONTBUFFERSIZE - 1) w.backTraceBuffer).foldl getPrevGrid w.idx

/-- The wavefront cell that `expand` pushes for a move `dir` from `currGrid`: the local
`nextWavefrontGrid` after `shiftAddBuffer(dir)`. -/
def FlexGridGraph.childGrid (G : Globals) (g : FlexGridGraph) (currGrid : FlexWavefrontGrid)
    (dir : frDirEnum) (dstMazeIdx1 dstMazeIdx2 : FlexMazeIdx) (centerPt : Int × Int) :
    FlexWavefrontGrid :=
  ((g.nextWavefrontGrid G currGrid dir dstMazeIdx1 dstMazeIdx2 centerPt).shiftAddBuffer G dir).2

/-- The grid object `g` with its mutable state replaced: committed directions `p` and
wavefront `q`. -/
def FlexGridGraph.withState (g : FlexGridGraph) (p : FlexMazeIdx → frDirEnum)
    (q : List FlexWavefrontGrid) : FlexGridGraph :=
  { g with prevAstarNodeDir := p, wavefront := q }

/-! ## Finite grid and termination measure -/

/-- Write-once relation between an earlier grid state `g` and a later one `g1`: every cell
keeps its committed direction unless that direction was `UNKNOWN`. -/
def PrevKept (g g1 : FlexGridGraph) : Prop :=
  ∀ c, g1.getPrevAstarNodeDir c = g.getPrevAstarNodeDir c ∨ g.getPrevAstarNodeDir c = .UNKNOWN

/-- Whether a maze index lies in the box `0 ≤ x < X`, `0 ≤ y < Y`, `0 ≤ z < Z`. -/
def inDims (X Y Z : Int) (c : FlexMazeIdx) : Bool :=
  decide (0 ≤ c.x ∧ c.x < X ∧ 0 ≤ c.y ∧ c.y < Y ∧ 0 ≤ c.z ∧ c.z < Z)

/-- Every existing edge leads to a cell of the grid `xDim * yDim * zDim`. -/
def FlexGridGraph.EdgesInGrid (g : FlexGridGraph) : Prop :=
  ∀ c d, g.hasEdge c d = true → inDims g.xDim g.yDim g.zDim (getNextGrid c d) = true

/-- The cells of the grid, as a finite set. -/
def FlexGridGraph.validCells (g : FlexGridGraph) : Finset FlexMazeIdx :=
  ((Finset.Ico 0 g.xDim ×ˢ Finset.Ico 0 g.yDim) ×ˢ Finset.Ico 0 g.zDim).image
    (fun p => ⟨p.1.1, p.1.2, p.2⟩)

/-- Number of grid cells whose committed direction is still `UNKNOWN`. -/
def FlexGridGraph.unknownCount (g : FlexGridGraph) : Nat :=
  (g.validCells.filter (fun c => g.prevAstarNodeDir c = .UNKNOWN)).card

/-- Number of most recent moves of a trail (cell `c`, directions most recent first) that
entered a cell whose committed direction is still `UNKNOWN`. -/
def FlexGridGraph.trailUnknown (g : FlexGridGraph) : FlexMazeIdx → List frDirEnum → Nat
  | _, [] => 0
  | c, d :: ds =>
    if d ≠ .UNKNOWN ∧ g.prevAstarNodeDir c = .UNKNOWN then g.trailUnknown (getPrevGrid c d) ds + 1
    else 0

/-- Every cell of a trail that was entered by a move is a cell of the grid. -/
def FlexGridGraph.trailValid (g : FlexGridGraph) : FlexMazeIdx → List frDirEnum → Prop
  | _, [] => True
  | c, d :: ds =>
    (d ≠ .UNKNOWN → inDims g.xDim g.yDim g.zDim c = true) ∧ g.trailValid (getPrevGrid c d) ds

/-- Weight of a wavefront cell in the termination measure. -/
def FlexGridGraph.weight (G : Globals) (g : FlexGridGraph) (w : FlexWavefrontGrid) : Nat :=
  7 ^ (G.WAVEFRONTBUFFERSIZE - g.trailUnknown w.idx (w.dirs G))

/-- Total weight of the wavefront. -/
def FlexGridGraph.totalWeight (G : Globals) (g : FlexGridGraph) : Nat :=
  (g.wavefront.map (g.weight G)).sum

/-- Well-formedness of the wavefront: every buffer fits its `WAVEFRONTBUFFERSIZE` slots and
every cell entered by a buffered move is a cell of the grid. -/
def FlexGridGraph.QueueOK (G : Globals) (g : FlexGridGraph) : Prop :=
  ∀ w ∈ g.wavefront, w.backTraceBuffer < 8 ^ G.WAVEFRONTBUFFERSIZE ∧ g.trailValid w.idx (w.dirs G)

/-- Progress of the guarded expansions of a popped cell `w`, from the grid `g0` right after the
pop to the grid `g1` after `n` of them: only the committed directions and the wavefront have
changed, write-once; and either a grid cell has been committed, or nothing has been committed
and at most `n` cells were pushed, each of at most a seventh of the weight of `w`. -/
def FlexGridGraph.FoldInv (G : Globals) (g0 : FlexGridGraph) (w : FlexWavefrontGrid) (n : Nat)
    (g1 : FlexGridGraph) : Prop :=
  (∃ p q, g1 = g0.withState p q) ∧ PrevKept g0 g1 ∧ g1.QueueOK G
  ∧ (g1.unknownCount < g0.unknownCount
    ∨ (g1.prevAstarNodeDir = g0.prevAstarNodeDir
      ∧ ∃ kids, g1.wavefront = g0.wavefront ++ kids ∧ kids.length ≤ n
        ∧ ∀ k ∈ kids, g0.weight G k * 7 ≤ g0.weight G w))

/-- Cells connected to a cell of `seeds` by a chain of existing edges (`hasEdge` is the edge
lookup of the grid). -/
inductive Connected (hasEdge : FlexMazeIdx → frDirEnum → Bool) (seeds : List FlexMazeIdx) :
    FlexMazeIdx → Prop where
  | seed (c : FlexMazeIdx) (h : c ∈ seeds) : Connected hasEdge seeds c
  | step (c : FlexMazeIdx) (d : frDirEnum) (hc : Connected hasEdge seeds c)
      (he : hasEdge c d = true) : Connected hasEdge seeds (getNextGrid c d)

/-! ## Trails: the path a wavefront cell has taken from its seed -/

/-- The `n` directions a buffer of `n` slots holds for a trail `ds` (most recent first): the
first `n` directions of `ds`, padded with `UNKNOWN`. -/
def padDirs : Nat → List frDirEnum → List frDirEnum
  | 0, _ => []
  | n + 1, [] => .UNKNOWN :: padDirs n []
  | n + 1, d :: ds => d :: padDirs n ds

/-- The cell entered `k` moves before the end of a trail (cell `c`, directions most recent
first), with the direction of the move that entered it. -/
def trailAt : Nat → FlexMazeIdx → List frDirEnum → Option (FlexMazeIdx × frDirEnum)
  | _, _, [] => none
  | 0, c, d :: _ => some (c, d)
  | k + 1, c, d :: ds => trailAt k (getPrevGrid c d) ds

/-- A trail that ends in cell `c` after the moves `ds` (most recent first): it starts in a
source cell, every move follows an existing edge into a cell that is not a source and does not
reverse the move before it, and every cell entered `k` or more moves before the end holds the
direction of the move that entered it as its committed direction. -/
def FlexGridGraph.GoodTrail (g : FlexGridGraph) : Nat → FlexMazeIdx → List frDirEnum → Prop
  | _, c, [] => g.isSrc c = true
  | k, c, d :: ds =>
    d ≠ .UNKNOWN ∧ g.isSrc c = false ∧ g.hasEdge (getPrevGrid c d) d = true
      ∧ ds.head? ≠ some d.opposite ∧ (k = 0 → g.prevAstarNodeDir c = d)
      ∧ g.GoodTrail (k - 1) (getPrevGrid c d) ds

/-- Every wavefront cell carries the last directions of a good trail. -/
def FlexGridGraph.QueueGood (G : Globals) (g : FlexGridGraph) : Prop :=
  ∀ w ∈ g.wavefront, w.backTraceBuffer < 8 ^ G.WAVEFRONTBUFFERSIZE
    ∧ ∃ ds, w.dirs G = padDirs G.WAVEFRONTBUFFERSIZE ds
      ∧ g.GoodTrail G.WAVEFRONTBUFFERSIZE w.idx ds

/-! ## Reachability and the record of expanded trails -/

/-- Cells that can be reached from a cell of `seeds` by a chain of existing edges that enters
only cells that are not sources. -/
inductive FlexGridGraph.Reachable (g : FlexGridGraph) (seeds : List FlexMazeIdx) :
    FlexMazeIdx → Prop where
  | seed (c : FlexMazeIdx) (h : c ∈ seeds) : FlexGridGraph.Reachable g seeds c
  | step (c : FlexMazeIdx) (d : frDirEnum) (hc : FlexGridGraph.Reachable g seeds c)
      (he : g.hasEdge c d = true) (hs : g.isSrc (getNextGrid c d) = false) :
      FlexGridGraph.Reachable g seeds (getNextGrid c d)

/-- The trail `(c, ds)` cannot be extended: the cell that a further move would commit holds
another committed direction. -/
def FlexGridGraph.Conflict (G : Globals) (g : FlexGridGraph) (c : FlexMazeIdx)
    (ds : List frDirEnum) : Prop :=
  ∃ t x, trailAt (G.WAVEFRONTBUFFERSIZE - 1) c ds = some (t, x)
    ∧ g.prevAstarNodeDir t ≠ .UNKNOWN ∧ g.prevAstarNodeDir t ≠ x

/-- The wavefront holds a cell at `c` whose buffer shows the trail `ds`. -/
def FlexGridGraph.InQueue (G : Globals) (g : FlexGridGraph) (c : FlexMazeIdx)
    (ds : List frDirEnum) : Prop :=
  ∃ w ∈ g.wavefront, w.idx = c ∧ w.backTraceBuffer < 8 ^ G.WAVEFRONTBUFFERSIZE
    ∧ w.dirs G = padDirs G.WAVEFRONTBUFFERSIZE ds

/-- Invariant of a search with respect to a record `Exp` of the trails whose wavefront cell has
been expanded, and a record `Done` of the moves that have been tried from them. -/
structure FlexGridGraph.ExpInv (G : Globals) (g : FlexGridGraph) (seeds : List FlexMazeIdx)
    (Exp : FlexMazeIdx → List frDirEnum → Prop)
    (Done : FlexMazeIdx → List frDirEnum → frDirEnum → Prop) : Prop where
  /-- Expanded trails are good trails to cells that are not destinations. -/
  exp_good : ∀ c ds, Exp c ds → g.GoodTrail G.WAVEFRONTBUFFERSIZE c ds ∧ g.isDst c = false
  /-- The trail that an expanded trail extends was expanded. -/
  exp_parent : ∀ c d ds, Exp c (d :: ds) → Exp (getPrevGrid c d) ds
  /-- Every move tried from an expanded trail that `isExpandable` does not exclude for the edge,
  the source flag or the reversal found the next cell committed, or the trail in conflict, or
  it pushed the extended trail, which is on the wavefront or has been expanded. -/
  exp_step : ∀ c ds d, Exp c ds → Done c ds d → d ≠ .UNKNOWN → g.hasEdge c d = true →
    g.isSrc (getNextGrid c d) = false → ds.head? ≠ some d.opposite →
    g.prevAstarNodeDir (getNextGrid c d) ≠ .UNKNOWN ∨ g.Conflict G c ds
      ∨ (g.GoodTrail (G.WAVEFRONTBUFFERSIZE - 1) c ds
        ∧ (Exp (getNextGrid c d) (d :: ds) ∨ g.InQueue G (getNextGrid c d) (d :: ds)))
  /-- Every seed is on the wavefront or has been expanded. -/
  seeds_in : ∀ s ∈ seeds, Exp s [] ∨ g.InQueue G s []
  /-- Every committed cell ends an expanded trail whose cells are all committed. -/
  committed : ∀ c, g.prevAstarNodeDir c ≠ .UNKNOWN →
    ∃ d ds, Exp c (d :: ds) ∧ g.GoodTrail 0 c (d :: ds)
  /-- Every wavefront cell shows a good trail that extends an expanded trail. -/
  queue : ∀ w ∈ g.wavefront, w.backTraceBuffer < 8 ^ G.WAVEFRONTBUFFERSIZE
    ∧ ∃ ds, w.dirs G = padDirs G.WAVEFRONTBUFFERSIZE ds
      ∧ g.GoodTrail G.WAVEFRONTBUFFERSIZE w.idx ds
      ∧ ∀ d r, ds = d :: r → Exp (getPrevGrid w.idx d) r

/-! ## Sample grids -/

/-- Modelled from the spec: the `hasEdge` lookup over stored bits for the directions E, N, U.
The other three directions are read from the neighbour's opposite edge; an edge exists only
between two cells of the grid. -/
def hasEdgeOfBits (X Y Z : Int) (bits : FlexMazeIdx → frDirEnum → Bool)
    (c : FlexMazeIdx) (d : frDirEnum) : Bool :=
  match d with
  | .E => inDims X Y Z c && inDims X Y Z (getNextGrid c .E) && bits c .E
  | .N => inDims X Y Z c && inDims X Y Z (getNextGrid c .N) && bits c .N
  | .U => inDims X Y Z c && inDims X Y Z (getNextGrid c .U) && bits c .U
  | .W => inDims X Y Z c && inDims X Y Z (getNextGrid c .W) && bits (getNextGrid c .W) .E
  | .S => inDims X Y Z c && inDims X Y Z (getNextGrid c .S) && bits (getNextGrid c .S) .N
  | .D => inDims X Y Z c && inDims X Y Z (getNextGrid c .D) && bits (getNextGrid c .D) .U
  | .UNKNOWN => false

/-- A technology without forbidden lengths: width 100, pitch 200, no minimum area. -/
def sampleTech : frTechObject :=
  { isVia2ViaForbiddenLen := fun _ _ _ _ _ _ => false,
    isViaForbiddenTurnLen := fun _ _ _ _ => false,
    layerWidth := fun _ => 100, layerPitch := fun _ => 200, layerIsHorz := fun _ => true,
    layerMinArea := fun _ => none, topLayerNum := 2 }

/-- Constants of the end-to-end scenarios: every cost constant 0, buffer size `B`, 32-bit
costs, a process node other than the gated one. -/
def sampleGlobals (B : Nat) : Globals :=
  { GRIDCOST := 0, SHAPECOST := 0, BLOCKCOST := 0, GUIDECOST := 0, ggDRCCost := 0,
    ggMarkerCost := 0, BOTTOM_ROUTING_LAYER := 2, DBPROCESSNODE := "N45",
    WAVEFRONTBUFFERSIZE := B, costBits := 32 }

/-- A grid of `X * Y * Z` cells with uniform edge length `len`, tracks at multiples of `len`,
the edges given by `bits`, sources `src`, destinations `dst`, no cost flags, every edge inside
the guide and every committed direction `UNKNOWN`. -/
def sampleGrid (X Y Z : Int) (bits : FlexMazeIdx → frDirEnum → Bool) (src dst : List FlexMazeIdx)
    (len : Int) : FlexGridGraph :=
  { xDim := X, yDim := Y, zDim := Z,
    hasEdge := hasEdgeOfBits X Y Z bits,
    hasGridCost := fun _ _ => false, hasDRCCost := fun _ _ => false,
    hasMarkerCost := fun _ _ => false, hasShapeCost := fun _ _ => false,
    isBlocked := fun _ _ => false, hasGuide := fun _ _ => true,
    isSrc := fun c => decide (c ∈ src), isDst := fun c => decide (c ∈ dst),
    prevAstarNodeDir := fun _ => .UNKNOWN,
    getEdgeLength := fun _ _ => len,
    xCoord := fun x => len * x, yCoord := fun y => len * y, getZHeight := fun z => len * z,
    getLayerNum := fun z => (z + 1) * 2, getZDir := fun _ => true,
    getHalfViaEncArea := fun _ _ => 0,
    tech := sampleTech, drWorker := none, wavefront := [] }

/-- The row of five cells of the first end-to-end scenario: source `(0,0,0)`, destination
`(4,0,0)`, full edge connectivity, edge length 100. -/
def rowGrid : FlexGridGraph :=
  sampleGrid 5 1 1 (fun _ _ => true) [⟨0, 0, 0⟩] [⟨4, 0, 0⟩] 100

/-- A wavefront cell at `(1,0,0)` with path cost 100 whose last move was `N`. -/
def sampleCell : FlexWavefrontGrid :=
  { xIdx := 1, yIdx := 0, zIdx := 0, layerPathArea := 0, vLengthX := frCoordMax,
    vLengthY := frCoordMax, prevViaUp := true, tLength := frCoordMax, dist := 100,
    pathCost := 100, cost := 400, backTraceBuffer := 5 }

/-- The row of five cells with the edge between `(2,0,0)` and `(3,0,0)` removed. -/
def brokenRowGrid : FlexGridGraph :=
  sampleGrid 5 1 1 (fun c d => !(decide (c = ⟨2, 0, 0⟩) && decide (d = .E))) [⟨0, 0, 0⟩]
    [⟨4, 0, 0⟩] 100

/-- A grid of 3 x 2 x 1 cells, fully connected except for the edge between `(1,1,0)` and
`(2,1,0)`: source `(0,1,0)`, destination `(2,1,0)`, edge length 100. -/
def detourGrid : FlexGridGraph :=
  sampleGrid 3 2 1 (fun c d => !(decide (c = ⟨1, 1, 0⟩) && decide (d = .E))) [⟨0, 1, 0⟩]
    [⟨2, 1, 0⟩] 100

/-- A grid of 3 x 2 x 1 cells with the edges `(0,0,0)-(1,0,0)`, `(1,0,0)-(2,0,0)`,
`(0,0,0)-(0,1,0)`, `(2,0,0)-(2,1,0)` and `(0,1,0)-(1,1,0)`, no source cell, destination
`(1,1,0)`, edge length 100. -/
def cycleGrid : FlexGridGraph :=
  sampleGrid 3 2 1
    (fun c d => decide ((c, d) ∈ [((⟨0, 0, 0⟩ : FlexMazeIdx), frDirEnum.E), (⟨1, 0, 0⟩, .E),
      (⟨0, 0, 0⟩, .N), (⟨2, 0, 0⟩, .N), (⟨0, 1, 0⟩, .E)]))
    [] [⟨1, 1, 0⟩] 100

/-- A grid of 3 x 2 x 1 cells with the edges `(1,0,0)-(2,0,0)`, `(0,0,0)-(0,1,0)`,
`(1,0,0)-(1,1,0)`, `(2,0,0)-(2,1,0)` and `(0,1,0)-(1,1,0)`, no source cell, destination
`(0,0,0)`, edge length 100. -/
def loopGrid : FlexGridGraph :=
  sampleGrid 3 2 1
    (fun c d => decide ((c, d) ∈ [((⟨1, 0, 0⟩ : FlexMazeIdx), frDirEnum.E), (⟨0, 0, 0⟩, .N),
      (⟨1, 0, 0⟩, .N), (⟨2, 0, 0⟩, .N), (⟨0, 1, 0⟩, .E)]))
    [] [⟨0, 0, 0⟩] 100

/-! ## Terms of the path cost -/

namespace FlexGridGraph

/-- The bending increment of `getNextPathCost` (`++nextPathCost`). -/
def bendTerm (currGrid : FlexWavefrontGrid) (dir : frDirEnum) : Int :=
  if currGrid.getLastDir ≠ dir ∧ currGrid.getLastDir ≠ .UNKNOWN then 1 else 0

/-- The term that `getNextPathCost` adds under "via2viaForbiddenLen enablement". -/
def via2viaTerm (G : Globals) (g : FlexGridGraph) (currGrid : FlexWavefrontGrid)
    (dir : frDirEnum) : Int :=
  if dir = .U ∨ dir = .D then
    if g.isForbiddenVia2Via currGrid dir = true then
      if g.drIterAtLeast 3 = true then G.ggMarkerCost * g.getEdgeLength currGrid.idx dir
      else G.ggDRCCost * g.getEdgeLength currGrid.idx dir
    else 0
  else 0

/-- The term that `getNextPathCost` adds under "via2turn forbidden len enablement". -/
def viaTurnTerm (G : Globals) (g : FlexGridGraph) (currGrid : FlexWavefrontGrid)
    (dir : frDirEnum) : Int :=
  if currGrid.getLastDir ≠ .UNKNOWN ∧ currGrid.getLastDir ≠ dir then
    if g.isForbiddenTLen currGrid dir = true then
      if g.drIterAtLeast 3 = true then G.ggDRCCost * g.getEdgeLength currGrid.idx dir
      else G.ggMarkerCost * g.getEdgeLength currGrid.idx dir
    else 0
  else 0

/-- The last sum that `getNextPathCost` adds: the edge length and the six flag terms. -/
def edgeTerm (G : Globals) (g : FlexGridGraph) (currGrid : FlexWavefrontGrid)
    (dir : frDirEnum) : Int :=
  g.getEdgeLength currGrid.idx dir
    + (if g.hasGridCost currGrid.idx dir = true then G.GRIDCOST * g.getEdgeLength currGrid.idx dir
       else 0)
    + (if g.hasDRCCost currGrid.idx dir = true then G.ggDRCCost * g.getEdgeLength currGrid.idx dir
       else 0)
    + (if g.hasMarkerCost currGrid.idx dir = true then
        G.ggMarkerCost * g.getEdgeLength currGrid.idx dir else 0)
    + (if g.hasShapeCost currGrid.idx dir = true then G.SHAPECOST * g.getEdgeLength currGrid.idx dir
       else 0)
    + (if g.isBlocked currGrid.idx dir = true then
        (G.BLOCKCOST : Int) * g.tech.layerWidth (g.getLayerNum currGrid.zIdx) * 20 else 0)
    + (if g.hasGuide currGrid.idx dir = false then G.GUIDECOST * g.getEdgeLength currGrid.idx dir
       else 0)

/-- The sum that `getNextPathCost` accumulates, as an unbounded integer: what the function
returns when no addition overflows the cost type. -/
def nextPathCostSum (G : Globals) (g : FlexGridGraph) (currGrid : FlexWavefrontGrid)
    (dir : frDirEnum) : Int :=
  (currGrid.pathCost : Int) + bendTerm currGrid dir + g.via2viaTerm G currGrid dir
    + g.viaTurnTerm G currGrid dir + g.edgeTerm G currGrid dir

/-- The grid with a technology whose `isVia2ViaForbiddenLen` never holds: the via-to-via rule
switched off. -/
def withoutVia2Via (g : FlexGridGraph) : FlexGridGraph :=
  { g with tech := { g.tech with isVia2ViaForbiddenLen := fun _ _ _ _ _ _ => false } }

/-- The grid with a technology whose `isViaForbiddenTurnLen` never holds: the via-to-turn rule
switched off. -/
def withoutViaTurn (g : FlexGridGraph) : FlexGridGraph :=
  { g with tech := { g.tech with isViaForbiddenTurnLen := fun _ _ _ _ => false } }

end FlexGridGraph

/-- The via-to-via condition in the words of the specification: with `(vx, vy)` the lengths
since the last via, only `vy` positive and forbidden on Y, or only `vx` positive and forbidden
on X, or both positive and forbidden on both axes; each query is
`isVia2ViaForbiddenLen(z, not prevViaUp, not (d = U), axis, length)`. -/
def specVia2ViaForbidden (tech : frTechObject) (z : Int) (prevViaUp : Bool) (d : frDirEnum)
    (vx vy : Int) : Prop :=
  (vx = 0 ∧ vy > 0
      ∧ tech.isVia2ViaForbiddenLen z (!prevViaUp) (!decide (d = .U)) false vy false = true)
    ∨ (vx > 0 ∧ vy = 0
      ∧ tech.isVia2ViaForbiddenLen z (!prevViaUp) (!decide (d = .U)) true vx false = true)
    ∨ (vx > 0 ∧ vy > 0
      ∧ tech.isVia2ViaForbiddenLen z (!prevViaUp) (!decide (d = .U)) false vy false = true
      ∧ tech.isVia2ViaForbiddenLen z (!prevViaUp) (!decide (d = .U)) true vx false = true)

instance instDecidableSpecVia2ViaForbidden (tech : frTechObject) (z : Int) (prevViaUp : Bool)
    (d : frDirEnum) (vx vy : Int) : Decidable (specVia2ViaForbidden tech z prevViaUp d vx vy) := by
  unfold specVia2ViaForbidden
  exact inferInstance

/-- The constant `C_vv` of the specification: `ggMarkerCost` when a worker exists with
`DRIter >= 3`, `ggDRCCost` otherwise. -/
def specCvv (G : Globals) (worker : Option FlexDRWorker) : Nat :=
  match worker with
  | some w => if 3 ≤ w.DRIter then G.ggMarkerCost else G.ggDRCCost
  | none => G.ggDRCCost

/-- The constant `C_vt` of the specification: `ggDRCCost` when a worker exists with
`DRIter >= 3`, `ggMarkerCost` otherwise. -/
def specCvt (G : Globals) (worker : Option FlexDRWorker) : Nat :=
  match worker with
  | some w => if 3 ≤ w.DRIter then G.ggDRCCost else G.ggMarkerCost
  | none => G.ggMarkerCost

/-- Planar directions: E, W, N, S. -/
def frDirEnum.isPlanar (d : frDirEnum) : Prop := d = .E ∨ d = .W ∨ d = .N ∨ d = .S

instance instDecidableIsPlanar (d : frDirEnum) : Decidable d.isPlanar := by
  unfold frDirEnum.isPlanar
  exact inferInstance

/-- Constants with `ggDRCCost = 3` and `ggMarkerCost = 2`, every other cost constant 0, buffer
size `B`, 32-bit costs. -/
def ruleGlobals (B : Nat) : Globals :=
  { GRIDCOST := 0, SHAPECOST := 0, BLOCKCOST := 0, GUIDECOST := 0, ggDRCCost := 3,
    ggMarkerCost := 2, BOTTOM_ROUTING_LAYER := 2, DBPROCESSNODE := "N45",
    WAVEFRONTBUFFERSIZE := B, costBits := 32 }

/-- A fully connected grid of 2 x 2 x 2 cells, edge length 100, source `(0,0,0)`, destination
`(1,1,1)`, with a technology in which every length is forbidden between a via and a turn and
no length is forbidden between two vias. -/
def turnRuleGrid : FlexGridGraph :=
  { sampleGrid 2 2 2 (fun _ _ => true) [⟨0, 0, 0⟩] [⟨1, 1, 1⟩] 100 with
    tech := { sampleTech with isViaForbiddenTurnLen := fun _ _ _ _ => true } }

/-- The wavefront cell that a search on `turnRuleGrid` pushes at `(1,1,0)` after the moves `N`
and `E` from the source: one turn made, 100 units ago. -/
def turnCell : FlexWavefrontGrid :=
  { xIdx := 1, yIdx := 1, zIdx := 0, layerPathArea := 20000, vLengthX := frCoordMax,
    vLengthY := frCoordMax, prevViaUp := true, tLength := 100, dist := 200,
    pathCost := 401, cost := 502, backTraceBuffer := 44 }

/-- A wavefront cell at `(1,0,0)` whose last move was `N` and whose path cost is 101 below the
largest 32-bit cost. -/
def wrapCell : FlexWavefrontGrid :=
  { xIdx := 1, yIdx := 0, zIdx := 0, layerPathArea := 0, vLengthX := frCoordMax,
    vLengthY := frCoordMax, prevViaUp := true, tLength := frCoordMax, dist := 100,
    pathCost := 4294967195, cost := 4294967295, backTraceBuffer := 5 }

/-- The calls `shiftAddBuffer(d1)`, `shiftAddBuffer(d2)`, ... on a wavefront cell, in this
order: the list of the directions they return and the cell after the last call. -/
def FlexWavefrontGrid.shiftAll (G : Globals) :
    FlexWavefrontGrid → List frDirEnum → List frDirEnum × FlexWavefrontGrid
  | w, [] => ([], w)
  | w, d :: ds =>
    ((w.shiftAddBuffer G d).1 :: ((w.shiftAddBuffer G d).2.shiftAll G ds).1,
     ((w.shiftAddBuffer G d).2.shiftAll G ds).2)

/-- In the words of the specification: `m` is the elementwise minimum over the cells of `l`. -/
def isElementwiseMin (m : FlexMazeIdx) (l : List FlexMazeIdx) : Prop :=
  (∀ c ∈ l, m.x ≤ c.x ∧ m.y ≤ c.y ∧ m.z ≤ c.z)
    ∧ (∃ c ∈ l, m.x = c.x) ∧ (∃ c ∈ l, m.y = c.y) ∧ (∃ c ∈ l, m.z = c.z)

/-- In the words of the specification: `m` is the elementwise maximum over the cells of `l`. -/
def isElementwiseMax (m : FlexMazeIdx) (l : List FlexMazeIdx) : Prop :=
  (∀ c ∈ l, c.x ≤ m.x ∧ c.y ≤ m.y ∧ c.z ≤ m.z)
    ∧ (∃ c ∈ l, m.x = c.x) ∧ (∃ c ∈ l, m.y = c.y) ∧ (∃ c ∈ l, m.z = c.z)

instance instDecidableIsElementwiseMin (m : FlexMazeIdx) (l : List FlexMazeIdx) :
    Decidable (isElementwiseMin m l) := by
  unfold isElementwiseMin
  exact inferInstance

instance instDecidableIsElementwiseMax (m : FlexMazeIdx) (l : List FlexMazeIdx) :
    Decidable (isElementwiseMax m l) := by
  unfold isElementwiseMax
  exact inferInstance

/-- The row of five cells with two source cells `(0,0,0)` and `(1,0,0)` (one connected
component with bounding box `(0,0,0) .. (1,0,0)`), destination `(4,0,0)`, edge length 100. -/
def twoSourceRow : FlexGridGraph :=
  sampleGrid 5 1 1 (fun _ _ => true) [⟨0, 0, 0⟩, ⟨1, 0, 0⟩] [⟨4, 0, 0⟩] 100

/-- The grid of the second end-to-end scenario: 5 x 5 x 1 cells, fully connected, source
`(0,0,0)`, destination `(4,4,0)`, edge length 100. -/
def bendGrid : FlexGridGraph :=
  sampleGrid 5 5 1 (fun _ _ => true) [⟨0, 0, 0⟩] [⟨4, 4, 0⟩] 100

/-- Constants of the fourth end-to-end scenario: `BLOCKCOST = 10^6`, every other cost constant
0, buffer size `B`, 32-bit costs. -/
def blockGlobals (B : Nat) : Globals :=
  { GRIDCOST := 0, SHAPECOST := 0, BLOCKCOST := 1000000, GUIDECOST := 0, ggDRCCost := 0,
    ggMarkerCost := 0, BOTTOM_ROUTING_LAYER := 2, DBPROCESSNODE := "N45",
    WAVEFRONTBUFFERSIZE := B, costBits := 32 }

/-- The grid of the fourth end-to-end scenario: 3 x 2 x 1 cells, fully connected, every edge
incident to `(1,0,0)` blocked, source `(0,0,0)`, destination `(2,0,0)`, edge length 100, layer
width 100. -/
def blockGrid : FlexGridGraph :=
  { sampleGrid 3 2 1 (fun _ _ => true) [⟨0, 0, 0⟩] [⟨2, 0, 0⟩] 100 with
    isBlocked := fun c d => decide (c = ⟨1, 0, 0⟩ ∨ getNextGrid c d = ⟨1, 0, 0⟩) }

/-- The cells that a walk back along a trail appends to `path`: the cells entered by a move
whose direction differs from that of the move handled before it (`p` at the start). -/
def tracePath : frDirEnum → FlexMazeIdx → List frDirEnum → List FlexMazeIdx
  | _, _, [] => []
  | p, c, d :: r =>
    if d ≠ p then c :: tracePath d (getPrevGrid c d) r else tracePath d (getPrevGrid c d) r

/-- The row of `n` cells of the straight-line scenario: every edge between neighbours present,
source `(0,0,0)`, destination `(n-1,0,0)`, edge length `L`, no cost flags. -/
def lineGrid (n : Nat) (L : Int) : FlexGridGraph :=
  sampleGrid n 1 1 (fun _ _ => true) [⟨0, 0, 0⟩] [⟨(n : Int) - 1, 0, 0⟩] L

/-- Invariant of the search on the row `lineGrid n L` with the constants `sampleGlobals B`: the
state is a state of that grid, every wavefront cell is on a good trail, and the path cost of a
wavefront cell is `L` times its column, reduced to the cost type. -/
def LineInv (n : Nat) (L : Int) (B : Nat) (s : FlexGridGraph) : Prop :=
  (∃ p q, s = (lineGrid n L).withState p q) ∧ s.QueueGood (sampleGlobals B)
    ∧ ∀ w ∈ s.wavefront, w.pathCost = toCost (sampleGlobals B) (w.xIdx * L)

/-- The gap that the forbidden penalty of `getEstCost` measures between the cell `next` and the
destination `dst`: across the preferred direction of the layer of `next`, in database units. -/
def FlexGridGraph.penaltyGap (g : FlexGridGraph) (next dst : FlexMazeIdx) : Int :=
  if g.tech.layerIsHorz ((next.z + 1) * 2) = true then |g.yCoord next.y - g.yCoord dst.y|
  else |g.xCoord next.x - g.xCoord dst.x|

/-- The condition of the forbidden penalty in the words of the specification, for the cell
`next` reached by stepping from `src` once more in `dir`: `next` lies on the layer of the
destination and, for the layer below and for the layer above alike, that layer is out of the
routable range or `isVia2ViaForbiddenLen` holds for the gap to the destination. -/
def FlexGridGraph.specPenaltyCondition (G : Globals) (g : FlexGridGraph)
    (next dst : FlexMazeIdx) : Prop :=
  next.z = dst.z
    ∧ (g.tech.isVia2ViaForbiddenLen next.z false false
          (!g.tech.layerIsHorz ((next.z + 1) * 2)) (g.penaltyGap next dst) false = true
        ∨ (next.z + 1) * 2 - 2 < G.BOTTOM_ROUTING_LAYER)
    ∧ (g.tech.isVia2ViaForbiddenLen next.z true true
          (!g.tech.layerIsHorz ((next.z + 1) * 2)) (g.penaltyGap next dst) false = true
        ∨ (next.z + 1) * 2 + 2 > g.tech.topLayerNum)

instance FlexGridGraph.instDecidableSpecPenaltyCondition (G : Globals) (g : FlexGridGraph)
    (next dst : FlexMazeIdx) : Decidable (g.specPenaltyCondition G next dst) := by
  unfold FlexGridGraph.specPenaltyCondition
  exact inferInstance

/-- The two most recent directions of the buffer of `w` are not an opposite pair (E/W, N/S or
U/D). -/
def FlexWavefrontGrid.NoReversal (G : Globals) (w : FlexWavefrontGrid) : Prop :=
  ∀ d0 d1 rest, w.dirs G = d0 :: d1 :: rest → d0 ≠ .UNKNOWN → d1 ≠ d0.opposite

/-- Where the cells of the wavefront `q` come from during a search on the grid `g` seeded with
`connComps`: each is a seed (empty buffer, cell of `connComps`) or was pushed by `expand` after
`isExpandable` held (its cell is no source and, with a buffer of at least one direction, its
last direction is not `UNKNOWN`); none has reversed its last move. -/
def FlexGridGraph.QueueOrigin (G : Globals) (g : FlexGridGraph) (connComps : List FlexMazeIdx)
    (q : List FlexWavefrontGrid) : Prop :=
  ∀ w ∈ q, w.NoReversal G
    ∧ ((w.backTraceBuffer = 0 ∧ w.idx ∈ connComps)
      ∨ (g.isSrc w.idx = false ∧ (0 < G.WAVEFRONTBUFFERSIZE → w.getLastDir ≠ .UNKNOWN)))

/-- The cells entered by the moves of a trail (cell `c`, directions most recent first), from
the last cell back to the first cell entered: every cell of the trail but the one it starts
from. -/
def trailCells : FlexMazeIdx → List frDirEnum → List FlexMazeIdx
  | _, [] => []
  | c, d :: r => c :: trailCells (getPrevGrid c d) r

/-- The cell reached from `a` by `n` steps back along moves of direction `d`. -/
def runEnd (a : FlexMazeIdx) (d : frDirEnum) (n : Nat) : FlexMazeIdx :=
  (List.replicate n d).foldl getPrevGrid a

/-- The cell reached from `a` by walking back along the runs `segs` (direction and number of
steps of each run). -/
def segsEnd (a : FlexMazeIdx) (segs : List (frDirEnum × Nat)) : FlexMazeIdx :=
  segs.foldl (fun c s => runEnd c s.1 s.2) a

/-- The cells at which the runs `segs` walked back from `a` begin. -/
def startsOf : FlexMazeIdx → List (frDirEnum × Nat) → List FlexMazeIdx
  | _, [] => []
  | a, s :: rest => a :: startsOf (runEnd a s.1 s.2) rest

/-- A walk made of straight runs with a turn between any two of them: every run has a
direction other than `UNKNOWN` and at least one step, and consecutive runs differ in
direction. -/
def ValidSegs (segs : List (frDirEnum × Nat)) : Prop :=
  (∀ s ∈ segs, s.1 ≠ .UNKNOWN ∧ 0 < s.2) ∧ List.Chain' (fun s t => s.1 ≠ t.1) segs

/-- Two cells that differ in exactly one of `x`, `y`, `z`. -/
def differInOneAxis (a b : FlexMazeIdx) : Prop :=
  (a.x ≠ b.x ∧ a.y = b.y ∧ a.z = b.z) ∨ (a.x = b.x ∧ a.y ≠ b.y ∧ a.z = b.z)
    ∨ (a.x = b.x ∧ a.y = b.y ∧ a.z ≠ b.z)

instance instDecidableDifferInOneAxis (a b : FlexMazeIdx) : Decidable (differInOneAxis a b) := by
  unfold differInOneAxis
  exact inferInstance

/-- State of a back-trace from the cell `start` that has appended at least one cell to an
empty `path`: `path` holds the cells at which the runs walked so far begin, the last run has
the direction `prevDir`, and `curr` is the cell reached. -/
def TraceInv (start : FlexMazeIdx) (t : FlexGridGraph.TraceState) : Prop :=
  ∃ init n, 0 < n ∧ ValidSegs (init ++ [(t.prevDir, n)])
    ∧ t.path = startsOf start init ++ [segsEnd start init]
    ∧ t.curr = runEnd (segsEnd start init) t.prevDir n

/-! ## Index arguments of the table lookups -/

/-- Whether `(x, y)` is a track index pair that `getPoint` can look up on a grid of `X * Y`
tracks: `0 ≤ x < X` and `0 ≤ y < Y`. -/
def pointInRange (X Y : Int) (p : Int × Int) : Prop := 0 ≤ p.1 ∧ p.1 < X ∧ 0 ≤ p.2 ∧ p.2 < Y

instance instDecidablePointInRange (X Y : Int) (p : Int × Int) :
    Decidable (pointInRange X Y p) := by
  unfold pointInRange
  exact inferInstance

/-- Whether `z` is a layer index of a grid of `Z` layers: `0 ≤ z < Z`. -/
def layerInRange (Z z : Int) : Prop := 0 ≤ z ∧ z < Z

instance instDecidableLayerInRange (Z z : Int) : Decidable (layerInRange Z z) := by
  unfold layerInRange
  exact inferInstance

namespace FlexGridGraph

/-- Source `FlexGridGraph::getEstCost`, the index arguments `(x, y)` of its calls of
`getPoint`, in the order of the source: `srcPoint`, `dstPoint1`, `dstPoint2`, and `nextPoint`
at the cell that `getNextGrid` reaches from `src` in direction `dir`.  The four calls stand
before the test of `DBPROCESSNODE`; none depends on the gate. -/
def getEstCost_getPointCalls (src dstMazeIdx1 dstMazeIdx2 : FlexMazeIdx) (dir : frDirEnum) :
    List (Int × Int) :=
  [(src.x, src.y), (dstMazeIdx1.x, dstMazeIdx1.y), (dstMazeIdx2.x, dstMazeIdx2.y),
   ((getNextGrid src dir).x, (getNextGrid src dir).y)]

/-- Source `FlexGridGraph::expand`, the index arguments of the calls of `getPoint` it causes:
those of `getEstCost(nextIdx, dstMazeIdx1, dstMazeIdx2, dir)` and its own lookup of `currPt`
at `nextIdx`, the neighbour of `currGrid` in direction `dir`. -/
def expand_getPointCalls (currGrid : FlexWavefrontGrid) (dir : frDirEnum)
    (dstMazeIdx1 dstMazeIdx2 : FlexMazeIdx) : List (Int × Int) :=
  getEstCost_getPointCalls (getNextGrid currGrid.idx dir) dstMazeIdx1 dstMazeIdx2 dir
    ++ [((getNextGrid currGrid.idx dir).x, (getNextGrid currGrid.idx dir).y)]

/-- Source `FlexGridGraph::comp_exp_funcs_simd`, the arguments of its calls of `getZDir`:
`getZDir(gridZ)`, `getZDir(gridZ - 1)`, `getZDir(gridZ + 1)` for the layer `gridZ` of
`currGrid`. -/
def comp_exp_funcs_simd_getZDirCalls (currGrid : FlexWavefrontGrid) : List Int :=
  [currGrid.zIdx, currGrid.zIdx - 1, currGrid.zIdx + 1]

/-- Source `FlexGridGraph::expandWavefront`, the arguments of the calls of `getZDir` written in
the source file: those of `comp_exp_funcs_simd(currGrid)`, which it calls before the six
`isExpandable` tests and under no condition. -/
def expandWavefront_getZDirCalls (currGrid : FlexWavefrontGrid) : List Int :=
  comp_exp_funcs_simd_getZDirCalls currGrid

end FlexGridGraph

/-- A wavefront cell at `(1,0,0)` whose last move was `E`, with a path area, a length since the
last via and a length since the last turn close to the largest `frCoord`. -/
def longCell : FlexWavefrontGrid :=
  { xIdx := 1, yIdx := 0, zIdx := 0, layerPathArea := 2147480000, vLengthX := 2147483600,
    vLengthY := 0, prevViaUp := true, tLength := 2147483600, dist := 100, pathCost := 100,
    cost := 400, backTraceBuffer := 4 }

/-! # Theorems -/

/-! ## Cost type -/

theorem two_pow_costBits_pos (G : Globals) : (0 : Int) < (2 : Int) ^ G.costBits := by
  positivity

theorem toCost_cast (G : Globals) (i : Int) : ((toCost G i : Nat) : Int) = i % (2 : Int) ^ G.costBits := by
  unfold toCost
  exact Int.toNat_of_nonneg (Int.emod_nonneg _ (ne_of_gt (two_pow_costBits_pos G)))

theorem toCost_add_left (G : Globals) (a b : Int) :
    toCost G ((toCost G a : Nat) + b) = toCost G (a + b) := by
  unfold toCost
  rw [Int.toNat_of_nonneg (Int.emod_nonneg _ (ne_of_gt (two_pow_costBits_pos G))),
    Int.emod_add_emod]

namespace FlexGridGraph

theorem searchInit_fst (G : Globals) (d1 d2 : FlexMazeIdx) (centerPt : Int × Int)
    (l : List FlexMazeIdx) (g : FlexGridGraph) :
    (searchInit G d1 d2 centerPt l g).1 = l.find? (fun i => g.isDst i) := by
  induction l generalizing g with
  | nil => rfl
  | cons i rest ih =>
    unfold searchInit
    by_cases h : g.isDst i = true
    · simp [h]
    · have h0 : g.isDst i = false := by simpa using h
      simp only [h0, Bool.false_eq_true, if_false, List.find?_cons]
      rw [ih]
      rfl

/-- Claim C1.  If `connComps` contains a cell with `isDst` set then, for every grid state and
every fuel, `search` returns `true` and appends to `path` exactly one cell, the first cell of
`connComps` (in list order) that is a destination; with `path` empty on entry the result is
`path = [that cell]`. -/
theorem search_connComps_contains_dst (G : Globals) (g : FlexGridGraph) (fuel : Nat)
    (connComps nextPin path : List FlexMazeIdx) (ccMazeIdx1 ccMazeIdx2 : FlexMazeIdx)
    (centerPt : Int × Int) (h : ∃ c ∈ connComps, g.isDst c = true) :
    ∃ c r, connComps.find? (fun i => g.isDst i) = some c
      ∧ g.search G fuel connComps nextPin path ccMazeIdx1 ccMazeIdx2 centerPt = some r
      ∧ r.found = true ∧ r.path = path ++ [c] ∧ (path = [] → r.path = [c]) := by
  obtain ⟨c0, hc0, hd0⟩ := h
  have hsome : (connComps.find? (fun i => g.isDst i)).isSome = true := by
    rw [List.find?_isSome]
    exact ⟨c0, hc0, hd0⟩
  obtain ⟨c, hc⟩ := Option.isSome_iff_exists.mp hsome
  have hinit := searchInit_fst G (g.dstBoxLo nextPin) (dstBoxHi nextPin) centerPt connComps
    { g with wavefront := [] }
  rw [show (fun i => ({ g with wavefront := [] } : FlexGridGraph).isDst i) = fun i => g.isDst i
    from rfl, hc] at hinit
  rcases hres : searchInit G (g.dstBoxLo nextPin) (dstBoxHi nextPin) centerPt connComps
    { g with wavefront := [] } with ⟨o, g1⟩
  rw [hres] at hinit
  simp only at hinit
  subst hinit
  refine ⟨c, (⟨true, path ++ [c], connComps, ccMazeIdx1, ccMazeIdx2, g1, 0, 0⟩ : SearchResult),
    hc, ?_, rfl, rfl, ?_⟩
  · simp only [search, hres]
  · intro hp
    simp [hp]

/-- Witness of C1 on the row of five cells with `connComps = [(0,0,0), (4,0,0)]`. -/
theorem search_connComps_contains_dst_witness :
    (∃ c ∈ [(⟨0, 0, 0⟩ : FlexMazeIdx), ⟨4, 0, 0⟩], rowGrid.isDst c = true)
    ∧ ∃ c r, [(⟨0, 0, 0⟩ : FlexMazeIdx), ⟨4, 0, 0⟩].find? (fun i => rowGrid.isDst i) = some c
      ∧ rowGrid.search (sampleGlobals 4) 0 [⟨0, 0, 0⟩, ⟨4, 0, 0⟩] [⟨4, 0, 0⟩] [] ⟨0, 0, 0⟩
          ⟨0, 0, 0⟩ (0, 0) = some r
      ∧ r.found = true ∧ r.path = [] ++ [c] ∧ (([] : List FlexMazeIdx) = [] → r.path = [c]) :=
  ⟨⟨⟨4, 0, 0⟩, by decide, by decide⟩,
   search_connComps_contains_dst (sampleGlobals 4) rowGrid 0 [⟨0, 0, 0⟩, ⟨4, 0, 0⟩] [⟨4, 0, 0⟩] []
     ⟨0, 0, 0⟩ ⟨0, 0, 0⟩ (0, 0) ⟨⟨4, 0, 0⟩, by decide, by decide⟩⟩

end FlexGridGraph

/-! ## Heuristic with the forbidden-penalty gate off (C8) -/

namespace FlexGridGraph

end FlexGridGraph

/-! ## Incremental path cost without forbidden lengths (C10) -/

namespace FlexGridGraph

/-- Claim C10.  When neither forbidden-length rule fires, `getNextPathCost(curr, d)` is
`curr.pathCost + (1 if curr.lastDir is neither d nor UNKNOWN) + L + (GRIDCOST·L if hasGridCost)
+ (ggDRCCost·L if hasDRCCost) + (ggMarkerCost·L if hasMarkerCost) + (SHAPECOST·L if hasShapeCost)
+ (BLOCKCOST·pathWidth·20 if isBlocked) + (GUIDECOST·L if not hasGuide)` as an `frCost`, where
`L = getEdgeLength(x,y,z,d)`, all flags are read at `curr`'s cell in direction `d` and
`pathWidth` is the width of `curr`'s layer; the value is the exact sum whenever the sum fits
the cost type. -/
theorem getNextPathCost_no_forbidden (G : Globals) (g : FlexGridGraph) (curr : FlexWavefrontGrid)
    (d : frDirEnum)
    (hvv : d = .U ∨ d = .D → g.isForbiddenVia2Via curr d = false)
    (hvt : curr.getLastDir ≠ .UNKNOWN ∧ curr.getLastDir ≠ d → g.isForbiddenTLen curr d = false) :
    let L := g.getEdgeLength curr.idx d
    let pathWidth := g.tech.layerWidth (g.getLayerNum curr.zIdx)
    let total : Int := (curr.pathCost : Int)
      + (if curr.getLastDir ≠ d ∧ curr.getLastDir ≠ .UNKNOWN then 1 else 0)
      + L
      + (if g.hasGridCost curr.idx d = true then G.GRIDCOST * L else 0)
      + (if g.hasDRCCost curr.idx d = true then G.ggDRCCost * L else 0)
      + (if g.hasMarkerCost curr.idx d = true then G.ggMarkerCost * L else 0)
      + (if g.hasShapeCost curr.idx d = true then G.SHAPECOST * L else 0)
      + (if g.isBlocked curr.idx d = true then (G.BLOCKCOST : Int) * pathWidth * 20 else 0)
      + (if g.hasGuide curr.idx d = false then G.GUIDECOST * L else 0)
    g.getNextPathCost G curr d = toCost G total
      ∧ (0 ≤ total ∧ total < (2 : Int) ^ G.costBits →
          (g.getNextPathCost G curr d : Int) = total) := by
  intro L pathWidth total
  have hmain : g.getNextPathCost G curr d = toCost G total := by
    unfold getNextPathCost
    by_cases hb : curr.getLastDir ≠ d ∧ curr.getLastDir ≠ .UNKNOWN
    · have ht : curr.getLastDir ≠ .UNKNOWN ∧ curr.getLastDir ≠ d := ⟨hb.2, hb.1⟩
      have hvt1 := hvt ht
      by_cases hd : d = .U ∨ d = .D
      · have hvv1 := hvv hd
        simp only [hb, ht, hd, hvv1, hvt1, if_true, if_false, and_self, Bool.false_eq_true,
          not_false_eq_true, ne_eq, toCost_add_left]
        congr 1
        simp only [total, if_pos hb, L, pathWidth]
        ring
      · simp only [hb, ht, hd, hvt1, if_true, if_false, and_self, Bool.false_eq_true,
          not_false_eq_true, ne_eq, toCost_add_left]
        congr 1
        simp only [total, if_pos hb, L, pathWidth]
        ring
    · have ht : ¬ (curr.getLastDir ≠ .UNKNOWN ∧ curr.getLastDir ≠ d) := fun h => hb ⟨h.2, h.1⟩
      by_cases hd : d = .U ∨ d = .D
      · have hvv1 := hvv hd
        simp only [hb, ht, hd, hvv1, if_true, if_false, Bool.false_eq_true]
        congr 1
        simp only [total, if_neg hb, L, pathWidth]
        ring
      · simp only [hb, ht, hd, if_false]
        congr 1
        simp only [total, if_neg hb, L, pathWidth]
        ring
  refine ⟨hmain, ?_⟩
  rintro ⟨h0, hlt⟩
  rw [hmain, toCost_cast]
  exact Int.emod_eq_of_lt h0 hlt

/-- Witness of C10 on the row of five cells: a move `E` from a cell entered by `N` costs the
path cost 100, one bend and the edge length 100. -/
theorem getNextPathCost_no_forbidden_witness :
    (frDirEnum.E = .U ∨ frDirEnum.E = .D → rowGrid.isForbiddenVia2Via sampleCell .E = false)
    ∧ (sampleCell.getLastDir ≠ .UNKNOWN ∧ sampleCell.getLastDir ≠ .E →
        rowGrid.isForbiddenTLen sampleCell .E = false)
    ∧ rowGrid.getNextPathCost (sampleGlobals 4) sampleCell .E = toCost (sampleGlobals 4) 201
    ∧ (rowGrid.getNextPathCost (sampleGlobals 4) sampleCell .E : Int) = 201 := by
  have h1 : frDirEnum.E = .U ∨ frDirEnum.E = .D → rowGrid.isForbiddenVia2Via sampleCell .E = false := by
    decide
  have h2 : sampleCell.getLastDir ≠ .UNKNOWN ∧ sampleCell.getLastDir ≠ .E →
      rowGrid.isForbiddenTLen sampleCell .E = false := by
    intro _
    rfl
  have h := getNextPathCost_no_forbidden (sampleGlobals 4) rowGrid sampleCell .E h1 h2
  have e : ((sampleCell.pathCost : Int)
      + (if sampleCell.getLastDir ≠ .E ∧ sampleCell.getLastDir ≠ .UNKNOWN then 1 else 0)
      + rowGrid.getEdgeLength sampleCell.idx .E
      + (if rowGrid.hasGridCost sampleCell.idx .E = true then
          (sampleGlobals 4).GRIDCOST * rowGrid.getEdgeLength sampleCell.idx .E else 0)
      + (if rowGrid.hasDRCCost sampleCell.idx .E = true then
          (sampleGlobals 4).ggDRCCost * rowGrid.getEdgeLength sampleCell.idx .E else 0)
      + (if rowGrid.hasMarkerCost sampleCell.idx .E = true then
          (sampleGlobals 4).ggMarkerCost * rowGrid.getEdgeLength sampleCell.idx .E else 0)
      + (if rowGrid.hasShapeCost sampleCell.idx .E = true then
          (sampleGlobals 4).SHAPECOST * rowGrid.getEdgeLength sampleCell.idx .E else 0)
      + (if rowGrid.isBlocked sampleCell.idx .E = true then
          ((sampleGlobals 4).BLOCKCOST : Int)
            * rowGrid.tech.layerWidth (rowGrid.getLayerNum sampleCell.zIdx) * 20 else 0)
      + (if rowGrid.hasGuide sampleCell.idx .E = false then
          (sampleGlobals 4).GUIDECOST * rowGrid.getEdgeLength sampleCell.idx .E else 0) : Int)
      = 201 := by
    decide
  simp only [e] at h
  exact ⟨h1, h2, h.1, h.2 ⟨by decide, by decide⟩⟩

end FlexGridGraph

/-! ## Dedup of committed directions (C7) -/

namespace FlexGridGraph

theorem prevKept_refl (g : FlexGridGraph) : PrevKept g g := fun _ => Or.inl rfl

theorem prevKept_trans {g g1 g2 : FlexGridGraph} (h1 : PrevKept g g1) (h2 : PrevKept g1 g2) :
    PrevKept g g2 := by
  intro c
  rcases h1 c with e1 | e1
  · rcases h2 c with e2 | e2
    · exact Or.inl (e2.trans e1)
    · exact Or.inr (e1 ▸ e2)
  · exact Or.inr e1

theorem prevKept_of_eq {g g1 : FlexGridGraph} (h : g1.prevAstarNodeDir = g.prevAstarNodeDir) :
    PrevKept g g1 := by
  intro c
  left
  unfold getPrevAstarNodeDir
  rw [h]

theorem prevKept_setPrev (g : FlexGridGraph) (t : FlexMazeIdx) (d : frDirEnum)
    (h : g.getPrevAstarNodeDir t = .UNKNOWN ∨ g.getPrevAstarNodeDir t = d) :
    PrevKept g (g.setPrevAstarNodeDir t d) := by
  intro c
  by_cases hc : c = t
  · subst hc
    rcases h with h | h
    · exact Or.inr h
    · left
      simp [setPrevAstarNodeDir, getPrevAstarNodeDir] at h ⊢
      exact h.symm
  · left
    simp [setPrevAstarNodeDir, getPrevAstarNodeDir, hc]

/-- The only write of `expand`: either `prevAstarNodeDir` is left as it was, or it is the result
of one `setPrevAstarNodeDir(tailIdx, tailDir)` whose target held `UNKNOWN` or `tailDir`. -/
theorem expand_prev (G : Globals) (g : FlexGridGraph) (currGrid : FlexWavefrontGrid)
    (dir : frDirEnum) (d1 d2 : FlexMazeIdx) (centerPt : Int × Int) :
    (g.expand G currGrid dir d1 d2 centerPt).prevAstarNodeDir = g.prevAstarNodeDir
    ∨ ∃ t d, (g.getPrevAstarNodeDir t = .UNKNOWN ∨ g.getPrevAstarNodeDir t = d)
        ∧ (g.expand G currGrid dir d1 d2 centerPt).prevAstarNodeDir
            = (g.setPrevAstarNodeDir t d).prevAstarNodeDir := by
  unfold expand
  simp only
  split_ifs with h1 h2
  · right
    exact ⟨_, _, h2, rfl⟩
  · left
    rfl
  · left
    rfl

theorem expand_prevKept (G : Globals) (g : FlexGridGraph) (currGrid : FlexWavefrontGrid)
    (dir : frDirEnum) (d1 d2 : FlexMazeIdx) (centerPt : Int × Int) :
    PrevKept g (g.expand G currGrid dir d1 d2 centerPt) := by
  rcases expand_prev G g currGrid dir d1 d2 centerPt with h | ⟨t, d, ht, h⟩
  · exact prevKept_of_eq h
  · exact prevKept_trans (prevKept_setPrev g t d ht) (prevKept_of_eq h)

theorem expandIf_prevKept (G : Globals) (d1 d2 : FlexMazeIdx) (centerPt : Int × Int)
    (currGrid : FlexWavefrontGrid) (g : FlexGridGraph) (dir : frDirEnum) :
    PrevKept g (expandIf G d1 d2 centerPt currGrid g dir) := by
  unfold expandIf
  split_ifs
  · exact expand_prevKept G g currGrid dir d1 d2 centerPt
  · exact prevKept_refl g

theorem foldl_expandIf_prevKept (G : Globals) (d1 d2 : FlexMazeIdx) (centerPt : Int × Int)
    (currGrid : FlexWavefrontGrid) (dirs : List frDirEnum) (g : FlexGridGraph) :
    PrevKept g (dirs.foldl (expandIf G d1 d2 centerPt currGrid) g) := by
  induction dirs generalizing g with
  | nil => exact prevKept_refl g
  | cons d rest ih =>
    exact prevKept_trans (expandIf_prevKept G d1 d2 centerPt currGrid g d) (ih _)

theorem expandWavefront_prevKept (G : Globals) (g : FlexGridGraph) (currGrid : FlexWavefrontGrid)
    (d1 d2 : FlexMazeIdx) (centerPt : Int × Int) :
    PrevKept g (g.expandWavefront G currGrid d1 d2 centerPt) :=
  foldl_expandIf_prevKept G d1 d2 centerPt currGrid expandOrder g

theorem searchIter_prevKept (G : Globals) (d1 d2 : FlexMazeIdx) (centerPt : Int × Int)
    (g : FlexGridGraph) (visited : Nat) :
    (∀ r, searchIter G d1 d2 centerPt g visited = .inl r → PrevKept g r.grid)
    ∧ (∀ g1 v1, searchIter G d1 d2 centerPt g visited = .inr (g1, v1) → PrevKept g g1) := by
  unfold searchIter
  cases hpop : wavefrontPop g.wavefront with
  | none =>
    refine ⟨?_, ?_⟩
    · intro r hr
      simp only [Sum.inl.injEq] at hr
      subst hr
      exact prevKept_refl g
    · intro g1 v1 hr
      simp at hr
  | some p =>
    obtain ⟨currGrid, rest⟩ := p
    simp only
    split_ifs with h1 h2
    · refine ⟨fun r hr => by simp at hr, ?_⟩
      intro g1 v1 hr
      simp only [Sum.inr.injEq, Prod.mk.injEq] at hr
      rw [← hr.1]
      exact prevKept_of_eq rfl
    · refine ⟨?_, fun g1 v1 hr => by simp at hr⟩
      intro r hr
      simp only [Sum.inl.injEq] at hr
      subst hr
      exact prevKept_of_eq rfl
    · refine ⟨fun r hr => by simp at hr, ?_⟩
      intro g1 v1 hr
      simp only [Sum.inr.injEq, Prod.mk.injEq] at hr
      rw [← hr.1]
      exact prevKept_trans (@prevKept_of_eq g { g with wavefront := rest } rfl)
        (expandWavefront_prevKept G _ currGrid d1 d2 centerPt)

theorem loopState_prevKept_start (G : Globals) (d1 d2 : FlexMazeIdx) (centerPt : Int × Int)
    (k : Nat) (g : FlexGridGraph) (visited : Nat) :
    PrevKept g (loopState G d1 d2 centerPt k g visited).1 := by
  induction k generalizing g visited with
  | zero => exact prevKept_refl g
  | succ k ih =>
    unfold loopState
    cases hit : searchIter G d1 d2 centerPt g visited with
    | inl r => exact (searchIter_prevKept G d1 d2 centerPt g visited).1 r hit
    | inr p =>
      obtain ⟨g1, v1⟩ := p
      exact prevKept_trans ((searchIter_prevKept G d1 d2 centerPt g visited).2 g1 v1 hit) (ih g1 v1)

theorem loopState_prevKept (G : Globals) (d1 d2 : FlexMazeIdx) (centerPt : Int × Int)
    (n k : Nat) (g : FlexGridGraph) (visited : Nat) :
    PrevKept (loopState G d1 d2 centerPt n g visited).1
      (loopState G d1 d2 centerPt (n + k) g visited).1 := by
  induction n generalizing g visited with
  | zero =>
    rw [Nat.zero_add]
    exact loopState_prevKept_start G d1 d2 centerPt k g visited
  | succ n ih =>
    rw [Nat.succ_add]
    unfold loopState
    cases hit : searchIter G d1 d2 centerPt g visited with
    | inl r => exact prevKept_refl _
    | inr p =>
      obtain ⟨g1, v1⟩ := p
      exact ih g1 v1

/-- Claim C7 (dedup invariant).  Every `setPrevAstarNodeDir` call made by `expand` either targets
a cell whose current value is `UNKNOWN` or writes the value already stored there; and during a
search, from any grid state `g` of the main loop, once a cell's `prevAstarNodeDir` is different
from `UNKNOWN` (after `n` iterations) it has the same value after any further `k`
iterations. -/
theorem prevAstarNodeDir_written_once (G : Globals) (g : FlexGridGraph)
    (currGrid : FlexWavefrontGrid) (dir : frDirEnum) (d1 d2 : FlexMazeIdx) (centerPt : Int × Int)
    (visited n k : Nat) (c : FlexMazeIdx) :
    ((g.expand G currGrid dir d1 d2 centerPt).prevAstarNodeDir = g.prevAstarNodeDir
      ∨ ∃ t d, (g.getPrevAstarNodeDir t = .UNKNOWN ∨ g.getPrevAstarNodeDir t = d)
          ∧ (g.expand G currGrid dir d1 d2 centerPt).prevAstarNodeDir
              = (g.setPrevAstarNodeDir t d).prevAstarNodeDir)
    ∧ ((loopState G d1 d2 centerPt (n + k) g visited).1.getPrevAstarNodeDir c
          = (loopState G d1 d2 centerPt n g visited).1.getPrevAstarNodeDir c
        ∨ (loopState G d1 d2 centerPt n g visited).1.getPrevAstarNodeDir c = .UNKNOWN) :=
  ⟨expand_prev G g currGrid dir d1 d2 centerPt,
   loopState_prevKept G d1 d2 centerPt n k g visited c⟩

end FlexGridGraph

/-! ## Admissibility of the heuristic (C9) -/

namespace FlexGridGraph

end FlexGridGraph

/-! ## Buffer arithmetic -/

theorem ofBits_toBits (d : frDirEnum) : frDirEnum.ofBits d.toBits = d := by
  cases d <;> rfl

theorem toBits_lt (d : frDirEnum) : d.toBits < 8 := by
  cases d <;> decide

theorem getPrevGrid_getNextGrid (c : FlexMazeIdx) (d : frDirEnum) :
    getPrevGrid (getNextGrid c d) d = c := by
  cases d <;> simp [getPrevGrid, getNextGrid]

theorem getNextGrid_getPrevGrid (c : FlexMazeIdx) (d : frDirEnum) :
    getNextGrid (getPrevGrid c d) d = c := by
  cases d <;> simp [getPrevGrid, getNextGrid]

theorem bufDirs_length (n buffer : Nat) : (bufDirs n buffer).length = n := by
  induction n generalizing buffer with
  | zero => rfl
  | succ n ih => simp [bufDirs, ih]

theorem bufDirs_mod (n buffer : Nat) : bufDirs n (buffer % 8 ^ n) = bufDirs n buffer := by
  induction n generalizing buffer with
  | zero => rfl
  | succ n ih =>
    simp only [bufDirs]
    have h1 : buffer % 8 ^ (n + 1) % 8 = buffer % 8 := by
      rw [pow_succ]
      exact Nat.mod_mul_left_mod _ _ _
    have h2 : buffer % 8 ^ (n + 1) / 8 = buffer / 8 % 8 ^ n := by
      rw [pow_succ, Nat.mul_comm, Nat.mod_mul_right_div_self]
    rw [h1, h2, ih]

theorem getTailIdxLoop_eq (n : Nat) (c : FlexMazeIdx) (buffer : Nat) :
    FlexGridGraph.getTailIdxLoop n c buffer = (bufDirs n buffer).foldl getPrevGrid c := by
  induction n generalizing c buffer with
  | zero => rfl
  | succ n ih =>
    simp only [FlexGridGraph.getTailIdxLoop, bufDirs, List.foldl_cons, DIRBITSIZE]
    rw [ih]
    have h : buffer - buffer / 2 ^ 3 * 2 ^ 3 = buffer % 8 := by omega
    rw [h]
    norm_num

theorem two_pow_bits (B : Nat) : 2 ^ (B * 3) = 8 ^ B := by
  rw [Nat.mul_comm, pow_mul]
  norm_num

/-- Buffer after `shiftAddBuffer`: the new direction followed by the `B - 1` most recent old
ones. -/
theorem bufDirs_shift (B buffer : Nat) (d : frDirEnum) :
    bufDirs (B + 1) ((buffer * 2 ^ 3) % 2 ^ ((B + 1) * 3) + d.toBits) = d :: bufDirs B buffer := by
  have hd := toBits_lt d
  rw [two_pow_bits]
  have e : buffer * 2 ^ 3 % 8 ^ (B + 1) = (buffer % 8 ^ B) * 8 := by
    rw [pow_succ]
    norm_num
    exact Nat.mul_mod_mul_right _ _ _
  rw [e]
  simp only [bufDirs]
  have h1 : (buffer % 8 ^ B * 8 + d.toBits) % 8 = d.toBits := by omega
  have h2 : (buffer % 8 ^ B * 8 + d.toBits) / 8 = buffer % 8 ^ B := by omega
  rw [h1, h2, ofBits_toBits, bufDirs_mod]

theorem shift_lt (B buffer : Nat) (d : frDirEnum) :
    (buffer * 2 ^ 3) % 2 ^ ((B + 1) * 3) + d.toBits < 8 ^ (B + 1) := by
  have hd := toBits_lt d
  rw [two_pow_bits]
  have e : buffer * 2 ^ 3 % 8 ^ (B + 1) = (buffer % 8 ^ B) * 8 := by
    rw [pow_succ]
    norm_num
    exact Nat.mul_mod_mul_right _ _ _
  rw [e, pow_succ]
  have : buffer % 8 ^ B < 8 ^ B := Nat.mod_lt _ (by positivity)
  omega

theorem bufDirs_succ_eq_append (n buffer : Nat) :
    bufDirs (n + 1) buffer = bufDirs n buffer ++ [frDirEnum.ofBits (buffer / 8 ^ n % 8)] := by
  induction n generalizing buffer with
  | zero => simp [bufDirs]
  | succ n ih =>
    rw [bufDirs, ih (buffer / 8)]
    simp only [bufDirs, List.cons_append]
    rw [Nat.div_div_eq_div_mul, pow_succ, Nat.mul_comm]

/-- The direction shifted out by `shiftAddBuffer` is the oldest direction of the buffer. -/
theorem tailDir_eq (B buffer : Nat) (h : buffer < 8 ^ (B + 1)) :
    bufDirs (B + 1) buffer
      = bufDirs B buffer ++ [frDirEnum.ofBits (buffer / 2 ^ ((B + 1) * 3 - 3))] := by
  rw [bufDirs_succ_eq_append]
  have e : (B + 1) * 3 - 3 = B * 3 := by omega
  rw [e, two_pow_bits]
  have : buffer / 8 ^ B < 8 := by
    rw [Nat.div_lt_iff_lt_mul (by positivity)]
    rw [pow_succ] at h
    omega
  rw [Nat.mod_eq_of_lt this]

/-! ## Wavefront pop -/

theorem pickMin_perm (c : FlexWavefrontGrid) (rest : List FlexWavefrontGrid) :
    ((pickMin c rest).1 :: (pickMin c rest).2).Perm (c :: rest) := by
  induction rest generalizing c with
  | nil => exact List.Perm.refl _
  | cons d rest ih =>
    unfold pickMin
    simp only
    split_ifs
    · exact (List.Perm.swap _ _ _).trans (List.Perm.cons c (ih d))
    · exact List.Perm.refl _

theorem wavefrontPop_perm {q : List FlexWavefrontGrid} {c : FlexWavefrontGrid}
    {rest : List FlexWavefrontGrid} (h : wavefrontPop q = some (c, rest)) : (c :: rest).Perm q := by
  cases q with
  | nil => simp [wavefrontPop] at h
  | cons a l =>
    simp only [wavefrontPop, Option.some.injEq] at h
    have := pickMin_perm a l
    rw [h] at this
    exact this

theorem wavefrontPop_none {q : List FlexWavefrontGrid} (h : wavefrontPop q = none) : q = [] := by
  cases q with
  | nil => rfl
  | cons a l => simp [wavefrontPop] at h

/-! ## What `expand` does, in terms of the directions of the buffer -/

namespace FlexGridGraph

theorem nextWavefrontGrid_idx (G : Globals) (g : FlexGridGraph) (w : FlexWavefrontGrid)
    (d : frDirEnum) (d1 d2 : FlexMazeIdx) (centerPt : Int × Int) :
    (g.nextWavefrontGrid G w d d1 d2 centerPt).idx = getNextGrid w.idx d := by
  unfold nextWavefrontGrid
  simp only
  split_ifs <;> rfl

theorem nextWavefrontGrid_buffer (G : Globals) (g : FlexGridGraph) (w : FlexWavefrontGrid)
    (d : frDirEnum) (d1 d2 : FlexMazeIdx) (centerPt : Int × Int) :
    (g.nextWavefrontGrid G w d d1 d2 centerPt).backTraceBuffer = w.backTraceBuffer := by
  unfold nextWavefrontGrid
  simp only
  split_ifs <;> rfl

theorem childGrid_idx (G : Globals) (g : FlexGridGraph) (w : FlexWavefrontGrid)
    (d : frDirEnum) (d1 d2 : FlexMazeIdx) (centerPt : Int × Int) :
    (g.childGrid G w d d1 d2 centerPt).idx = getNextGrid w.idx d := by
  rw [← nextWavefrontGrid_idx G g w d d1 d2 centerPt]
  rfl

theorem childGrid_buffer (G : Globals) (g : FlexGridGraph) (w : FlexWavefrontGrid)
    (d : frDirEnum) (d1 d2 : FlexMazeIdx) (centerPt : Int × Int) :
    (g.childGrid G w d d1 d2 centerPt).backTraceBuffer
      = (w.backTraceBuffer * 2 ^ 3) % 2 ^ (G.WAVEFRONTBUFFERSIZE * 3) + d.toBits := by
  unfold childGrid FlexWavefrontGrid.shiftAddBuffer
  simp only [nextWavefrontGrid_buffer, Globals.WAVEFRONTBITSIZE, DIRBITSIZE]

theorem childGrid_dirs (G : Globals) (g : FlexGridGraph) (w : FlexWavefrontGrid)
    (d : frDirEnum) (d1 d2 : FlexMazeIdx) (centerPt : Int × Int) (B : Nat)
    (hB : G.WAVEFRONTBUFFERSIZE = B + 1) :
    (g.childGrid G w d d1 d2 centerPt).dirs G = d :: bufDirs B w.backTraceBuffer := by
  unfold FlexWavefrontGrid.dirs
  rw [childGrid_buffer, hB, bufDirs_shift]

theorem childGrid_lt (G : Globals) (g : FlexGridGraph) (w : FlexWavefrontGrid)
    (d : frDirEnum) (d1 d2 : FlexMazeIdx) (centerPt : Int × Int) (B : Nat)
    (hB : G.WAVEFRONTBUFFERSIZE = B + 1) :
    (g.childGrid G w d d1 d2 centerPt).backTraceBuffer < 8 ^ G.WAVEFRONTBUFFERSIZE := by
  rw [childGrid_buffer, hB]
  exact shift_lt B _ d

theorem dirs_eq (G : Globals) (w : FlexWavefrontGrid) (hB : 0 < G.WAVEFRONTBUFFERSIZE)
    (hbuf : w.backTraceBuffer < 8 ^ G.WAVEFRONTBUFFERSIZE) :
    w.dirs G = bufDirs (G.WAVEFRONTBUFFERSIZE - 1) w.backTraceBuffer ++ [w.tailDir G] := by
  obtain ⟨B, hB1⟩ : ∃ B, G.WAVEFRONTBUFFERSIZE = B + 1 := ⟨G.WAVEFRONTBUFFERSIZE - 1, by omega⟩
  unfold FlexWavefrontGrid.dirs FlexWavefrontGrid.tailDir Globals.WAVEFRONTBITSIZE DIRBITSIZE
  rw [hB1] at hbuf ⊢
  exact tailDir_eq B _ hbuf

theorem childGrid_dirs1 (G : Globals) (g : FlexGridGraph) (w : FlexWavefrontGrid)
    (d : frDirEnum) (d1 d2 : FlexMazeIdx) (centerPt : Int × Int)
    (hB : 0 < G.WAVEFRONTBUFFERSIZE) :
    (g.childGrid G w d d1 d2 centerPt).dirs G
      = d :: bufDirs (G.WAVEFRONTBUFFERSIZE - 1) w.backTraceBuffer := by
  obtain ⟨B, hB1⟩ : ∃ B, G.WAVEFRONTBUFFERSIZE = B + 1 := ⟨G.WAVEFRONTBUFFERSIZE - 1, by omega⟩
  rw [childGrid_dirs G g w d d1 d2 centerPt B hB1, hB1]
  rfl

theorem childGrid_lt1 (G : Globals) (g : FlexGridGraph) (w : FlexWavefrontGrid)
    (d : frDirEnum) (d1 d2 : FlexMazeIdx) (centerPt : Int × Int)
    (hB : 0 < G.WAVEFRONTBUFFERSIZE) :
    (g.childGrid G w d d1 d2 centerPt).backTraceBuffer < 8 ^ G.WAVEFRONTBUFFERSIZE := by
  obtain ⟨B, hB1⟩ : ∃ B, G.WAVEFRONTBUFFERSIZE = B + 1 := ⟨G.WAVEFRONTBUFFERSIZE - 1, by omega⟩
  exact childGrid_lt G g w d d1 d2 centerPt B hB1

/-- The body of `expand` in terms of the tail of `w`. -/
theorem expand_eq (G : Globals) (g : FlexGridGraph) (w : FlexWavefrontGrid)
    (d : frDirEnum) (d1 d2 : FlexMazeIdx) (centerPt : Int × Int)
    (hB : 0 < G.WAVEFRONTBUFFERSIZE) :
    g.expand G w d d1 d2 centerPt =
      (if w.tailDir G ≠ .UNKNOWN then
        if g.getPrevAstarNodeDir (w.tailIdx G) = .UNKNOWN
            ∨ g.getPrevAstarNodeDir (w.tailIdx G) = w.tailDir G then
          (g.setPrevAstarNodeDir (w.tailIdx G) (w.tailDir G)).wavefrontPush
            (g.childGrid G w d d1 d2 centerPt)
        else g
      else g.wavefrontPush (g.childGrid G w d d1 d2 centerPt)) := by
  have htail : getTailIdx G (getNextGrid w.idx d) (g.childGrid G w d d1 d2 centerPt)
      = w.tailIdx G := by
    unfold getTailIdx
    rw [getTailIdxLoop_eq]
    have := childGrid_dirs1 G g w d d1 d2 centerPt hB
    unfold FlexWavefrontGrid.dirs at this
    rw [this, List.foldl_cons, getPrevGrid_getNextGrid]
    rfl
  have hdir : ((g.nextWavefrontGrid G w d d1 d2 centerPt).shiftAddBuffer G d).1
      = w.tailDir G := by
    unfold FlexWavefrontGrid.shiftAddBuffer FlexWavefrontGrid.tailDir
    simp only [nextWavefrontGrid_buffer]
  unfold expand
  simp only
  rw [hdir]
  have hchild : ((g.nextWavefrontGrid G w d d1 d2 centerPt).shiftAddBuffer G d).2
      = g.childGrid G w d d1 d2 centerPt := rfl
  rw [hchild, htail]

end FlexGridGraph

/-! ## Frame: a search only changes the committed directions and the wavefront -/

namespace FlexGridGraph

theorem withState_self (g : FlexGridGraph) : g.withState g.prevAstarNodeDir g.wavefront = g := rfl

theorem withState_withState (g : FlexGridGraph) (p p1 : FlexMazeIdx → frDirEnum)
    (q q1 : List FlexWavefrontGrid) : (g.withState p q).withState p1 q1 = g.withState p1 q1 := rfl

theorem setPrev_eq_withState (g : FlexGridGraph) (t : FlexMazeIdx) (d : frDirEnum) :
    g.setPrevAstarNodeDir t d
      = g.withState (fun c => if c = t then d else g.prevAstarNodeDir c) g.wavefront := rfl

theorem setPrev_same (g : FlexGridGraph) (t : FlexMazeIdx) (d : frDirEnum)
    (h : g.getPrevAstarNodeDir t = d) : g.setPrevAstarNodeDir t d = g := by
  have : (fun c => if c = t then d else g.prevAstarNodeDir c) = g.prevAstarNodeDir := by
    funext c
    by_cases hc : c = t
    · subst hc
      simpa [getPrevAstarNodeDir] using h.symm
    · simp [hc]
  rw [setPrev_eq_withState, this]
  rfl

/-- The three outcomes of `expand`: nothing happens (conflict at the tail), the child is pushed
without a new commit, or the tail is committed (it held `UNKNOWN`) and the child is pushed. -/
theorem expand_cases (G : Globals) (g : FlexGridGraph) (w : FlexWavefrontGrid)
    (d : frDirEnum) (d1 d2 : FlexMazeIdx) (centerPt : Int × Int)
    (hB : 0 < G.WAVEFRONTBUFFERSIZE) :
    (g.expand G w d d1 d2 centerPt = g
      ∧ w.tailDir G ≠ .UNKNOWN
      ∧ g.getPrevAstarNodeDir (w.tailIdx G) ≠ .UNKNOWN
      ∧ g.getPrevAstarNodeDir (w.tailIdx G) ≠ w.tailDir G)
    ∨ (g.expand G w d d1 d2 centerPt = g.wavefrontPush (g.childGrid G w d d1 d2 centerPt)
      ∧ (w.tailDir G = .UNKNOWN
        ∨ (w.tailDir G ≠ .UNKNOWN ∧ g.getPrevAstarNodeDir (w.tailIdx G) = w.tailDir G)))
    ∨ (g.expand G w d d1 d2 centerPt
        = (g.setPrevAstarNodeDir (w.tailIdx G) (w.tailDir G)).wavefrontPush
            (g.childGrid G w d d1 d2 centerPt)
      ∧ w.tailDir G ≠ .UNKNOWN
      ∧ g.getPrevAstarNodeDir (w.tailIdx G) = .UNKNOWN) := by
  rw [expand_eq G g w d d1 d2 centerPt hB]
  by_cases h1 : w.tailDir G = .UNKNOWN
  · right
    left
    simp [h1]
  · by_cases h2 : g.getPrevAstarNodeDir (w.tailIdx G) = .UNKNOWN
    · right
      right
      simp [h1, h2]
    · by_cases h3 : g.getPrevAstarNodeDir (w.tailIdx G) = w.tailDir G
      · right
        left
        refine ⟨?_, Or.inr ⟨h1, h3⟩⟩
        simp only [h1, h3, ne_eq, not_false_eq_true, if_true, or_true]
        rw [← h3, setPrev_same g _ _ rfl]
      · left
        simp [h1, h2, h3]

end FlexGridGraph

/-! ## Termination measure of the main loop -/

namespace FlexGridGraph

theorem trailUnknown_le_length (g : FlexGridGraph) (c : FlexMazeIdx) (l : List frDirEnum) :
    g.trailUnknown c l ≤ l.length := by
  induction l generalizing c with
  | nil => simp [trailUnknown]
  | cons d l ih =>
    simp only [trailUnknown, List.length_cons]
    split_ifs
    · have := ih (getPrevGrid c d)
      omega
    · omega

theorem trailUnknown_append_stop (g : FlexGridGraph) (c : FlexMazeIdx) (l : List frDirEnum)
    (x : frDirEnum)
    (h : x = .UNKNOWN ∨ g.prevAstarNodeDir (l.foldl getPrevGrid c) ≠ .UNKNOWN) :
    g.trailUnknown c (l ++ [x]) = g.trailUnknown c l := by
  induction l generalizing c with
  | nil =>
    simp only [List.nil_append, trailUnknown, List.foldl_nil] at h ⊢
    rcases h with h | h
    · simp [h]
    · simp [h]
  | cons d l ih =>
    simp only [List.cons_append, trailUnknown]
    split_ifs
    · congr 1
      exact ih (getPrevGrid c d) (by simpa using h)
    · rfl

theorem trailValid_append (g : FlexGridGraph) (c : FlexMazeIdx) (l : List frDirEnum)
    (x : frDirEnum) (h : g.trailValid c (l ++ [x])) :
    g.trailValid c l
      ∧ (x ≠ .UNKNOWN → inDims g.xDim g.yDim g.zDim (l.foldl getPrevGrid c) = true) := by
  induction l generalizing c with
  | nil =>
    simp only [List.nil_append, trailValid, List.foldl_nil] at h ⊢
    exact ⟨trivial, h.1⟩
  | cons d l ih =>
    simp only [List.cons_append, trailValid, List.foldl_cons] at h ⊢
    have := ih (getPrevGrid c d) h.2
    exact ⟨⟨h.1, this.1⟩, this.2⟩

theorem mem_validCells (g : FlexGridGraph) (c : FlexMazeIdx) :
    c ∈ g.validCells ↔ inDims g.xDim g.yDim g.zDim c = true := by
  unfold validCells inDims
  rw [Finset.mem_image, decide_eq_true_eq]
  constructor
  · rintro ⟨p, hp, rfl⟩
    simp only [Finset.mem_product, Finset.mem_Ico] at hp
    exact ⟨hp.1.1.1, hp.1.1.2, hp.1.2.1, hp.1.2.2, hp.2.1, hp.2.2⟩
  · rintro ⟨hx1, hx2, hy1, hy2, hz1, hz2⟩
    refine ⟨((c.x, c.y), c.z), ?_, rfl⟩
    simp only [Finset.mem_product, Finset.mem_Ico]
    exact ⟨⟨⟨hx1, hx2⟩, hy1, hy2⟩, hz1, hz2⟩

theorem unknownCount_le (g : FlexGridGraph) (p p1 : FlexMazeIdx → frDirEnum)
    (q q1 : List FlexWavefrontGrid) (h : PrevKept (g.withState p q) (g.withState p1 q1)) :
    (g.withState p1 q1).unknownCount ≤ (g.withState p q).unknownCount := by
  unfold unknownCount
  apply Finset.card_le_card
  intro c hc
  simp only [Finset.mem_filter] at hc ⊢
  refine ⟨hc.1, ?_⟩
  rcases h c with e | e
  · exact e.symm.trans hc.2
  · exact e

theorem unknownCount_lt (g : FlexGridGraph) (p p1 : FlexMazeIdx → frDirEnum)
    (q q1 : List FlexWavefrontGrid) (h : PrevKept (g.withState p q) (g.withState p1 q1))
    (t : FlexMazeIdx) (ht : inDims g.xDim g.yDim g.zDim t = true) (h0 : p t = .UNKNOWN)
    (h1 : p1 t ≠ .UNKNOWN) :
    (g.withState p1 q1).unknownCount < (g.withState p q).unknownCount := by
  unfold unknownCount
  apply Finset.card_lt_card
  rw [Finset.ssubset_iff_of_subset]
  · refine ⟨t, ?_, ?_⟩
    · simp only [Finset.mem_filter]
      exact ⟨(mem_validCells _ t).2 ht, h0⟩
    · simp only [Finset.mem_filter, not_and]
      intro _
      exact h1
  · intro c hc
    simp only [Finset.mem_filter] at hc ⊢
    refine ⟨hc.1, ?_⟩
    rcases h c with e | e
    · exact e.symm.trans hc.2
    · exact e

theorem weight_pos (G : Globals) (g : FlexGridGraph) (w : FlexWavefrontGrid) :
    0 < g.weight G w := by
  unfold weight
  positivity

theorem isExpandable_true {g : FlexGridGraph} {w : FlexWavefrontGrid} {d : frDirEnum}
    (h : g.isExpandable w d = true) :
    g.hasEdge w.idx d = true ∧ g.isSrc (getNextGrid w.idx d) = false
      ∧ g.prevAstarNodeDir (getNextGrid w.idx d) = .UNKNOWN ∧ w.getLastDir ≠ d.opposite := by
  unfold isExpandable reverse getPrevAstarNodeDir at h
  simp only at h
  split_ifs at h with hc
  simp only [not_or, Bool.not_eq_false, Bool.not_eq_true, not_not] at hc
  exact ⟨hc.1, hc.2.1, hc.2.2.1, hc.2.2.2⟩

theorem trailValid_of_dims (g g1 : FlexGridGraph) (hx : g1.xDim = g.xDim)
    (hy : g1.yDim = g.yDim) (hz : g1.zDim = g.zDim) (c : FlexMazeIdx) (l : List frDirEnum) :
    g1.trailValid c l ↔ g.trailValid c l := by
  induction l generalizing c with
  | nil => simp [trailValid]
  | cons d l ih =>
    simp only [trailValid]
    rw [ih, hx, hy, hz]

theorem trailValid_frame {g g1 : FlexGridGraph} {c : FlexMazeIdx} {l : List frDirEnum}
    (h : g1.trailValid c l) (hx : g1.xDim = g.xDim) (hy : g1.yDim = g.yDim)
    (hz : g1.zDim = g.zDim) : g.trailValid c l :=
  (trailValid_of_dims g g1 hx hy hz c l).1 h

theorem trailUnknown_congr (g g1 : FlexGridGraph) (h : g1.prevAstarNodeDir = g.prevAstarNodeDir)
    (c : FlexMazeIdx) (l : List frDirEnum) : g1.trailUnknown c l = g.trailUnknown c l := by
  induction l generalizing c with
  | nil => simp [trailUnknown]
  | cons d l ih =>
    simp only [trailUnknown, h, ih]

theorem weight_congr (G : Globals) (g g1 : FlexGridGraph)
    (h : g1.prevAstarNodeDir = g.prevAstarNodeDir) (w : FlexWavefrontGrid) :
    g1.weight G w = g.weight G w := by
  unfold weight
  rw [trailUnknown_congr g g1 h]

theorem foldInv_mono (G : Globals) (g0 g1 : FlexGridGraph) (w : FlexWavefrontGrid) (n : Nat)
    (h : FoldInv G g0 w n g1) : FoldInv G g0 w (n + 1) g1 := by
  obtain ⟨h1, h2, h3, h4⟩ := h
  refine ⟨h1, h2, h3, ?_⟩
  rcases h4 with h4 | ⟨e, kids, hk, hl, hw⟩
  · exact Or.inl h4
  · exact Or.inr ⟨e, kids, hk, by omega, hw⟩

theorem expandIf_foldInv (G : Globals) (d1 d2 : FlexMazeIdx) (centerPt : Int × Int)
    (g0 g1 : FlexGridGraph) (w : FlexWavefrontGrid) (n : Nat) (d : frDirEnum)
    (hB : 0 < G.WAVEFRONTBUFFERSIZE) (hE : g0.EdgesInGrid)
    (hbuf : w.backTraceBuffer < 8 ^ G.WAVEFRONTBUFFERSIZE)
    (hval : g0.trailValid w.idx (w.dirs G)) (hd : d ≠ .UNKNOWN)
    (h : FoldInv G g0 w n g1) :
    FoldInv G g0 w (n + 1) (expandIf G d1 d2 centerPt w g1 d) := by
  unfold expandIf
  by_cases hx : g1.isExpandable w d = true
  swap
  · simp only [hx, if_false]
    exact foldInv_mono G g0 g1 w n h
  simp only [hx, if_true]
  obtain ⟨⟨p, q, rfl⟩, hk, hq, hm⟩ := h
  obtain ⟨hedge, -, hnext, -⟩ := isExpandable_true hx
  have hdirs := dirs_eq G w hB hbuf
  have hcd := childGrid_dirs1 G (g0.withState p q) w d d1 d2 centerPt hB
  have hvalid := trailValid_append g0 w.idx _ _ (hdirs ▸ hval)
  have hchild : ((g0.withState p q).childGrid G w d d1 d2 centerPt).backTraceBuffer
        < 8 ^ G.WAVEFRONTBUFFERSIZE
      ∧ g0.trailValid ((g0.withState p q).childGrid G w d d1 d2 centerPt).idx
          (((g0.withState p q).childGrid G w d d1 d2 centerPt).dirs G) := by
    refine ⟨childGrid_lt1 G _ w d d1 d2 centerPt hB, ?_⟩
    rw [hcd, childGrid_idx]
    simp only [trailValid, getPrevGrid_getNextGrid]
    exact ⟨fun _ => hE _ _ hedge, hvalid.1⟩
  rcases expand_cases G (g0.withState p q) w d d1 d2 centerPt hB with
    ⟨he, -⟩ | ⟨he, ht⟩ | ⟨he, ht1, ht2⟩
  · rw [he]
    exact foldInv_mono G g0 _ w n ⟨⟨p, q, rfl⟩, hk, hq, hm⟩
  · rw [he]
    refine ⟨⟨p, q ++ [_], rfl⟩, hk, ?_, ?_⟩
    · intro x hx1
      rcases List.mem_append.mp hx1 with hx1 | hx1
      · have := hq x hx1
        exact ⟨this.1, trailValid_frame this.2 rfl rfl rfl⟩
      · rw [List.mem_singleton] at hx1
        subst hx1
        exact ⟨hchild.1, trailValid_frame hchild.2 rfl rfl rfl⟩
    · rcases hm with hm | ⟨e, kids, hkq, hl, hw⟩
      · exact Or.inl hm
      · right
        refine ⟨e, kids ++ [(g0.withState p q).childGrid G w d d1 d2 centerPt], ?_, ?_, ?_⟩
        · show q ++ [(g0.withState p q).childGrid G w d d1 d2 centerPt]
            = g0.wavefront ++ (kids ++ [(g0.withState p q).childGrid G w d d1 d2 centerPt])
          have : q = g0.wavefront ++ kids := hkq
          rw [this, List.append_assoc]
        · simp only [List.length_append, List.length_singleton]
          omega
        · intro k hk1
          rcases List.mem_append.mp hk1 with hk1 | hk1
          · exact hw k hk1
          · rw [List.mem_singleton] at hk1
            subst hk1
            have hp : p = g0.prevAstarNodeDir := e
            subst hp
            have hqc : g0.trailUnknown ((g0.withState g0.prevAstarNodeDir q).childGrid G w d d1 d2
                  centerPt).idx (((g0.withState g0.prevAstarNodeDir q).childGrid G w d d1 d2
                  centerPt).dirs G)
                = g0.trailUnknown w.idx (w.dirs G) + 1 := by
              rw [hcd, childGrid_idx]
              simp only [trailUnknown, getPrevGrid_getNextGrid]
              have hn : g0.prevAstarNodeDir (getNextGrid w.idx d) = .UNKNOWN := hnext
              simp only [hd, hn, ne_eq, not_false_eq_true, and_self, if_true]
              rw [hdirs, trailUnknown_append_stop]
              rcases ht with ht | ⟨ht, ht3⟩
              · exact Or.inl ht
              · right
                have : g0.prevAstarNodeDir (w.tailIdx G) = w.tailDir G := ht3
                unfold FlexWavefrontGrid.tailIdx at this
                rw [this]
                exact ht
            have hle := trailUnknown_le_length g0
              ((g0.withState g0.prevAstarNodeDir q).childGrid G w d d1 d2 centerPt).idx
              (((g0.withState g0.prevAstarNodeDir q).childGrid G w d d1 d2 centerPt).dirs G)
            have hlen : (((g0.withState g0.prevAstarNodeDir q).childGrid G w d d1 d2
                centerPt).dirs G).length = G.WAVEFRONTBUFFERSIZE := bufDirs_length _ _
            have hle1 : g0.trailUnknown w.idx (w.dirs G) + 1 ≤ G.WAVEFRONTBUFFERSIZE := by
              rw [← hqc, ← hlen]
              exact hle
            unfold weight
            rw [hqc]
            have e1 : G.WAVEFRONTBUFFERSIZE - (g0.trailUnknown w.idx (w.dirs G) + 1) + 1
                = G.WAVEFRONTBUFFERSIZE - g0.trailUnknown w.idx (w.dirs G) := by omega
            rw [← pow_succ, e1]
  · rw [he]
    have hk2 : PrevKept (g0.withState p q)
        (((g0.withState p q).setPrevAstarNodeDir (w.tailIdx G) (w.tailDir G)).wavefrontPush
          ((g0.withState p q).childGrid G w d d1 d2 centerPt)) :=
      prevKept_trans (prevKept_setPrev _ _ _ (Or.inl ht2)) (prevKept_of_eq rfl)
    refine ⟨⟨_, q ++ [_], rfl⟩, prevKept_trans hk hk2, ?_, ?_⟩
    · intro x hx1
      rcases List.mem_append.mp hx1 with hx1 | hx1
      · have := hq x hx1
        exact ⟨this.1, trailValid_frame this.2 rfl rfl rfl⟩
      · rw [List.mem_singleton] at hx1
        subst hx1
        exact ⟨hchild.1, trailValid_frame hchild.2 rfl rfl rfl⟩
    · left
      have h1 := unknownCount_lt g0 p
        (fun c => if c = w.tailIdx G then w.tailDir G else p c) q
        (q ++ [(g0.withState p q).childGrid G w d d1 d2 centerPt]) hk2 (w.tailIdx G)
        (hvalid.2 ht1) ht2 (by simp [ht1])
      have h2 := unknownCount_le g0 g0.prevAstarNodeDir p g0.wavefront q hk
      exact lt_of_lt_of_le h1 h2

theorem foldInv_refl (G : Globals) (g0 : FlexGridGraph) (w : FlexWavefrontGrid)
    (hq : g0.QueueOK G) : FoldInv G g0 w 0 g0 :=
  ⟨⟨_, _, rfl⟩, prevKept_refl g0, hq, Or.inr ⟨rfl, [], by simp, by simp, by simp⟩⟩

theorem foldl_expandIf_foldInv (G : Globals) (d1 d2 : FlexMazeIdx) (centerPt : Int × Int)
    (g0 : FlexGridGraph) (w : FlexWavefrontGrid)
    (hB : 0 < G.WAVEFRONTBUFFERSIZE) (hE : g0.EdgesInGrid)
    (hbuf : w.backTraceBuffer < 8 ^ G.WAVEFRONTBUFFERSIZE)
    (hval : g0.trailValid w.idx (w.dirs G)) (dirs : List frDirEnum)
    (hd : ∀ d ∈ dirs, d ≠ frDirEnum.UNKNOWN) (n : Nat) (g1 : FlexGridGraph)
    (h : FoldInv G g0 w n g1) :
    FoldInv G g0 w (n + dirs.length) (dirs.foldl (expandIf G d1 d2 centerPt w) g1) := by
  induction dirs generalizing n g1 with
  | nil => simpa using h
  | cons d rest ih =>
    simp only [List.foldl_cons, List.length_cons]
    have h1 := expandIf_foldInv G d1 d2 centerPt g0 g1 w n d hB hE hbuf hval
      (hd d (List.mem_cons_self _ _)) h
    have h2 := ih (fun e he => hd e (List.mem_cons_of_mem _ he)) (n + 1) _ h1
    have e : n + (rest.length + 1) = n + 1 + rest.length := by omega
    rw [e]
    exact h2

theorem expandWavefront_foldInv (G : Globals) (d1 d2 : FlexMazeIdx) (centerPt : Int × Int)
    (g0 : FlexGridGraph) (w : FlexWavefrontGrid)
    (hB : 0 < G.WAVEFRONTBUFFERSIZE) (hE : g0.EdgesInGrid) (hq : g0.QueueOK G)
    (hbuf : w.backTraceBuffer < 8 ^ G.WAVEFRONTBUFFERSIZE)
    (hval : g0.trailValid w.idx (w.dirs G)) :
    FoldInv G g0 w 6 (g0.expandWavefront G w d1 d2 centerPt) := by
  have := foldl_expandIf_foldInv G d1 d2 centerPt g0 w hB hE hbuf hval expandOrder
    (by decide) 0 g0 (foldInv_refl G g0 w hq)
  simpa [expandOrder] using this

theorem totalWeight_pop (G : Globals) (g : FlexGridGraph) (c : FlexWavefrontGrid)
    (rest : List FlexWavefrontGrid) (h : (c :: rest).Perm g.wavefront) :
    g.totalWeight G = g.weight G c + (g.withState g.prevAstarNodeDir rest).totalWeight G := by
  have e : (g.withState g.prevAstarNodeDir rest).weight G = g.weight G :=
    funext (weight_congr G g _ rfl)
  unfold totalWeight
  rw [← (h.map (g.weight G)).sum_eq, e]
  simp only [List.map_cons, List.sum_cons]
  rfl

theorem sum_weights_le (f : FlexWavefrontGrid → Nat) (kids : List FlexWavefrontGrid) (b : Nat)
    (h : ∀ k ∈ kids, f k * 7 ≤ b) : (kids.map f).sum * 7 ≤ kids.length * b := by
  induction kids with
  | nil => simp
  | cons k rest ih =>
    simp only [List.map_cons, List.sum_cons, List.length_cons]
    have h1 := h k (List.mem_cons_self _ _)
    have h2 := ih (fun x hx => h x (List.mem_cons_of_mem _ hx))
    nlinarith

/-- One iteration of the main loop that does not exit lowers the pair (number of grid cells
still `UNKNOWN`, total weight of the wavefront) in the lexicographic order. -/
theorem searchIter_progress (G : Globals) (d1 d2 : FlexMazeIdx) (centerPt : Int × Int)
    (g g1 : FlexGridGraph) (v v1 : Nat)
    (hB : 0 < G.WAVEFRONTBUFFERSIZE) (hE : g.EdgesInGrid) (hq : g.QueueOK G)
    (h : searchIter G d1 d2 centerPt g v = .inr (g1, v1)) :
    (∃ p q, g1 = g.withState p q) ∧ PrevKept g g1 ∧ g1.QueueOK G
      ∧ (g1.unknownCount < g.unknownCount
        ∨ (g1.unknownCount = g.unknownCount ∧ g1.totalWeight G < g.totalWeight G)) := by
  unfold searchIter at h
  cases hpop : wavefrontPop g.wavefront with
  | none => simp [hpop] at h
  | some pr =>
    obtain ⟨c, rest⟩ := pr
    have hperm := wavefrontPop_perm hpop
    have hc : c ∈ g.wavefront := hperm.subset (List.mem_cons_self _ _)
    have hrest : ∀ x ∈ rest, x ∈ g.wavefront := fun x hx => hperm.subset (List.mem_cons_of_mem _ hx)
    have hq0 : (g.withState g.prevAstarNodeDir rest).QueueOK G := by
      intro x hx
      have := hq x (hrest x hx)
      exact ⟨this.1, trailValid_frame this.2 rfl rfl rfl⟩
    have hM := totalWeight_pop G g c rest hperm
    have hwpos := weight_pos G g c
    simp only [hpop] at h
    split_ifs at h with h1 h2
    · simp only [Sum.inr.injEq, Prod.mk.injEq] at h
      obtain ⟨h, -⟩ := h
      subst h
      refine ⟨⟨_, rest, rfl⟩, prevKept_of_eq rfl, hq0, Or.inr ⟨rfl, ?_⟩⟩
      show (g.withState g.prevAstarNodeDir rest).totalWeight G < g.totalWeight G
      omega
    · simp only [Sum.inr.injEq, Prod.mk.injEq] at h
      obtain ⟨h, -⟩ := h
      have hf : FoldInv G (g.withState g.prevAstarNodeDir rest) c 6 g1 := by
        rw [← h]
        exact expandWavefront_foldInv G d1 d2 centerPt (g.withState g.prevAstarNodeDir rest) c
          hB hE hq0 (hq c hc).1 (trailValid_frame (hq c hc).2 rfl rfl rfl)
      obtain ⟨⟨p, q, hpq⟩, hk, hq1, hm⟩ := hf
      subst hpq
      refine ⟨⟨p, q, rfl⟩, hk, hq1, ?_⟩
      rcases hm with hm | ⟨e, kids, hkq, hl, hw⟩
      · exact Or.inl hm
      · right
        have hp : p = g.prevAstarNodeDir := e
        subst hp
        refine ⟨rfl, ?_⟩
        have hkq1 : q = rest ++ kids := hkq
        subst hkq1
        have hs := sum_weights_le (g.weight G) kids (g.weight G c) (fun k hk1 => by
          have := hw k hk1
          rw [weight_congr G g (g.withState g.prevAstarNodeDir rest) rfl,
            weight_congr G g (g.withState g.prevAstarNodeDir rest) rfl] at this
          exact this)
        have e0 : (g.withState g.prevAstarNodeDir rest).weight G = g.weight G :=
          funext (weight_congr G g _ rfl)
        have e2 : ((g.withState g.prevAstarNodeDir rest).withState g.prevAstarNodeDir
            (rest ++ kids)).weight G = g.weight G := funext (weight_congr G g _ rfl)
        have e1 : ((g.withState g.prevAstarNodeDir rest).withState g.prevAstarNodeDir
              (rest ++ kids)).totalWeight G
            = (g.withState g.prevAstarNodeDir rest).totalWeight G + (kids.map (g.weight G)).sum := by
          unfold totalWeight
          rw [e0, e2]
          show ((rest ++ kids).map (g.weight G)).sum = (rest.map (g.weight G)).sum + _
          rw [List.map_append, List.sum_append]
        rw [e1, hM]
        have : kids.length * g.weight G c ≤ 6 * g.weight G c := Nat.mul_le_mul_right _ hl
        omega

/-- The main loop of `search` halts on a finite grid, from every state whose wavefront is well
formed: some fuel suffices. -/
theorem searchLoop_terminates (G : Globals) (d1 d2 : FlexMazeIdx) (centerPt : Int × Int)
    (hB : 0 < G.WAVEFRONTBUFFERSIZE) (g : FlexGridGraph) (v : Nat)
    (hE : g.EdgesInGrid) (hq : g.QueueOK G) :
    ∃ fuel r, searchLoop G d1 d2 centerPt fuel g v = some r := by
  have key : ∀ n m (g : FlexGridGraph) (v : Nat), g.unknownCount = n → g.totalWeight G = m →
      g.EdgesInGrid → g.QueueOK G → ∃ fuel r, searchLoop G d1 d2 centerPt fuel g v = some r := by
    intro n
    induction n using Nat.strong_induction_on with
    | _ n ihU =>
      intro m
      induction m using Nat.strong_induction_on with
      | _ m ihM =>
        intro g v hU hM hE hq
        cases hit : searchIter G d1 d2 centerPt g v with
        | inl r => exact ⟨1, r, by simp [searchLoop, hit]⟩
        | inr pr =>
          obtain ⟨g1, v1⟩ := pr
          obtain ⟨⟨p, q, hpq⟩, -, hq1, hm⟩ :=
            searchIter_progress G d1 d2 centerPt g g1 v v1 hB hE hq hit
          have hE1 : g1.EdgesInGrid := by
            rw [hpq]
            exact hE
          have key : ∃ fuel r, searchLoop G d1 d2 centerPt fuel g1 v1 = some r := by
            rcases hm with hm | ⟨hm1, hm2⟩
            · exact ihU g1.unknownCount (hU ▸ hm) _ g1 v1 rfl rfl hE1 hq1
            · exact ihM (g1.totalWeight G) (hM ▸ hm2) g1 v1 (hm1.trans hU) rfl hE1 hq1
          obtain ⟨fuel, r, hr⟩ := key
          exact ⟨fuel + 1, r, by simp [searchLoop, hit, hr]⟩
  exact key _ _ g v rfl rfl hE hq

end FlexGridGraph


/-! ## Running the main loop: fuel and invariants -/

namespace FlexGridGraph

theorem searchLoop_fuel_mono (G : Globals) (d1 d2 : FlexMazeIdx) (centerPt : Int × Int)
    (fuel k : Nat) (g : FlexGridGraph) (v : Nat) (r : LoopResult)
    (h : searchLoop G d1 d2 centerPt fuel g v = some r) :
    searchLoop G d1 d2 centerPt (fuel + k) g v = some r := by
  induction fuel generalizing g v with
  | zero => simp [searchLoop] at h
  | succ fuel ih =>
    rw [Nat.succ_add]
    unfold searchLoop at h ⊢
    cases hit : searchIter G d1 d2 centerPt g v with
    | inl r1 =>
      simp only [hit] at h ⊢
      exact h
    | inr pr =>
      obtain ⟨g1, v1⟩ := pr
      simp only [hit] at h ⊢
      exact ih g1 v1 h

/-- Invariant reasoning over the main loop: a property of the grid state that every
non-exiting iteration preserves holds in the state from which the loop exits. -/
theorem searchLoop_exit (G : Globals) (d1 d2 : FlexMazeIdx) (centerPt : Int × Int)
    (P : FlexGridGraph → Prop)
    (hstep : ∀ g v g1 v1, P g → searchIter G d1 d2 centerPt g v = .inr (g1, v1) → P g1)
    (fuel : Nat) (g : FlexGridGraph) (v : Nat) (r : LoopResult)
    (h : searchLoop G d1 d2 centerPt fuel g v = some r) (hP : P g) :
    ∃ g1 v1, P g1 ∧ searchIter G d1 d2 centerPt g1 v1 = .inl r := by
  induction fuel generalizing g v with
  | zero => simp [searchLoop] at h
  | succ fuel ih =>
    unfold searchLoop at h
    cases hit : searchIter G d1 d2 centerPt g v with
    | inl r1 =>
      simp only [hit, Option.some.injEq] at h
      subst h
      exact ⟨g, v, hP, hit⟩
    | inr pr =>
      obtain ⟨g1, v1⟩ := pr
      simp only [hit] at h
      exact ih g1 v1 h (hstep g v g1 v1 hP hit)

/-- The two ways in which an iteration exits the loop. -/
theorem searchIter_inl (G : Globals) (d1 d2 : FlexMazeIdx) (centerPt : Int × Int)
    (g : FlexGridGraph) (v : Nat) (r : LoopResult)
    (h : searchIter G d1 d2 centerPt g v = .inl r) :
    (g.wavefront = [] ∧ r = ⟨none, g, v⟩)
    ∨ ∃ w rest, wavefrontPop g.wavefront = some (w, rest)
        ∧ g.prevAstarNodeDir w.idx = .UNKNOWN ∧ g.isDst w.idx = true
        ∧ r = ⟨some w, g.withState g.prevAstarNodeDir rest, v + 1⟩ := by
  unfold searchIter at h
  cases hpop : wavefrontPop g.wavefront with
  | none =>
    left
    simp only [hpop, Sum.inl.injEq] at h
    exact ⟨wavefrontPop_none hpop, h.symm⟩
  | some pr =>
    obtain ⟨w, rest⟩ := pr
    right
    simp only [hpop] at h
    split_ifs at h with h1 h2
    simp only [Sum.inl.injEq] at h
    refine ⟨w, rest, rfl, ?_, h2, h.symm⟩
    simpa [getPrevAstarNodeDir] using h1

/-- What a non-exiting iteration does: it pops a cell `w` and either drops it as stale or
expands it. -/
theorem searchIter_inr (G : Globals) (d1 d2 : FlexMazeIdx) (centerPt : Int × Int)
    (g g1 : FlexGridGraph) (v v1 : Nat)
    (h : searchIter G d1 d2 centerPt g v = .inr (g1, v1)) :
    ∃ w rest, wavefrontPop g.wavefront = some (w, rest)
      ∧ ((g.prevAstarNodeDir w.idx ≠ .UNKNOWN ∧ g1 = g.withState g.prevAstarNodeDir rest ∧ v1 = v)
        ∨ (g.prevAstarNodeDir w.idx = .UNKNOWN ∧ g.isDst w.idx = false
          ∧ g1 = (g.withState g.prevAstarNodeDir rest).expandWavefront G w d1 d2 centerPt
          ∧ v1 = v + 1)) := by
  unfold searchIter at h
  cases hpop : wavefrontPop g.wavefront with
  | none => simp [hpop] at h
  | some pr =>
    obtain ⟨w, rest⟩ := pr
    refine ⟨w, rest, rfl, ?_⟩
    simp only [hpop] at h
    split_ifs at h with h1 h2
    · left
      simp only [Sum.inr.injEq, Prod.mk.injEq] at h
      exact ⟨h1, h.1.symm, h.2.symm⟩
    · right
      simp only [Sum.inr.injEq, Prod.mk.injEq] at h
      refine ⟨?_, by simpa using h2, h.1.symm, h.2.symm⟩
      simpa [getPrevAstarNodeDir] using h1

end FlexGridGraph

/-! ## Cells pushed by an iteration, seeding -/

namespace FlexGridGraph

theorem expand_frame (G : Globals) (g : FlexGridGraph) (w : FlexWavefrontGrid)
    (d : frDirEnum) (d1 d2 : FlexMazeIdx) (centerPt : Int × Int) :
    ∃ p, g.expand G w d d1 d2 centerPt = g.withState p g.wavefront
      ∨ g.expand G w d d1 d2 centerPt
          = g.withState p (g.wavefront ++ [g.childGrid G w d d1 d2 centerPt]) := by
  unfold expand
  simp only
  split_ifs
  · exact ⟨_, Or.inr rfl⟩
  · exact ⟨_, Or.inl rfl⟩
  · exact ⟨_, Or.inr rfl⟩

/-- The cells pushed by the guarded expansions of `w`: each is the child of `w` for a direction
in which `w` was expandable at that moment. -/
theorem foldl_expandIf_queue (G : Globals) (d1 d2 : FlexMazeIdx) (centerPt : Int × Int)
    (w : FlexWavefrontGrid) (dirs : List frDirEnum) (g : FlexGridGraph) :
    ∃ p kids, dirs.foldl (expandIf G d1 d2 centerPt w) g = g.withState p (g.wavefront ++ kids)
      ∧ ∀ k ∈ kids, ∃ d ∈ dirs, ∃ p1 q1, (g.withState p1 q1).isExpandable w d = true
          ∧ k = (g.withState p1 q1).childGrid G w d d1 d2 centerPt := by
  induction dirs generalizing g with
  | nil => exact ⟨g.prevAstarNodeDir, [], by simp [withState], by simp⟩
  | cons d rest ih =>
    simp only [List.foldl_cons]
    have hstep : ∃ p kids0, expandIf G d1 d2 centerPt w g d = g.withState p (g.wavefront ++ kids0)
        ∧ ∀ k ∈ kids0, g.isExpandable w d = true ∧ k = g.childGrid G w d d1 d2 centerPt := by
      unfold expandIf
      by_cases hx : g.isExpandable w d = true
      · simp only [hx, if_true]
        obtain ⟨p, hp | hp⟩ := expand_frame G g w d d1 d2 centerPt
        · exact ⟨p, [], by simpa using hp, by simp⟩
        · exact ⟨p, [_], hp, by simp [hx]⟩
      · simp only [hx, if_false]
        exact ⟨g.prevAstarNodeDir, [], by simp [withState], by simp⟩
    obtain ⟨p, kids0, h0, hk0⟩ := hstep
    obtain ⟨p1, kids1, h1, hk1⟩ := ih (g.withState p (g.wavefront ++ kids0))
    refine ⟨p1, kids0 ++ kids1, ?_, ?_⟩
    · rw [h0, h1]
      simp [withState]
    · intro k hk
      rcases List.mem_append.mp hk with hk | hk
      · obtain ⟨hx, e⟩ := hk0 k hk
        exact ⟨d, List.mem_cons_self _ _, g.prevAstarNodeDir, g.wavefront, hx, e⟩
      · obtain ⟨d', hd', p2, q2, hx, e⟩ := hk1 k hk
        exact ⟨d', List.mem_cons_of_mem _ hd', p2, q2, hx, e⟩

theorem expandWavefront_queue (G : Globals) (d1 d2 : FlexMazeIdx) (centerPt : Int × Int)
    (w : FlexWavefrontGrid) (g : FlexGridGraph) :
    ∃ p kids, g.expandWavefront G w d1 d2 centerPt = g.withState p (g.wavefront ++ kids)
      ∧ ∀ k ∈ kids, ∃ d ∈ expandOrder, ∃ p1 q1, (g.withState p1 q1).isExpandable w d = true
          ∧ k = (g.withState p1 q1).childGrid G w d d1 d2 centerPt :=
  foldl_expandIf_queue G d1 d2 centerPt w expandOrder g

/-- Every cell of the wavefront stays connected to the seeds by existing edges. -/
theorem searchIter_connected (G : Globals) (d1 d2 : FlexMazeIdx) (centerPt : Int × Int)
    (g0 : FlexGridGraph) (seeds : List FlexMazeIdx) (g g1 : FlexGridGraph) (v v1 : Nat)
    (hP : (∃ p q, g = g0.withState p q) ∧ ∀ w ∈ g.wavefront, Connected g0.hasEdge seeds w.idx)
    (h : searchIter G d1 d2 centerPt g v = .inr (g1, v1)) :
    (∃ p q, g1 = g0.withState p q) ∧ ∀ w ∈ g1.wavefront, Connected g0.hasEdge seeds w.idx := by
  obtain ⟨⟨p, q, rfl⟩, hc⟩ := hP
  obtain ⟨w, rest, hpop, hcase⟩ := searchIter_inr G d1 d2 centerPt _ g1 v v1 h
  have hperm := wavefrontPop_perm hpop
  have hw : Connected g0.hasEdge seeds w.idx := hc w (hperm.subset (List.mem_cons_self _ _))
  have hrest : ∀ x ∈ rest, Connected g0.hasEdge seeds x.idx :=
    fun x hx => hc x (hperm.subset (List.mem_cons_of_mem _ hx))
  rcases hcase with ⟨-, e, -⟩ | ⟨-, -, e, -⟩
  · subst e
    exact ⟨⟨_, _, rfl⟩, hrest⟩
  · obtain ⟨p1, kids, hk, hkids⟩ := expandWavefront_queue G d1 d2 centerPt w
      ((g0.withState p q).withState (g0.withState p q).prevAstarNodeDir rest)
    rw [hk] at e
    subst e
    refine ⟨⟨_, _, rfl⟩, ?_⟩
    intro x hx
    rcases List.mem_append.mp hx with hx | hx
    · exact hrest x hx
    · obtain ⟨d, -, p2, q2, hexp, e⟩ := hkids x hx
      subst e
      rw [childGrid_idx]
      exact Connected.step _ _ hw (isExpandable_true hexp).1

theorem bufDirs_zero (n : Nat) : bufDirs n 0 = List.replicate n frDirEnum.UNKNOWN := by
  induction n with
  | zero => rfl
  | succ n ih =>
    simp only [bufDirs, Nat.zero_mod, Nat.zero_div, ih, List.replicate_succ]
    rfl

theorem trailValid_replicate (g : FlexGridGraph) (c : FlexMazeIdx) (n : Nat) :
    g.trailValid c (List.replicate n frDirEnum.UNKNOWN) := by
  induction n generalizing c with
  | zero => simp [trailValid]
  | succ n ih =>
    simp only [List.replicate_succ, trailValid]
    exact ⟨fun h => absurd rfl h, ih _⟩

/-- The seeding loop when no cell of `connComps` is a destination: nothing is returned early
and one seed with an empty buffer is pushed per cell, in order. -/
theorem searchInit_none (G : Globals) (d1 d2 : FlexMazeIdx) (centerPt : Int × Int)
    (l : List FlexMazeIdx) (g : FlexGridGraph) (h : ∀ c ∈ l, g.isDst c = false) :
    ∃ seeds, searchInit G d1 d2 centerPt l g
        = (none, g.withState g.prevAstarNodeDir (g.wavefront ++ seeds))
      ∧ seeds.map (fun w => w.idx) = l ∧ ∀ w ∈ seeds, w.backTraceBuffer = 0 := by
  induction l generalizing g with
  | nil => exact ⟨[], by simp [searchInit, withState], rfl, by simp⟩
  | cons c rest ih =>
    have hc : g.isDst c = false := h c (List.mem_cons_self _ _)
    obtain ⟨seeds, h1, h2, h3⟩ := ih (g.wavefrontPush (g.seedGrid G d1 d2 centerPt c))
      (fun x hx => h x (List.mem_cons_of_mem _ hx))
    refine ⟨g.seedGrid G d1 d2 centerPt c :: seeds, ?_, ?_, ?_⟩
    · unfold searchInit
      simp only [hc, Bool.false_eq_true, if_false]
      rw [h1]
      simp [withState, wavefrontPush]
    · simp only [List.map_cons, h2]
      rfl
    · intro w hw
      rcases List.mem_cons.mp hw with hw | hw
      · subst hw
        rfl
      · exact h3 w hw

theorem sampleGrid_edgesInGrid (X Y Z : Int) (bits : FlexMazeIdx → frDirEnum → Bool)
    (src dst : List FlexMazeIdx) (len : Int) : (sampleGrid X Y Z bits src dst len).EdgesInGrid := by
  intro c d h
  cases d <;> simp only [sampleGrid, hasEdgeOfBits, Bool.and_eq_true] at h
  · exact absurd h (by simp)
  all_goals exact h.1.2

end FlexGridGraph

/-! ## Unreachable destination (C3) -/

namespace FlexGridGraph

theorem brokenRowGrid_connected (c : FlexMazeIdx)
    (h : Connected brokenRowGrid.hasEdge [⟨0, 0, 0⟩] c) :
    0 ≤ c.x ∧ c.x ≤ 2 ∧ c.y = 0 ∧ c.z = 0 := by
  induction h with
  | seed c h =>
    simp only [List.mem_singleton] at h
    subst h
    decide
  | step c d _ he ih =>
    obtain ⟨x, y, z⟩ := c
    simp only at ih
    obtain ⟨h0, h2, rfl, rfl⟩ := ih
    cases d <;>
      simp only [brokenRowGrid, sampleGrid, hasEdgeOfBits, inDims, getNextGrid, Bool.and_eq_true,
        decide_eq_true_eq, Bool.not_eq_true', Bool.and_eq_false_imp, FlexMazeIdx.mk.injEq,
        Bool.false_eq_true, decide_eq_false_iff_not] at he <;>
      simp only [getNextGrid]
    all_goals (try omega)
    · obtain ⟨⟨-, h3, -⟩, -⟩ := he
      exact ⟨h3, by omega, trivial, trivial⟩
    · obtain ⟨-, h4⟩ := he
      have hx : x ≠ 2 := fun e => h4 ⟨e, trivial, trivial⟩ trivial
      exact ⟨by omega, by omega, trivial, trivial⟩

/-- C3: on a finite grid (every edge leads to a grid cell, buffer of at least one direction),
if no cell connected to `connComps` by existing edges (the cells of `connComps` included) is a
destination, `search` returns with `found = false` and an empty wavefront, and `path`,
`connComps`, `ccMazeIdx1` and `ccMazeIdx2` are what they were on entry. -/
theorem search_unreachable_returns_false (G : Globals) (g : FlexGridGraph)
    (connComps nextPin path : List FlexMazeIdx) (ccMazeIdx1 ccMazeIdx2 : FlexMazeIdx)
    (centerPt : Int × Int) (hB : 0 < G.WAVEFRONTBUFFERSIZE) (hE : g.EdgesInGrid)
    (hno : ∀ c, Connected g.hasEdge connComps c → g.isDst c = false) :
    ∃ fuel r, search G g fuel connComps nextPin path ccMazeIdx1 ccMazeIdx2 centerPt = some r
      ∧ r.found = false ∧ r.grid.wavefront = [] ∧ r.path = path ∧ r.connComps = connComps
      ∧ r.ccMazeIdx1 = ccMazeIdx1 ∧ r.ccMazeIdx2 = ccMazeIdx2 := by
  obtain ⟨seeds, hinit, hidx, hbuf⟩ := searchInit_none G (g.dstBoxLo nextPin) (dstBoxHi nextPin)
    centerPt connComps (g.withState g.prevAstarNodeDir [])
    (fun c hc => hno c (Connected.seed c hc))
  have hinit : searchInit G (g.dstBoxLo nextPin) (dstBoxHi nextPin) centerPt connComps
      { g with wavefront := [] } = (none, g.withState g.prevAstarNodeDir seeds) := hinit
  have hq : (g.withState g.prevAstarNodeDir seeds).QueueOK G := by
    intro w hw
    have hw : w ∈ seeds := by simpa [withState] using hw
    refine ⟨by rw [hbuf w hw]; positivity, ?_⟩
    rw [FlexWavefrontGrid.dirs, hbuf w hw, bufDirs_zero]
    exact trailValid_replicate _ _ _
  obtain ⟨fuel, r, hloop⟩ := searchLoop_terminates G (g.dstBoxLo nextPin) (dstBoxHi nextPin)
    centerPt hB (g.withState g.prevAstarNodeDir seeds) 0 hE hq
  have hP0 : (∃ p q, g.withState g.prevAstarNodeDir seeds = g.withState p q)
      ∧ ∀ w ∈ (g.withState g.prevAstarNodeDir seeds).wavefront,
          Connected g.hasEdge connComps w.idx := by
    refine ⟨⟨_, _, rfl⟩, ?_⟩
    intro w hw
    have hw : w ∈ seeds := by simpa [withState] using hw
    refine Connected.seed _ ?_
    rw [← hidx]
    exact List.mem_map_of_mem _ hw
  obtain ⟨g1, v1, ⟨⟨p, q, rfl⟩, hc⟩, hexit⟩ := searchLoop_exit G (g.dstBoxLo nextPin)
    (dstBoxHi nextPin) centerPt
    (fun s => (∃ p q, s = g.withState p q) ∧ ∀ w ∈ s.wavefront, Connected g.hasEdge connComps w.idx)
    (fun s v s1 v1 hs hi => searchIter_connected G _ _ centerPt g connComps s s1 v v1 hs hi)
    fuel (g.withState g.prevAstarNodeDir seeds) 0 r hloop hP0
  have hr : r.reached = none ∧ r.grid.wavefront = [] := by
    rcases searchIter_inl G _ _ centerPt _ v1 r hexit with ⟨h1, h2⟩ | ⟨w, rest, hpop, -, hd, -⟩
    · subst h2
      exact ⟨rfl, h1⟩
    · have hw : w ∈ (g.withState p q).wavefront :=
        (wavefrontPop_perm hpop).subset (List.mem_cons_self _ _)
      have := hno _ (hc w hw)
      rw [show (g.withState p q).isDst = g.isDst from rfl, this] at hd
      exact absurd hd (by simp)
  refine ⟨fuel, ⟨false, path, connComps, ccMazeIdx1, ccMazeIdx2, r.grid, r.visited, 0⟩, ?_,
    rfl, hr.2, rfl, rfl, rfl, rfl⟩
  simp only [search, hinit, hloop, hr.1]

theorem search_unreachable_returns_false_witness :
    0 < (sampleGlobals 2).WAVEFRONTBUFFERSIZE ∧ brokenRowGrid.EdgesInGrid
    ∧ (∀ c, Connected brokenRowGrid.hasEdge [⟨0, 0, 0⟩] c → brokenRowGrid.isDst c = false)
    ∧ ∃ fuel r, search (sampleGlobals 2) brokenRowGrid fuel [⟨0, 0, 0⟩] [⟨4, 0, 0⟩] []
          ⟨0, 0, 0⟩ ⟨0, 0, 0⟩ (400, 0) = some r
        ∧ r.found = false ∧ r.grid.wavefront = [] ∧ r.path = [] ∧ r.connComps = [⟨0, 0, 0⟩]
        ∧ r.ccMazeIdx1 = ⟨0, 0, 0⟩ ∧ r.ccMazeIdx2 = ⟨0, 0, 0⟩ :=
  have hno : ∀ c, Connected brokenRowGrid.hasEdge [⟨0, 0, 0⟩] c → brokenRowGrid.isDst c = false := by
    intro c hc
    obtain ⟨-, h2, -, -⟩ := brokenRowGrid_connected c hc
    simp only [brokenRowGrid, sampleGrid, List.mem_singleton, decide_eq_false_iff_not]
    intro e
    subst e
    exact absurd h2 (by decide)
  ⟨by decide, sampleGrid_edgesInGrid _ _ _ _ _ _ _, hno,
    search_unreachable_returns_false (sampleGlobals 2) brokenRowGrid [⟨0, 0, 0⟩] [⟨4, 0, 0⟩] []
      ⟨0, 0, 0⟩ ⟨0, 0, 0⟩ (400, 0) (by decide) (sampleGrid_edgesInGrid _ _ _ _ _ _ _) hno⟩

end FlexGridGraph

/-! ## Invariants through the six expansions and through the loop -/

namespace FlexGridGraph

/-- A property of the grid state that every guarded `expand` of `w` preserves holds after
`expandWavefront`. -/
theorem expandWavefront_inv (G : Globals) (d1 d2 : FlexMazeIdx) (centerPt : Int × Int)
    (w : FlexWavefrontGrid) (I : FlexGridGraph → Prop)
    (h : ∀ g d, d ∈ expandOrder → I g → g.isExpandable w d = true →
      I (g.expand G w d d1 d2 centerPt))
    (g : FlexGridGraph) (hg : I g) : I (g.expandWavefront G w d1 d2 centerPt) := by
  unfold expandWavefront
  generalize expandOrder = dirs at h
  induction dirs generalizing g with
  | nil => exact hg
  | cons d rest ih =>
    simp only [List.foldl_cons]
    refine ih _ ?_ (fun g e he => h g e (List.mem_cons_of_mem _ he))
    unfold expandIf
    by_cases hx : g.isExpandable w d = true
    · simp only [hx, if_true]
      exact h g d (List.mem_cons_self _ _) hg hx
    · simp only [hx, if_false]
      exact hg

/-- A property that every iteration preserves, also the exiting one, holds in every state of
the loop. -/
theorem loopState_inv (G : Globals) (d1 d2 : FlexMazeIdx) (centerPt : Int × Int)
    (P : FlexGridGraph → Prop)
    (hstep : ∀ g v g1 v1, P g → searchIter G d1 d2 centerPt g v = .inr (g1, v1) → P g1)
    (hexit : ∀ g v r, P g → searchIter G d1 d2 centerPt g v = .inl r → P r.grid)
    (n : Nat) (g : FlexGridGraph) (v : Nat) (hP : P g) :
    P (loopState G d1 d2 centerPt n g v).1 := by
  induction n generalizing g v with
  | zero => exact hP
  | succ n ih =>
    unfold loopState
    cases hit : searchIter G d1 d2 centerPt g v with
    | inl r => exact hexit g v r hP hit
    | inr pr =>
      obtain ⟨g1, v1⟩ := pr
      exact ih g1 v1 (hstep g v g1 v1 hP hit)

/-- The seeding loop pushes one cell with an empty buffer per seeded cell of `connComps`. -/
theorem searchInit_snd (G : Globals) (d1 d2 : FlexMazeIdx) (centerPt : Int × Int)
    (l : List FlexMazeIdx) (g : FlexGridGraph) :
    ∃ seeds, (searchInit G d1 d2 centerPt l g).2
        = g.withState g.prevAstarNodeDir (g.wavefront ++ seeds)
      ∧ ∀ w ∈ seeds, w.backTraceBuffer = 0 ∧ w.idx ∈ l := by
  induction l generalizing g with
  | nil => exact ⟨[], by simp [searchInit, withState], by simp⟩
  | cons c rest ih =>
    unfold searchInit
    by_cases hc : g.isDst c = true
    · simp only [hc, if_true]
      exact ⟨[], by simp [withState], by simp⟩
    · simp only [hc, Bool.false_eq_true, if_false]
      obtain ⟨seeds, h1, h2⟩ := ih (g.wavefrontPush (g.seedGrid G d1 d2 centerPt c))
      refine ⟨g.seedGrid G d1 d2 centerPt c :: seeds, ?_, ?_⟩
      · rw [h1]
        simp [withState, wavefrontPush]
      · intro w hw
        rcases List.mem_cons.mp hw with hw | hw
        · subst hw
          exact ⟨rfl, List.mem_cons_self _ _⟩
        · exact ⟨(h2 w hw).1, List.mem_cons_of_mem _ (h2 w hw).2⟩

theorem seeds_queueOK (G : Globals) (g : FlexGridGraph) (p : FlexMazeIdx → frDirEnum)
    (seeds : List FlexWavefrontGrid) (h : ∀ w ∈ seeds, w.backTraceBuffer = 0) :
    (g.withState p seeds).QueueOK G := by
  intro w hw
  have hw : w ∈ seeds := hw
  refine ⟨by rw [h w hw]; positivity, ?_⟩
  rw [FlexWavefrontGrid.dirs, h w hw, bufDirs_zero]
  exact trailValid_replicate _ _ _

end FlexGridGraph

/-! ## Committed cells lie in the grid -/

namespace FlexGridGraph

theorem expand_commits_inDims (G : Globals) (g : FlexGridGraph) (w : FlexWavefrontGrid)
    (d : frDirEnum) (d1 d2 : FlexMazeIdx) (centerPt : Int × Int)
    (hB : 0 < G.WAVEFRONTBUFFERSIZE) (hbuf : w.backTraceBuffer < 8 ^ G.WAVEFRONTBUFFERSIZE)
    (hval : g.trailValid w.idx (w.dirs G))
    (h : ∀ c, g.prevAstarNodeDir c ≠ .UNKNOWN → inDims g.xDim g.yDim g.zDim c = true) :
    ∀ c, (g.expand G w d d1 d2 centerPt).prevAstarNodeDir c ≠ .UNKNOWN →
      inDims g.xDim g.yDim g.zDim c = true := by
  have hvalid := trailValid_append g w.idx _ _ (dirs_eq G w hB hbuf ▸ hval)
  rcases expand_cases G g w d d1 d2 centerPt hB with ⟨he, -⟩ | ⟨he, -⟩ | ⟨he, ht1, -⟩
  · rw [he]
    exact h
  · rw [he]
    exact h
  · rw [he]
    intro c hc
    by_cases e : c = w.tailIdx G
    · subst e
      exact hvalid.2 ht1
    · apply h
      simpa [wavefrontPush, setPrevAstarNodeDir, e] using hc

theorem searchIter_commits_inDims (G : Globals) (d1 d2 : FlexMazeIdx) (centerPt : Int × Int)
    (g0 : FlexGridGraph) (hB : 0 < G.WAVEFRONTBUFFERSIZE) (hE : g0.EdgesInGrid)
    (g g1 : FlexGridGraph) (v v1 : Nat)
    (hP : (∃ p q, g = g0.withState p q) ∧ g.QueueOK G
      ∧ ∀ c, g.prevAstarNodeDir c ≠ .UNKNOWN → inDims g0.xDim g0.yDim g0.zDim c = true)
    (h : searchIter G d1 d2 centerPt g v = .inr (g1, v1)) :
    (∃ p q, g1 = g0.withState p q) ∧ g1.QueueOK G
      ∧ ∀ c, g1.prevAstarNodeDir c ≠ .UNKNOWN → inDims g0.xDim g0.yDim g0.zDim c = true := by
  obtain ⟨⟨p, q, rfl⟩, hq, hc⟩ := hP
  obtain ⟨⟨p1, q1, e1⟩, -, hq1, -⟩ :=
    searchIter_progress G d1 d2 centerPt _ g1 v v1 hB (show (g0.withState p q).EdgesInGrid from hE)
      hq h
  refine ⟨⟨p1, q1, e1⟩, hq1, ?_⟩
  obtain ⟨w, rest, hpop, hcase⟩ := searchIter_inr G d1 d2 centerPt _ g1 v v1 h
  have hw : w ∈ (g0.withState p q).wavefront :=
    (wavefrontPop_perm hpop).subset (List.mem_cons_self _ _)
  rcases hcase with ⟨-, e, -⟩ | ⟨-, -, e, -⟩
  · subst e
    exact hc
  · subst e
    have key := expandWavefront_inv G d1 d2 centerPt w
      (fun s => (∃ p2 q2, s = g0.withState p2 q2)
        ∧ ∀ c, s.prevAstarNodeDir c ≠ .UNKNOWN → inDims g0.xDim g0.yDim g0.zDim c = true)
      (fun s d _ hs _ => by
        obtain ⟨⟨p2, q2, rfl⟩, hs2⟩ := hs
        refine ⟨?_, expand_commits_inDims G _ w d d1 d2 centerPt hB (hq w hw).1
          (trailValid_frame (hq w hw).2 rfl rfl rfl) hs2⟩
        obtain ⟨p3, e3 | e3⟩ := expand_frame G (g0.withState p2 q2) w d d1 d2 centerPt
        · exact ⟨_, _, e3⟩
        · exact ⟨_, _, e3⟩)
      ((g0.withState p q).withState (g0.withState p q).prevAstarNodeDir rest) ⟨⟨_, _, rfl⟩, hc⟩
    exact key.2

theorem validCells_card (g : FlexGridGraph) :
    g.validCells.card = g.xDim.toNat * g.yDim.toNat * g.zDim.toNat := by
  unfold validCells
  rw [Finset.card_image_of_injective]
  · simp
  · intro a b hab
    simp only [FlexMazeIdx.mk.injEq] at hab
    exact Prod.ext (Prod.ext hab.1 hab.2.1) hab.2.2

end FlexGridGraph
/-! ## Visits and commits against the grid size (C6) -/

namespace FlexGridGraph

/-- C6 (counterexample): on the 3 x 2 x 1 grid without the edge between `(1,1,0)` and
`(2,1,0)`, with a buffer of two directions, source `(0,1,0)` and destination `(2,1,0)`, the
search succeeds after 7 pops that pass the stale test, more than the 6 cells of the grid. -/
theorem search_visits_exceed_grid_size :
    (search (sampleGlobals 2) detourGrid 20 [⟨0, 1, 0⟩] [⟨2, 1, 0⟩] [] ⟨0, 0, 0⟩ ⟨0, 0, 0⟩
        (0, 0)).map (fun r => (r.found, r.visited)) = some (true, 7)
      ∧ detourGrid.xDim * detourGrid.yDim * detourGrid.zDim = 6 := by
  decide

/-- C6 (amended): during one search on a finite grid, started with every committed direction
`UNKNOWN`, every cell that holds a committed direction after any number of iterations of the
main loop is one of the `xDim * yDim * zDim` cells of the grid: at most that many cells are
committed. -/
theorem search_commits_within_grid (G : Globals) (g : FlexGridGraph)
    (connComps nextPin : List FlexMazeIdx) (centerPt : Int × Int)
    (hB : 0 < G.WAVEFRONTBUFFERSIZE) (hE : g.EdgesInGrid)
    (h0 : ∀ c, g.prevAstarNodeDir c = .UNKNOWN) (n : Nat) :
    (∀ c, (loopState G (g.dstBoxLo nextPin) (dstBoxHi nextPin) centerPt n
        (searchInit G (g.dstBoxLo nextPin) (dstBoxHi nextPin) centerPt connComps
          { g with wavefront := [] }).2 0).1.prevAstarNodeDir c ≠ .UNKNOWN → c ∈ g.validCells)
      ∧ g.validCells.card = g.xDim.toNat * g.yDim.toNat * g.zDim.toNat := by
  refine ⟨?_, validCells_card g⟩
  obtain ⟨seeds, hs, hbuf⟩ := searchInit_snd G (g.dstBoxLo nextPin) (dstBoxHi nextPin) centerPt
    connComps (g.withState g.prevAstarNodeDir [])
  have hs : (searchInit G (g.dstBoxLo nextPin) (dstBoxHi nextPin) centerPt connComps
      { g with wavefront := [] }).2 = g.withState g.prevAstarNodeDir seeds := hs
  rw [hs]
  have key := loopState_inv G (g.dstBoxLo nextPin) (dstBoxHi nextPin) centerPt
    (fun s => (∃ p q, s = g.withState p q) ∧ s.QueueOK G
      ∧ ∀ c, s.prevAstarNodeDir c ≠ .UNKNOWN → inDims g.xDim g.yDim g.zDim c = true)
    (fun s v s1 v1 hP hi => searchIter_commits_inDims G _ _ centerPt g hB hE s s1 v v1 hP hi)
    (fun s v r hP hi => by
      obtain ⟨⟨p, q, rfl⟩, hq, hc⟩ := hP
      rcases searchIter_inl G _ _ centerPt _ v r hi with ⟨-, e⟩ | ⟨w, rest, hpop, -, -, e⟩
      · subst e
        exact ⟨⟨p, q, rfl⟩, hq, hc⟩
      · subst e
        refine ⟨⟨_, _, rfl⟩, ?_, hc⟩
        intro x hx
        have := hq x ((wavefrontPop_perm hpop).subset (List.mem_cons_of_mem _ hx))
        exact ⟨this.1, trailValid_frame this.2 rfl rfl rfl⟩)
    n (g.withState g.prevAstarNodeDir seeds) 0
    ⟨⟨_, _, rfl⟩, seeds_queueOK G g _ seeds (fun w hw => (hbuf w hw).1),
      fun c hc => absurd (h0 c) hc⟩
  intro c hc
  exact (mem_validCells g c).2 (key.2.2 c hc)

theorem search_commits_within_grid_witness :
    0 < (sampleGlobals 2).WAVEFRONTBUFFERSIZE ∧ detourGrid.EdgesInGrid
    ∧ (∀ c, detourGrid.prevAstarNodeDir c = .UNKNOWN)
    ∧ (∀ c, (loopState (sampleGlobals 2) (detourGrid.dstBoxLo [⟨2, 1, 0⟩]) (dstBoxHi [⟨2, 1, 0⟩])
        (0, 0) 5
        (searchInit (sampleGlobals 2) (detourGrid.dstBoxLo [⟨2, 1, 0⟩]) (dstBoxHi [⟨2, 1, 0⟩])
          (0, 0) [⟨0, 1, 0⟩] { detourGrid with wavefront := [] }).2 0).1.prevAstarNodeDir c
          ≠ .UNKNOWN → c ∈ detourGrid.validCells)
      ∧ detourGrid.validCells.card
          = detourGrid.xDim.toNat * detourGrid.yDim.toNat * detourGrid.zDim.toNat :=
  ⟨by decide, sampleGrid_edgesInGrid _ _ _ _ _ _ _, fun _ => rfl,
    search_commits_within_grid (sampleGlobals 2) detourGrid [⟨0, 1, 0⟩] [⟨2, 1, 0⟩] (0, 0)
      (by decide) (sampleGrid_edgesInGrid _ _ _ _ _ _ _) (fun _ => rfl) 5⟩

end FlexGridGraph

/-! ## Trails -/

namespace FlexGridGraph

theorem padDirs_length (n : Nat) (ds : List frDirEnum) : (padDirs n ds).length = n := by
  induction n generalizing ds with
  | zero => rfl
  | succ n ih => cases ds <;> simp [padDirs, ih]

theorem padDirs_nil (n : Nat) : padDirs n [] = List.replicate n frDirEnum.UNKNOWN := by
  induction n with
  | zero => rfl
  | succ n ih => simp [padDirs, ih, List.replicate_succ]

theorem padDirs_succ (n : Nat) (ds : List frDirEnum) :
    padDirs (n + 1) ds = padDirs n ds ++ [ds.getD n .UNKNOWN] := by
  induction n generalizing ds with
  | zero => cases ds <;> simp [padDirs]
  | succ n ih =>
    cases ds with
    | nil =>
      have := ih []
      simp only [padDirs, List.getD_nil, List.cons_append, List.cons.injEq, true_and] at this ⊢
      exact this
    | cons d r =>
      have := ih r
      simp only [padDirs, List.getD_cons_succ, List.cons_append, List.cons.injEq, true_and] at this ⊢
      exact this

/-- What the buffer of a wavefront cell with trail `ds` holds: its first
`WAVEFRONTBUFFERSIZE - 1` directions and the direction that the next shift drops. -/
theorem dirs_split (G : Globals) (w : FlexWavefrontGrid) (ds : List frDirEnum)
    (hB : 0 < G.WAVEFRONTBUFFERSIZE) (hbuf : w.backTraceBuffer < 8 ^ G.WAVEFRONTBUFFERSIZE)
    (h : w.dirs G = padDirs G.WAVEFRONTBUFFERSIZE ds) :
    bufDirs (G.WAVEFRONTBUFFERSIZE - 1) w.backTraceBuffer = padDirs (G.WAVEFRONTBUFFERSIZE - 1) ds
      ∧ w.tailDir G = ds.getD (G.WAVEFRONTBUFFERSIZE - 1) .UNKNOWN := by
  have h1 := dirs_eq G w hB hbuf
  obtain ⟨B, hB1⟩ : ∃ B, G.WAVEFRONTBUFFERSIZE = B + 1 := ⟨G.WAVEFRONTBUFFERSIZE - 1, by omega⟩
  rw [h, hB1, padDirs_succ] at h1
  simp only [hB1, Nat.add_sub_cancel] at h1 ⊢
  have := List.append_inj' h1 rfl
  exact ⟨this.1.symm, by simpa using this.2.symm⟩

theorem goodTrail_weaken (g : FlexGridGraph) (k : Nat) (c : FlexMazeIdx) (ds : List frDirEnum)
    (h : g.GoodTrail k c ds) : g.GoodTrail (k + 1) c ds := by
  induction ds generalizing k c with
  | nil => exact h
  | cons d r ih =>
    obtain ⟨h1, h2, h3, h4, -, h6⟩ := h
    refine ⟨h1, h2, h3, h4, fun e => absurd e (by omega), ?_⟩
    cases k with
    | zero => exact h6
    | succ k => exact ih k _ h6

theorem goodTrail_weaken_le (g : FlexGridGraph) (k n : Nat) (c : FlexMazeIdx)
    (ds : List frDirEnum) (h : g.GoodTrail k c ds) (hkn : k ≤ n) : g.GoodTrail n c ds := by
  induction n with
  | zero =>
    have : k = 0 := by omega
    subst this
    exact h
  | succ n ih =>
    by_cases e : k = n + 1
    · subst e
      exact h
    · exact goodTrail_weaken g n c ds (ih (by omega))

/-- Good trails stay good when committed directions are only added. -/
theorem goodTrail_mono (g : FlexGridGraph) (p : FlexMazeIdx → frDirEnum)
    (q : List FlexWavefrontGrid) (hp : ∀ c, g.prevAstarNodeDir c ≠ .UNKNOWN → p c = g.prevAstarNodeDir c)
    (k : Nat) (c : FlexMazeIdx) (ds : List frDirEnum) (h : g.GoodTrail k c ds) :
    (g.withState p q).GoodTrail k c ds := by
  induction ds generalizing k c with
  | nil => exact h
  | cons d r ih =>
    obtain ⟨h1, h2, h3, h4, h5, h6⟩ := h
    refine ⟨h1, h2, h3, h4, ?_, ih _ _ h6⟩
    intro e
    have := h5 e
    show p c = d
    rw [hp c (by rw [this]; exact h1), this]

/-- A good trail whose cell `k` moves back gets committed is good with one more commit. -/
theorem goodTrail_commit (g : FlexGridGraph) (p : FlexMazeIdx → frDirEnum)
    (q : List FlexWavefrontGrid) (hp : ∀ c, g.prevAstarNodeDir c ≠ .UNKNOWN → p c = g.prevAstarNodeDir c)
    (k : Nat) (c : FlexMazeIdx) (ds : List frDirEnum) (h : g.GoodTrail (k + 1) c ds)
    (ht : ∀ t x, trailAt k c ds = some (t, x) → p t = x) :
    (g.withState p q).GoodTrail k c ds := by
  induction k generalizing c ds with
  | zero =>
    cases ds with
    | nil => exact h
    | cons d r =>
      obtain ⟨h1, h2, h3, h4, -, h6⟩ := h
      exact ⟨h1, h2, h3, h4, fun _ => ht c d rfl, goodTrail_mono g p q hp _ _ _ h6⟩
  | succ k ih =>
    cases ds with
    | nil => exact h
    | cons d r =>
      obtain ⟨h1, h2, h3, h4, -, h6⟩ := h
      exact ⟨h1, h2, h3, h4, fun e => absurd e (by omega), ih _ _ h6 (fun t x e => ht t x e)⟩

theorem goodTrail_ne_unknown (g : FlexGridGraph) (k : Nat) (c : FlexMazeIdx)
    (ds : List frDirEnum) (h : g.GoodTrail k c ds) : ∀ d ∈ ds, d ≠ frDirEnum.UNKNOWN := by
  induction ds generalizing k c with
  | nil => simp
  | cons d r ih =>
    intro x hx
    rcases List.mem_cons.mp hx with e | e
    · subst e
      exact h.1
    · exact ih _ _ h.2.2.2.2.2 x e

/-- The cell `k` moves back on a trail, when the trail is that long, in terms of the padded
directions. -/
theorem trailAt_eq (k : Nat) (c : FlexMazeIdx) (ds : List frDirEnum)
    (hds : ∀ d ∈ ds, d ≠ frDirEnum.UNKNOWN) (h : ds.getD k .UNKNOWN ≠ .UNKNOWN) :
    trailAt k c ds = some ((padDirs k ds).foldl getPrevGrid c, ds.getD k .UNKNOWN) := by
  induction k generalizing c ds with
  | zero =>
    cases ds with
    | nil => simp at h
    | cons d r => rfl
  | succ k ih =>
    cases ds with
    | nil => simp at h
    | cons d r =>
      simp only [trailAt, padDirs, List.foldl_cons, List.getD_cons_succ] at h ⊢
      exact ih _ r (fun x hx => hds x (List.mem_cons_of_mem _ hx)) h

theorem trailAt_none (k : Nat) (c : FlexMazeIdx) (ds : List frDirEnum)
    (hds : ∀ d ∈ ds, d ≠ frDirEnum.UNKNOWN) (h : ds.getD k .UNKNOWN = .UNKNOWN) :
    trailAt k c ds = none := by
  induction k generalizing c ds with
  | zero =>
    cases ds with
    | nil => rfl
    | cons d r => exact absurd h (hds d (List.mem_cons_self _ _))
  | succ k ih =>
    cases ds with
    | nil => rfl
    | cons d r =>
      simp only [trailAt, List.getD_cons_succ] at h ⊢
      exact ih _ r (fun x hx => hds x (List.mem_cons_of_mem _ hx)) h

end FlexGridGraph
/-! ## Good trails through `expand` and through the loop -/

namespace FlexGridGraph

theorem lastDir_eq_head (G : Globals) (w : FlexWavefrontGrid) (ds : List frDirEnum)
    (hB : 0 < G.WAVEFRONTBUFFERSIZE) (h : w.dirs G = padDirs G.WAVEFRONTBUFFERSIZE ds) :
    w.getLastDir = ds.headD .UNKNOWN := by
  obtain ⟨B, hB1⟩ : ∃ B, G.WAVEFRONTBUFFERSIZE = B + 1 := ⟨G.WAVEFRONTBUFFERSIZE - 1, by omega⟩
  unfold FlexWavefrontGrid.dirs at h
  rw [hB1] at h
  cases ds with
  | nil =>
    simp only [bufDirs, padDirs, List.cons.injEq] at h
    exact h.1
  | cons a r =>
    simp only [bufDirs, padDirs, List.cons.injEq] at h
    exact h.1

theorem opposite_ne_unknown (d : frDirEnum) (h : d ≠ .UNKNOWN) : d.opposite ≠ .UNKNOWN := by
  cases d <;> simp [frDirEnum.opposite] at h ⊢

/-- The cell pushed by `expand` continues the trail of the popped cell by the move `d`; the
committed directions only grow. -/
theorem expand_good (G : Globals) (g : FlexGridGraph) (w : FlexWavefrontGrid)
    (d : frDirEnum) (d1 d2 : FlexMazeIdx) (centerPt : Int × Int)
    (hB : 0 < G.WAVEFRONTBUFFERSIZE) (hd : d ≠ .UNKNOWN)
    (hbuf : w.backTraceBuffer < 8 ^ G.WAVEFRONTBUFFERSIZE) (ds : List frDirEnum)
    (hds : w.dirs G = padDirs G.WAVEFRONTBUFFERSIZE ds)
    (hg : g.GoodTrail G.WAVEFRONTBUFFERSIZE w.idx ds)
    (hx : g.isExpandable w d = true) :
    ∃ p, (∀ c, g.prevAstarNodeDir c ≠ .UNKNOWN → p c = g.prevAstarNodeDir c)
      ∧ (g.expand G w d d1 d2 centerPt = g.withState p g.wavefront
        ∨ (g.expand G w d d1 d2 centerPt
            = g.withState p (g.wavefront ++ [g.childGrid G w d d1 d2 centerPt])
          ∧ (g.childGrid G w d d1 d2 centerPt).dirs G = padDirs G.WAVEFRONTBUFFERSIZE (d :: ds)
          ∧ (g.withState p (g.wavefront ++ [g.childGrid G w d d1 d2 centerPt])).GoodTrail
              G.WAVEFRONTBUFFERSIZE (getNextGrid w.idx d) (d :: ds))) := by
  obtain ⟨hedge, hsrc, -, hlast⟩ := isExpandable_true hx
  obtain ⟨hsplit1, hsplit2⟩ := dirs_split G w ds hB hbuf hds
  have hne := goodTrail_ne_unknown g _ _ _ hg
  have hcd : (g.childGrid G w d d1 d2 centerPt).dirs G
      = padDirs G.WAVEFRONTBUFFERSIZE (d :: ds) := by
    rw [childGrid_dirs1 G g w d d1 d2 centerPt hB, hsplit1]
    obtain ⟨B, hB1⟩ : ∃ B, G.WAVEFRONTBUFFERSIZE = B + 1 := ⟨G.WAVEFRONTBUFFERSIZE - 1, by omega⟩
    simp only [hB1, Nat.add_sub_cancel, padDirs]
  have hhead : ds.head? ≠ some d.opposite := by
    have h1 := lastDir_eq_head G w ds hB hds
    cases ds with
    | nil => simp
    | cons a r =>
      simp only [List.headD_cons] at h1
      simp only [List.head?_cons, ne_eq, Option.some.injEq]
      rw [← h1]
      exact hlast
  have hgood : ∀ (p : FlexMazeIdx → frDirEnum) (q : List FlexWavefrontGrid),
      (∀ c, g.prevAstarNodeDir c ≠ .UNKNOWN → p c = g.prevAstarNodeDir c) →
      (w.tailDir G ≠ .UNKNOWN → p (w.tailIdx G) = w.tailDir G) →
      (g.withState p q).GoodTrail G.WAVEFRONTBUFFERSIZE (getNextGrid w.idx d) (d :: ds) := by
    intro p q hp hpt
    refine ⟨hd, hsrc, ?_, hhead, fun e => absurd e (by omega), ?_⟩
    · rw [getPrevGrid_getNextGrid]
      exact hedge
    · rw [getPrevGrid_getNextGrid]
      have hg1 : g.GoodTrail (G.WAVEFRONTBUFFERSIZE - 1 + 1) w.idx ds := by
        rw [Nat.sub_add_cancel hB]
        exact hg
      refine goodTrail_commit g p q hp _ _ _ hg1 ?_
      intro t x htx
      by_cases hU : ds.getD (G.WAVEFRONTBUFFERSIZE - 1) .UNKNOWN = .UNKNOWN
      · rw [trailAt_none _ _ _ hne hU] at htx
        exact absurd htx (by simp)
      · rw [trailAt_eq _ _ _ hne hU] at htx
        simp only [Option.some.injEq, Prod.mk.injEq] at htx
        obtain ⟨e1, e2⟩ := htx
        have h3 := hpt (by rw [hsplit2]; exact hU)
        unfold FlexWavefrontGrid.tailIdx at h3
        rw [hsplit1, e1, hsplit2, e2] at h3
        exact h3
  rcases expand_cases G g w d d1 d2 centerPt hB with ⟨he, -⟩ | ⟨he, ht⟩ | ⟨he, ht1, ht2⟩
  · exact ⟨g.prevAstarNodeDir, fun _ _ => rfl, Or.inl (by rw [he]; rfl)⟩
  · refine ⟨g.prevAstarNodeDir, fun _ _ => rfl, Or.inr ⟨by rw [he]; rfl, hcd, ?_⟩⟩
    refine hgood _ _ (fun _ _ => rfl) ?_
    intro hne1
    rcases ht with ht | ht
    · exact absurd ht hne1
    · exact ht.2
  · refine ⟨fun c => if c = w.tailIdx G then w.tailDir G else g.prevAstarNodeDir c, ?_,
      Or.inr ⟨by rw [he]; rfl, hcd, ?_⟩⟩
    · intro c hc
      by_cases e : c = w.tailIdx G
      · subst e
        exact absurd ht2 hc
      · simp [e]
    · refine hgood _ _ ?_ (fun _ => by simp)
      intro c hc
      by_cases e : c = w.tailIdx G
      · subst e
        exact absurd ht2 hc
      · simp [e]

theorem queueGood_mono (G : Globals) (g : FlexGridGraph) (p : FlexMazeIdx → frDirEnum)
    (q : List FlexWavefrontGrid)
    (hp : ∀ c, g.prevAstarNodeDir c ≠ .UNKNOWN → p c = g.prevAstarNodeDir c)
    (hq : ∀ w ∈ q, w ∈ g.wavefront) (h : g.QueueGood G) : (g.withState p q).QueueGood G := by
  intro w hw
  obtain ⟨h1, ds, h2, h3⟩ := h w (hq w hw)
  exact ⟨h1, ds, h2, goodTrail_mono g p q hp _ _ _ h3⟩

/-- One guarded expansion keeps every wavefront cell on a good trail, and the popped cell too. -/
theorem expand_queueGood (G : Globals) (g : FlexGridGraph) (w : FlexWavefrontGrid)
    (d : frDirEnum) (d1 d2 : FlexMazeIdx) (centerPt : Int × Int)
    (hB : 0 < G.WAVEFRONTBUFFERSIZE) (hd : d ≠ .UNKNOWN)
    (hbuf : w.backTraceBuffer < 8 ^ G.WAVEFRONTBUFFERSIZE) (ds : List frDirEnum)
    (hds : w.dirs G = padDirs G.WAVEFRONTBUFFERSIZE ds)
    (hI : g.QueueGood G ∧ g.GoodTrail G.WAVEFRONTBUFFERSIZE w.idx ds)
    (hx : g.isExpandable w d = true) :
    (g.expand G w d d1 d2 centerPt).QueueGood G
      ∧ (g.expand G w d d1 d2 centerPt).GoodTrail G.WAVEFRONTBUFFERSIZE w.idx ds := by
  obtain ⟨hq, hg⟩ := hI
  obtain ⟨p, hp, he | ⟨he, hcd, hcg⟩⟩ := expand_good G g w d d1 d2 centerPt hB hd hbuf ds hds hg hx
  · rw [he]
    exact ⟨queueGood_mono G g p _ hp (fun _ h => h) hq, goodTrail_mono g p _ hp _ _ _ hg⟩
  · rw [he]
    refine ⟨?_, goodTrail_mono g p _ hp _ _ _ hg⟩
    intro x hx1
    rcases List.mem_append.mp hx1 with hx1 | hx1
    · obtain ⟨h1, ds1, h2, h3⟩ := hq x hx1
      exact ⟨h1, ds1, h2, goodTrail_mono g p _ hp _ _ _ h3⟩
    · rw [List.mem_singleton] at hx1
      subst hx1
      refine ⟨childGrid_lt1 G g w d d1 d2 centerPt hB, d :: ds, hcd, ?_⟩
      rw [childGrid_idx]
      exact hcg

/-- Every iteration of the main loop keeps every wavefront cell on a good trail. -/
theorem searchIter_queueGood (G : Globals) (d1 d2 : FlexMazeIdx) (centerPt : Int × Int)
    (hB : 0 < G.WAVEFRONTBUFFERSIZE) (g g1 : FlexGridGraph) (v v1 : Nat)
    (hq : g.QueueGood G) (h : searchIter G d1 d2 centerPt g v = .inr (g1, v1)) :
    g1.QueueGood G := by
  obtain ⟨w, rest, hpop, hcase⟩ := searchIter_inr G d1 d2 centerPt g g1 v v1 h
  have hperm := wavefrontPop_perm hpop
  have hrest : ∀ x ∈ rest, x ∈ g.wavefront :=
    fun x hx => hperm.subset (List.mem_cons_of_mem _ hx)
  have hq0 : (g.withState g.prevAstarNodeDir rest).QueueGood G :=
    queueGood_mono G g _ rest (fun _ _ => rfl) hrest hq
  rcases hcase with ⟨-, e, -⟩ | ⟨-, -, e, -⟩
  · subst e
    exact hq0
  · subst e
    obtain ⟨hbuf, ds, hds, hg⟩ := hq w (hperm.subset (List.mem_cons_self _ _))
    exact (expandWavefront_inv G d1 d2 centerPt w
      (fun s => s.QueueGood G ∧ s.GoodTrail G.WAVEFRONTBUFFERSIZE w.idx ds)
      (fun s d hd hs hx => expand_queueGood G s w d d1 d2 centerPt hB
        (by revert hd; cases d <;> simp [expandOrder]) hbuf ds hds hs hx)
      _ ⟨hq0, goodTrail_mono g _ rest (fun _ _ => rfl) _ _ _ hg⟩).1

end FlexGridGraph
/-! ## Back-trace along a good trail -/

namespace FlexGridGraph

theorem searchIter_frame (G : Globals) (d1 d2 : FlexMazeIdx) (centerPt : Int × Int)
    (g g1 : FlexGridGraph) (v v1 : Nat) (h : searchIter G d1 d2 centerPt g v = .inr (g1, v1)) :
    ∃ p q, g1 = g.withState p q := by
  obtain ⟨w, rest, -, hcase⟩ := searchIter_inr G d1 d2 centerPt g g1 v v1 h
  rcases hcase with ⟨-, e, -⟩ | ⟨-, -, e, -⟩
  · exact ⟨_, _, e⟩
  · obtain ⟨p, kids, hk, -⟩ := expandWavefront_queue G d1 d2 centerPt w
      (g.withState g.prevAstarNodeDir rest)
    exact ⟨p, _, e.trans hk⟩

/-- The first loop of `traceBackPath` walks back along the trail of the popped cell, one move
per buffer slot, and only appends to `path`; when it starts with no previous direction, the
first cell it appends is the cell it starts from. -/
theorem traceBuffer_good (g : FlexGridGraph) (n buffer : Nat) (t : TraceState)
    (ds : List frDirEnum) (k : Nat) (hdirs : bufDirs n buffer = padDirs n ds)
    (hg : g.GoodTrail k t.curr ds) :
    g.GoodTrail (k - n) (traceBuffer g n buffer t).curr (ds.drop n)
      ∧ (∃ l, (traceBuffer g n buffer t).path = t.path ++ l)
      ∧ (ds ≠ [] → 0 < n → t.prevDir = .UNKNOWN →
          ∃ l, (traceBuffer g n buffer t).path = t.path ++ t.curr :: l) := by
  induction n generalizing buffer t ds k with
  | zero => exact ⟨hg, ⟨[], by simp [traceBuffer]⟩, fun _ h => absurd h (by omega)⟩
  | succ n ih =>
    cases ds with
    | nil =>
      have hs : g.isSrc t.curr = true := hg
      simp only [traceBuffer, hs, if_true, List.drop_nil]
      exact ⟨hs, ⟨[], by simp⟩, fun h => absurd rfl h⟩
    | cons d r =>
      obtain ⟨h1, h2, -, -, -, h6⟩ := hg
      simp only [bufDirs, padDirs, List.cons.injEq] at hdirs
      have hcur : fr.getLastDir buffer = d := hdirs.1
      have hb : buffer / 2 ^ DIRBITSIZE = buffer / 8 := rfl
      simp only [traceBuffer, h2, Bool.false_eq_true, if_false, hcur, h1, List.drop_succ_cons, hb]
      obtain ⟨i1, ⟨l, i2⟩, -⟩ := ih (buffer / 8)
        { curr := getPrevGrid t.curr d, prevDir := d,
          path := if d ≠ t.prevDir then t.path ++ [t.curr] else t.path,
          root := t.root ++ [t.curr], warnings := t.warnings } r (k - 1) hdirs.2 h6
      refine ⟨?_, ?_, ?_⟩
      · rw [Nat.sub_add_eq, Nat.sub_right_comm]
        exact i1
      · rw [i2]
        simp only
        split_ifs
        · exact ⟨_, List.append_assoc _ _ _⟩
        · exact ⟨_, rfl⟩
      · intro _ _ hp
        rw [i2]
        simp only [hp, ne_eq, h1, not_false_eq_true, if_true]
        exact ⟨l, by simp⟩

/-- The second loop of `traceBackPath`, started on a trail whose cells are all committed, only
ends in a source cell and only appends to `path`. -/
theorem traceGrid_good (g : FlexGridGraph) (fuel : Nat) (t t1 : TraceState)
    (ds : List frDirEnum) (hg : g.GoodTrail 0 t.curr ds) (h : traceGrid g fuel t = some t1) :
    g.isSrc t1.curr = true ∧ ∃ l, t1.path = t.path ++ l := by
  induction fuel generalizing t ds with
  | zero => simp [traceGrid] at h
  | succ fuel ih =>
    cases ds with
    | nil =>
      have hs : g.isSrc t.curr = true := hg
      simp only [traceGrid, hs, Bool.true_eq_false, if_false, Option.some.injEq] at h
      subst h
      exact ⟨hs, [], by simp⟩
    | cons d r =>
      obtain ⟨h1, h2, -, -, h5, h6⟩ := hg
      have hcur : g.getPrevAstarNodeDir t.curr = d := h5 rfl
      simp only [traceGrid, h2, if_true, hcur, h1, if_false] at h
      obtain ⟨i1, l, i2⟩ := ih _ r h6 h
      refine ⟨i1, ?_⟩
      rw [i2]
      simp only
      split_ifs
      · exact ⟨_, List.append_assoc _ _ _⟩
      · exact ⟨_, rfl⟩

/-- The second loop of `traceBackPath` halts on a trail whose cells are all committed. -/
theorem traceGrid_terminates (g : FlexGridGraph) (fuel : Nat) (t : TraceState)
    (ds : List frDirEnum) (hg : g.GoodTrail 0 t.curr ds) (hf : ds.length < fuel) :
    ∃ t1, traceGrid g fuel t = some t1 := by
  induction fuel generalizing t ds with
  | zero => omega
  | succ fuel ih =>
    cases ds with
    | nil =>
      have hs : g.isSrc t.curr = true := hg
      exact ⟨t, by simp [traceGrid, hs]⟩
    | cons d r =>
      obtain ⟨h1, h2, -, -, h5, h6⟩ := hg
      have hcur : g.getPrevAstarNodeDir t.curr = d := h5 rfl
      simp only [traceGrid, h2, if_true, hcur, h1, if_false]
      exact ih _ r h6 (by simpa using hf)

/-- From a popped cell on a good trail, `traceBackPath` halts. -/
theorem traceBackPath_terminates (G : Globals) (g : FlexGridGraph) (w : FlexWavefrontGrid)
    (path root : List FlexMazeIdx) (cc1 cc2 : FlexMazeIdx) (ds : List frDirEnum)
    (hds : w.dirs G = padDirs G.WAVEFRONTBUFFERSIZE ds)
    (hg : g.GoodTrail G.WAVEFRONTBUFFERSIZE w.idx ds) (fuel : Nat) (hf : ds.length < fuel) :
    ∃ t, traceBackPath G g fuel w path root cc1 cc2 = some t := by
  have h1 := traceBuffer_good g G.WAVEFRONTBUFFERSIZE w.backTraceBuffer
    { curr := w.idx, prevDir := .UNKNOWN, path := path, root := root, warnings := 0 } ds
    G.WAVEFRONTBUFFERSIZE hds hg
  rw [Nat.sub_self] at h1
  obtain ⟨t1, ht1⟩ := traceGrid_terminates g fuel _ _ h1.1
    (lt_of_le_of_lt (by simp) hf)
  unfold traceBackPath
  simp only [ht1]
  exact ⟨_, rfl⟩

/-- From a popped cell on a good trail with at least one move, with `path` empty on entry, the
path returned by `traceBackPath` starts with the popped cell and ends in a source cell. -/
theorem traceBackPath_endpoints (G : Globals) (g : FlexGridGraph) (w : FlexWavefrontGrid)
    (root : List FlexMazeIdx) (cc1 cc2 : FlexMazeIdx) (ds : List frDirEnum)
    (hB : 0 < G.WAVEFRONTBUFFERSIZE)
    (hds : w.dirs G = padDirs G.WAVEFRONTBUFFERSIZE ds)
    (hg : g.GoodTrail G.WAVEFRONTBUFFERSIZE w.idx ds) (hne : ds ≠ []) (fuel : Nat)
    (t : TraceResult) (h : traceBackPath G g fuel w [] root cc1 cc2 = some t) :
    ∃ mid last, t.path = w.idx :: (mid ++ [last]) ∧ g.isSrc last = true := by
  have h1 := traceBuffer_good g G.WAVEFRONTBUFFERSIZE w.backTraceBuffer
    { curr := w.idx, prevDir := .UNKNOWN, path := [], root := root, warnings := 0 } ds
    G.WAVEFRONTBUFFERSIZE hds hg
  rw [Nat.sub_self] at h1
  obtain ⟨hg1, -, hfirst⟩ := h1
  obtain ⟨l, hl⟩ := hfirst hne hB rfl
  unfold traceBackPath at h
  simp only at h
  cases htg : traceGrid g fuel (traceBuffer g G.WAVEFRONTBUFFERSIZE w.backTraceBuffer
      { curr := w.idx, prevDir := .UNKNOWN, path := [], root := root, warnings := 0 }) with
  | none => simp [htg] at h
  | some t2 =>
    obtain ⟨hsrc, l2, hl2⟩ := traceGrid_good g fuel _ t2 _ hg1 htg
    rw [hl] at hl2
    simp only [List.nil_append, List.cons_append] at hl2
    simp only [htg, Option.some.injEq] at h
    subst h
    refine ⟨l ++ l2, t2.curr, ?_, hsrc⟩
    simp [hl2]

end FlexGridGraph
/-! ## Seeds on good trails, exit of the loop -/

namespace FlexGridGraph

theorem seeds_queueGood (G : Globals) (g : FlexGridGraph) (p : FlexMazeIdx → frDirEnum)
    (seeds : List FlexWavefrontGrid)
    (h : ∀ w ∈ seeds, w.backTraceBuffer = 0 ∧ g.isSrc w.idx = true) :
    (g.withState p seeds).QueueGood G := by
  intro w hw
  obtain ⟨h1, h2⟩ := h w hw
  refine ⟨by rw [h1]; positivity, [], ?_, h2⟩
  rw [FlexWavefrontGrid.dirs, h1, bufDirs_zero, padDirs_nil]

/-- When the loop exits by popping a cell, the popped cell is a destination on a good trail of
the grid state in which the loop ends. -/
theorem searchLoop_reached_good (G : Globals) (d1 d2 : FlexMazeIdx) (centerPt : Int × Int)
    (hB : 0 < G.WAVEFRONTBUFFERSIZE) (g0 : FlexGridGraph) (p : FlexMazeIdx → frDirEnum)
    (q : List FlexWavefrontGrid) (hq : (g0.withState p q).QueueGood G) (fuel : Nat)
    (lr : LoopResult) (w : FlexWavefrontGrid)
    (h : searchLoop G d1 d2 centerPt fuel (g0.withState p q) 0 = some lr)
    (hw : lr.reached = some w) :
    g0.isDst w.idx = true ∧ (∃ p1 q1, lr.grid = g0.withState p1 q1)
      ∧ ∃ ds, w.dirs G = padDirs G.WAVEFRONTBUFFERSIZE ds
        ∧ lr.grid.GoodTrail G.WAVEFRONTBUFFERSIZE w.idx ds := by
  obtain ⟨gx, vx, ⟨⟨px, qx, rfl⟩, hqx⟩, hexit⟩ := searchLoop_exit G d1 d2 centerPt
    (fun s => (∃ p1 q1, s = g0.withState p1 q1) ∧ s.QueueGood G)
    (fun s v s1 v1 hs hi => by
      obtain ⟨⟨p1, q1, rfl⟩, hs2⟩ := hs
      obtain ⟨p2, q2, e⟩ := searchIter_frame G d1 d2 centerPt _ s1 v v1 hi
      exact ⟨⟨p2, q2, e⟩, searchIter_queueGood G d1 d2 centerPt hB _ s1 v v1 hs2 hi⟩)
    fuel _ 0 lr h ⟨⟨p, q, rfl⟩, hq⟩
  rcases searchIter_inl G d1 d2 centerPt _ vx lr hexit with ⟨-, e⟩ | ⟨w1, rest, hpop, -, hd, e⟩
  · subst e
    exact absurd hw (by simp)
  · subst e
    simp only [Option.some.injEq] at hw
    subst hw
    obtain ⟨-, ds, hds, hg⟩ := hqx w1 ((wavefrontPop_perm hpop).subset (List.mem_cons_self _ _))
    exact ⟨hd, ⟨_, _, rfl⟩, ds, hds, goodTrail_mono _ _ rest (fun _ _ => rfl) _ _ _ hg⟩

end FlexGridGraph

/-! ## Endpoints of the returned path (C4) -/

namespace FlexGridGraph

/-- C4: when `isSrc` is set exactly on the cells of `connComps`, none of them is a destination
(so `search` does not return from its seeding loop) and `path` is empty on entry, a search that
returns `true` has popped a destination cell `w`, and the returned path starts with that cell
and ends with a cell that has `isSrc` set. -/
theorem search_path_endpoints (G : Globals) (g : FlexGridGraph) (fuel : Nat)
    (connComps nextPin : List FlexMazeIdx) (ccMazeIdx1 ccMazeIdx2 : FlexMazeIdx)
    (centerPt : Int × Int) (r : SearchResult) (hB : 0 < G.WAVEFRONTBUFFERSIZE)
    (hsrc : ∀ c, g.isSrc c = true ↔ c ∈ connComps)
    (hnd : ∀ c ∈ connComps, g.isDst c = false)
    (h : search G g fuel connComps nextPin [] ccMazeIdx1 ccMazeIdx2 centerPt = some r)
    (hf : r.found = true) :
    ∃ lr w mid last,
      searchLoop G (g.dstBoxLo nextPin) (dstBoxHi nextPin) centerPt fuel
          (searchInit G (g.dstBoxLo nextPin) (dstBoxHi nextPin) centerPt connComps
            { g with wavefront := [] }).2 0 = some lr
        ∧ lr.reached = some w ∧ g.isDst w.idx = true
        ∧ r.path = w.idx :: (mid ++ [last]) ∧ g.isSrc last = true := by
  obtain ⟨seeds, hinit, hidx, hbuf⟩ := searchInit_none G (g.dstBoxLo nextPin) (dstBoxHi nextPin)
    centerPt connComps (g.withState g.prevAstarNodeDir []) hnd
  have hinit : searchInit G (g.dstBoxLo nextPin) (dstBoxHi nextPin) centerPt connComps
      { g with wavefront := [] } = (none, g.withState g.prevAstarNodeDir seeds) := hinit
  have hq : (g.withState g.prevAstarNodeDir seeds).QueueGood G :=
    seeds_queueGood G g _ seeds (fun w hw => ⟨hbuf w hw, (hsrc _).2 (by
      rw [← hidx]
      exact List.mem_map_of_mem _ hw)⟩)
  simp only [search, hinit] at h
  rw [hinit]
  cases hl : searchLoop G (g.dstBoxLo nextPin) (dstBoxHi nextPin) centerPt fuel
      (g.withState g.prevAstarNodeDir seeds) 0 with
  | none => simp [hl] at h
  | some lr =>
    simp only [hl] at h
    cases hr : lr.reached with
    | none =>
      simp only [hr, Option.some.injEq] at h
      subst h
      exact absurd hf (by simp)
    | some w =>
      simp only [hr] at h
      obtain ⟨hd, ⟨p1, q1, hgrid⟩, ds, hds, hg⟩ := searchLoop_reached_good G _ _ centerPt hB g _
        seeds hq fuel lr w hl hr
      cases ht : traceBackPath G lr.grid fuel w [] connComps ccMazeIdx1 ccMazeIdx2 with
      | none => simp [ht] at h
      | some t =>
        simp only [ht, Option.some.injEq] at h
        subst h
        have hne : ds ≠ [] := by
          rintro rfl
          have h1 : lr.grid.isSrc w.idx = true := hg
          rw [hgrid] at h1
          have h2 := hnd _ ((hsrc _).1 h1)
          rw [h2] at hd
          exact absurd hd (by simp)
        obtain ⟨mid, last, hp, hs⟩ := traceBackPath_endpoints G lr.grid w connComps ccMazeIdx1
          ccMazeIdx2 ds hB hds hg hne fuel t ht
        refine ⟨lr, w, mid, last, rfl, hr, hd, hp, ?_⟩
        rw [hgrid] at hs
        exact hs

theorem search_path_endpoints_witness :
    ∃ r, search (sampleGlobals 2) rowGrid 20 [⟨0, 0, 0⟩] [⟨4, 0, 0⟩] [] ⟨0, 0, 0⟩ ⟨0, 0, 0⟩ (0, 0)
        = some r
      ∧ r.path = [⟨4, 0, 0⟩, ⟨0, 0, 0⟩]
      ∧ ∃ lr w mid last,
        searchLoop (sampleGlobals 2) (rowGrid.dstBoxLo [⟨4, 0, 0⟩]) (dstBoxHi [⟨4, 0, 0⟩]) (0, 0) 20
            (searchInit (sampleGlobals 2) (rowGrid.dstBoxLo [⟨4, 0, 0⟩]) (dstBoxHi [⟨4, 0, 0⟩])
              (0, 0) [⟨0, 0, 0⟩] { rowGrid with wavefront := [] }).2 0 = some lr
          ∧ lr.reached = some w ∧ rowGrid.isDst w.idx = true
          ∧ r.path = w.idx :: (mid ++ [last]) ∧ rowGrid.isSrc last = true := by
  have hm : (search (sampleGlobals 2) rowGrid 20 [⟨0, 0, 0⟩] [⟨4, 0, 0⟩] [] ⟨0, 0, 0⟩ ⟨0, 0, 0⟩
      (0, 0)).map (fun r => (r.found, r.path)) = some (true, [⟨4, 0, 0⟩, ⟨0, 0, 0⟩]) := by
    decide
  cases h : search (sampleGlobals 2) rowGrid 20 [⟨0, 0, 0⟩] [⟨4, 0, 0⟩] [] ⟨0, 0, 0⟩ ⟨0, 0, 0⟩
      (0, 0) with
  | none =>
    rw [h] at hm
    exact absurd hm (by simp)
  | some r =>
    rw [h] at hm
    simp only [Option.map_some', Option.some.injEq, Prod.mk.injEq] at hm
    exact ⟨r, rfl, hm.2, search_path_endpoints (sampleGlobals 2) rowGrid 20 [⟨0, 0, 0⟩]
      [⟨4, 0, 0⟩] ⟨0, 0, 0⟩ ⟨0, 0, 0⟩ (0, 0) r (by decide)
      (fun c => by simp [rowGrid, sampleGrid]) (by decide) h hm.1⟩

end FlexGridGraph

/-! ## Termination of the search (C5) -/

namespace FlexGridGraph

theorem searchLoop_unique (G : Globals) (d1 d2 : FlexMazeIdx) (centerPt : Int × Int)
    (f1 f2 : Nat) (g : FlexGridGraph) (v : Nat) (r1 r2 : LoopResult)
    (h1 : searchLoop G d1 d2 centerPt f1 g v = some r1)
    (h2 : searchLoop G d1 d2 centerPt f2 g v = some r2) : r1 = r2 := by
  have e1 := searchLoop_fuel_mono G d1 d2 centerPt f1 f2 g v r1 h1
  have e2 := searchLoop_fuel_mono G d1 d2 centerPt f2 f1 g v r2 h2
  rw [Nat.add_comm] at e2
  rw [e1] at e2
  exact Option.some.inj e2

/-- The second loop of `traceBackPath` never exits from a set of committed cells without a
source that the committed directions do not leave. -/
theorem traceGrid_cycle (g : FlexGridGraph) (S : FlexMazeIdx → Prop)
    (hS : ∀ c, S c → g.isSrc c = false ∧ g.prevAstarNodeDir c ≠ .UNKNOWN
      ∧ S (getPrevGrid c (g.prevAstarNodeDir c)))
    (fuel : Nat) (t : TraceState) (ht : S t.curr) : traceGrid g fuel t = none := by
  induction fuel generalizing t with
  | zero => rfl
  | succ fuel ih =>
    obtain ⟨h1, h2, h3⟩ := hS _ ht
    have h2 : g.getPrevAstarNodeDir t.curr ≠ .UNKNOWN := h2
    simp only [traceGrid, h1, if_true, h2, if_false]
    exact ih _ h3

/-- On `cycleGrid`, with a buffer of one direction, `connComps = [(1,0,0), (2,0,0)]` (cells
without `isSrc`) and destination `(1,1,0)`, the main loop pops the destination after 9
iterations, and the second loop of `traceBackPath` then runs through the committed directions
of `(1,0,0)` and `(2,0,0)`, which point at each other, until the fuel is used up. -/
theorem cycleGrid_search_none (fuel : Nat) :
    search (sampleGlobals 1) cycleGrid fuel [⟨1, 0, 0⟩, ⟨2, 0, 0⟩] [⟨1, 1, 0⟩] []
      ⟨0, 0, 0⟩ ⟨0, 0, 0⟩ (0, 0) = none := by
  have F : (match searchLoop (sampleGlobals 1) (cycleGrid.dstBoxLo [⟨1, 1, 0⟩])
        (dstBoxHi [⟨1, 1, 0⟩]) (0, 0) 9
        (searchInit (sampleGlobals 1) (cycleGrid.dstBoxLo [⟨1, 1, 0⟩]) (dstBoxHi [⟨1, 1, 0⟩])
          (0, 0) [⟨1, 0, 0⟩, ⟨2, 0, 0⟩] { cycleGrid with wavefront := [] }).2 0 with
      | some lr =>
        (match lr.reached with
          | some w =>
            decide ((traceBuffer lr.grid 1 w.backTraceBuffer
                ⟨w.idx, .UNKNOWN, [], [⟨1, 0, 0⟩, ⟨2, 0, 0⟩], 0⟩).curr = ⟨0, 1, 0⟩
              ∧ lr.grid.prevAstarNodeDir ⟨0, 1, 0⟩ = .N ∧ lr.grid.prevAstarNodeDir ⟨0, 0, 0⟩ = .W
              ∧ lr.grid.prevAstarNodeDir ⟨1, 0, 0⟩ = .W ∧ lr.grid.prevAstarNodeDir ⟨2, 0, 0⟩ = .E
              ∧ lr.grid.isSrc ⟨0, 1, 0⟩ = false ∧ lr.grid.isSrc ⟨0, 0, 0⟩ = false
              ∧ lr.grid.isSrc ⟨1, 0, 0⟩ = false ∧ lr.grid.isSrc ⟨2, 0, 0⟩ = false)
          | none => false)
      | none => false) = true := by
    decide
  have hfst : (searchInit (sampleGlobals 1) (cycleGrid.dstBoxLo [⟨1, 1, 0⟩])
      (dstBoxHi [⟨1, 1, 0⟩]) (0, 0) [⟨1, 0, 0⟩, ⟨2, 0, 0⟩] { cycleGrid with wavefront := [] }).1
      = none := by
    decide
  unfold search
  simp only
  rcases hres : searchInit (sampleGlobals 1) (cycleGrid.dstBoxLo [⟨1, 1, 0⟩])
      (dstBoxHi [⟨1, 1, 0⟩]) (0, 0) [⟨1, 0, 0⟩, ⟨2, 0, 0⟩] { cycleGrid with wavefront := [] }
    with ⟨o, g1⟩
  rw [hres] at hfst F
  simp only at hfst F
  subst hfst
  simp only
  cases hl : searchLoop (sampleGlobals 1) (cycleGrid.dstBoxLo [⟨1, 1, 0⟩])
      (dstBoxHi [⟨1, 1, 0⟩]) (0, 0) fuel g1 0 with
  | none => rfl
  | some lr =>
    cases hK : searchLoop (sampleGlobals 1) (cycleGrid.dstBoxLo [⟨1, 1, 0⟩])
        (dstBoxHi [⟨1, 1, 0⟩]) (0, 0) 9 g1 0 with
    | none =>
      rw [hK] at F
      exact absurd F (by simp)
    | some lrK =>
      have e := searchLoop_unique _ _ _ _ _ _ _ _ _ _ hl hK
      subst e
      rw [hK] at F
      simp only at F
      cases hr : lr.reached with
      | none =>
        rw [hr] at F
        exact absurd F (by simp)
      | some w =>
        rw [hr] at F
        simp only [decide_eq_true_eq] at F
        obtain ⟨hc, p1, p2, p3, p4, s1, s2, s3, s4⟩ := F
        have hcyc := traceGrid_cycle lr.grid
          (fun c => c = ⟨0, 1, 0⟩ ∨ c = ⟨0, 0, 0⟩ ∨ c = ⟨1, 0, 0⟩ ∨ c = ⟨2, 0, 0⟩)
          (by
            rintro c (rfl | rfl | rfl | rfl)
            · exact ⟨s1, by rw [p1]; decide, by rw [p1]; decide⟩
            · exact ⟨s2, by rw [p2]; decide, by rw [p2]; decide⟩
            · exact ⟨s3, by rw [p3]; decide, by rw [p3]; decide⟩
            · exact ⟨s4, by rw [p4]; decide, by rw [p4]; decide⟩)
          fuel _ (Or.inl hc)
        have hb : (sampleGlobals 1).WAVEFRONTBUFFERSIZE = 1 := rfl
        simp only [hr, traceBackPath, hb, hcyc]

/-- C5 (counterexample): on the 3 x 2 x 1 grid `cycleGrid`, with a buffer of one direction,
`connComps = [(1,0,0), (2,0,0)]` (cells without `isSrc`) and destination `(1,1,0)`, no amount
of fuel makes `search` return: it does not terminate. -/
theorem search_diverges_without_isSrc :
    ¬ ∃ fuel, (search (sampleGlobals 1) cycleGrid fuel [⟨1, 0, 0⟩, ⟨2, 0, 0⟩] [⟨1, 1, 0⟩] []
      ⟨0, 0, 0⟩ ⟨0, 0, 0⟩ (0, 0)).isSome = true := by
  rintro ⟨fuel, h⟩
  rw [cycleGrid_search_none fuel] at h
  exact absurd h (by simp)

/-- C5 (amended): on a finite grid (every edge leads to a grid cell, buffer of at least one
direction) on which every cell of `connComps` has `isSrc` set, `search` terminates: with
enough fuel for its loops it returns a result. -/
theorem search_terminates (G : Globals) (g : FlexGridGraph)
    (connComps nextPin path : List FlexMazeIdx) (ccMazeIdx1 ccMazeIdx2 : FlexMazeIdx)
    (centerPt : Int × Int) (hB : 0 < G.WAVEFRONTBUFFERSIZE) (hE : g.EdgesInGrid)
    (hsrc : ∀ c ∈ connComps, g.isSrc c = true) :
    ∃ fuel r, search G g fuel connComps nextPin path ccMazeIdx1 ccMazeIdx2 centerPt = some r := by
  obtain ⟨seeds, hs, hbuf⟩ := searchInit_snd G (g.dstBoxLo nextPin) (dstBoxHi nextPin) centerPt
    connComps (g.withState g.prevAstarNodeDir [])
  have hs : (searchInit G (g.dstBoxLo nextPin) (dstBoxHi nextPin) centerPt connComps
      { g with wavefront := [] }).2 = g.withState g.prevAstarNodeDir seeds := hs
  rcases hres : searchInit G (g.dstBoxLo nextPin) (dstBoxHi nextPin) centerPt connComps
      { g with wavefront := [] } with ⟨o, g1⟩
  rw [hres] at hs
  simp only at hs
  subst hs
  cases o with
  | some idx =>
    refine ⟨0, Option.isSome_iff_exists.mp ?_⟩
    simp only [search, hres, Option.isSome_some]
  | none =>
    have hq : (g.withState g.prevAstarNodeDir seeds).QueueGood G :=
      seeds_queueGood G g _ seeds (fun w hw => ⟨(hbuf w hw).1, hsrc _ (hbuf w hw).2⟩)
    obtain ⟨fuel, lr, hl⟩ := searchLoop_terminates G (g.dstBoxLo nextPin) (dstBoxHi nextPin)
      centerPt hB (g.withState g.prevAstarNodeDir seeds) 0 hE
      (seeds_queueOK G g _ seeds (fun w hw => (hbuf w hw).1))
    cases hr : lr.reached with
    | none =>
      refine ⟨fuel, Option.isSome_iff_exists.mp ?_⟩
      simp only [search, hres, hl, hr, Option.isSome_some]
    | some w =>
      obtain ⟨-, -, ds, hds, hg⟩ := searchLoop_reached_good G _ _ centerPt hB g _ seeds hq fuel
        lr w hl hr
      have hl1 := searchLoop_fuel_mono G _ _ centerPt fuel (ds.length + 1) _ 0 lr hl
      obtain ⟨t, ht⟩ := traceBackPath_terminates G lr.grid w path connComps ccMazeIdx1 ccMazeIdx2
        ds hds hg (fuel + (ds.length + 1)) (by omega)
      refine ⟨fuel + (ds.length + 1), Option.isSome_iff_exists.mp ?_⟩
      simp only [search, hres, hl1, hr, ht, Option.isSome_some]

theorem search_terminates_witness :
    0 < (sampleGlobals 2).WAVEFRONTBUFFERSIZE ∧ detourGrid.EdgesInGrid
    ∧ (∀ c ∈ [(⟨0, 1, 0⟩ : FlexMazeIdx)], detourGrid.isSrc c = true)
    ∧ ∃ fuel r, search (sampleGlobals 2) detourGrid fuel [⟨0, 1, 0⟩] [⟨2, 1, 0⟩] []
        ⟨0, 0, 0⟩ ⟨0, 0, 0⟩ (0, 0) = some r :=
  ⟨by decide, sampleGrid_edgesInGrid _ _ _ _ _ _ _, by decide,
    search_terminates (sampleGlobals 2) detourGrid [⟨0, 1, 0⟩] [⟨2, 1, 0⟩] []
      ⟨0, 0, 0⟩ ⟨0, 0, 0⟩ (0, 0) (by decide) (sampleGrid_edgesInGrid _ _ _ _ _ _ _) (by decide)⟩

end FlexGridGraph

/-! ## More on trails -/

namespace FlexGridGraph

theorem goodTrail_unique_zero (g : FlexGridGraph) (c : FlexMazeIdx) (ds1 ds2 : List frDirEnum)
    (h1 : g.GoodTrail 0 c ds1) (h2 : g.GoodTrail 0 c ds2) : ds1 = ds2 := by
  induction ds1 generalizing c ds2 with
  | nil =>
    cases ds2 with
    | nil => rfl
    | cons d r =>
      have a : g.isSrc c = true := h1
      rw [h2.2.1] at a
      exact absurd a (by simp)
  | cons d1 r1 ih =>
    cases ds2 with
    | nil =>
      have a : g.isSrc c = true := h2
      rw [h1.2.1] at a
      exact absurd a (by simp)
    | cons d2 r2 =>
      have e : d1 = d2 := (h1.2.2.2.2.1 rfl).symm.trans (h2.2.2.2.2.1 rfl)
      subst e
      rw [ih _ r2 h1.2.2.2.2.2 h2.2.2.2.2.2]

/-- A good trail is determined by its end cell and the directions its buffer shows. -/
theorem goodTrail_unique (g : FlexGridGraph) (k : Nat) (c : FlexMazeIdx)
    (ds1 ds2 : List frDirEnum) (h1 : g.GoodTrail k c ds1) (h2 : g.GoodTrail k c ds2)
    (hp : padDirs k ds1 = padDirs k ds2) : ds1 = ds2 := by
  induction k generalizing c ds1 ds2 with
  | zero => exact goodTrail_unique_zero g c ds1 ds2 h1 h2
  | succ k ih =>
    cases ds1 with
    | nil =>
      cases ds2 with
      | nil => rfl
      | cons d r =>
        have a : g.isSrc c = true := h1
        rw [h2.2.1] at a
        exact absurd a (by simp)
    | cons d1 r1 =>
      cases ds2 with
      | nil =>
        have a : g.isSrc c = true := h2
        rw [h1.2.1] at a
        exact absurd a (by simp)
      | cons d2 r2 =>
        simp only [padDirs, List.cons.injEq] at hp
        obtain ⟨e, hp⟩ := hp
        subst e
        rw [ih _ r1 r2 h1.2.2.2.2.2 h2.2.2.2.2.2 hp]

/-- On a trail whose cells `k` or more moves back are committed, the cell `k` moves back holds
the direction of the trail. -/
theorem goodTrail_at (g : FlexGridGraph) (k : Nat) (c : FlexMazeIdx) (ds : List frDirEnum)
    (h : g.GoodTrail k c ds) (t : FlexMazeIdx) (x : frDirEnum)
    (ht : trailAt k c ds = some (t, x)) : g.prevAstarNodeDir t = x := by
  induction k generalizing c ds with
  | zero =>
    cases ds with
    | nil => simp [trailAt] at ht
    | cons d r =>
      simp only [trailAt, Option.some.injEq, Prod.mk.injEq] at ht
      obtain ⟨rfl, rfl⟩ := ht
      exact h.2.2.2.2.1 rfl
  | succ k ih =>
    cases ds with
    | nil => simp [trailAt] at ht
    | cons d r => exact ih _ r h.2.2.2.2.2 ht

/-- The trail that ends `k` moves before the end of a trail: it was expanded when the longer
trail was, and all its cells are committed when those `k` or more moves back are. -/
theorem trail_suffix (g : FlexGridGraph) (Exp : FlexMazeIdx → List frDirEnum → Prop)
    (hpar : ∀ c d ds, Exp c (d :: ds) → Exp (getPrevGrid c d) ds)
    (k : Nat) (c : FlexMazeIdx) (ds : List frDirEnum) (he : Exp c ds)
    (h : g.GoodTrail k c ds) (t : FlexMazeIdx) (x : frDirEnum)
    (ht : trailAt k c ds = some (t, x)) : ∃ r, Exp t (x :: r) ∧ g.GoodTrail 0 t (x :: r) := by
  induction k generalizing c ds with
  | zero =>
    cases ds with
    | nil => simp [trailAt] at ht
    | cons d r =>
      simp only [trailAt, Option.some.injEq, Prod.mk.injEq] at ht
      obtain ⟨rfl, rfl⟩ := ht
      exact ⟨r, he, h⟩
  | succ k ih =>
    cases ds with
    | nil => simp [trailAt] at ht
    | cons d r => exact ih _ r (hpar _ _ _ he) h.2.2.2.2.2 ht

theorem conflict_mono (G : Globals) (g : FlexGridGraph) (p : FlexMazeIdx → frDirEnum)
    (q : List FlexWavefrontGrid)
    (hp : ∀ c, g.prevAstarNodeDir c ≠ .UNKNOWN → p c = g.prevAstarNodeDir c)
    (c : FlexMazeIdx) (ds : List frDirEnum) (h : g.Conflict G c ds) :
    (g.withState p q).Conflict G c ds := by
  obtain ⟨t, x, h1, h2, h3⟩ := h
  refine ⟨t, x, h1, ?_, ?_⟩
  · show p t ≠ .UNKNOWN
    rw [hp t h2]
    exact h2
  · show p t ≠ x
    rw [hp t h2]
    exact h3

theorem not_conflict_of_good (G : Globals) (g : FlexGridGraph) (k : Nat) (c : FlexMazeIdx)
    (ds : List frDirEnum) (h : g.GoodTrail k c ds) (hk : k ≤ G.WAVEFRONTBUFFERSIZE - 1) :
    ¬ g.Conflict G c ds := by
  rintro ⟨t, x, h1, -, h3⟩
  exact h3 (goodTrail_at g _ c ds (goodTrail_weaken_le g k _ c ds h hk) t x h1)

theorem inQueue_mono (G : Globals) (g : FlexGridGraph) (p : FlexMazeIdx → frDirEnum)
    (q : List FlexWavefrontGrid) (hq : ∀ w ∈ g.wavefront, w ∈ q) (c : FlexMazeIdx)
    (ds : List frDirEnum) (h : g.InQueue G c ds) : (g.withState p q).InQueue G c ds := by
  obtain ⟨w, hw, h1⟩ := h
  exact ⟨w, hq w hw, h1⟩

theorem getPrevGrid_opposite (c : FlexMazeIdx) (d : frDirEnum) :
    getPrevGrid c d.opposite = getNextGrid c d := by
  cases d <;> rfl

/-- When `isExpandable` is false although the edge exists, the next cell is no source and the
move is no reversal, the next cell is committed. -/
theorem isExpandable_false {g : FlexGridGraph} {w : FlexWavefrontGrid} {d : frDirEnum}
    (h : g.isExpandable w d = false) (he : g.hasEdge w.idx d = true)
    (hs : g.isSrc (getNextGrid w.idx d) = false) (hl : w.getLastDir ≠ d.opposite) :
    g.prevAstarNodeDir (getNextGrid w.idx d) ≠ .UNKNOWN := by
  unfold isExpandable reverse getPrevAstarNodeDir at h
  simp only at h
  split_ifs at h with hc
  rcases hc with hc | hc | hc | hc
  · rw [he] at hc
    exact absurd hc (by simp)
  · rw [hs] at hc
    exact absurd hc (by simp)
  · exact hc
  · exact absurd hc hl

end FlexGridGraph
/-! ## A search that empties the wavefront has expanded every reachable cell -/

namespace FlexGridGraph

theorem not_inQueue_of_empty (G : Globals) (g : FlexGridGraph) (h : g.wavefront = [])
    (c : FlexMazeIdx) (ds : List frDirEnum) : ¬ g.InQueue G c ds := by
  rintro ⟨w, hw, -⟩
  rw [h] at hw
  exact absurd hw (by simp)

/-- With the wavefront empty, a cell on a good trail within `WAVEFRONTBUFFERSIZE - 1` moves of
a committed cell ends an expanded trail whose older cells are committed. -/
theorem expInv_cover_near (G : Globals) (g : FlexGridGraph) (seeds : List FlexMazeIdx)
    (Exp : FlexMazeIdx → List frDirEnum → Prop)
    (hinv : g.ExpInv G seeds Exp (fun _ _ _ => True)) (hempty : g.wavefront = [])
    (k : Nat) (hk : k ≤ G.WAVEFRONTBUFFERSIZE - 1) (n : Nat) (c : FlexMazeIdx)
    (ds : List frDirEnum) (hg : g.GoodTrail n c ds)
    (ht : ∃ t x, trailAt k c ds = some (t, x) ∧ g.prevAstarNodeDir t ≠ .UNKNOWN) :
    ∃ ds1, Exp c ds1 ∧ g.GoodTrail k c ds1 := by
  induction k generalizing n c ds with
  | zero =>
    obtain ⟨t, x, h1, h2⟩ := ht
    cases ds with
    | nil => simp [trailAt] at h1
    | cons d r =>
      simp only [trailAt, Option.some.injEq, Prod.mk.injEq] at h1
      obtain ⟨rfl, rfl⟩ := h1
      obtain ⟨d1, r1, e1, e2⟩ := hinv.committed c h2
      exact ⟨_, e1, e2⟩
  | succ k ih =>
    obtain ⟨t, x, h1, h2⟩ := ht
    cases ds with
    | nil => simp [trailAt] at h1
    | cons d r =>
      by_cases hc : g.prevAstarNodeDir c = .UNKNOWN
      swap
      · obtain ⟨d1, r1, e1, e2⟩ := hinv.committed c hc
        exact ⟨_, e1, goodTrail_weaken_le g 0 _ c _ e2 (by omega)⟩
      obtain ⟨hd, hsrc, hedge, -, -, hrest⟩ := hg
      obtain ⟨ds1, e1, e2⟩ := ih (by omega) (n - 1) (getPrevGrid c d) r hrest ⟨t, x, h1, h2⟩
      by_cases hu : ds1.head? = some d.opposite
      · cases ds1 with
        | nil => simp at hu
        | cons a r1 =>
          simp only [List.head?_cons, Option.some.injEq] at hu
          subst hu
          have hp := hinv.exp_parent _ _ _ e1
          rw [getPrevGrid_opposite, getNextGrid_getPrevGrid] at hp
          have hg1 := e2.2.2.2.2.2
          rw [getPrevGrid_opposite, getNextGrid_getPrevGrid] at hg1
          exact ⟨r1, hp, goodTrail_weaken_le g _ _ c r1 hg1 (by omega)⟩
      · have hstep := hinv.exp_step (getPrevGrid c d) ds1 d e1 trivial hd hedge
          (by rw [getNextGrid_getPrevGrid]; exact hsrc) hu
        rw [getNextGrid_getPrevGrid] at hstep
        rcases hstep with h | h | ⟨-, h | h⟩
        · exact absurd hc h
        · exact absurd h (not_conflict_of_good G g k _ ds1 e2 (by omega))
        · exact ⟨d :: ds1, h, hd, hsrc, hedge, hu, fun e => absurd e (by omega), e2⟩
        · exact absurd h (not_inQueue_of_empty G g hempty _ _)

/-- With the wavefront empty, every reachable cell ends an expanded trail. -/
theorem expInv_cover (G : Globals) (g : FlexGridGraph) (seeds : List FlexMazeIdx)
    (Exp : FlexMazeIdx → List frDirEnum → Prop)
    (hinv : g.ExpInv G seeds Exp (fun _ _ _ => True)) (hempty : g.wavefront = [])
    (c : FlexMazeIdx) (hc : g.Reachable seeds c) : ∃ ds, Exp c ds := by
  induction hc with
  | seed s hs =>
    rcases hinv.seeds_in s hs with h | h
    · exact ⟨[], h⟩
    · exact absurd h (not_inQueue_of_empty G g hempty _ _)
  | step c d _ he hs ih =>
    obtain ⟨ds, hds⟩ := ih
    by_cases hd : d = .UNKNOWN
    · subst hd
      exact ⟨ds, hds⟩
    -- a trail to `c` that is not in conflict
    have hnc : ∃ ds1, Exp c ds1 ∧ ¬ g.Conflict G c ds1 := by
      by_cases hcf : g.Conflict G c ds
      · obtain ⟨t, x, h1, h2, -⟩ := hcf
        obtain ⟨ds1, e1, e2⟩ := expInv_cover_near G g seeds Exp hinv hempty
          (G.WAVEFRONTBUFFERSIZE - 1) (le_refl _) _ c ds (hinv.exp_good c ds hds).1 ⟨t, x, h1, h2⟩
        exact ⟨ds1, e1, not_conflict_of_good G g _ c ds1 e2 (le_refl _)⟩
      · exact ⟨ds, hds, hcf⟩
    obtain ⟨ds1, e1, e2⟩ := hnc
    by_cases hu : ds1.head? = some d.opposite
    · cases ds1 with
      | nil => simp at hu
      | cons a r1 =>
        simp only [List.head?_cons, Option.some.injEq] at hu
        subst hu
        have hp := hinv.exp_parent _ _ _ e1
        rw [getPrevGrid_opposite] at hp
        exact ⟨r1, hp⟩
    · rcases hinv.exp_step c ds1 d e1 trivial hd he hs hu with h | h | ⟨-, h | h⟩
      · obtain ⟨d1, r1, h1, -⟩ := hinv.committed _ h
        exact ⟨_, h1⟩
      · exact absurd h e2
      · exact ⟨_, h⟩
      · exact absurd h (not_inQueue_of_empty G g hempty _ _)

end FlexGridGraph
/-! ## The record of expanded trails through `expand` -/

namespace FlexGridGraph

theorem tail_trailAt (G : Globals) (w : FlexWavefrontGrid) (ds : List frDirEnum)
    (hB : 0 < G.WAVEFRONTBUFFERSIZE) (hbuf : w.backTraceBuffer < 8 ^ G.WAVEFRONTBUFFERSIZE)
    (hds : w.dirs G = padDirs G.WAVEFRONTBUFFERSIZE ds)
    (hne : ∀ d ∈ ds, d ≠ frDirEnum.UNKNOWN) (ht : w.tailDir G ≠ .UNKNOWN) :
    trailAt (G.WAVEFRONTBUFFERSIZE - 1) w.idx ds = some (w.tailIdx G, w.tailDir G) := by
  obtain ⟨h1, h2⟩ := dirs_split G w ds hB hbuf hds
  rw [trailAt_eq _ _ _ hne (by rw [← h2]; exact ht)]
  unfold FlexWavefrontGrid.tailIdx
  rw [h1, h2]

/-- The two outcomes of an `expand` from a cell on a good trail: the trail is in conflict and
nothing changes, or the extended trail is pushed and the only cell that may get committed is
the one `WAVEFRONTBUFFERSIZE - 1` moves back on the trail, with the direction of the trail. -/
theorem expand_outcome (G : Globals) (g : FlexGridGraph) (w : FlexWavefrontGrid)
    (d : frDirEnum) (d1 d2 : FlexMazeIdx) (centerPt : Int × Int)
    (hB : 0 < G.WAVEFRONTBUFFERSIZE) (hd : d ≠ .UNKNOWN)
    (hbuf : w.backTraceBuffer < 8 ^ G.WAVEFRONTBUFFERSIZE) (ds : List frDirEnum)
    (hds : w.dirs G = padDirs G.WAVEFRONTBUFFERSIZE ds)
    (hg : g.GoodTrail G.WAVEFRONTBUFFERSIZE w.idx ds)
    (hx : g.isExpandable w d = true) :
    (g.expand G w d d1 d2 centerPt = g ∧ g.Conflict G w.idx ds)
    ∨ ∃ p, (∀ c, g.prevAstarNodeDir c ≠ .UNKNOWN → p c = g.prevAstarNodeDir c)
        ∧ (∀ c, g.prevAstarNodeDir c = .UNKNOWN → p c ≠ .UNKNOWN →
            trailAt (G.WAVEFRONTBUFFERSIZE - 1) w.idx ds = some (c, p c))
        ∧ g.expand G w d d1 d2 centerPt
            = g.withState p (g.wavefront ++ [g.childGrid G w d d1 d2 centerPt])
        ∧ (g.childGrid G w d d1 d2 centerPt).dirs G = padDirs G.WAVEFRONTBUFFERSIZE (d :: ds)
        ∧ (g.withState p (g.wavefront ++ [g.childGrid G w d d1 d2 centerPt])).GoodTrail
            G.WAVEFRONTBUFFERSIZE (getNextGrid w.idx d) (d :: ds) := by
  have hne := goodTrail_ne_unknown g _ _ _ hg
  have key : ∀ p0 : FlexMazeIdx → frDirEnum,
      g.expand G w d d1 d2 centerPt
        = g.withState p0 (g.wavefront ++ [g.childGrid G w d d1 d2 centerPt]) →
      (∀ c, g.prevAstarNodeDir c = .UNKNOWN → p0 c ≠ .UNKNOWN →
        trailAt (G.WAVEFRONTBUFFERSIZE - 1) w.idx ds = some (c, p0 c)) →
      ∃ p, (∀ c, g.prevAstarNodeDir c ≠ .UNKNOWN → p c = g.prevAstarNodeDir c)
        ∧ (∀ c, g.prevAstarNodeDir c = .UNKNOWN → p c ≠ .UNKNOWN →
            trailAt (G.WAVEFRONTBUFFERSIZE - 1) w.idx ds = some (c, p c))
        ∧ g.expand G w d d1 d2 centerPt
            = g.withState p (g.wavefront ++ [g.childGrid G w d d1 d2 centerPt])
        ∧ (g.childGrid G w d d1 d2 centerPt).dirs G = padDirs G.WAVEFRONTBUFFERSIZE (d :: ds)
        ∧ (g.withState p (g.wavefront ++ [g.childGrid G w d d1 d2 centerPt])).GoodTrail
            G.WAVEFRONTBUFFERSIZE (getNextGrid w.idx d) (d :: ds) := by
    intro p0 he0 hnew
    obtain ⟨p, hp, he | ⟨he, hcd, hcg⟩⟩ :=
      expand_good G g w d d1 d2 centerPt hB hd hbuf ds hds hg hx
    · rw [he0] at he
      have := congrArg (fun s => s.wavefront.length) he
      simp [withState] at this
    · have e : p0 = p := by
        rw [he0] at he
        exact congrArg (fun s => s.prevAstarNodeDir) he
      subst e
      exact ⟨p0, hp, hnew, he, hcd, hcg⟩
  rcases expand_cases G g w d d1 d2 centerPt hB with ⟨he, ht1, ht2, ht3⟩ | ⟨he, -⟩ | ⟨he, ht1, ht2⟩
  · left
    exact ⟨he, _, _, tail_trailAt G w ds hB hbuf hds hne ht1, ht2, ht3⟩
  · right
    refine key g.prevAstarNodeDir (by rw [he]; rfl) ?_
    intro c h1 h2
    exact absurd h1 h2
  · right
    refine key (fun c => if c = w.tailIdx G then w.tailDir G else g.prevAstarNodeDir c)
      (by rw [he]; rfl) ?_
    intro c h1 h2
    by_cases e : c = w.tailIdx G
    · subst e
      simp only [if_true]
      exact tail_trailAt G w ds hB hbuf hds hne ht1
    · simp only [e, if_false] at h2
      exact absurd h1 h2

/-- One guarded expansion of a cell `w` whose trail is in the record keeps the invariant and
adds the move to the moves tried. -/
theorem expandIf_expInv (G : Globals) (d1 d2 : FlexMazeIdx) (centerPt : Int × Int)
    (hB : 0 < G.WAVEFRONTBUFFERSIZE) (seeds : List FlexMazeIdx)
    (Exp : FlexMazeIdx → List frDirEnum → Prop)
    (Done : FlexMazeIdx → List frDirEnum → frDirEnum → Prop)
    (w : FlexWavefrontGrid) (ds : List frDirEnum)
    (hbuf : w.backTraceBuffer < 8 ^ G.WAVEFRONTBUFFERSIZE)
    (hds : w.dirs G = padDirs G.WAVEFRONTBUFFERSIZE ds) (hw : Exp w.idx ds)
    (g : FlexGridGraph) (d : frDirEnum) (hd : d ≠ .UNKNOWN)
    (hinv : g.ExpInv G seeds Exp Done) :
    (expandIf G d1 d2 centerPt w g d).ExpInv G seeds Exp
      (fun c r e => Done c r e ∨ (c = w.idx ∧ r = ds ∧ e = d)) := by
  have hg := (hinv.exp_good _ _ hw).1
  have hlast : ∀ e : frDirEnum, ds.head? ≠ some e.opposite → e ≠ .UNKNOWN →
      w.getLastDir ≠ e.opposite := by
    intro e h1 h2
    rw [lastDir_eq_head G w ds hB hds]
    cases ds with
    | nil => exact fun h => opposite_ne_unknown e h2 h.symm
    | cons a r => simpa using h1
  unfold expandIf
  by_cases hx : g.isExpandable w d = true
  swap
  · -- not expandable: the next cell is committed
    simp only [hx, if_false]
    refine ⟨hinv.exp_good, hinv.exp_parent, ?_, hinv.seeds_in, hinv.committed, hinv.queue⟩
    intro c r e hE hD he0 hedge hsrc hu
    rcases hD with hD | ⟨rfl, rfl, rfl⟩
    · exact hinv.exp_step c r e hE hD he0 hedge hsrc hu
    · left
      exact isExpandable_false (by simpa using hx) hedge hsrc (hlast _ hu he0)
  simp only [hx, if_true]
  rcases expand_outcome G g w d d1 d2 centerPt hB hd hbuf ds hds hg hx with
    ⟨he, hcf⟩ | ⟨p, hp, hnew, he, hcd, hcg⟩
  · -- conflict
    rw [he]
    refine ⟨hinv.exp_good, hinv.exp_parent, ?_, hinv.seeds_in, hinv.committed, hinv.queue⟩
    intro c r e hE hD he0 hedge hsrc hu
    rcases hD with hD | ⟨rfl, rfl, rfl⟩
    · exact hinv.exp_step c r e hE hD he0 hedge hsrc hu
    · exact Or.inr (Or.inl hcf)
  · -- the extended trail is pushed
    rw [he]
    have htail : (g.withState p (g.wavefront ++ [g.childGrid G w d d1 d2 centerPt])).GoodTrail
        (G.WAVEFRONTBUFFERSIZE - 1) w.idx ds := by
      have := hcg.2.2.2.2.2
      rw [getPrevGrid_getNextGrid] at this
      exact this
    have hqs : ∀ x ∈ g.wavefront, x ∈ g.wavefront ++ [g.childGrid G w d d1 d2 centerPt] :=
      fun x hx1 => List.mem_append_left _ hx1
    refine ⟨?_, hinv.exp_parent, ?_, ?_, ?_, ?_⟩
    · intro c r hE
      exact ⟨goodTrail_mono g p _ hp _ _ _ (hinv.exp_good c r hE).1, (hinv.exp_good c r hE).2⟩
    · intro c r e hE hD he0 hedge hsrc hu
      rcases hD with hD | ⟨rfl, rfl, rfl⟩
      · rcases hinv.exp_step c r e hE hD he0 hedge hsrc hu with h | h | ⟨h1, h2⟩
        · left
          show p _ ≠ .UNKNOWN
          rw [hp _ h]
          exact h
        · exact Or.inr (Or.inl (conflict_mono G g p _ hp c r h))
        · refine Or.inr (Or.inr ⟨goodTrail_mono g p _ hp _ _ _ h1, ?_⟩)
          rcases h2 with h2 | h2
          · exact Or.inl h2
          · exact Or.inr (inQueue_mono G g p _ hqs _ _ h2)
      · refine Or.inr (Or.inr ⟨htail, Or.inr ?_⟩)
        exact ⟨_, List.mem_append_right _ (List.mem_singleton_self _),
          childGrid_idx G g w _ d1 d2 centerPt, childGrid_lt1 G g w _ d1 d2 centerPt hB, hcd⟩
    · intro s hs
      rcases hinv.seeds_in s hs with h | h
      · exact Or.inl h
      · exact Or.inr (inQueue_mono G g p _ hqs _ _ h)
    · intro c hc
      have hc : p c ≠ .UNKNOWN := hc
      by_cases h0 : g.prevAstarNodeDir c = .UNKNOWN
      · have hat := hnew c h0 hc
        obtain ⟨r, e1, e2⟩ := trail_suffix _ Exp hinv.exp_parent _ w.idx ds hw htail c (p c) hat
        exact ⟨p c, r, e1, e2⟩
      · obtain ⟨a, r, e1, e2⟩ := hinv.committed c h0
        exact ⟨a, r, e1, goodTrail_mono g p _ hp _ _ _ e2⟩
    · intro x hx1
      rcases List.mem_append.mp hx1 with hx1 | hx1
      · obtain ⟨h1, r, h2, h3, h4⟩ := hinv.queue x hx1
        exact ⟨h1, r, h2, goodTrail_mono g p _ hp _ _ _ h3, h4⟩
      · rw [List.mem_singleton] at hx1
        subst hx1
        refine ⟨childGrid_lt1 G g w d d1 d2 centerPt hB, d :: ds, hcd, ?_, ?_⟩
        · rw [childGrid_idx]
          exact hcg
        · intro a r har
          simp only [List.cons.injEq] at har
          obtain ⟨rfl, rfl⟩ := har
          rw [childGrid_idx, getPrevGrid_getNextGrid]
          exact hw

end FlexGridGraph
/-! ## The record of expanded trails through the loop -/

namespace FlexGridGraph

theorem expInv_done_mono (G : Globals) (g : FlexGridGraph) (seeds : List FlexMazeIdx)
    (Exp : FlexMazeIdx → List frDirEnum → Prop)
    (Done Done1 : FlexMazeIdx → List frDirEnum → frDirEnum → Prop)
    (h : ∀ c r e, e ≠ frDirEnum.UNKNOWN → Done1 c r e → Done c r e)
    (hinv : g.ExpInv G seeds Exp Done) : g.ExpInv G seeds Exp Done1 :=
  ⟨hinv.exp_good, hinv.exp_parent,
    fun c r e hE hD he0 => hinv.exp_step c r e hE (h c r e he0 hD) he0,
    hinv.seeds_in, hinv.committed, hinv.queue⟩

theorem foldl_expandIf_expInv (G : Globals) (d1 d2 : FlexMazeIdx) (centerPt : Int × Int)
    (hB : 0 < G.WAVEFRONTBUFFERSIZE) (seeds : List FlexMazeIdx)
    (Exp : FlexMazeIdx → List frDirEnum → Prop)
    (w : FlexWavefrontGrid) (ds : List frDirEnum)
    (hbuf : w.backTraceBuffer < 8 ^ G.WAVEFRONTBUFFERSIZE)
    (hds : w.dirs G = padDirs G.WAVEFRONTBUFFERSIZE ds) (hw : Exp w.idx ds)
    (dirs : List frDirEnum) (hdirs : ∀ d ∈ dirs, d ≠ frDirEnum.UNKNOWN)
    (Done : FlexMazeIdx → List frDirEnum → frDirEnum → Prop)
    (g : FlexGridGraph) (hinv : g.ExpInv G seeds Exp Done) :
    (dirs.foldl (expandIf G d1 d2 centerPt w) g).ExpInv G seeds Exp
      (fun c r e => Done c r e ∨ (c = w.idx ∧ r = ds ∧ e ∈ dirs)) := by
  induction dirs generalizing g Done with
  | nil =>
    refine expInv_done_mono G g seeds Exp Done _ ?_ hinv
    intro c r e _ h
    rcases h with h | ⟨-, -, h⟩
    · exact h
    · exact absurd h (by simp)
  | cons d rest ih =>
    simp only [List.foldl_cons]
    have h1 := expandIf_expInv G d1 d2 centerPt hB seeds Exp Done w ds hbuf hds hw g d
      (hdirs d (List.mem_cons_self _ _)) hinv
    have h2 := ih (fun e he => hdirs e (List.mem_cons_of_mem _ he)) _ _ h1
    refine expInv_done_mono G _ seeds Exp _ _ ?_ h2
    intro c r e _ h
    rcases h with h | ⟨hc, hr, he⟩
    · exact Or.inl (Or.inl h)
    · rcases List.mem_cons.mp he with he | he
      · exact Or.inl (Or.inr ⟨hc, hr, he⟩)
      · exact Or.inr ⟨hc, hr, he⟩

/-- Dropping a stale cell from the wavefront keeps the invariant. -/
theorem expInv_pop_stale (G : Globals) (g : FlexGridGraph) (seeds : List FlexMazeIdx)
    (Exp : FlexMazeIdx → List frDirEnum → Prop) (w : FlexWavefrontGrid)
    (rest : List FlexWavefrontGrid) (hperm : (w :: rest).Perm g.wavefront)
    (hstale : g.prevAstarNodeDir w.idx ≠ .UNKNOWN)
    (hsrc : ∀ s ∈ seeds, g.isSrc s = true)
    (hinv : g.ExpInv G seeds Exp (fun _ _ _ => True)) :
    (g.withState g.prevAstarNodeDir rest).ExpInv G seeds Exp (fun _ _ _ => True) := by
  have hq : ∀ c r, g.InQueue G c r →
      c = w.idx ∨ (g.withState g.prevAstarNodeDir rest).InQueue G c r := by
    rintro c r ⟨x, hx, h1⟩
    rcases List.mem_cons.mp (hperm.symm.subset hx) with e | e
    · subst e
      exact Or.inl h1.1.symm
    · exact Or.inr ⟨x, e, h1⟩
  refine ⟨?_, hinv.exp_parent, ?_, ?_, ?_, ?_⟩
  · intro c r hE
    exact ⟨goodTrail_mono g _ _ (fun _ _ => rfl) _ _ _ (hinv.exp_good c r hE).1,
      (hinv.exp_good c r hE).2⟩
  · intro c r e hE _ he0 hedge hsrc1 hu
    rcases hinv.exp_step c r e hE trivial he0 hedge hsrc1 hu with h | h | ⟨h1, h2 | h2⟩
    · exact Or.inl h
    · exact Or.inr (Or.inl (conflict_mono G g _ _ (fun _ _ => rfl) c r h))
    · exact Or.inr (Or.inr ⟨goodTrail_mono g _ _ (fun _ _ => rfl) _ _ _ h1, Or.inl h2⟩)
    · rcases hq _ _ h2 with e1 | e1
      · left
        show g.prevAstarNodeDir _ ≠ .UNKNOWN
        rw [e1]
        exact hstale
      · exact Or.inr (Or.inr ⟨goodTrail_mono g _ _ (fun _ _ => rfl) _ _ _ h1, Or.inr e1⟩)
  · intro s hs
    rcases hinv.seeds_in s hs with h | h
    · exact Or.inl h
    · rcases hq _ _ h with e1 | e1
      · obtain ⟨a, r, -, h2⟩ := hinv.committed w.idx hstale
        have h3 := h2.2.1
        rw [← e1, hsrc s hs] at h3
        exact absurd h3 (by simp)
      · exact Or.inr e1
  · intro c hc
    obtain ⟨a, r, e1, e2⟩ := hinv.committed c hc
    exact ⟨a, r, e1, goodTrail_mono g _ _ (fun _ _ => rfl) _ _ _ e2⟩
  · intro x hx
    obtain ⟨h1, r, h2, h3, h4⟩ := hinv.queue x (hperm.subset (List.mem_cons_of_mem _ hx))
    exact ⟨h1, r, h2, goodTrail_mono g _ _ (fun _ _ => rfl) _ _ _ h3, h4⟩

/-- Popping a cell to expand it: its trail joins the record, with no move tried yet. -/
theorem expInv_pop_expand (G : Globals) (g : FlexGridGraph) (seeds : List FlexMazeIdx)
    (Exp : FlexMazeIdx → List frDirEnum → Prop) (w : FlexWavefrontGrid)
    (rest : List FlexWavefrontGrid) (hB : 0 < G.WAVEFRONTBUFFERSIZE)
    (hperm : (w :: rest).Perm g.wavefront) (hnd : g.isDst w.idx = false)
    (hsrc : ∀ s ∈ seeds, g.isSrc s = true)
    (hinv : g.ExpInv G seeds Exp (fun _ _ _ => True)) :
    ∃ ds, w.backTraceBuffer < 8 ^ G.WAVEFRONTBUFFERSIZE
      ∧ w.dirs G = padDirs G.WAVEFRONTBUFFERSIZE ds
      ∧ (g.withState g.prevAstarNodeDir rest).ExpInv G seeds
          (fun c r => Exp c r ∨ (c = w.idx ∧ r = ds))
          (fun c r _ => ¬ (c = w.idx ∧ r = ds)) := by
  obtain ⟨hbuf, ds, hds, hg, hpar⟩ := hinv.queue w (hperm.subset (List.mem_cons_self _ _))
  refine ⟨ds, hbuf, hds, ?_⟩
  have hq : ∀ c r, g.GoodTrail G.WAVEFRONTBUFFERSIZE c r → g.InQueue G c r →
      (c = w.idx ∧ r = ds) ∨ (g.withState g.prevAstarNodeDir rest).InQueue G c r := by
    rintro c r hgr ⟨x, hx, h1, h2, h3⟩
    rcases List.mem_cons.mp (hperm.symm.subset hx) with e | e
    · subst e
      subst h1
      exact Or.inl ⟨rfl, goodTrail_unique g _ _ r ds hgr hg (h3.symm.trans hds)⟩
    · exact Or.inr ⟨x, e, h1, h2, h3⟩
  refine ⟨?_, ?_, ?_, ?_, ?_, ?_⟩
  · intro c r hE
    rcases hE with hE | ⟨rfl, rfl⟩
    · exact ⟨goodTrail_mono g _ _ (fun _ _ => rfl) _ _ _ (hinv.exp_good c r hE).1,
        (hinv.exp_good c r hE).2⟩
    · exact ⟨goodTrail_mono g _ _ (fun _ _ => rfl) _ _ _ hg, hnd⟩
  · intro c a r hE
    rcases hE with hE | ⟨rfl, hE⟩
    · exact Or.inl (hinv.exp_parent c a r hE)
    · exact Or.inl (hpar a r hE.symm)
  · intro c r e hE hD he0 hedge hsrc1 hu
    have hE : Exp c r := by
      rcases hE with hE | hE
      · exact hE
      · exact absurd hE hD
    rcases hinv.exp_step c r e hE trivial he0 hedge hsrc1 hu with h | h | ⟨h1, h2 | h2⟩
    · exact Or.inl h
    · exact Or.inr (Or.inl (conflict_mono G g _ _ (fun _ _ => rfl) c r h))
    · exact Or.inr (Or.inr ⟨goodTrail_mono g _ _ (fun _ _ => rfl) _ _ _ h1, Or.inl (Or.inl h2)⟩)
    · refine Or.inr (Or.inr ⟨goodTrail_mono g _ _ (fun _ _ => rfl) _ _ _ h1, ?_⟩)
      have hchild : g.GoodTrail G.WAVEFRONTBUFFERSIZE (getNextGrid c e) (e :: r) := by
        refine ⟨he0, hsrc1, ?_, hu, fun e0 => absurd e0 (by omega), ?_⟩
        · rw [getPrevGrid_getNextGrid]
          exact hedge
        · rw [getPrevGrid_getNextGrid]
          exact h1
      rcases hq _ _ hchild h2 with e1 | e1
      · exact Or.inl (Or.inr e1)
      · exact Or.inr e1
  · intro s hs
    rcases hinv.seeds_in s hs with h | h
    · exact Or.inl (Or.inl h)
    · rcases hq s [] (hsrc s hs) h with e1 | e1
      · exact Or.inl (Or.inr e1)
      · exact Or.inr e1
  · intro c hc
    obtain ⟨a, r, e1, e2⟩ := hinv.committed c hc
    exact ⟨a, r, Or.inl e1, goodTrail_mono g _ _ (fun _ _ => rfl) _ _ _ e2⟩
  · intro x hx
    obtain ⟨h1, r, h2, h3, h4⟩ := hinv.queue x (hperm.subset (List.mem_cons_of_mem _ hx))
    exact ⟨h1, r, h2, goodTrail_mono g _ _ (fun _ _ => rfl) _ _ _ h3,
      fun a r1 e => Or.inl (h4 a r1 e)⟩

/-- Every iteration of the main loop keeps a record of expanded trails. -/
theorem searchIter_expInv (G : Globals) (d1 d2 : FlexMazeIdx) (centerPt : Int × Int)
    (hB : 0 < G.WAVEFRONTBUFFERSIZE) (seeds : List FlexMazeIdx)
    (g g1 : FlexGridGraph) (v v1 : Nat) (hsrc : ∀ s ∈ seeds, g.isSrc s = true)
    (hinv : ∃ Exp, g.ExpInv G seeds Exp (fun _ _ _ => True))
    (h : searchIter G d1 d2 centerPt g v = .inr (g1, v1)) :
    ∃ Exp, g1.ExpInv G seeds Exp (fun _ _ _ => True) := by
  obtain ⟨Exp, hinv⟩ := hinv
  obtain ⟨w, rest, hpop, hcase⟩ := searchIter_inr G d1 d2 centerPt g g1 v v1 h
  have hperm := wavefrontPop_perm hpop
  rcases hcase with ⟨hst, e, -⟩ | ⟨-, hnd, e, -⟩
  · subst e
    exact ⟨Exp, expInv_pop_stale G g seeds Exp w rest hperm hst hsrc hinv⟩
  · subst e
    obtain ⟨ds, hbuf, hds, h0⟩ := expInv_pop_expand G g seeds Exp w rest hB hperm hnd hsrc hinv
    have h1 := foldl_expandIf_expInv G d1 d2 centerPt hB seeds _ w ds hbuf hds
      (Or.inr ⟨rfl, rfl⟩) expandOrder (by decide) _ _ h0
    refine ⟨_, expInv_done_mono G _ seeds _ _ _ ?_ h1⟩
    intro c r e he _
    by_cases hn : c = w.idx ∧ r = ds
    · refine Or.inr ⟨hn.1, hn.2, ?_⟩
      revert he
      cases e <;> simp [expandOrder]
    · exact Or.inl hn

/-- The state after seeding satisfies the invariant with an empty record. -/
theorem seeds_expInv (G : Globals) (g : FlexGridGraph) (connComps : List FlexMazeIdx)
    (seeds : List FlexWavefrontGrid) (h0 : ∀ c, g.prevAstarNodeDir c = .UNKNOWN)
    (hsrc : ∀ s ∈ connComps, g.isSrc s = true)
    (hidx : seeds.map (fun w => w.idx) = connComps)
    (hbuf : ∀ w ∈ seeds, w.backTraceBuffer = 0) :
    (g.withState g.prevAstarNodeDir seeds).ExpInv G connComps (fun _ _ => False)
      (fun _ _ _ => True) := by
  have hd : ∀ w ∈ seeds, w.dirs G = padDirs G.WAVEFRONTBUFFERSIZE [] := by
    intro w hw
    rw [FlexWavefrontGrid.dirs, hbuf w hw, bufDirs_zero, padDirs_nil]
  refine ⟨fun _ _ h => h.elim, fun _ _ _ h => h.elim, fun _ _ _ h => h.elim, ?_, ?_, ?_⟩
  · intro s hs
    rw [← hidx] at hs
    obtain ⟨w, hw, e⟩ := List.mem_map.mp hs
    exact Or.inr ⟨w, hw, e, by rw [hbuf w hw]; positivity, hd w hw⟩
  · intro c hc
    exact absurd (h0 c) hc
  · intro w hw
    have hw : w ∈ seeds := hw
    refine ⟨by rw [hbuf w hw]; positivity, [], hd w hw, ?_, fun _ _ e => by simp at e⟩
    exact hsrc _ (by rw [← hidx]; exact List.mem_map_of_mem _ hw)

end FlexGridGraph
/-! ## Reachable destinations are found (C2) -/

namespace FlexGridGraph

theorem reachable_withState (g : FlexGridGraph) (p : FlexMazeIdx → frDirEnum)
    (q : List FlexWavefrontGrid) (seeds : List FlexMazeIdx) (c : FlexMazeIdx)
    (h : g.Reachable seeds c) : (g.withState p q).Reachable seeds c := by
  induction h with
  | seed c h => exact Reachable.seed c h
  | step c d _ he hs ih => exact Reachable.step c d ih he hs

/-- If the main loop pops a cell whose back-trace enters a set of committed cells without a
source that the committed directions do not leave, `search` returns for no amount of fuel. -/
theorem search_none_of_cycle (G : Globals) (g : FlexGridGraph)
    (connComps nextPin path : List FlexMazeIdx) (ccMazeIdx1 ccMazeIdx2 : FlexMazeIdx)
    (centerPt : Int × Int) (K : Nat) (lr : LoopResult) (w : FlexWavefrontGrid)
    (S : FlexMazeIdx → Prop)
    (hfst : (searchInit G (g.dstBoxLo nextPin) (dstBoxHi nextPin) centerPt connComps
      { g with wavefront := [] }).1 = none)
    (hK : searchLoop G (g.dstBoxLo nextPin) (dstBoxHi nextPin) centerPt K
      (searchInit G (g.dstBoxLo nextPin) (dstBoxHi nextPin) centerPt connComps
        { g with wavefront := [] }).2 0 = some lr)
    (hr : lr.reached = some w)
    (hS : ∀ c, S c → lr.grid.isSrc c = false ∧ lr.grid.prevAstarNodeDir c ≠ .UNKNOWN
      ∧ S (getPrevGrid c (lr.grid.prevAstarNodeDir c)))
    (hc : S (traceBuffer lr.grid G.WAVEFRONTBUFFERSIZE w.backTraceBuffer
      ⟨w.idx, .UNKNOWN, path, connComps, 0⟩).curr)
    (fuel : Nat) :
    search G g fuel connComps nextPin path ccMazeIdx1 ccMazeIdx2 centerPt = none := by
  unfold search
  simp only
  rcases hres : searchInit G (g.dstBoxLo nextPin) (dstBoxHi nextPin) centerPt connComps
      { g with wavefront := [] } with ⟨o, g1⟩
  rw [hres] at hfst hK
  simp only at hfst hK
  subst hfst
  simp only
  cases hl : searchLoop G (g.dstBoxLo nextPin) (dstBoxHi nextPin) centerPt fuel g1 0 with
  | none => rfl
  | some lr1 =>
    have e := searchLoop_unique _ _ _ _ _ _ _ _ _ _ hl hK
    subst e
    have hcyc := traceGrid_cycle lr1.grid S hS fuel _ hc
    simp only [hr, traceBackPath, hcyc]

theorem loopGrid_search_none (fuel : Nat) :
    search (sampleGlobals 1) loopGrid fuel [⟨1, 0, 0⟩, ⟨2, 0, 0⟩] [⟨0, 0, 0⟩] []
      ⟨0, 0, 0⟩ ⟨0, 0, 0⟩ (0, 0) = none := by
  have F : (match searchLoop (sampleGlobals 1) (loopGrid.dstBoxLo [⟨0, 0, 0⟩])
        (dstBoxHi [⟨0, 0, 0⟩]) (0, 0) 7
        (searchInit (sampleGlobals 1) (loopGrid.dstBoxLo [⟨0, 0, 0⟩]) (dstBoxHi [⟨0, 0, 0⟩])
          (0, 0) [⟨1, 0, 0⟩, ⟨2, 0, 0⟩] { loopGrid with wavefront := [] }).2 0 with
      | some lr =>
        (match lr.reached with
          | some w =>
            decide ((traceBuffer lr.grid 1 w.backTraceBuffer
                ⟨w.idx, .UNKNOWN, [], [⟨1, 0, 0⟩, ⟨2, 0, 0⟩], 0⟩).curr = ⟨0, 1, 0⟩
              ∧ lr.grid.prevAstarNodeDir ⟨0, 1, 0⟩ = .W ∧ lr.grid.prevAstarNodeDir ⟨1, 1, 0⟩ = .N
              ∧ lr.grid.prevAstarNodeDir ⟨1, 0, 0⟩ = .W ∧ lr.grid.prevAstarNodeDir ⟨2, 0, 0⟩ = .E
              ∧ lr.grid.isSrc ⟨0, 1, 0⟩ = false ∧ lr.grid.isSrc ⟨1, 1, 0⟩ = false
              ∧ lr.grid.isSrc ⟨1, 0, 0⟩ = false ∧ lr.grid.isSrc ⟨2, 0, 0⟩ = false)
          | none => false)
      | none => false) = true := by
    decide
  cases hK : searchLoop (sampleGlobals 1) (loopGrid.dstBoxLo [⟨0, 0, 0⟩])
      (dstBoxHi [⟨0, 0, 0⟩]) (0, 0) 7
      (searchInit (sampleGlobals 1) (loopGrid.dstBoxLo [⟨0, 0, 0⟩]) (dstBoxHi [⟨0, 0, 0⟩])
        (0, 0) [⟨1, 0, 0⟩, ⟨2, 0, 0⟩] { loopGrid with wavefront := [] }).2 0 with
  | none =>
    rw [hK] at F
    exact absurd F (by simp)
  | some lr =>
    rw [hK] at F
    simp only at F
    cases hr : lr.reached with
    | none =>
      rw [hr] at F
      exact absurd F (by simp)
    | some w =>
      rw [hr] at F
      simp only [decide_eq_true_eq] at F
      obtain ⟨hc, p1, p2, p3, p4, s1, s2, s3, s4⟩ := F
      exact search_none_of_cycle (sampleGlobals 1) loopGrid [⟨1, 0, 0⟩, ⟨2, 0, 0⟩] [⟨0, 0, 0⟩] []
        ⟨0, 0, 0⟩ ⟨0, 0, 0⟩ (0, 0) 7 lr w
        (fun c => c = ⟨0, 1, 0⟩ ∨ c = ⟨1, 1, 0⟩ ∨ c = ⟨1, 0, 0⟩ ∨ c = ⟨2, 0, 0⟩)
        (by decide) hK hr
        (by
          rintro c (rfl | rfl | rfl | rfl)
          · exact ⟨s1, by rw [p1]; decide, by rw [p1]; decide⟩
          · exact ⟨s2, by rw [p2]; decide, by rw [p2]; decide⟩
          · exact ⟨s3, by rw [p3]; decide, by rw [p3]; decide⟩
          · exact ⟨s4, by rw [p4]; decide, by rw [p4]; decide⟩)
        (Or.inl hc) fuel

/-- C2 (counterexample): on the 3 x 2 x 1 grid `loopGrid`, with a buffer of one direction and
every committed direction `UNKNOWN`, the destination `(0,0,0)` is reached from the cell
`(1,0,0)` of `connComps = [(1,0,0), (2,0,0)]` by the chain of existing edges through
`(1,1,0)` and `(0,1,0)`, no cell is a source, and yet `search` does not return `true`, for any
amount of fuel. -/
theorem search_misses_reachable_without_isSrc :
    loopGrid.Reachable [⟨1, 0, 0⟩, ⟨2, 0, 0⟩] ⟨0, 0, 0⟩ ∧ loopGrid.isDst ⟨0, 0, 0⟩ = true
      ∧ ¬ ∃ fuel r, search (sampleGlobals 1) loopGrid fuel [⟨1, 0, 0⟩, ⟨2, 0, 0⟩] [⟨0, 0, 0⟩] []
        ⟨0, 0, 0⟩ ⟨0, 0, 0⟩ (0, 0) = some r ∧ r.found = true := by
  refine ⟨?_, by decide, ?_⟩
  · have h0 : loopGrid.Reachable [⟨1, 0, 0⟩, ⟨2, 0, 0⟩] ⟨1, 0, 0⟩ :=
      Reachable.seed _ (by decide)
    have h1 : loopGrid.Reachable [⟨1, 0, 0⟩, ⟨2, 0, 0⟩] ⟨1, 1, 0⟩ :=
      Reachable.step ⟨1, 0, 0⟩ .N h0 (by decide) (by decide)
    have h2 : loopGrid.Reachable [⟨1, 0, 0⟩, ⟨2, 0, 0⟩] ⟨0, 1, 0⟩ :=
      Reachable.step ⟨1, 1, 0⟩ .W h1 (by decide) (by decide)
    exact Reachable.step ⟨0, 1, 0⟩ .S h2 (by decide) (by decide)
  · rintro ⟨fuel, r, h, -⟩
    rw [loopGrid_search_none fuel] at h
    exact absurd h (by simp)

/-- C2 (amended): on a finite grid (every edge leads to a grid cell, buffer of at least one
direction) on which every cell of `connComps` has `isSrc` set and every committed direction
is `UNKNOWN` on entry, if a destination cell can be reached from a cell of `connComps` by a
chain of existing edges that enters only cells that are not sources, then `search` returns
with `found = true`. -/
theorem search_finds_reachable (G : Globals) (g : FlexGridGraph)
    (connComps nextPin path : List FlexMazeIdx) (ccMazeIdx1 ccMazeIdx2 : FlexMazeIdx)
    (centerPt : Int × Int) (hB : 0 < G.WAVEFRONTBUFFERSIZE) (hE : g.EdgesInGrid)
    (hsrc : ∀ c ∈ connComps, g.isSrc c = true)
    (h0 : ∀ c, g.prevAstarNodeDir c = .UNKNOWN)
    (dst : FlexMazeIdx) (hd : g.isDst dst = true) (hreach : g.Reachable connComps dst) :
    ∃ fuel r, search G g fuel connComps nextPin path ccMazeIdx1 ccMazeIdx2 centerPt = some r
      ∧ r.found = true := by
  by_cases hnd : ∀ c ∈ connComps, g.isDst c = false
  swap
  · -- a cell of `connComps` is a destination: the seeding loop returns
    have hf := searchInit_fst G (g.dstBoxLo nextPin) (dstBoxHi nextPin) centerPt connComps
      { g with wavefront := [] }
    rcases hres : searchInit G (g.dstBoxLo nextPin) (dstBoxHi nextPin) centerPt connComps
      { g with wavefront := [] } with ⟨o, g1⟩
    rw [hres] at hf
    cases o with
    | none =>
      exfalso
      apply hnd
      intro c hc
      have := List.find?_eq_none.mp hf.symm c hc
      simpa using this
    | some idx =>
      exact ⟨0, ⟨true, path ++ [idx], connComps, ccMazeIdx1, ccMazeIdx2, g1, 0, 0⟩,
        by simp only [search, hres], rfl⟩
  obtain ⟨seeds, hinit, hidx, hbuf⟩ := searchInit_none G (g.dstBoxLo nextPin) (dstBoxHi nextPin)
    centerPt connComps (g.withState g.prevAstarNodeDir []) hnd
  have hinit : searchInit G (g.dstBoxLo nextPin) (dstBoxHi nextPin) centerPt connComps
      { g with wavefront := [] } = (none, g.withState g.prevAstarNodeDir seeds) := hinit
  have hmem : ∀ w ∈ seeds, w.idx ∈ connComps := fun w hw => by
    rw [← hidx]
    exact List.mem_map_of_mem _ hw
  have hq : (g.withState g.prevAstarNodeDir seeds).QueueGood G :=
    seeds_queueGood G g _ seeds (fun w hw => ⟨hbuf w hw, hsrc _ (hmem w hw)⟩)
  obtain ⟨fuel, lr, hl⟩ := searchLoop_terminates G (g.dstBoxLo nextPin) (dstBoxHi nextPin)
    centerPt hB (g.withState g.prevAstarNodeDir seeds) 0 hE
    (seeds_queueOK G g _ seeds hbuf)
  cases hr : lr.reached with
  | none =>
    exfalso
    obtain ⟨gx, vx, ⟨⟨px, qx, rfl⟩, Exp, hinv⟩, hexit⟩ := searchLoop_exit G (g.dstBoxLo nextPin)
      (dstBoxHi nextPin) centerPt
      (fun s => (∃ p1 q1, s = g.withState p1 q1)
        ∧ ∃ Exp, s.ExpInv G connComps Exp (fun _ _ _ => True))
      (fun s v s1 v1 hs hi => by
        obtain ⟨⟨p1, q1, rfl⟩, hs2⟩ := hs
        obtain ⟨p2, q2, e⟩ := searchIter_frame G _ _ centerPt _ s1 v v1 hi
        exact ⟨⟨p2, q2, e⟩, searchIter_expInv G _ _ centerPt hB connComps (g.withState p1 q1) s1 v v1 hsrc hs2
          hi⟩)
      fuel _ 0 lr hl ⟨⟨_, _, rfl⟩, _, seeds_expInv G g connComps seeds h0 hsrc hidx hbuf⟩
    rcases searchIter_inl G _ _ centerPt _ vx lr hexit with ⟨hempty, -⟩ | ⟨w, rest, -, -, -, e⟩
    · obtain ⟨ds, hds⟩ := expInv_cover G _ connComps Exp hinv hempty dst
        (reachable_withState g px qx connComps dst hreach)
      have := (hinv.exp_good dst ds hds).2
      rw [show (g.withState px qx).isDst dst = g.isDst dst from rfl, hd] at this
      exact absurd this (by simp)
    · rw [e] at hr
      exact absurd hr (by simp)
  | some w =>
    obtain ⟨-, -, ds, hds, hg⟩ := searchLoop_reached_good G _ _ centerPt hB g _ seeds hq fuel
      lr w hl hr
    have hl1 := searchLoop_fuel_mono G _ _ centerPt fuel (ds.length + 1) _ 0 lr hl
    obtain ⟨t, ht⟩ := traceBackPath_terminates G lr.grid w path connComps ccMazeIdx1 ccMazeIdx2
      ds hds hg (fuel + (ds.length + 1)) (by omega)
    exact ⟨fuel + (ds.length + 1),
      ⟨true, t.path, t.root, t.ccMazeIdx1, t.ccMazeIdx2, lr.grid, lr.visited, t.warnings⟩,
      by simp only [search, hinit, hl1, hr, ht], rfl⟩

theorem search_finds_reachable_witness :
    0 < (sampleGlobals 2).WAVEFRONTBUFFERSIZE ∧ detourGrid.EdgesInGrid
    ∧ (∀ c ∈ [(⟨0, 1, 0⟩ : FlexMazeIdx)], detourGrid.isSrc c = true)
    ∧ (∀ c, detourGrid.prevAstarNodeDir c = .UNKNOWN)
    ∧ detourGrid.isDst ⟨2, 1, 0⟩ = true
    ∧ detourGrid.Reachable [⟨0, 1, 0⟩] ⟨2, 1, 0⟩
    ∧ ∃ fuel r, search (sampleGlobals 2) detourGrid fuel [⟨0, 1, 0⟩] [⟨2, 1, 0⟩] []
        ⟨0, 0, 0⟩ ⟨0, 0, 0⟩ (0, 0) = some r ∧ r.found = true :=
  have h0 : detourGrid.Reachable [⟨0, 1, 0⟩] ⟨0, 1, 0⟩ := Reachable.seed _ (by decide)
  have h1 : detourGrid.Reachable [⟨0, 1, 0⟩] ⟨0, 0, 0⟩ :=
    Reachable.step ⟨0, 1, 0⟩ .S h0 (by decide) (by decide)
  have h2 : detourGrid.Reachable [⟨0, 1, 0⟩] ⟨1, 0, 0⟩ :=
    Reachable.step ⟨0, 0, 0⟩ .E h1 (by decide) (by decide)
  have h3 : detourGrid.Reachable [⟨0, 1, 0⟩] ⟨2, 0, 0⟩ :=
    Reachable.step ⟨1, 0, 0⟩ .E h2 (by decide) (by decide)
  have h4 : detourGrid.Reachable [⟨0, 1, 0⟩] ⟨2, 1, 0⟩ :=
    Reachable.step ⟨2, 0, 0⟩ .N h3 (by decide) (by decide)
  ⟨by decide, sampleGrid_edgesInGrid _ _ _ _ _ _ _, by decide, fun _ => rfl, by decide, h4,
    search_finds_reachable (sampleGlobals 2) detourGrid [⟨0, 1, 0⟩] [⟨2, 1, 0⟩] []
      ⟨0, 0, 0⟩ ⟨0, 0, 0⟩ (0, 0) (by decide) (sampleGrid_edgesInGrid _ _ _ _ _ _ _) (by decide)
      (fun _ => rfl) ⟨2, 1, 0⟩ (by decide) h4⟩

end FlexGridGraph

/-! ## The sum behind `getNextPathCost` -/

namespace FlexGridGraph

theorem toCost_add_right (G : Globals) (a b : Int) :
    toCost G (a + (toCost G b : Nat)) = toCost G (a + b) := by
  rw [add_comm, toCost_add_left, add_comm]

theorem toCost_of_lt (G : Globals) (i : Int) (h0 : 0 ≤ i) (h : i < (2 : Int) ^ G.costBits) :
    ((toCost G i : Nat) : Int) = i := by
  rw [toCost_cast]
  exact Int.emod_eq_of_lt h0 h

theorem toCost_natCast (G : Globals) (n : Nat) (h : (n : Int) < (2 : Int) ^ G.costBits) :
    toCost G (n : Int) = n := by
  have := toCost_of_lt G n (by positivity) h
  exact_mod_cast this

/-- `getNextPathCost` returns the sum of the path cost of the cell, the bending increment, the
two forbidden-length terms and the edge terms, reduced to the cost type. -/
theorem getNextPathCost_eq_sum (G : Globals) (g : FlexGridGraph) (curr : FlexWavefrontGrid)
    (d : frDirEnum) : g.getNextPathCost G curr d = toCost G (g.nextPathCostSum G curr d) := by
  unfold nextPathCostSum
  show toCost G (_ + g.edgeTerm G curr d) = _
  generalize g.edgeTerm G curr d = E
  unfold bendTerm via2viaTerm viaTurnTerm
  split_ifs <;> simp only [toCost_add_left, add_zero]

end FlexGridGraph

/-! ## Via-to-via rule (C11) -/

namespace FlexGridGraph

theorem isForbiddenVia2Via_iff (g : FlexGridGraph) (curr : FlexWavefrontGrid) (d : frDirEnum) :
    g.isForbiddenVia2Via curr d = true
      ↔ specVia2ViaForbidden g.tech curr.zIdx curr.prevViaUp d curr.vLengthX curr.vLengthY := by
  unfold isForbiddenVia2Via specVia2ViaForbidden
  simp only
  constructor
  · intro h
    split_ifs at h with h1 h2 h3
    · exact Or.inl h1
    · exact Or.inr (Or.inl h2)
    · exact Or.inr (Or.inr ⟨h3.1, h3.2.1, h3.2.2.1, h3.2.2.2⟩)
  · rintro (h | h | h)
    · rw [if_pos h]
    · have h1 : ¬ (curr.vLengthX = 0 ∧ curr.vLengthY > 0
          ∧ g.tech.isVia2ViaForbiddenLen curr.zIdx (!curr.prevViaUp) (!decide (d = .U)) false
            curr.vLengthY false = true) := by
        rintro ⟨e, -⟩
        omega
      rw [if_neg h1, if_pos h]
    · have h1 : ¬ (curr.vLengthX = 0 ∧ curr.vLengthY > 0
          ∧ g.tech.isVia2ViaForbiddenLen curr.zIdx (!curr.prevViaUp) (!decide (d = .U)) false
            curr.vLengthY false = true) := by
        rintro ⟨e, -⟩
        omega
      have h2 : ¬ (curr.vLengthX > 0 ∧ curr.vLengthY = 0
          ∧ g.tech.isVia2ViaForbiddenLen curr.zIdx (!curr.prevViaUp) (!decide (d = .U)) true
            curr.vLengthX false = true) := by
        rintro ⟨-, e, -⟩
        omega
      rw [if_neg h1, if_neg h2, if_pos ⟨h.1, h.2.1, h.2.2.1, h.2.2.2⟩]

theorem drIterAtLeast_three (G : Globals) (g : FlexGridGraph) :
    (if g.drIterAtLeast 3 = true then G.ggMarkerCost else G.ggDRCCost) = specCvv G g.drWorker
    ∧ (if g.drIterAtLeast 3 = true then G.ggDRCCost else G.ggMarkerCost)
        = specCvt G g.drWorker := by
  unfold drIterAtLeast specCvv specCvt
  cases g.drWorker with
  | none => simp
  | some w => simp

theorem via2viaTerm_eq (G : Globals) (g : FlexGridGraph) (curr : FlexWavefrontGrid)
    (d : frDirEnum) :
    g.via2viaTerm G curr d
      = if (d = .U ∨ d = .D)
          ∧ specVia2ViaForbidden g.tech curr.zIdx curr.prevViaUp d curr.vLengthX curr.vLengthY
        then (specCvv G g.drWorker : Int) * g.getEdgeLength curr.idx d else 0 := by
  unfold via2viaTerm
  rw [← (drIterAtLeast_three G g).1]
  by_cases hd : d = .U ∨ d = .D
  · by_cases hf : g.isForbiddenVia2Via curr d = true
    · have hs := (isForbiddenVia2Via_iff g curr d).1 hf
      simp only [hd, hf, hs, if_true, and_self]
      split_ifs <;> rfl
    · have hs : ¬ specVia2ViaForbidden g.tech curr.zIdx curr.prevViaUp d curr.vLengthX
          curr.vLengthY := fun h => hf ((isForbiddenVia2Via_iff g curr d).2 h)
      simp only [hd, hf, hs, if_true, if_false, and_false, Bool.false_eq_true]
  · simp only [hd, if_false, false_and]

/-- Claim C11.  The cost `getNextPathCost(curr, d)` is, in the cost type, the cost computed
with the via-to-via rule switched off plus the term `L·C_vv`, and that term is present exactly
when `d` is `U` or `D` and, with `(vx, vy) = curr.vLength`, only `vy` is positive and forbidden
on Y, or only `vx` is positive and forbidden on X, or both are positive and both forbidden,
each query being `isVia2ViaForbiddenLen(z, not curr.prevViaUp, not (d = U), axis, length)`;
`C_vv` is `ggMarkerCost` when a worker exists with `DRIter >= 3` and `ggDRCCost` otherwise.
For a planar `d` the term is never added. -/
theorem getNextPathCost_via2via_rule (G : Globals) (g : FlexGridGraph)
    (curr : FlexWavefrontGrid) (d : frDirEnum) :
    g.getNextPathCost G curr d
      = toCost G ((g.withoutVia2Via.getNextPathCost G curr d : Int)
          + (if (d = .U ∨ d = .D)
              ∧ specVia2ViaForbidden g.tech curr.zIdx curr.prevViaUp d curr.vLengthX
                  curr.vLengthY
            then (specCvv G g.drWorker : Int) * g.getEdgeLength curr.idx d else 0))
      ∧ (d.isPlanar → g.getNextPathCost G curr d = g.withoutVia2Via.getNextPathCost G curr d) := by
  have hoff : g.withoutVia2Via.via2viaTerm G curr d = 0 := by
    unfold via2viaTerm isForbiddenVia2Via withoutVia2Via
    simp
  have hsum : g.nextPathCostSum G curr d
      = g.withoutVia2Via.nextPathCostSum G curr d + g.via2viaTerm G curr d := by
    have e : g.withoutVia2Via.nextPathCostSum G curr d
        = (curr.pathCost : Int) + bendTerm curr d + g.withoutVia2Via.via2viaTerm G curr d
          + g.viaTurnTerm G curr d + g.edgeTerm G curr d := rfl
    rw [e, hoff]
    unfold nextPathCostSum
    ring
  constructor
  · rw [getNextPathCost_eq_sum G g, getNextPathCost_eq_sum G g.withoutVia2Via, toCost_add_left,
      hsum, via2viaTerm_eq]
  · intro hp
    have hd : ¬ (d = .U ∨ d = .D) := by
      rcases hp with h | h | h | h <;> subst h <;> decide
    have h0 : g.via2viaTerm G curr d = 0 := by
      unfold via2viaTerm
      rw [if_neg hd]
    rw [getNextPathCost_eq_sum G g, getNextPathCost_eq_sum G g.withoutVia2Via, hsum, h0, add_zero]

theorem getNextPathCost_via2via_rule_witness :
    frDirEnum.E.isPlanar
      ∧ turnRuleGrid.getNextPathCost (ruleGlobals 2) turnCell .E
          = turnRuleGrid.withoutVia2Via.getNextPathCost (ruleGlobals 2) turnCell .E :=
  ⟨by decide,
    (getNextPathCost_via2via_rule (ruleGlobals 2) turnRuleGrid turnCell .E).2 (by decide)⟩

end FlexGridGraph

/-! ## Via-to-turn rule (C12, C13) -/

namespace FlexGridGraph

theorem viaTurnTerm_off (G : Globals) (g : FlexGridGraph) (curr : FlexWavefrontGrid)
    (d : frDirEnum) : g.withoutViaTurn.viaTurnTerm G curr d = 0 := by
  unfold viaTurnTerm isForbiddenTLen withoutViaTurn
  simp

theorem nextPathCostSum_viaTurn (G : Globals) (g : FlexGridGraph) (curr : FlexWavefrontGrid)
    (d : frDirEnum) :
    g.nextPathCostSum G curr d
      = g.withoutViaTurn.nextPathCostSum G curr d + g.viaTurnTerm G curr d := by
  have e : g.withoutViaTurn.nextPathCostSum G curr d
      = (curr.pathCost : Int) + bendTerm curr d + g.via2viaTerm G curr d
        + g.withoutViaTurn.viaTurnTerm G curr d + g.edgeTerm G curr d := rfl
  rw [e, viaTurnTerm_off]
  unfold nextPathCostSum
  ring

/-- On a via step the via-to-turn term is never added: the test `tLength != max` reads the
local `tLength`, which still holds `max`. -/
theorem viaTurnTerm_via_step (G : Globals) (g : FlexGridGraph) (curr : FlexWavefrontGrid)
    (d : frDirEnum) (hd : d = .U ∨ d = .D) : g.viaTurnTerm G curr d = 0 := by
  have h : g.isForbiddenTLen curr d = false := by
    unfold isForbiddenTLen
    simp [hd]
  unfold viaTurnTerm
  rw [h]
  simp

/-- C12 (the code at the failing input).  On `turnRuleGrid` with `ggMarkerCost = 2` and no
worker, the cell `turnCell` is the one pushed at `(1,1,0)` after the moves `N`, `E` from the
source; its last direction is `E`, its `tLength` is 100 and not infinite, and
`isViaForbiddenTurnLen(z, not (U = U), true, 100)` holds.  For the via step `U` the claim
charges `L·C_vt = 200` on top of the other terms, which are 502; `getNextPathCost` returns
502. -/
theorem getNextPathCost_via_step_misses_turn_rule :
    turnCell = turnRuleGrid.childGrid (ruleGlobals 2)
        (turnRuleGrid.childGrid (ruleGlobals 2)
          (turnRuleGrid.seedGrid (ruleGlobals 2) ⟨1, 1, 1⟩ ⟨1, 1, 1⟩ (0, 0) ⟨0, 0, 0⟩) .N
          ⟨1, 1, 1⟩ ⟨1, 1, 1⟩ (0, 0)) .E ⟨1, 1, 1⟩ ⟨1, 1, 1⟩ (0, 0)
      ∧ turnCell.getLastDir = .E ∧ turnCell.tLength = 100 ∧ turnCell.tLength ≠ frCoordMax
      ∧ turnRuleGrid.tech.isViaForbiddenTurnLen turnCell.zIdx (!decide (frDirEnum.U = .U)) true
          turnCell.tLength = true
      ∧ (specCvt (ruleGlobals 2) turnRuleGrid.drWorker : Int)
          * turnRuleGrid.getEdgeLength turnCell.idx .U = 200
      ∧ turnRuleGrid.withoutViaTurn.getNextPathCost (ruleGlobals 2) turnCell .U = 502
      ∧ turnRuleGrid.getNextPathCost (ruleGlobals 2) turnCell .U = 502 := by
  decide

/-- Claim C13.  For a planar `d` and a planar `curr.lastDir` different from `d`, the cost
`getNextPathCost(curr, d)` is, in the cost type, the cost computed with the via-to-turn rule
switched off plus `L·C_vt` exactly when `isViaForbiddenTurnLen(z, not curr.prevViaUp, lastDir
in {E, W}, len)` holds, where `len` is `curr.vLengthX` when `lastDir` is `E` or `W` and
`curr.vLengthY` when it is `N` or `S`; `C_vt` is `ggDRCCost` when a worker exists with
`DRIter >= 3` and `ggMarkerCost` otherwise.  When `curr.lastDir` is `U`, `D` or `UNKNOWN`, no
via-to-turn term is added, whatever `d` is. -/
theorem getNextPathCost_planar_turn_rule (G : Globals) (g : FlexGridGraph)
    (curr : FlexWavefrontGrid) (d : frDirEnum) :
    (d.isPlanar → curr.getLastDir.isPlanar → curr.getLastDir ≠ d →
      g.getNextPathCost G curr d
        = toCost G ((g.withoutViaTurn.getNextPathCost G curr d : Int)
            + (if g.tech.isViaForbiddenTurnLen curr.zIdx (!curr.prevViaUp)
                  (decide (curr.getLastDir = .E ∨ curr.getLastDir = .W))
                  (if curr.getLastDir = .E ∨ curr.getLastDir = .W then curr.vLengthX
                   else curr.vLengthY) = true
              then (specCvt G g.drWorker : Int) * g.getEdgeLength curr.idx d else 0)))
    ∧ (curr.getLastDir = .U ∨ curr.getLastDir = .D ∨ curr.getLastDir = .UNKNOWN →
        g.getNextPathCost G curr d = g.withoutViaTurn.getNextPathCost G curr d) := by
  constructor
  · intro hd hl hne
    have hdv : ¬ (d = .U ∨ d = .D) := by
      rcases hd with h | h | h | h <;> subst h <;> decide
    have hlu : curr.getLastDir ≠ .UNKNOWN := by
      rcases hl with h | h | h | h <;> rw [h] <;> decide
    have hterm : g.viaTurnTerm G curr d
        = (if g.tech.isViaForbiddenTurnLen curr.zIdx (!curr.prevViaUp)
              (decide (curr.getLastDir = .E ∨ curr.getLastDir = .W))
              (if curr.getLastDir = .E ∨ curr.getLastDir = .W then curr.vLengthX
               else curr.vLengthY) = true
          then (specCvt G g.drWorker : Int) * g.getEdgeLength curr.idx d else 0) := by
      unfold viaTurnTerm isForbiddenTLen
      rw [← (drIterAtLeast_three G g).2]
      simp only [hdv, hlu, hne, ne_eq, not_false_eq_true, and_self, if_true, if_false]
      rcases hl with h | h | h | h <;> simp only [h] <;> simp
    rw [getNextPathCost_eq_sum G g, getNextPathCost_eq_sum G g.withoutViaTurn, toCost_add_left,
      nextPathCostSum_viaTurn, hterm]
  · intro hl
    have h0 : g.viaTurnTerm G curr d = 0 := by
      unfold viaTurnTerm isForbiddenTLen
      rcases hl with h | h | h <;> simp [h]
    rw [getNextPathCost_eq_sum G g, getNextPathCost_eq_sum G g.withoutViaTurn,
      nextPathCostSum_viaTurn, h0, add_zero]

theorem getNextPathCost_planar_turn_rule_witness :
    (frDirEnum.S.isPlanar ∧ turnCell.getLastDir.isPlanar ∧ turnCell.getLastDir ≠ .S
      ∧ turnRuleGrid.getNextPathCost (ruleGlobals 2) turnCell .S
        = toCost (ruleGlobals 2)
            ((turnRuleGrid.withoutViaTurn.getNextPathCost (ruleGlobals 2) turnCell .S : Int)
            + (if turnRuleGrid.tech.isViaForbiddenTurnLen turnCell.zIdx (!turnCell.prevViaUp)
                  (decide (turnCell.getLastDir = .E ∨ turnCell.getLastDir = .W))
                  (if turnCell.getLastDir = .E ∨ turnCell.getLastDir = .W then turnCell.vLengthX
                   else turnCell.vLengthY) = true
              then (specCvt (ruleGlobals 2) turnRuleGrid.drWorker : Int)
                * turnRuleGrid.getEdgeLength turnCell.idx .S else 0)))
    ∧ turnRuleGrid.getNextPathCost (ruleGlobals 2) turnCell .S = 702
    ∧ turnRuleGrid.withoutViaTurn.getNextPathCost (ruleGlobals 2) turnCell .S = 502 :=
  ⟨⟨by decide, by decide, by decide,
    (getNextPathCost_planar_turn_rule (ruleGlobals 2) turnRuleGrid turnCell .S).1 (by decide)
      (by decide) (by decide)⟩, by decide, by decide⟩

end FlexGridGraph

/-! ## Monotone path cost (C14) -/

namespace FlexGridGraph

theorem bendTerm_nonneg (curr : FlexWavefrontGrid) (d : frDirEnum) : 0 ≤ bendTerm curr d := by
  unfold bendTerm
  split_ifs <;> decide

theorem via2viaTerm_nonneg (G : Globals) (g : FlexGridGraph) (curr : FlexWavefrontGrid)
    (d : frDirEnum) (hL : 0 ≤ g.getEdgeLength curr.idx d) : 0 ≤ g.via2viaTerm G curr d := by
  unfold via2viaTerm
  split_ifs <;> positivity

theorem viaTurnTerm_nonneg (G : Globals) (g : FlexGridGraph) (curr : FlexWavefrontGrid)
    (d : frDirEnum) (hL : 0 ≤ g.getEdgeLength curr.idx d) : 0 ≤ g.viaTurnTerm G curr d := by
  unfold viaTurnTerm
  split_ifs <;> positivity

theorem edgeTerm_ge (G : Globals) (g : FlexGridGraph) (curr : FlexWavefrontGrid)
    (d : frDirEnum) (hL : 0 ≤ g.getEdgeLength curr.idx d) :
    g.getEdgeLength curr.idx d ≤ g.edgeTerm G curr d := by
  unfold edgeTerm
  have h1 : (0 : Int) ≤ (if g.hasGridCost curr.idx d = true then
      G.GRIDCOST * g.getEdgeLength curr.idx d else 0) := by split_ifs <;> positivity
  have h2 : (0 : Int) ≤ (if g.hasDRCCost curr.idx d = true then
      G.ggDRCCost * g.getEdgeLength curr.idx d else 0) := by split_ifs <;> positivity
  have h3 : (0 : Int) ≤ (if g.hasMarkerCost curr.idx d = true then
      G.ggMarkerCost * g.getEdgeLength curr.idx d else 0) := by split_ifs <;> positivity
  have h4 : (0 : Int) ≤ (if g.hasShapeCost curr.idx d = true then
      G.SHAPECOST * g.getEdgeLength curr.idx d else 0) := by split_ifs <;> positivity
  have h5 : (0 : Int) ≤ (if g.isBlocked curr.idx d = true then
      (G.BLOCKCOST : Int) * g.tech.layerWidth (g.getLayerNum curr.zIdx) * 20 else 0) := by
    split_ifs <;> positivity
  have h6 : (0 : Int) ≤ (if g.hasGuide curr.idx d = false then
      G.GUIDECOST * g.getEdgeLength curr.idx d else 0) := by split_ifs <;> positivity
  linarith

/-- C14 (counterexample): with 32-bit costs, on the row of five cells, a move `E` from a cell
whose last move was `N` and whose path cost is `2^32 - 101` adds one bend and the edge length
100: the sum is `2^32` and wraps around to 0, below the path cost of the cell and below that
path cost plus the edge length, whether this bound is taken exactly or in the cost type. -/
theorem getNextPathCost_wraps_around :
    wrapCell.pathCost = 4294967195 ∧ rowGrid.getEdgeLength wrapCell.idx .E = 100
      ∧ rowGrid.getNextPathCost (sampleGlobals 4) wrapCell .E = 0
      ∧ ¬ ((wrapCell.pathCost : Int) + rowGrid.getEdgeLength wrapCell.idx .E
            ≤ rowGrid.getNextPathCost (sampleGlobals 4) wrapCell .E)
      ∧ ¬ (toCost (sampleGlobals 4)
            ((wrapCell.pathCost : Int) + rowGrid.getEdgeLength wrapCell.idx .E)
            ≤ rowGrid.getNextPathCost (sampleGlobals 4) wrapCell .E)
      ∧ rowGrid.getNextPathCost (sampleGlobals 4) wrapCell .E < wrapCell.pathCost := by
  decide

/-- C14 (amended): with a non-negative edge length (layer width and cost constants are natural
numbers), whenever the sum that `getNextPathCost(curr, d)` accumulates fits the cost type, the
function returns that sum and it is at least `curr.pathCost + getEdgeLength(x, y, z, d)`. -/
theorem getNextPathCost_monotone (G : Globals) (g : FlexGridGraph) (curr : FlexWavefrontGrid)
    (d : frDirEnum) (hL : 0 ≤ g.getEdgeLength curr.idx d)
    (hfit : g.nextPathCostSum G curr d < (2 : Int) ^ G.costBits) :
    (g.getNextPathCost G curr d : Int) = g.nextPathCostSum G curr d
      ∧ (curr.pathCost : Int) + g.getEdgeLength curr.idx d ≤ g.getNextPathCost G curr d := by
  have h1 := bendTerm_nonneg curr d
  have h2 := via2viaTerm_nonneg G g curr d hL
  have h3 := viaTurnTerm_nonneg G g curr d hL
  have h4 := edgeTerm_ge G g curr d hL
  have hs : (curr.pathCost : Int) + g.getEdgeLength curr.idx d ≤ g.nextPathCostSum G curr d := by
    unfold nextPathCostSum
    linarith
  have h0 : 0 ≤ g.nextPathCostSum G curr d := by
    have : (0 : Int) ≤ curr.pathCost := by positivity
    linarith
  have e : (g.getNextPathCost G curr d : Int) = g.nextPathCostSum G curr d := by
    rw [getNextPathCost_eq_sum, toCost_of_lt G _ h0 hfit]
  exact ⟨e, by rw [e]; exact hs⟩

theorem getNextPathCost_monotone_witness :
    0 ≤ rowGrid.getEdgeLength sampleCell.idx .E
      ∧ rowGrid.nextPathCostSum (sampleGlobals 4) sampleCell .E
          < (2 : Int) ^ (sampleGlobals 4).costBits
      ∧ (rowGrid.getNextPathCost (sampleGlobals 4) sampleCell .E : Int)
          = rowGrid.nextPathCostSum (sampleGlobals 4) sampleCell .E
      ∧ (sampleCell.pathCost : Int) + rowGrid.getEdgeLength sampleCell.idx .E
          ≤ rowGrid.getNextPathCost (sampleGlobals 4) sampleCell .E :=
  ⟨by decide, by decide,
    getNextPathCost_monotone (sampleGlobals 4) rowGrid sampleCell .E (by decide) (by decide)⟩

end FlexGridGraph

/-! ## The direction buffer is a FIFO (C15) -/

namespace FlexGridGraph

theorem shiftAddBuffer_dirs (G : Globals) (w : FlexWavefrontGrid) (d : frDirEnum)
    (l : List frDirEnum) (hB : 0 < G.WAVEFRONTBUFFERSIZE)
    (hbuf : w.backTraceBuffer < 8 ^ G.WAVEFRONTBUFFERSIZE)
    (hl : w.dirs G = padDirs G.WAVEFRONTBUFFERSIZE l) :
    (w.shiftAddBuffer G d).1 = l.getD (G.WAVEFRONTBUFFERSIZE - 1) .UNKNOWN
      ∧ (w.shiftAddBuffer G d).2.backTraceBuffer < 8 ^ G.WAVEFRONTBUFFERSIZE
      ∧ (w.shiftAddBuffer G d).2.dirs G = padDirs G.WAVEFRONTBUFFERSIZE (d :: l) := by
  obtain ⟨h1, h2⟩ := dirs_split G w l hB hbuf hl
  obtain ⟨B, hB1⟩ : ∃ B, G.WAVEFRONTBUFFERSIZE = B + 1 := ⟨G.WAVEFRONTBUFFERSIZE - 1, by omega⟩
  have hb : (w.shiftAddBuffer G d).2.backTraceBuffer
      = (w.backTraceBuffer * 2 ^ 3) % 2 ^ ((B + 1) * 3) + d.toBits := by
    unfold FlexWavefrontGrid.shiftAddBuffer Globals.WAVEFRONTBITSIZE DIRBITSIZE
    rw [hB1]
  refine ⟨h2, ?_, ?_⟩
  · rw [hb, hB1]
    exact shift_lt B _ d
  · unfold FlexWavefrontGrid.dirs
    rw [hb, hB1, bufDirs_shift]
    rw [hB1] at h1
    simp only [Nat.add_sub_cancel] at h1
    rw [h1]
    rfl

/-- After the calls `shiftAddBuffer(d1)`, ..., `shiftAddBuffer(dk)` on a cell whose buffer
shows the directions `l`, the buffer shows `dk, ..., d1` followed by `l`, and the `i`-th call
returned the direction `WAVEFRONTBUFFERSIZE` places back at that moment. -/
theorem shiftAll_dirs (G : Globals) (hB : 0 < G.WAVEFRONTBUFFERSIZE) (ds : List frDirEnum)
    (w : FlexWavefrontGrid) (l : List frDirEnum)
    (hbuf : w.backTraceBuffer < 8 ^ G.WAVEFRONTBUFFERSIZE)
    (hl : w.dirs G = padDirs G.WAVEFRONTBUFFERSIZE l) :
    (w.shiftAll G ds).2.dirs G = padDirs G.WAVEFRONTBUFFERSIZE (ds.reverse ++ l)
      ∧ (w.shiftAll G ds).1.length = ds.length
      ∧ ∀ i, i < ds.length → (w.shiftAll G ds).1.getD i .UNKNOWN
          = ((ds.take i).reverse ++ l).getD (G.WAVEFRONTBUFFERSIZE - 1) .UNKNOWN := by
  induction ds generalizing w l with
  | nil => exact ⟨by simpa [FlexWavefrontGrid.shiftAll] using hl, rfl, by simp⟩
  | cons d rest ih =>
    obtain ⟨h1, h2, h3⟩ := shiftAddBuffer_dirs G w d l hB hbuf hl
    obtain ⟨i1, i2, i3⟩ := ih (w.shiftAddBuffer G d).2 (d :: l) h2 h3
    refine ⟨?_, ?_, ?_⟩
    · simp only [FlexWavefrontGrid.shiftAll, List.reverse_cons, List.append_assoc,
        List.singleton_append]
      exact i1
    · simp only [FlexWavefrontGrid.shiftAll, List.length_cons, i2]
    · intro i hi
      cases i with
      | zero =>
        simp only [FlexWavefrontGrid.shiftAll, List.getD_cons_zero, List.take_zero,
          List.reverse_nil, List.nil_append]
        exact h1
      | succ i =>
        simp only [FlexWavefrontGrid.shiftAll, List.getD_cons_succ, List.take_succ_cons,
          List.reverse_cons, List.append_assoc, List.singleton_append]
        exact i3 i (by simpa using hi)

theorem getD_reverse_take (ds : List frDirEnum) (i j : Nat) (hi : i ≤ ds.length) :
    (ds.take i).reverse.getD j .UNKNOWN
      = if j < i then ds.getD (i - 1 - j) .UNKNOWN else .UNKNOWN := by
  have hlen : (ds.take i).length = i := by simp [hi]
  by_cases hj : j < i
  · have h1 : j < (ds.take i).reverse.length := by
      rw [List.length_reverse, hlen]
      exact hj
    have h2 : i - 1 - j < ds.length := by omega
    rw [if_pos hj, List.getD_eq_getElem _ _ h1, List.getD_eq_getElem _ _ h2,
      List.getElem_reverse, List.getElem_take]
    congr 1
    omega
  · have h1 : (ds.take i).reverse.length ≤ j := by
      rw [List.length_reverse, hlen]
      omega
    rw [if_neg hj, List.getD_eq_default _ _ h1]

theorem reverse_take_succ (ds : List frDirEnum) (i : Nat) (hi : i < ds.length) :
    (ds.take (i + 1)).reverse = ds.getD i .UNKNOWN :: (ds.take i).reverse := by
  rw [List.take_succ, List.reverse_append, List.getD_eq_getElem _ _ hi,
    List.getElem?_eq_getElem hi]
  rfl

/-- Claim C15.  With a buffer of `B = WAVEFRONTBUFFERSIZE >= 1` directions, starting from the
empty buffer (value 0) and inserting directions `d1, d2, ...` other than `UNKNOWN` with
`shiftAddBuffer`: `getLastDir` of the empty buffer is `UNKNOWN`; after the `k`-th insertion
`getLastDir` returns `dk`; the `k`-th call returns `UNKNOWN` as the direction shifted out when
`k <= B` and `d(k-B)` when `k > B`.  Positions are counted from 0 in the statement
(`i = k - 1`); the statement holds for every list of directions, those of the claim included. -/
theorem shiftAddBuffer_fifo (G : Globals) (hB : 0 < G.WAVEFRONTBUFFERSIZE)
    (w : FlexWavefrontGrid) (hw : w.backTraceBuffer = 0) (ds : List frDirEnum) :
    fr.getLastDir 0 = .UNKNOWN
      ∧ (w.shiftAll G ds).1.length = ds.length
      ∧ ∀ i, i < ds.length →
          (w.shiftAll G (ds.take (i + 1))).2.getLastDir = ds.getD i .UNKNOWN
          ∧ (w.shiftAll G ds).1.getD i .UNKNOWN
              = if i < G.WAVEFRONTBUFFERSIZE then .UNKNOWN
                else ds.getD (i - G.WAVEFRONTBUFFERSIZE) .UNKNOWN := by
  have hbuf : w.backTraceBuffer < 8 ^ G.WAVEFRONTBUFFERSIZE := by
    rw [hw]
    positivity
  have hl : w.dirs G = padDirs G.WAVEFRONTBUFFERSIZE [] := by
    rw [FlexWavefrontGrid.dirs, hw, bufDirs_zero, padDirs_nil]
  obtain ⟨-, h2, h3⟩ := shiftAll_dirs G hB ds w [] hbuf hl
  refine ⟨by decide, h2, ?_⟩
  intro i hi
  constructor
  · obtain ⟨k1, -, -⟩ := shiftAll_dirs G hB (ds.take (i + 1)) w [] hbuf hl
    rw [List.append_nil] at k1
    obtain ⟨B, hB1⟩ : ∃ B, G.WAVEFRONTBUFFERSIZE = B + 1 := ⟨G.WAVEFRONTBUFFERSIZE - 1, by omega⟩
    rw [reverse_take_succ ds i hi, hB1] at k1
    unfold FlexWavefrontGrid.dirs at k1
    rw [hB1] at k1
    simp only [bufDirs, padDirs, List.cons.injEq] at k1
    exact k1.1
  · rw [h3 i hi, List.append_nil, getD_reverse_take ds i _ (le_of_lt hi)]
    by_cases hlt : i < G.WAVEFRONTBUFFERSIZE
    · rw [if_pos hlt, if_neg (by omega)]
    · rw [if_neg hlt, if_pos (by omega)]
      congr 1
      omega

theorem shiftAddBuffer_fifo_witness :
    0 < (sampleGlobals 2).WAVEFRONTBUFFERSIZE
      ∧ ((sampleCell.shiftAll (sampleGlobals 2) [.E, .N, .U]).1 = [.UNKNOWN, .N, .E])
      ∧ (fr.getLastDir 0 = .UNKNOWN
        ∧ (({ sampleCell with backTraceBuffer := 0 } : FlexWavefrontGrid).shiftAll (sampleGlobals 2)
            [.E, .N, .U]).1.length = [frDirEnum.E, .N, .U].length
        ∧ ∀ i, i < [frDirEnum.E, .N, .U].length →
          (({ sampleCell with backTraceBuffer := 0 } : FlexWavefrontGrid).shiftAll (sampleGlobals 2)
              ([frDirEnum.E, .N, .U].take (i + 1))).2.getLastDir
            = [frDirEnum.E, .N, .U].getD i .UNKNOWN
          ∧ (({ sampleCell with backTraceBuffer := 0 } : FlexWavefrontGrid).shiftAll
              (sampleGlobals 2) [.E, .N, .U]).1.getD i .UNKNOWN
              = if i < (sampleGlobals 2).WAVEFRONTBUFFERSIZE then .UNKNOWN
                else [frDirEnum.E, .N, .U].getD (i - (sampleGlobals 2).WAVEFRONTBUFFERSIZE)
                  .UNKNOWN) :=
  ⟨by decide, by decide,
    shiftAddBuffer_fifo (sampleGlobals 2) (by decide) { sampleCell with backTraceBuffer := 0 } rfl
      [.E, .N, .U]⟩

end FlexGridGraph
/-! ## Round trip of `getTailIdx` (C16) -/

namespace FlexGridGraph

theorem foldl_next_prev (l : List frDirEnum) (n : FlexMazeIdx) :
    l.reverse.foldl getNextGrid (l.foldl getPrevGrid n) = n := by
  induction l generalizing n with
  | nil => rfl
  | cons d rest ih =>
    rw [List.foldl_cons, List.reverse_cons, List.foldl_append, ih]
    exact getNextGrid_getPrevGrid n d

/-- Claim C16.  For every cell `n` and every wavefront cell, applying `getNextGrid` to
`getTailIdx(n, cell)` along the `B = WAVEFRONTBUFFERSIZE` directions of the buffer, from the
oldest to the newest, returns `n`; `getPrevGrid` and `getNextGrid` undo each other for every
direction, and `UNKNOWN` leaves a cell unchanged, so a partly filled buffer walks back only as
many steps as it holds. -/
theorem getTailIdx_round_trip (G : Globals) (n : FlexMazeIdx) (w : FlexWavefrontGrid) :
    (bufDirs G.WAVEFRONTBUFFERSIZE w.backTraceBuffer).reverse.foldl getNextGrid
        (getTailIdx G n w) = n
      ∧ (∀ (p : FlexMazeIdx) (d : frDirEnum),
          getPrevGrid (getNextGrid p d) d = p ∧ getNextGrid (getPrevGrid p d) d = p)
      ∧ (∀ p : FlexMazeIdx, getNextGrid p .UNKNOWN = p ∧ getPrevGrid p .UNKNOWN = p) := by
  refine ⟨?_, fun p d => ⟨getPrevGrid_getNextGrid p d, getNextGrid_getPrevGrid p d⟩,
    fun p => ⟨rfl, rfl⟩⟩
  unfold getTailIdx
  rw [getTailIdxLoop_eq]
  exact foldl_next_prev _ n

end FlexGridGraph

/-! ## Bounding box after the back-trace (C17) -/

namespace FlexGridGraph

theorem foldl_mazeIdxMin (l : List FlexMazeIdx) (c : FlexMazeIdx) :
    isElementwiseMin (l.foldl mazeIdxMin c) (c :: l) := by
  induction l generalizing c with
  | nil =>
    simp only [List.foldl_nil, isElementwiseMin, List.mem_singleton, forall_eq, le_refl, and_self,
      exists_eq_left, true_and]
  | cons a rest ih =>
    obtain ⟨h1, ⟨cx, hx, ex⟩, ⟨cy, hy, ey⟩, ⟨cz, hz, ez⟩⟩ := ih (mazeIdxMin c a)
    have hm := h1 _ (List.mem_cons_self _ _)
    simp only [mazeIdxMin] at hm
    have sub : ∀ v ∈ mazeIdxMin c a :: rest, ∀ f : FlexMazeIdx → Int,
        (f (mazeIdxMin c a) = f c ∨ f (mazeIdxMin c a) = f a) →
        ∃ u ∈ c :: a :: rest, f v = f u := by
      intro v hv f hf
      rcases List.mem_cons.mp hv with e | e
      · subst e
        rcases hf with e1 | e1
        · exact ⟨c, List.mem_cons_self _ _, e1⟩
        · exact ⟨a, List.mem_cons_of_mem _ (List.mem_cons_self _ _), e1⟩
      · exact ⟨v, List.mem_cons_of_mem _ (List.mem_cons_of_mem _ e), rfl⟩
    simp only [List.foldl_cons]
    refine ⟨?_, ?_, ?_, ?_⟩
    · intro v hv
      rcases List.mem_cons.mp hv with e | e
      · subst e
        exact ⟨le_trans hm.1 (min_le_left _ _), le_trans hm.2.1 (min_le_left _ _),
          le_trans hm.2.2 (min_le_left _ _)⟩
      · rcases List.mem_cons.mp e with e | e
        · subst e
          exact ⟨le_trans hm.1 (min_le_right _ _), le_trans hm.2.1 (min_le_right _ _),
            le_trans hm.2.2 (min_le_right _ _)⟩
        · exact h1 v (List.mem_cons_of_mem _ e)
    · obtain ⟨u, hu, e⟩ := sub cx hx (fun p => p.x) (by
        simp only [mazeIdxMin]
        exact min_choice _ _)
      exact ⟨u, hu, ex.trans e⟩
    · obtain ⟨u, hu, e⟩ := sub cy hy (fun p => p.y) (by
        simp only [mazeIdxMin]
        exact min_choice _ _)
      exact ⟨u, hu, ey.trans e⟩
    · obtain ⟨u, hu, e⟩ := sub cz hz (fun p => p.z) (by
        simp only [mazeIdxMin]
        exact min_choice _ _)
      exact ⟨u, hu, ez.trans e⟩

theorem foldl_mazeIdxMax (l : List FlexMazeIdx) (c : FlexMazeIdx) :
    isElementwiseMax (l.foldl mazeIdxMax c) (c :: l) := by
  induction l generalizing c with
  | nil =>
    simp only [List.foldl_nil, isElementwiseMax, List.mem_singleton, forall_eq, le_refl, and_self,
      exists_eq_left, true_and]
  | cons a rest ih =>
    obtain ⟨h1, ⟨cx, hx, ex⟩, ⟨cy, hy, ey⟩, ⟨cz, hz, ez⟩⟩ := ih (mazeIdxMax c a)
    have hm := h1 _ (List.mem_cons_self _ _)
    simp only [mazeIdxMax] at hm
    have sub : ∀ v ∈ mazeIdxMax c a :: rest, ∀ f : FlexMazeIdx → Int,
        (f (mazeIdxMax c a) = f c ∨ f (mazeIdxMax c a) = f a) →
        ∃ u ∈ c :: a :: rest, f v = f u := by
      intro v hv f hf
      rcases List.mem_cons.mp hv with e | e
      · subst e
        rcases hf with e1 | e1
        · exact ⟨c, List.mem_cons_self _ _, e1⟩
        · exact ⟨a, List.mem_cons_of_mem _ (List.mem_cons_self _ _), e1⟩
      · exact ⟨v, List.mem_cons_of_mem _ (List.mem_cons_of_mem _ e), rfl⟩
    simp only [List.foldl_cons]
    refine ⟨?_, ?_, ?_, ?_⟩
    · intro v hv
      rcases List.mem_cons.mp hv with e | e
      · subst e
        exact ⟨le_trans (le_max_left _ _) hm.1, le_trans (le_max_left _ _) hm.2.1,
          le_trans (le_max_left _ _) hm.2.2⟩
      · rcases List.mem_cons.mp e with e | e
        · subst e
          exact ⟨le_trans (le_max_right _ _) hm.1, le_trans (le_max_right _ _) hm.2.1,
            le_trans (le_max_right _ _) hm.2.2⟩
        · exact h1 v (List.mem_cons_of_mem _ e)
    · obtain ⟨u, hu, e⟩ := sub cx hx (fun p => p.x) (by
        simp only [mazeIdxMax]
        exact max_choice _ _)
      exact ⟨u, hu, ex.trans e⟩
    · obtain ⟨u, hu, e⟩ := sub cy hy (fun p => p.y) (by
        simp only [mazeIdxMax]
        exact max_choice _ _)
      exact ⟨u, hu, ey.trans e⟩
    · obtain ⟨u, hu, e⟩ := sub cz hz (fun p => p.z) (by
        simp only [mazeIdxMax]
        exact max_choice _ _)
      exact ⟨u, hu, ez.trans e⟩

/-- C17 (counterexample): on the row of five cells with the connected component
`[(0,0,0), (1,0,0)]` (both sources) and its bounding box `(0,0,0) .. (1,0,0)` passed as
`ccMazeIdx1`, `ccMazeIdx2`, the search returns the path `[(4,0,0), (1,0,0)]` and leaves
`ccMazeIdx1 = (0,0,0)`, which is not the elementwise minimum `(1,0,0)` over the cells of
the path. -/
theorem traceBackPath_box_keeps_initial_corner :
    (search (sampleGlobals 2) twoSourceRow 20 [⟨0, 0, 0⟩, ⟨1, 0, 0⟩] [⟨4, 0, 0⟩] [] ⟨0, 0, 0⟩
        ⟨1, 0, 0⟩ (0, 0)).map (fun r => (r.found, r.path, r.ccMazeIdx1, r.ccMazeIdx2))
        = some (true, [⟨4, 0, 0⟩, ⟨1, 0, 0⟩], ⟨0, 0, 0⟩, ⟨4, 0, 0⟩)
      ∧ isElementwiseMin ⟨1, 0, 0⟩ [⟨4, 0, 0⟩, ⟨1, 0, 0⟩]
      ∧ ¬ isElementwiseMin ⟨0, 0, 0⟩ [⟨4, 0, 0⟩, ⟨1, 0, 0⟩] := by
  decide

/-- C17 (amended): after `traceBackPath` returns, `ccMazeIdx1` is the elementwise minimum over
its value on entry and the cells of `path`, and `ccMazeIdx2` the elementwise maximum over its
value on entry and the cells of `path`: the box passed in, widened to hold the path. -/
theorem traceBackPath_widens_box (G : Globals) (g : FlexGridGraph) (fuel : Nat)
    (currGrid : FlexWavefrontGrid) (path root : List FlexMazeIdx)
    (ccMazeIdx1 ccMazeIdx2 : FlexMazeIdx) (t : TraceResult)
    (h : traceBackPath G g fuel currGrid path root ccMazeIdx1 ccMazeIdx2 = some t) :
    isElementwiseMin t.ccMazeIdx1 (ccMazeIdx1 :: t.path)
      ∧ isElementwiseMax t.ccMazeIdx2 (ccMazeIdx2 :: t.path) := by
  unfold traceBackPath at h
  simp only at h
  cases htg : traceGrid g fuel (traceBuffer g G.WAVEFRONTBUFFERSIZE currGrid.backTraceBuffer
      { curr := currGrid.idx, prevDir := .UNKNOWN, path := path, root := root, warnings := 0 }) with
  | none => simp [htg] at h
  | some t2 =>
    simp only [htg, Option.some.injEq] at h
    subst h
    exact ⟨foldl_mazeIdxMin _ _, foldl_mazeIdxMax _ _⟩

theorem traceBackPath_widens_box_witness :
    ∃ t, traceBackPath (sampleGlobals 2) rowGrid 5 { sampleCell with backTraceBuffer := 4 } []
        [⟨0, 0, 0⟩] ⟨3, 0, 0⟩ ⟨3, 0, 0⟩ = some t
      ∧ t.path = [⟨1, 0, 0⟩, ⟨0, 0, 0⟩] ∧ t.ccMazeIdx1 = ⟨0, 0, 0⟩ ∧ t.ccMazeIdx2 = ⟨3, 0, 0⟩
      ∧ isElementwiseMin t.ccMazeIdx1 (⟨3, 0, 0⟩ :: t.path)
      ∧ isElementwiseMax t.ccMazeIdx2 (⟨3, 0, 0⟩ :: t.path) := by
  have hm : (traceBackPath (sampleGlobals 2) rowGrid 5 { sampleCell with backTraceBuffer := 4 } []
      [⟨0, 0, 0⟩] ⟨3, 0, 0⟩ ⟨3, 0, 0⟩).map (fun t => (t.path, t.ccMazeIdx1, t.ccMazeIdx2))
      = some ([⟨1, 0, 0⟩, ⟨0, 0, 0⟩], ⟨0, 0, 0⟩, ⟨3, 0, 0⟩) := by
    decide
  cases h : traceBackPath (sampleGlobals 2) rowGrid 5 { sampleCell with backTraceBuffer := 4 } []
      [⟨0, 0, 0⟩] ⟨3, 0, 0⟩ ⟨3, 0, 0⟩ with
  | none =>
    rw [h] at hm
    exact absurd hm (by simp)
  | some t =>
    rw [h] at hm
    simp only [Option.map_some', Option.some.injEq, Prod.mk.injEq] at hm
    exact ⟨t, rfl, hm.1, hm.2.1, hm.2.2,
      traceBackPath_widens_box (sampleGlobals 2) rowGrid 5 { sampleCell with backTraceBuffer := 4 }
        [] [⟨0, 0, 0⟩] ⟨3, 0, 0⟩ ⟨3, 0, 0⟩ t h⟩

end FlexGridGraph

/-! ## End-to-end scenarios: one bend (C19), blocked detour (C20) -/

namespace FlexGridGraph

/-- Claim C19.  On the fully connected 5 x 5 x 1 grid with uniform edge length 100, all cost
constants 0, no forbidden lengths and a buffer of 4 directions, the search from `(0,0,0)` to
`(4,4,0)` returns `true` with a path of exactly three points, the destination, the corner
`(0,4,0)` of the grid and the source, and the destination cell popped by the main loop has
path cost 801. -/
theorem search_one_bend :
    (search (sampleGlobals 4) bendGrid 20 [⟨0, 0, 0⟩] [⟨4, 4, 0⟩] [] ⟨0, 0, 0⟩ ⟨0, 0, 0⟩
        (400, 400)).map (fun r => (r.found, r.path))
        = some (true, [⟨4, 4, 0⟩, ⟨0, 4, 0⟩, ⟨0, 0, 0⟩])
      ∧ (searchLoop (sampleGlobals 4) (bendGrid.dstBoxLo [⟨4, 4, 0⟩]) (dstBoxHi [⟨4, 4, 0⟩])
          (400, 400) 20
          (searchInit (sampleGlobals 4) (bendGrid.dstBoxLo [⟨4, 4, 0⟩]) (dstBoxHi [⟨4, 4, 0⟩])
            (400, 400) [⟨0, 0, 0⟩] { bendGrid with wavefront := [] }).2 0).map
          (fun lr => lr.reached.map (fun w => (w.idx, w.pathCost)))
        = some (some (⟨4, 4, 0⟩, 801)) := by
  decide

/-- Claim C20.  On the fully connected 3 x 2 x 1 grid with uniform edge length 100, every edge
incident to `(1,0,0)` blocked, `BLOCKCOST = 10^6`, layer width 100, all other cost constants 0
and a buffer of 4 directions, the search from `(0,0,0)` to `(2,0,0)` returns `true`; the cells
of the route (the cells appended to `connComps`) include `(1,1,0)` and not `(1,0,0)`, the
returned path is `[(2,0,0), (2,1,0), (0,1,0), (0,0,0)]`, and the destination cell popped by
the main loop has path cost 402. -/
theorem search_blocked_detour :
    (search (blockGlobals 4) blockGrid 20 [⟨0, 0, 0⟩] [⟨2, 0, 0⟩] [] ⟨0, 0, 0⟩ ⟨0, 0, 0⟩
        (200, 0)).map (fun r => (r.found, r.path, r.connComps,
          decide ((⟨1, 1, 0⟩ : FlexMazeIdx) ∈ r.connComps),
          decide ((⟨1, 0, 0⟩ : FlexMazeIdx) ∈ r.connComps ∨ (⟨1, 0, 0⟩ : FlexMazeIdx) ∈ r.path)))
        = some (true, [⟨2, 0, 0⟩, ⟨2, 1, 0⟩, ⟨0, 1, 0⟩, ⟨0, 0, 0⟩],
            [⟨0, 0, 0⟩, ⟨2, 0, 0⟩, ⟨2, 1, 0⟩, ⟨1, 1, 0⟩, ⟨0, 1, 0⟩], true, false)
      ∧ (searchLoop (blockGlobals 4) (blockGrid.dstBoxLo [⟨2, 0, 0⟩]) (dstBoxHi [⟨2, 0, 0⟩])
          (200, 0) 20
          (searchInit (blockGlobals 4) (blockGrid.dstBoxLo [⟨2, 0, 0⟩]) (dstBoxHi [⟨2, 0, 0⟩])
            (200, 0) [⟨0, 0, 0⟩] { blockGrid with wavefront := [] }).2 0).map
          (fun lr => lr.reached.map (fun w => (w.idx, w.pathCost)))
        = some (some (⟨2, 0, 0⟩, 402)) := by
  decide

end FlexGridGraph

/-! ## The path written by the back-trace -/

namespace FlexGridGraph

theorem getLast_cons_getD (r : List frDirEnum) (d p : frDirEnum) :
    (d :: r).getLast?.getD p = r.getLast?.getD d := by
  induction r generalizing d p with
  | nil => rfl
  | cons a r1 ih => rw [List.getLast?_cons_cons, ih, ih]

theorem tracePath_append (p : frDirEnum) (c : FlexMazeIdx) (l1 l2 : List frDirEnum) :
    tracePath p c (l1 ++ l2)
      = tracePath p c l1 ++ tracePath (l1.getLast?.getD p) (l1.foldl getPrevGrid c) l2 := by
  induction l1 generalizing p c with
  | nil => rfl
  | cons d r ih =>
    simp only [List.cons_append, tracePath, List.foldl_cons, getLast_cons_getD, List.append_eq,
      ih]
    split_ifs <;> simp

/-- The first loop of `traceBackPath` on a good trail: it handles the first `n` moves of the
trail. -/
theorem traceBuffer_path (g : FlexGridGraph) (n buffer : Nat) (t : TraceState)
    (ds : List frDirEnum) (k : Nat) (hdirs : bufDirs n buffer = padDirs n ds)
    (hg : g.GoodTrail k t.curr ds) :
    (traceBuffer g n buffer t).path = t.path ++ tracePath t.prevDir t.curr (ds.take n)
      ∧ (traceBuffer g n buffer t).prevDir = (ds.take n).getLast?.getD t.prevDir
      ∧ (traceBuffer g n buffer t).curr = (ds.take n).foldl getPrevGrid t.curr := by
  induction n generalizing buffer t ds k with
  | zero => simp [traceBuffer, tracePath]
  | succ n ih =>
    cases ds with
    | nil =>
      have hs : g.isSrc t.curr = true := hg
      simp [traceBuffer, hs, tracePath]
    | cons d r =>
      obtain ⟨h1, h2, -, -, -, h6⟩ := hg
      simp only [bufDirs, padDirs, List.cons.injEq] at hdirs
      have hcur : fr.getLastDir buffer = d := hdirs.1
      have hb : buffer / 2 ^ DIRBITSIZE = buffer / 8 := rfl
      have e : (d :: r.take n).getLast?.getD t.prevDir = (r.take n).getLast?.getD d :=
        getLast_cons_getD _ _ _
      simp only [traceBuffer, h2, Bool.false_eq_true, if_false, hcur, h1, hb, List.take_succ_cons,
        tracePath, List.foldl_cons, e]
      obtain ⟨i1, i2, i3⟩ := ih (buffer / 8)
        { curr := getPrevGrid t.curr d, prevDir := d,
          path := if d ≠ t.prevDir then t.path ++ [t.curr] else t.path,
          root := t.root ++ [t.curr], warnings := t.warnings } r (k - 1) hdirs.2 h6
      refine ⟨?_, i2, i3⟩
      rw [i1]
      simp only
      split_ifs
      · simp
      · rfl

/-- The second loop of `traceBackPath` on a trail whose cells are all committed: it handles
every move of the trail. -/
theorem traceGrid_path (g : FlexGridGraph) (fuel : Nat) (t t1 : TraceState)
    (ds : List frDirEnum) (hg : g.GoodTrail 0 t.curr ds) (h : traceGrid g fuel t = some t1) :
    t1.path = t.path ++ tracePath t.prevDir t.curr ds
      ∧ t1.curr = ds.foldl getPrevGrid t.curr := by
  induction fuel generalizing t ds with
  | zero => simp [traceGrid] at h
  | succ fuel ih =>
    cases ds with
    | nil =>
      have hs : g.isSrc t.curr = true := hg
      simp only [traceGrid, hs, Bool.true_eq_false, if_false, Option.some.injEq] at h
      subst h
      simp [tracePath]
    | cons d r =>
      obtain ⟨h1, h2, -, -, h5, h6⟩ := hg
      have hcur : g.getPrevAstarNodeDir t.curr = d := h5 rfl
      simp only [traceGrid, h2, if_true, hcur, h1, if_false] at h
      obtain ⟨i1, i2⟩ := ih _ r h6 h
      refine ⟨?_, i2⟩
      rw [i1]
      simp only [tracePath]
      split_ifs
      · simp
      · rfl

/-- The path returned by `traceBackPath` from a popped cell on a good trail `ds`: the cells on
entry, the cells of the trail entered by a move that differs from the move handled before it,
and, when this is not empty, the cell where the trail starts. -/
theorem traceBackPath_path (G : Globals) (g : FlexGridGraph) (w : FlexWavefrontGrid)
    (path root : List FlexMazeIdx) (cc1 cc2 : FlexMazeIdx) (ds : List frDirEnum)
    (hds : w.dirs G = padDirs G.WAVEFRONTBUFFERSIZE ds)
    (hg : g.GoodTrail G.WAVEFRONTBUFFERSIZE w.idx ds) (fuel : Nat)
    (t : TraceResult) (h : traceBackPath G g fuel w path root cc1 cc2 = some t) :
    t.path = if path ++ tracePath .UNKNOWN w.idx ds ≠ [] then
        path ++ tracePath .UNKNOWN w.idx ds ++ [ds.foldl getPrevGrid w.idx]
      else path ++ tracePath .UNKNOWN w.idx ds := by
  have hb := traceBuffer_path g G.WAVEFRONTBUFFERSIZE w.backTraceBuffer
    { curr := w.idx, prevDir := .UNKNOWN, path := path, root := root, warnings := 0 } ds
    G.WAVEFRONTBUFFERSIZE hds hg
  have hgood := (traceBuffer_good g G.WAVEFRONTBUFFERSIZE w.backTraceBuffer
    { curr := w.idx, prevDir := .UNKNOWN, path := path, root := root, warnings := 0 } ds
    G.WAVEFRONTBUFFERSIZE hds hg).1
  rw [Nat.sub_self] at hgood
  obtain ⟨b1, b2, b3⟩ := hb
  unfold traceBackPath at h
  simp only at h
  cases htg : traceGrid g fuel (traceBuffer g G.WAVEFRONTBUFFERSIZE w.backTraceBuffer
      { curr := w.idx, prevDir := .UNKNOWN, path := path, root := root, warnings := 0 }) with
  | none => simp [htg] at h
  | some t2 =>
    obtain ⟨g1, g2⟩ := traceGrid_path g fuel _ t2 _ hgood htg
    simp only [htg, Option.some.injEq] at h
    subst h
    have e1 : t2.path = path ++ tracePath .UNKNOWN w.idx ds := by
      rw [g1, b1, b2, b3, List.append_assoc]
      simp only
      rw [← tracePath_append, List.take_append_drop]
    have e2 : t2.curr = ds.foldl getPrevGrid w.idx := by
      rw [g2, b3]
      simp only
      rw [← List.foldl_append, List.take_append_drop]
    simp only [e1, e2]

theorem tracePath_replicate (e : frDirEnum) (c : FlexMazeIdx) (m : Nat) :
    tracePath e c (List.replicate m e) = [] := by
  induction m generalizing c with
  | zero => rfl
  | succ m ih => simp [List.replicate_succ, tracePath, ih]

end FlexGridGraph

/-! ## Straight line (C18) -/

namespace FlexGridGraph

theorem childGrid_pathCost (G : Globals) (g : FlexGridGraph) (w : FlexWavefrontGrid)
    (d : frDirEnum) (d1 d2 : FlexMazeIdx) (centerPt : Int × Int) :
    (g.childGrid G w d d1 d2 centerPt).pathCost = g.getNextPathCost G w d := by
  unfold childGrid nextWavefrontGrid FlexWavefrontGrid.shiftAddBuffer
  simp only
  split_ifs <;> rfl

/-- The edges of the row: only E and W, between two cells of the row. -/
theorem lineGrid_hasEdge (n : Nat) (L : Int) (p : FlexMazeIdx → frDirEnum)
    (q : List FlexWavefrontGrid) (c : FlexMazeIdx) (d : frDirEnum)
    (h : ((lineGrid n L).withState p q).hasEdge c d = true) :
    c.y = 0 ∧ c.z = 0
      ∧ ((d = .E ∧ 0 ≤ c.x ∧ c.x + 1 < n) ∨ (d = .W ∧ 1 ≤ c.x ∧ c.x < n)) := by
  have h : hasEdgeOfBits n 1 1 (fun _ _ => true) c d = true := h
  cases d <;> simp [hasEdgeOfBits, inDims, getNextGrid] at h <;>
    first
    | omega
    | exact ⟨by omega, by omega, Or.inl ⟨rfl, by omega, by omega⟩⟩
    | exact ⟨by omega, by omega, Or.inr ⟨rfl, by omega, by omega⟩⟩

theorem lineGrid_edge_E (n : Nat) (L : Int) (x : Int) (h0 : 0 ≤ x) (h1 : x + 1 < n) :
    (lineGrid n L).hasEdge ⟨x, 0, 0⟩ .E = true := by
  show hasEdgeOfBits n 1 1 (fun _ _ => true) ⟨x, 0, 0⟩ .E = true
  simp [hasEdgeOfBits, inDims, getNextGrid]
  omega

/-- On the row, a good trail is a run of E moves from `(0,0,0)`. -/
theorem lineGrid_trail (n : Nat) (L : Int) (p : FlexMazeIdx → frDirEnum)
    (q : List FlexWavefrontGrid) (k : Nat) (c : FlexMazeIdx) (ds : List frDirEnum)
    (h : ((lineGrid n L).withState p q).GoodTrail k c ds) :
    ds = List.replicate ds.length .E ∧ c = ⟨ds.length, 0, 0⟩ := by
  induction ds generalizing k c with
  | nil =>
    have h : decide (c ∈ [(⟨0, 0, 0⟩ : FlexMazeIdx)]) = true := h
    simp only [List.mem_singleton, decide_eq_true_eq] at h
    exact ⟨rfl, by simpa using h⟩
  | cons d r ih =>
    obtain ⟨-, -, h3, h4, -, h6⟩ := h
    obtain ⟨e1, e2⟩ := ih _ _ h6
    obtain ⟨-, -, hd | hd⟩ := lineGrid_hasEdge n L p q _ _ h3
    · obtain ⟨rfl, -, -⟩ := hd
      constructor
      · rw [List.length_cons, List.replicate_succ, ← e1]
      · rw [← getNextGrid_getPrevGrid c .E, e2]
        simp [getNextGrid]
    · obtain ⟨rfl, hx, -⟩ := hd
      exfalso
      rw [e2] at hx
      cases r with
      | nil => simp at hx
      | cons a r1 =>
        rw [List.length_cons, List.replicate_succ] at e1
        have ha : a = .E := (List.cons.inj e1).1
        subst ha
        exact h4 rfl

/-- On the row, a wavefront cell on a good trail is expandable only to the east, and the cell
pushed lies one column further with a path cost higher by `L`. -/
theorem lineGrid_child (n : Nat) (L : Int) (B : Nat) (hB : 0 < B)
    (p0 p : FlexMazeIdx → frDirEnum) (q0 q : List FlexWavefrontGrid)
    (w : FlexWavefrontGrid) (d : frDirEnum) (ds : List frDirEnum)
    (hds : w.dirs (sampleGlobals B) = padDirs B ds)
    (hg : ((lineGrid n L).withState p0 q0).GoodTrail B w.idx ds)
    (hx : ((lineGrid n L).withState p q).isExpandable w d = true)
    (d1 d2 : FlexMazeIdx) (centerPt : Int × Int) :
    (((lineGrid n L).withState p q).childGrid (sampleGlobals B) w d d1 d2 centerPt).pathCost
        = toCost (sampleGlobals B) ((w.pathCost : Int) + L)
      ∧ (((lineGrid n L).withState p q).childGrid (sampleGlobals B) w d d1 d2 centerPt).xIdx
        = w.xIdx + 1 := by
  obtain ⟨e1, e2⟩ := lineGrid_trail n L p0 q0 B w.idx ds hg
  have hl : w.getLastDir = ds.headD .UNKNOWN := lastDir_eq_head (sampleGlobals B) w ds hB hds
  have hx1 : ((lineGrid n L).withState p q).hasEdge w.idx d = true
      ∧ w.getLastDir ≠ d.opposite := by
    unfold isExpandable at hx
    simp only [reverse] at hx
    split_ifs at hx with hc
    push_neg at hc
    exact ⟨by simpa using hc.1, hc.2.2.2⟩
  obtain ⟨hedge, hrev⟩ := hx1
  have hxi : w.xIdx = ds.length := congrArg FlexMazeIdx.x e2
  have hde : d = .E := by
    obtain ⟨-, -, hd | hd⟩ := lineGrid_hasEdge n L p q _ _ hedge
    · exact hd.1
    · obtain ⟨rfl, hx2, -⟩ := hd
      exfalso
      have hx2 : 1 ≤ w.xIdx := hx2
      rw [hxi] at hx2
      cases ds with
      | nil => simp at hx2
      | cons a r1 =>
        rw [List.length_cons, List.replicate_succ] at e1
        have ha : a = .E := (List.cons.inj e1).1
        subst ha
        exact hrev hl
  subst hde
  have hlast : w.getLastDir = .UNKNOWN ∨ w.getLastDir = .E := by
    cases ds with
    | nil => exact Or.inl hl
    | cons a r1 =>
      rw [List.length_cons, List.replicate_succ] at e1
      have ha : a = .E := (List.cons.inj e1).1
      subst ha
      exact Or.inr hl
  constructor
  · rw [childGrid_pathCost, getNextPathCost_eq_sum]
    congr 1
    have hb : bendTerm w .E = 0 := by
      unfold bendTerm
      rcases hlast with h | h <;> simp [h]
    have hv : ((lineGrid n L).withState p q).via2viaTerm (sampleGlobals B) w .E = 0 := by
      unfold via2viaTerm
      simp
    have ht : ((lineGrid n L).withState p q).viaTurnTerm (sampleGlobals B) w .E = 0 := by
      unfold viaTurnTerm
      rcases hlast with h | h <;> simp [h]
    have he : ((lineGrid n L).withState p q).edgeTerm (sampleGlobals B) w .E = L := by
      simp [edgeTerm, lineGrid, sampleGrid, withState, sampleGlobals]
    unfold nextPathCostSum
    rw [hb, hv, ht, he]
    ring
  · have := childGrid_idx (sampleGlobals B) ((lineGrid n L).withState p q) w .E d1 d2 centerPt
    exact congrArg FlexMazeIdx.x this

/-- Every iteration of the main loop on the row keeps the invariant `LineInv`. -/
theorem lineGrid_iter (n : Nat) (L : Int) (B : Nat) (hB : 0 < B) (d1 d2 : FlexMazeIdx)
    (centerPt : Int × Int) (s s1 : FlexGridGraph) (v v1 : Nat) (hs : LineInv n L B s)
    (hi : searchIter (sampleGlobals B) d1 d2 centerPt s v = .inr (s1, v1)) :
    LineInv n L B s1 := by
  obtain ⟨⟨p, q, rfl⟩, hq, hc⟩ := hs
  have hq1 := searchIter_queueGood (sampleGlobals B) d1 d2 centerPt hB _ s1 v v1 hq hi
  obtain ⟨p2, q2, e⟩ := searchIter_frame (sampleGlobals B) d1 d2 centerPt _ s1 v v1 hi
  refine ⟨⟨p2, q2, e⟩, hq1, ?_⟩
  obtain ⟨w, rest, hpop, hcase⟩ := searchIter_inr (sampleGlobals B) d1 d2 centerPt _ s1 v v1 hi
  have hperm := wavefrontPop_perm hpop
  have hrest : ∀ x ∈ rest, x ∈ ((lineGrid n L).withState p q).wavefront :=
    fun x hx => hperm.subset (List.mem_cons_of_mem _ hx)
  rcases hcase with ⟨-, e1, -⟩ | ⟨-, -, e1, -⟩
  · subst e1
    intro x hx
    exact hc x (hrest x hx)
  · obtain ⟨p3, kids, hk, hkids⟩ := expandWavefront_queue (sampleGlobals B) d1 d2 centerPt w
      (((lineGrid n L).withState p q).withState p rest)
    have e3 : s1.wavefront = rest ++ kids := by
      rw [e1]
      exact congrArg FlexGridGraph.wavefront hk
    intro x hx
    rw [e3] at hx
    rcases List.mem_append.mp hx with hx | hx
    · exact hc x (hrest x hx)
    · obtain ⟨d, -, p1, q1, hex, rfl⟩ := hkids x hx
      have hw := hperm.subset (List.mem_cons_self _ _)
      obtain ⟨-, ds, hds, hg⟩ := hq w hw
      obtain ⟨c1, c2⟩ := lineGrid_child n L B hB p p1 q q1 w d ds hds hg hex d1 d2 centerPt
      have e4 : ((((lineGrid n L).withState p q).withState p rest).withState p1 q1).childGrid
          (sampleGlobals B) w d d1 d2 centerPt = ((lineGrid n L).withState p1 q1).childGrid
          (sampleGlobals B) w d d1 d2 centerPt := rfl
      rw [e4, c1, c2, hc w hw, toCost_add_left]
      congr 1
      ring

end FlexGridGraph

/-! ## Straight line: the search (C18) -/

namespace FlexGridGraph

/-- A search seeded on its sources does not empty the wavefront while a destination can be
reached: the loop can only exit by popping a destination. -/
theorem searchLoop_reaches (G : Globals) (g : FlexGridGraph) (d1 d2 : FlexMazeIdx)
    (centerPt : Int × Int) (hB : 0 < G.WAVEFRONTBUFFERSIZE) (connComps : List FlexMazeIdx)
    (seeds : List FlexWavefrontGrid) (hsrc : ∀ c ∈ connComps, g.isSrc c = true)
    (h0 : ∀ c, g.prevAstarNodeDir c = .UNKNOWN)
    (hidx : seeds.map (fun w => w.idx) = connComps)
    (hbuf : ∀ w ∈ seeds, w.backTraceBuffer = 0)
    (dst : FlexMazeIdx) (hd : g.isDst dst = true) (hreach : g.Reachable connComps dst)
    (fuel : Nat) (lr : LoopResult)
    (hl : searchLoop G d1 d2 centerPt fuel (g.withState g.prevAstarNodeDir seeds) 0 = some lr) :
    ∃ w, lr.reached = some w := by
  cases hr : lr.reached with
  | some w => exact ⟨w, rfl⟩
  | none =>
    exfalso
    obtain ⟨gx, vx, ⟨⟨px, qx, rfl⟩, Exp, hinv⟩, hexit⟩ := searchLoop_exit G d1 d2 centerPt
      (fun s => (∃ p1 q1, s = g.withState p1 q1)
        ∧ ∃ Exp, s.ExpInv G connComps Exp (fun _ _ _ => True))
      (fun s v s1 v1 hs hi => by
        obtain ⟨⟨p1, q1, rfl⟩, hs2⟩ := hs
        obtain ⟨p2, q2, e⟩ := searchIter_frame G _ _ centerPt _ s1 v v1 hi
        exact ⟨⟨p2, q2, e⟩, searchIter_expInv G _ _ centerPt hB connComps (g.withState p1 q1)
          s1 v v1 hsrc hs2 hi⟩)
      fuel _ 0 lr hl ⟨⟨_, _, rfl⟩, _, seeds_expInv G g connComps seeds h0 hsrc hidx hbuf⟩
    rcases searchIter_inl G _ _ centerPt _ vx lr hexit with ⟨hempty, -⟩ | ⟨w, rest, -, -, -, e⟩
    · obtain ⟨ds, hds⟩ := expInv_cover G _ connComps Exp hinv hempty dst
        (reachable_withState g px qx connComps dst hreach)
      have := (hinv.exp_good dst ds hds).2
      rw [show (g.withState px qx).isDst dst = g.isDst dst from rfl, hd] at this
      exact absurd this (by simp)
    · rw [e] at hr
      exact absurd hr (by simp)

theorem lineGrid_reachable (n : Nat) (L : Int) (m : Nat) (hm : m + 1 ≤ n) :
    (lineGrid n L).Reachable [⟨0, 0, 0⟩] ⟨m, 0, 0⟩ := by
  induction m with
  | zero => exact Reachable.seed _ (by simp)
  | succ m ih =>
    have e : (⟨((m + 1 : Nat) : Int), 0, 0⟩ : FlexMazeIdx) = getNextGrid ⟨m, 0, 0⟩ .E := by
      simp [getNextGrid]
    rw [e]
    refine Reachable.step _ .E (ih (by omega)) (lineGrid_edge_E n L m (by omega) (by omega)) ?_
    show decide (getNextGrid ⟨(m : Int), 0, 0⟩ .E ∈ [(⟨0, 0, 0⟩ : FlexMazeIdx)]) = false
    simp [getNextGrid]
    omega

theorem foldl_getPrevGrid_replicate (m : Nat) (x : Int) :
    (List.replicate m frDirEnum.E).foldl getPrevGrid ⟨x, 0, 0⟩ = ⟨x - m, 0, 0⟩ := by
  induction m generalizing x with
  | zero => simp
  | succ m ih =>
    rw [List.replicate_succ, List.foldl_cons]
    show (List.replicate m frDirEnum.E).foldl getPrevGrid ⟨x - 1, 0, 0⟩ = _
    rw [ih]
    simp
    omega

/-- Claim C18.  For every `n ≥ 2` and every edge length `L > 0` whose product `(n-1)·L` is
below `2^32` (the track coordinates of the row span less than the range of the 32-bit
coordinate type), and for every buffer size `B ≥ 1`: on the row of `n` cells with every edge
present, all cost constants 0 and no forbidden lengths, the search from `(0,0,0)` to
`(n-1,0,0)`, given enough fuel, returns `true` with `path = [(n-1,0,0), (0,0,0)]`, and the
destination cell popped by the main loop is `(n-1,0,0)` with path cost `(n-1)·L`. -/
theorem search_straight_line (n : Nat) (L : Int) (B : Nat) (ccMazeIdx1 ccMazeIdx2 : FlexMazeIdx)
    (centerPt : Int × Int) (hn : 2 ≤ n) (hL : 0 < L) (hB : 0 < B)
    (hfit : ((n : Int) - 1) * L < 2 ^ 32) :
    ∃ fuel,
      (search (sampleGlobals B) (lineGrid n L) fuel [⟨0, 0, 0⟩] [⟨(n : Int) - 1, 0, 0⟩] []
          ccMazeIdx1 ccMazeIdx2 centerPt).map (fun r => (r.found, r.path))
        = some (true, [⟨(n : Int) - 1, 0, 0⟩, ⟨0, 0, 0⟩])
      ∧ (searchLoop (sampleGlobals B) ((lineGrid n L).dstBoxLo [⟨(n : Int) - 1, 0, 0⟩])
          (dstBoxHi [⟨(n : Int) - 1, 0, 0⟩]) centerPt fuel
          (searchInit (sampleGlobals B) ((lineGrid n L).dstBoxLo [⟨(n : Int) - 1, 0, 0⟩])
            (dstBoxHi [⟨(n : Int) - 1, 0, 0⟩]) centerPt [⟨0, 0, 0⟩]
            { lineGrid n L with wavefront := [] }).2 0).map
          (fun lr => lr.reached.map (fun w => (w.idx, (w.pathCost : Int))))
        = some (some (⟨(n : Int) - 1, 0, 0⟩, ((n : Int) - 1) * L)) := by
  obtain ⟨m, rfl⟩ : ∃ m, n = m + 2 := ⟨n - 2, by omega⟩
  have hcast : (((m + 2 : Nat) : Int) - 1) = ((m + 1 : Nat) : Int) := by push_cast; ring
  rw [hcast] at hfit ⊢
  generalize hlo : (lineGrid (m + 2) L).dstBoxLo [⟨((m + 1 : Nat) : Int), 0, 0⟩] = lo
  generalize hhi : dstBoxHi [⟨((m + 1 : Nat) : Int), 0, 0⟩] = hi
  have hdst : ∀ c, (lineGrid (m + 2) L).isDst c = true ↔ c = ⟨((m + 1 : Nat) : Int), 0, 0⟩ := by
    intro c
    show decide (c ∈ [(⟨((m + 2 : Nat) : Int) - 1, 0, 0⟩ : FlexMazeIdx)]) = true ↔ _
    rw [hcast]
    simp
  have hnd : (lineGrid (m + 2) L).isDst ⟨0, 0, 0⟩ = false := by
    cases h : (lineGrid (m + 2) L).isDst ⟨0, 0, 0⟩ with
    | false => rfl
    | true =>
      have := (hdst _).mp h
      simp only [FlexMazeIdx.mk.injEq] at this
      omega
  have hinit : searchInit (sampleGlobals B) lo hi centerPt [⟨0, 0, 0⟩]
      { lineGrid (m + 2) L with wavefront := [] }
      = (none, (lineGrid (m + 2) L).withState (lineGrid (m + 2) L).prevAstarNodeDir
          [(lineGrid (m + 2) L).seedGrid (sampleGlobals B) lo hi centerPt ⟨0, 0, 0⟩]) := by
    simp only [searchInit, hnd, Bool.false_eq_true, if_false]
    rfl
  have hsrc : ∀ c ∈ [(⟨0, 0, 0⟩ : FlexMazeIdx)], (lineGrid (m + 2) L).isSrc c = true := by
    intro c hc
    show decide (c ∈ [(⟨0, 0, 0⟩ : FlexMazeIdx)]) = true
    simpa using hc
  have hinv0 : LineInv (m + 2) L B ((lineGrid (m + 2) L).withState
      (lineGrid (m + 2) L).prevAstarNodeDir
      [(lineGrid (m + 2) L).seedGrid (sampleGlobals B) lo hi centerPt ⟨0, 0, 0⟩]) := by
    refine ⟨⟨_, _, rfl⟩, seeds_queueGood _ _ _ _ ?_, ?_⟩
    · intro w hw
      rw [List.mem_singleton] at hw
      subst hw
      exact ⟨rfl, rfl⟩
    · intro w hw
      have hw : w ∈ [(lineGrid (m + 2) L).seedGrid (sampleGlobals B) lo hi centerPt ⟨0, 0, 0⟩] :=
        hw
      rw [List.mem_singleton] at hw
      subst hw
      simp [seedGrid, toCost]
  have hE : (lineGrid (m + 2) L).EdgesInGrid := sampleGrid_edgesInGrid _ _ _ _ _ _ _
  obtain ⟨fuel, lr, hl⟩ := searchLoop_terminates (sampleGlobals B) lo hi centerPt hB
    ((lineGrid (m + 2) L).withState (lineGrid (m + 2) L).prevAstarNodeDir
      [(lineGrid (m + 2) L).seedGrid (sampleGlobals B) lo hi centerPt ⟨0, 0, 0⟩]) 0
    hE
    (seeds_queueOK _ _ _ _ (by
      intro w hw
      rw [List.mem_singleton] at hw
      subst hw
      rfl))
  obtain ⟨w, hr⟩ := searchLoop_reaches (sampleGlobals B) (lineGrid (m + 2) L) lo hi centerPt hB
    [⟨0, 0, 0⟩] [(lineGrid (m + 2) L).seedGrid (sampleGlobals B) lo hi centerPt ⟨0, 0, 0⟩]
    hsrc (fun _ => rfl) rfl (by
      intro w hw
      rw [List.mem_singleton] at hw
      subst hw
      rfl)
    ⟨((m + 1 : Nat) : Int), 0, 0⟩ ((hdst _).mpr rfl)
    (lineGrid_reachable (m + 2) L (m + 1) (by omega)) fuel lr hl
  -- the popped cell
  obtain ⟨gx, vx, ⟨-, -, hcx⟩, hexit⟩ := searchLoop_exit (sampleGlobals B) lo hi centerPt
    (LineInv (m + 2) L B)
    (fun s v s1 v1 hs hit => lineGrid_iter (m + 2) L B hB lo hi centerPt s s1 v v1 hs hit)
    fuel _ 0 lr hl hinv0
  have hcost : w.pathCost = toCost (sampleGlobals B) (w.xIdx * L) := by
    rcases searchIter_inl (sampleGlobals B) lo hi centerPt _ vx lr hexit with
      ⟨-, e⟩ | ⟨w1, rest, hpop, -, -, e⟩
    · rw [e] at hr
      exact absurd hr (by simp)
    · rw [e] at hr
      simp only [Option.some.injEq] at hr
      subst hr
      exact hcx w1 ((wavefrontPop_perm hpop).subset (List.mem_cons_self _ _))
  obtain ⟨hwd, ⟨p1, q1, hgrid⟩, ds, hds, hg⟩ := searchLoop_reached_good (sampleGlobals B) lo hi
    centerPt hB (lineGrid (m + 2) L) _ _ hinv0.2.1 fuel lr w hl hr
  have hwi : w.idx = ⟨((m + 1 : Nat) : Int), 0, 0⟩ := (hdst _).mp hwd
  rw [hgrid] at hg
  obtain ⟨e1, e2⟩ := lineGrid_trail (m + 2) L p1 q1 _ _ _ hg
  have hlen : ds.length = m + 1 := by
    rw [hwi] at e2
    simp only [FlexMazeIdx.mk.injEq] at e2
    omega
  have hxi : w.xIdx = ((m + 1 : Nat) : Int) := congrArg FlexMazeIdx.x hwi
  have hpc : (w.pathCost : Int) = ((m + 1 : Nat) : Int) * L := by
    rw [hcost, hxi]
    exact toCost_of_lt (sampleGlobals B) _ (by positivity) hfit
  -- the back-trace
  have hl1 := searchLoop_fuel_mono (sampleGlobals B) lo hi centerPt fuel (ds.length + 1) _ 0 lr hl
  rw [← hgrid] at hg
  obtain ⟨t, ht⟩ := traceBackPath_terminates (sampleGlobals B) lr.grid w [] [⟨0, 0, 0⟩]
    ccMazeIdx1 ccMazeIdx2 ds hds hg (fuel + (ds.length + 1)) (by omega)
  have hpath := traceBackPath_path (sampleGlobals B) lr.grid w [] [⟨0, 0, 0⟩]
    ccMazeIdx1 ccMazeIdx2 ds hds hg _ t ht
  have htp : t.path = [⟨((m + 1 : Nat) : Int), 0, 0⟩, ⟨0, 0, 0⟩] := by
    rw [hpath, e1, hlen, hwi, List.replicate_succ]
    simp only [tracePath, tracePath_replicate, List.nil_append, List.foldl_cons]
    have h9 := foldl_getPrevGrid_replicate m (m : Int)
    simp [getPrevGrid, h9]
  refine ⟨fuel + (ds.length + 1), ?_, ?_⟩
  · simp only [search, hlo, hhi, hinit, hl1, hr, ht, Option.map_some', htp]
  · rw [hinit]
    simp only [hl1, Option.map_some', hr, hwi, hpc]

theorem search_straight_line_witness :
    2 ≤ 5 ∧ (0 : Int) < 100 ∧ 0 < 4 ∧ (((5 : Nat) : Int) - 1) * 100 < 2 ^ 32
    ∧ ∃ fuel,
      (search (sampleGlobals 4) (lineGrid 5 100) fuel [⟨0, 0, 0⟩] [⟨((5 : Nat) : Int) - 1, 0, 0⟩]
          [] ⟨0, 0, 0⟩ ⟨0, 0, 0⟩ (0, 0)).map (fun r => (r.found, r.path))
        = some (true, [⟨((5 : Nat) : Int) - 1, 0, 0⟩, ⟨0, 0, 0⟩])
      ∧ (searchLoop (sampleGlobals 4)
          ((lineGrid 5 100).dstBoxLo [⟨((5 : Nat) : Int) - 1, 0, 0⟩])
          (dstBoxHi [⟨((5 : Nat) : Int) - 1, 0, 0⟩]) (0, 0) fuel
          (searchInit (sampleGlobals 4)
            ((lineGrid 5 100).dstBoxLo [⟨((5 : Nat) : Int) - 1, 0, 0⟩])
            (dstBoxHi [⟨((5 : Nat) : Int) - 1, 0, 0⟩]) (0, 0) [⟨0, 0, 0⟩]
            { lineGrid 5 100 with wavefront := [] }).2 0).map
          (fun lr => lr.reached.map (fun w => (w.idx, (w.pathCost : Int))))
        = some (some (⟨((5 : Nat) : Int) - 1, 0, 0⟩, (((5 : Nat) : Int) - 1) * 100)) :=
  ⟨by decide, by decide, by decide, by decide,
    search_straight_line 5 100 4 ⟨0, 0, 0⟩ ⟨0, 0, 0⟩ (0, 0) (by decide) (by decide) (by decide)
      (by decide)⟩

end FlexGridGraph

/-! ## What `isExpandable` tests (C22) -/

namespace FlexGridGraph

/-- C22 (counterexample): on the row of five cells, the wavefront cell at `(1,0,0)` that was
entered by a move `E` is expandable by a further move `E` (the edge exists, the neighbour
`(2,0,0)` is no source and is not committed), although `d` equals the direction by which the
cell was entered; and the cell entered by a move `W` is not expandable by `E`, although
`lastDir != d`. -/
theorem isExpandable_same_direction :
    ({ sampleCell with backTraceBuffer := 4 } : FlexWavefrontGrid).getLastDir = .E
      ∧ rowGrid.hasEdge ⟨1, 0, 0⟩ .E = true ∧ rowGrid.isSrc ⟨2, 0, 0⟩ = false
      ∧ rowGrid.getPrevAstarNodeDir ⟨2, 0, 0⟩ = .UNKNOWN
      ∧ rowGrid.isExpandable { sampleCell with backTraceBuffer := 4 } .E = true
      ∧ ({ sampleCell with backTraceBuffer := 3 } : FlexWavefrontGrid).getLastDir = .W
      ∧ rowGrid.isExpandable { sampleCell with backTraceBuffer := 3 } .E = false := by
  decide

/-- C22 (amended): `isExpandable(curr, d)` returns `true` if and only if `hasEdge(curr, d)`
holds and the neighbour `n = step(curr, d)` is not a source, has
`prevAstarNodeDir(n) = UNKNOWN`, and `curr.lastDir` is not the opposite of `d`. -/
theorem isExpandable_iff (g : FlexGridGraph) (curr : FlexWavefrontGrid) (d : frDirEnum) :
    g.isExpandable curr d = true
      ↔ g.hasEdge curr.idx d = true ∧ g.isSrc (getNextGrid curr.idx d) = false
        ∧ g.getPrevAstarNodeDir (getNextGrid curr.idx d) = .UNKNOWN
        ∧ curr.getLastDir ≠ d.opposite := by
  constructor
  · intro h
    exact isExpandable_true h
  · rintro ⟨h1, h2, h3, h4⟩
    unfold isExpandable reverse
    simp only
    rw [if_neg]
    rintro (h | h | h | h)
    · rw [h1] at h
      exact absurd h (by simp)
    · rw [h2] at h
      exact absurd h (by simp)
    · exact h h3
    · exact h4 h

end FlexGridGraph

/-! ## Commit on shift-out (C23) -/

namespace FlexGridGraph

/-- Claim C23.  With `next` the candidate cell of `expand(curr, dir)` after `shiftAddBuffer`,
`tailDir` the direction shifted out of its buffer and `tailIdx = getTailIdx(n, next)` for the
neighbour `n` of `curr`: when `tailDir = UNKNOWN` or `prevAstarNodeDir(tailIdx)` is `UNKNOWN`
or equal to `tailDir`, `expand` pushes `next` (the wavefront grows by exactly that cell);
otherwise it drops `next` and leaves the whole grid state as it was.  When it pushes with
`tailDir != UNKNOWN`, `prevAstarNodeDir(tailIdx) = tailDir` afterwards and no other cell's
`prevAstarNodeDir` changes; when it pushes with `tailDir = UNKNOWN`, no `prevAstarNodeDir`
changes. -/
theorem expand_commit_on_shift_out (G : Globals) (g : FlexGridGraph)
    (curr : FlexWavefrontGrid) (dir : frDirEnum) (d1 d2 : FlexMazeIdx) (centerPt : Int × Int) :
    let shifted := (g.nextWavefrontGrid G curr dir d1 d2 centerPt).shiftAddBuffer G dir
    let tailDir := shifted.1
    let next := shifted.2
    let tailIdx := getTailIdx G (getNextGrid curr.idx dir) next
    let g1 := g.expand G curr dir d1 d2 centerPt
    ((tailDir = .UNKNOWN ∨ g.getPrevAstarNodeDir tailIdx = .UNKNOWN
          ∨ g.getPrevAstarNodeDir tailIdx = tailDir) →
        g1.wavefront = g.wavefront ++ [next])
      ∧ (¬ (tailDir = .UNKNOWN ∨ g.getPrevAstarNodeDir tailIdx = .UNKNOWN
          ∨ g.getPrevAstarNodeDir tailIdx = tailDir) → g1 = g)
      ∧ (tailDir ≠ .UNKNOWN →
          (g.getPrevAstarNodeDir tailIdx = .UNKNOWN ∨ g.getPrevAstarNodeDir tailIdx = tailDir) →
          g1.getPrevAstarNodeDir tailIdx = tailDir
            ∧ ∀ c, c ≠ tailIdx → g1.getPrevAstarNodeDir c = g.getPrevAstarNodeDir c)
      ∧ (tailDir = .UNKNOWN → g1.prevAstarNodeDir = g.prevAstarNodeDir) := by
  intro shifted tailDir next tailIdx g1
  have hg1 : g1 = (if tailDir ≠ .UNKNOWN then
      if g.getPrevAstarNodeDir tailIdx = .UNKNOWN ∨ g.getPrevAstarNodeDir tailIdx = tailDir then
        (g.setPrevAstarNodeDir tailIdx tailDir).wavefrontPush next
      else g
    else g.wavefrontPush next) := rfl
  refine ⟨?_, ?_, ?_, ?_⟩
  · intro h
    rw [hg1]
    by_cases ht : tailDir = .UNKNOWN
    · rw [if_neg (not_not.mpr ht)]
      rfl
    · rw [if_pos ht, if_pos (h.resolve_left ht)]
      rfl
  · intro h
    rw [hg1]
    push_neg at h
    rw [if_pos h.1, if_neg (not_or.mpr ⟨h.2.1, h.2.2⟩)]
  · intro ht hc
    rw [hg1, if_pos ht, if_pos hc]
    constructor
    · simp [getPrevAstarNodeDir, setPrevAstarNodeDir, wavefrontPush]
    · intro c hne
      simp [getPrevAstarNodeDir, setPrevAstarNodeDir, wavefrontPush, hne]
  · intro ht
    rw [hg1, if_neg (not_not.mpr ht)]
    rfl

end FlexGridGraph

/-! ## History fields of the pushed cell: via step (C24) -/

namespace FlexGridGraph

end FlexGridGraph

/-! ## Wavefront after the seeding loop returns (C21) -/

namespace FlexGridGraph

/-- The seeding loop pushes one seed for every cell in front of the first destination cell. -/
theorem searchInit_wavefront (G : Globals) (d1 d2 : FlexMazeIdx) (centerPt : Int × Int)
    (l : List FlexMazeIdx) (g : FlexGridGraph) :
    (searchInit G d1 d2 centerPt l g).2.wavefront
      = g.wavefront ++ (l.takeWhile (fun i => !g.isDst i)).map (g.seedGrid G d1 d2 centerPt) := by
  induction l generalizing g with
  | nil => simp [searchInit]
  | cons i rest ih =>
    unfold searchInit
    by_cases h : g.isDst i = true
    · simp [h]
    · have h1 : g.isDst i = false := by simpa using h
      simp only [h1, Bool.false_eq_true, if_false]
      rw [ih]
      show (g.wavefront ++ [g.seedGrid G d1 d2 centerPt i])
          ++ (rest.takeWhile (fun i => !g.isDst i)).map (g.seedGrid G d1 d2 centerPt) = _
      simp [List.takeWhile_cons, h1]

/-- C21 (counterexample): on the row of five cells with destination `(4,0,0)`, the search with
`connComps = [(0,0,0), (4,0,0)]` returns `true` with `path = [(4,0,0)]` from its seeding loop,
and the wavefront holds one cell when it returns: the seed pushed for `(0,0,0)`. -/
theorem search_returns_with_seeds_pushed :
    (search (sampleGlobals 2) rowGrid 0 [⟨0, 0, 0⟩, ⟨4, 0, 0⟩] [⟨4, 0, 0⟩] [] ⟨0, 0, 0⟩
        ⟨0, 0, 0⟩ (0, 0)).map
        (fun r => (r.found, r.path, r.grid.wavefront.map (fun w => w.idx)))
      = some (true, [⟨4, 0, 0⟩], [⟨0, 0, 0⟩]) := by
  decide

/-- C21 (amended): for every `connComps` list that contains a destination cell, `search`
returns `true` from its seeding loop after pushing one seed for every cell of `connComps` in
front of the first destination cell; the wavefront holds exactly these seeds when `search`
returns, and it is empty if and only if the first cell of `connComps` is a destination. -/
theorem search_dst_in_connComps_wavefront (G : Globals) (g : FlexGridGraph) (fuel : Nat)
    (connComps nextPin path : List FlexMazeIdx) (ccMazeIdx1 ccMazeIdx2 : FlexMazeIdx)
    (centerPt : Int × Int) (h : ∃ c ∈ connComps, g.isDst c = true) :
    ∃ r, g.search G fuel connComps nextPin path ccMazeIdx1 ccMazeIdx2 centerPt = some r
      ∧ r.found = true
      ∧ r.grid.wavefront = (connComps.takeWhile (fun i => !g.isDst i)).map
          (g.seedGrid G (g.dstBoxLo nextPin) (dstBoxHi nextPin) centerPt)
      ∧ (r.grid.wavefront = [] ↔ ∃ c rest, connComps = c :: rest ∧ g.isDst c = true) := by
  obtain ⟨c0, hc0, hd0⟩ := h
  have hsome : (connComps.find? (fun i => g.isDst i)).isSome = true := by
    rw [List.find?_isSome]
    exact ⟨c0, hc0, hd0⟩
  obtain ⟨c, hc⟩ := Option.isSome_iff_exists.mp hsome
  have hfst := searchInit_fst G (g.dstBoxLo nextPin) (dstBoxHi nextPin) centerPt connComps
    { g with wavefront := [] }
  have hwf := searchInit_wavefront G (g.dstBoxLo nextPin) (dstBoxHi nextPin) centerPt connComps
    { g with wavefront := [] }
  rcases hres : searchInit G (g.dstBoxLo nextPin) (dstBoxHi nextPin) centerPt connComps
    { g with wavefront := [] } with ⟨o, g1⟩
  rw [hres] at hfst hwf
  have ho : o = some c := by
    have : o = connComps.find? (fun i => g.isDst i) := hfst
    rw [this, hc]
  subst ho
  have hw1 : g1.wavefront = (connComps.takeWhile (fun i => !g.isDst i)).map
      (g.seedGrid G (g.dstBoxLo nextPin) (dstBoxHi nextPin) centerPt) := by
    have : g1.wavefront = [] ++ (connComps.takeWhile (fun i => !g.isDst i)).map
      (g.seedGrid G (g.dstBoxLo nextPin) (dstBoxHi nextPin) centerPt) := hwf
    rw [this, List.nil_append]
  refine ⟨⟨true, path ++ [c], connComps, ccMazeIdx1, ccMazeIdx2, g1, 0, 0⟩,
    by simp only [search, hres], rfl, hw1, ?_⟩
  show g1.wavefront = [] ↔ _
  rw [hw1]
  cases connComps with
  | nil => simp at hc0
  | cons a rest =>
    by_cases ha : g.isDst a = true
    · simp [List.takeWhile_cons, ha]
    · have ha1 : g.isDst a = false := by simpa using ha
      simp [List.takeWhile_cons, ha1]

theorem search_dst_in_connComps_wavefront_witness :
    (∃ c ∈ [(⟨0, 0, 0⟩ : FlexMazeIdx), ⟨4, 0, 0⟩], rowGrid.isDst c = true)
    ∧ ∃ r, rowGrid.search (sampleGlobals 2) 0 [⟨0, 0, 0⟩, ⟨4, 0, 0⟩] [⟨4, 0, 0⟩] [] ⟨0, 0, 0⟩
          ⟨0, 0, 0⟩ (0, 0) = some r
      ∧ r.found = true
      ∧ r.grid.wavefront
          = ([(⟨0, 0, 0⟩ : FlexMazeIdx), ⟨4, 0, 0⟩].takeWhile (fun i => !rowGrid.isDst i)).map
            (rowGrid.seedGrid (sampleGlobals 2) (rowGrid.dstBoxLo [⟨4, 0, 0⟩])
              (dstBoxHi [⟨4, 0, 0⟩]) (0, 0))
      ∧ (r.grid.wavefront = []
          ↔ ∃ c rest, [(⟨0, 0, 0⟩ : FlexMazeIdx), ⟨4, 0, 0⟩] = c :: rest
              ∧ rowGrid.isDst c = true) :=
  ⟨⟨⟨4, 0, 0⟩, by decide, by decide⟩,
    search_dst_in_connComps_wavefront (sampleGlobals 2) rowGrid 0 [⟨0, 0, 0⟩, ⟨4, 0, 0⟩]
      [⟨4, 0, 0⟩] [] ⟨0, 0, 0⟩ ⟨0, 0, 0⟩ (0, 0) ⟨⟨4, 0, 0⟩, by decide, by decide⟩⟩

end FlexGridGraph

/-! ## Heuristic with the forbidden-penalty gate on (C28) -/

namespace FlexGridGraph

end FlexGridGraph

/-! ## No immediate reversal (C30) -/

namespace FlexGridGraph

theorem opposite_opposite (d : frDirEnum) : d.opposite.opposite = d := by
  cases d <;> rfl

theorem opposite_ne_self (d : frDirEnum) (h : d ≠ .UNKNOWN) : d ≠ d.opposite := by
  cases d <;> simp [frDirEnum.opposite] at h ⊢

theorem dirs_head (G : Globals) (w : FlexWavefrontGrid) (d : frDirEnum)
    (rest : List frDirEnum) (h : w.dirs G = d :: rest) : w.getLastDir = d := by
  unfold FlexWavefrontGrid.dirs at h
  cases hB : G.WAVEFRONTBUFFERSIZE with
  | zero =>
    rw [hB] at h
    simp [bufDirs] at h
  | succ B =>
    rw [hB] at h
    simp only [bufDirs, List.cons.injEq] at h
    exact h.1

theorem seed_noReversal (G : Globals) (w : FlexWavefrontGrid) (h : w.backTraceBuffer = 0) :
    w.NoReversal G := by
  intro d0 d1 rest hd h0
  exfalso
  apply h0
  unfold FlexWavefrontGrid.dirs at hd
  rw [h, bufDirs_zero] at hd
  cases hB : G.WAVEFRONTBUFFERSIZE with
  | zero =>
    rw [hB] at hd
    simp at hd
  | succ B =>
    rw [hB, List.replicate_succ] at hd
    exact (List.cons.inj hd).1.symm

/-- The cell pushed by `expand` after `isExpandable` held: its cell is no source, its last
direction is the move made, and it has not reversed the last move of its parent. -/
theorem childGrid_origin (G : Globals) (g : FlexGridGraph) (w : FlexWavefrontGrid)
    (d : frDirEnum) (d1 d2 : FlexMazeIdx) (centerPt : Int × Int)
    (hx : g.isExpandable w d = true) :
    (g.childGrid G w d d1 d2 centerPt).NoReversal G
      ∧ g.isSrc (g.childGrid G w d d1 d2 centerPt).idx = false
      ∧ (0 < G.WAVEFRONTBUFFERSIZE → (g.childGrid G w d d1 d2 centerPt).getLastDir = d) := by
  obtain ⟨-, h2, -, h4⟩ := isExpandable_true hx
  refine ⟨?_, ?_, ?_⟩
  · intro e0 e1 rest he h0
    cases hB : G.WAVEFRONTBUFFERSIZE with
    | zero =>
      unfold FlexWavefrontGrid.dirs at he
      rw [hB] at he
      simp [bufDirs] at he
    | succ B =>
      rw [childGrid_dirs G g w d d1 d2 centerPt B hB] at he
      obtain ⟨rfl, he2⟩ := List.cons.inj he
      cases B with
      | zero => simp [bufDirs] at he2
      | succ B1 =>
        simp only [bufDirs, List.cons.injEq] at he2
        have : w.getLastDir = e1 := he2.1
        rw [← this]
        exact h4
  · rw [childGrid_idx]
    exact h2
  · intro hB
    have h := childGrid_dirs1 G g w d d1 d2 centerPt hB
    exact dirs_head G _ d _ h

/-- Every iteration of the main loop, also the one that exits it, keeps the origin of the
wavefront cells. -/
theorem searchIter_origin (G : Globals) (d1 d2 : FlexMazeIdx) (centerPt : Int × Int)
    (g0 : FlexGridGraph) (connComps : List FlexMazeIdx) (g : FlexGridGraph) (v : Nat)
    (hs : (∃ p q, g = g0.withState p q) ∧ g0.QueueOrigin G connComps g.wavefront) :
    (∀ g1 v1, searchIter G d1 d2 centerPt g v = .inr (g1, v1) →
      (∃ p q, g1 = g0.withState p q) ∧ g0.QueueOrigin G connComps g1.wavefront)
    ∧ (∀ r, searchIter G d1 d2 centerPt g v = .inl r →
      (∃ p q, r.grid = g0.withState p q) ∧ g0.QueueOrigin G connComps r.grid.wavefront) := by
  obtain ⟨⟨p, q, rfl⟩, hq⟩ := hs
  constructor
  · intro g1 v1 hi
    obtain ⟨p2, q2, e⟩ := searchIter_frame G d1 d2 centerPt _ g1 v v1 hi
    refine ⟨⟨p2, q2, e⟩, ?_⟩
    obtain ⟨w, rest, hpop, hcase⟩ := searchIter_inr G d1 d2 centerPt _ g1 v v1 hi
    have hperm := wavefrontPop_perm hpop
    have hrest : ∀ x ∈ rest, x ∈ (g0.withState p q).wavefront :=
      fun x hx => hperm.subset (List.mem_cons_of_mem _ hx)
    rcases hcase with ⟨-, e1, -⟩ | ⟨-, -, e1, -⟩
    · subst e1
      intro x hx
      exact hq x (hrest x hx)
    · obtain ⟨p3, kids, hk, hkids⟩ := expandWavefront_queue G d1 d2 centerPt w
        ((g0.withState p q).withState p rest)
      have e3 : g1.wavefront = rest ++ kids := by
        rw [e1]
        exact congrArg FlexGridGraph.wavefront hk
      intro x hx
      rw [e3] at hx
      rcases List.mem_append.mp hx with hx | hx
      · exact hq x (hrest x hx)
      · obtain ⟨d, hd, p1, q1, hex, rfl⟩ := hkids x hx
        have hdu : d ≠ .UNKNOWN := by
          revert hd
          cases d <;> simp [expandOrder]
        obtain ⟨c1, c2, c3⟩ := childGrid_origin G _ w d d1 d2 centerPt hex
        exact ⟨c1, Or.inr ⟨c2, fun hB => by rw [c3 hB]; exact hdu⟩⟩
  · intro r hi
    rcases searchIter_inl G d1 d2 centerPt _ v r hi with ⟨-, e⟩ | ⟨w, rest, hpop, -, -, e⟩
    · subst e
      exact ⟨⟨p, q, rfl⟩, hq⟩
    · subst e
      refine ⟨⟨_, rest, rfl⟩, ?_⟩
      intro x hx
      exact hq x ((wavefrontPop_perm hpop).subset (List.mem_cons_of_mem _ hx))

/-- The wavefront after the seeding loop holds seeds only. -/
theorem searchInit_origin (G : Globals) (d1 d2 : FlexMazeIdx) (centerPt : Int × Int)
    (g : FlexGridGraph) (connComps : List FlexMazeIdx) :
    (∃ p q, (searchInit G d1 d2 centerPt connComps { g with wavefront := [] }).2
        = g.withState p q)
      ∧ g.QueueOrigin G connComps
          (searchInit G d1 d2 centerPt connComps { g with wavefront := [] }).2.wavefront := by
  obtain ⟨seeds, h1, h2⟩ := searchInit_snd G d1 d2 centerPt connComps { g with wavefront := [] }
  rw [h1]
  refine ⟨⟨_, _, rfl⟩, ?_⟩
  intro w hw
  have hw : w ∈ [] ++ seeds := hw
  rw [List.nil_append] at hw
  exact ⟨seed_noReversal G w (h2 w hw).1, Or.inl (h2 w hw)⟩

/-- In every state of the main loop of a search the wavefront cells have the origin described
by `QueueOrigin`. -/
theorem loopState_origin (G : Globals) (g : FlexGridGraph) (connComps nextPin : List FlexMazeIdx)
    (centerPt : Int × Int) (n : Nat) :
    g.QueueOrigin G connComps
      (loopState G (g.dstBoxLo nextPin) (dstBoxHi nextPin) centerPt n
        (searchInit G (g.dstBoxLo nextPin) (dstBoxHi nextPin) centerPt connComps
          { g with wavefront := [] }).2 0).1.wavefront :=
  (loopState_inv G (g.dstBoxLo nextPin) (dstBoxHi nextPin) centerPt
    (fun s => (∃ p q, s = g.withState p q) ∧ g.QueueOrigin G connComps s.wavefront)
    (fun s v s1 v1 hs hi =>
      (searchIter_origin G _ _ centerPt g connComps s v hs).1 s1 v1 hi)
    (fun s v r hs hi => (searchIter_origin G _ _ centerPt g connComps s v hs).2 r hi)
    n _ 0 (searchInit_origin G _ _ centerPt g connComps)).2

/-- Claim C30.  `isExpandable(curr, d)` is `false` whenever `d` is the opposite of
`curr.lastDir`; a step in the same direction as `curr.lastDir` is not rejected by that test
(it is expandable when the edge exists and the neighbour is neither a source nor committed);
and in every state of the main loop of a search, no wavefront cell has a buffer whose two most
recent directions are opposite (E/W, N/S or U/D). -/
theorem isExpandable_no_reversal (G : Globals) (g : FlexGridGraph) (curr : FlexWavefrontGrid)
    (d : frDirEnum) (connComps nextPin : List FlexMazeIdx) (centerPt : Int × Int) (n : Nat) :
    (d = curr.getLastDir.opposite → g.isExpandable curr d = false)
      ∧ (d ≠ .UNKNOWN → curr.getLastDir = d → g.hasEdge curr.idx d = true →
          g.isSrc (getNextGrid curr.idx d) = false →
          g.getPrevAstarNodeDir (getNextGrid curr.idx d) = .UNKNOWN →
          g.isExpandable curr d = true)
      ∧ ∀ w ∈ (loopState G (g.dstBoxLo nextPin) (dstBoxHi nextPin) centerPt n
          (searchInit G (g.dstBoxLo nextPin) (dstBoxHi nextPin) centerPt connComps
            { g with wavefront := [] }).2 0).1.wavefront,
          ∀ d0 d1 rest, w.dirs G = d0 :: d1 :: rest → d0 ≠ .UNKNOWN → d1 ≠ d0.opposite := by
  refine ⟨?_, ?_, ?_⟩
  · intro h
    unfold isExpandable reverse
    simp only
    rw [if_pos]
    right; right; right
    rw [h, opposite_opposite]
  · intro hd hl h1 h2 h3
    unfold isExpandable reverse
    simp only
    rw [if_neg]
    rintro (h | h | h | h)
    · rw [h1] at h
      exact absurd h (by simp)
    · rw [h2] at h
      exact absurd h (by simp)
    · exact h h3
    · rw [hl] at h
      exact opposite_ne_self d hd h
  · intro w hw
    exact (loopState_origin G g connComps nextPin centerPt n w hw).1

end FlexGridGraph

/-! ## The path of a back-trace is a chain of straight runs -/

namespace FlexGridGraph

theorem runEnd_succ (a : FlexMazeIdx) (d : frDirEnum) (n : Nat) :
    runEnd a d (n + 1) = getPrevGrid (runEnd a d n) d := by
  unfold runEnd
  rw [List.replicate_succ', List.foldl_append]
  rfl

theorem runEnd_one (a : FlexMazeIdx) (d : frDirEnum) : runEnd a d 1 = getPrevGrid a d := rfl

theorem segsEnd_append (a : FlexMazeIdx) (l : List (frDirEnum × Nat)) (s : frDirEnum × Nat) :
    segsEnd a (l ++ [s]) = runEnd (segsEnd a l) s.1 s.2 := by
  unfold segsEnd
  rw [List.foldl_append]
  rfl

theorem startsOf_append (a : FlexMazeIdx) (l : List (frDirEnum × Nat)) (s : frDirEnum × Nat) :
    startsOf a (l ++ [s]) = startsOf a l ++ [segsEnd a l] := by
  induction l generalizing a with
  | nil => rfl
  | cons x rest ih =>
    show a :: startsOf (runEnd a x.1 x.2) (rest ++ [s]) = _
    rw [ih]
    rfl

theorem validSegs_turn (init : List (frDirEnum × Nat)) (p d : frDirEnum) (n : Nat)
    (h : ValidSegs (init ++ [(p, n)])) (hd : d ≠ .UNKNOWN) (hp : d ≠ p) :
    ValidSegs ((init ++ [(p, n)]) ++ [(d, 1)]) := by
  obtain ⟨h1, h2⟩ := h
  constructor
  · intro s hs
    rcases List.mem_append.mp hs with hs | hs
    · exact h1 s hs
    · rw [List.mem_singleton] at hs
      subst hs
      exact ⟨hd, Nat.one_pos⟩
  · rw [List.chain'_append]
    refine ⟨h2, List.chain'_singleton _, ?_⟩
    intro x hx y hy
    rw [List.getLast?_concat] at hx
    simp only [Option.mem_def, Option.some.injEq] at hx
    simp only [List.head?_cons, Option.mem_def, Option.some.injEq] at hy
    subst hx hy
    exact fun e => hp e.symm

theorem validSegs_extend (init : List (frDirEnum × Nat)) (p : frDirEnum) (n : Nat)
    (h : ValidSegs (init ++ [(p, n)])) : ValidSegs (init ++ [(p, n + 1)]) := by
  obtain ⟨h1, h2⟩ := h
  constructor
  · intro s hs
    rcases List.mem_append.mp hs with hs | hs
    · exact h1 s (List.mem_append_left _ hs)
    · rw [List.mem_singleton] at hs
      subst hs
      exact ⟨(h1 (p, n) (List.mem_append_right _ (List.mem_singleton_self _))).1,
        Nat.succ_pos n⟩
  · rw [List.chain'_append] at h2 ⊢
    refine ⟨h2.1, List.chain'_singleton _, ?_⟩
    intro x hx y hy
    simp only [List.head?_cons, Option.mem_def, Option.some.injEq] at hy
    subst hy
    exact h2.2.2 x hx (p, n) (by simp)

/-- One step of a back-trace that has begun: reading a direction `d` other than `UNKNOWN`
extends the last run or, after a turn, appends the current cell and begins a new run. -/
theorem traceInv_step (start : FlexMazeIdx) (t : TraceState) (d : frDirEnum)
    (root1 : List FlexMazeIdx) (w1 : Nat) (h : TraceInv start t) (hd : d ≠ .UNKNOWN) :
    TraceInv start
      { curr := getPrevGrid t.curr d, prevDir := d,
        path := if d ≠ t.prevDir then t.path ++ [t.curr] else t.path,
        root := root1, warnings := w1 } := by
  obtain ⟨init, n, hn, hv, hp, hc⟩ := h
  by_cases hturn : d ≠ t.prevDir
  · refine ⟨init ++ [(t.prevDir, n)], 1, Nat.one_pos, validSegs_turn init _ d n hv hd hturn,
      ?_, ?_⟩
    · simp only [if_pos hturn]
      rw [startsOf_append, segsEnd_append, hp, hc]
    · simp only
      rw [segsEnd_append, runEnd_one, hc]
  · have e : d = t.prevDir := not_not.mp hturn
    refine ⟨init, n + 1, Nat.succ_pos n, ?_, ?_, ?_⟩
    · simp only [e]
      exact validSegs_extend init _ n hv
    · simp only [if_neg hturn]
      exact hp
    · simp only
      rw [runEnd_succ, e, hc]

/-- The first step of a back-trace from `start` with an empty `path`: it appends `start` and
begins the first run. -/
theorem traceInv_first (start : FlexMazeIdx) (d : frDirEnum) (root1 : List FlexMazeIdx)
    (w1 : Nat) (hd : d ≠ .UNKNOWN) :
    TraceInv start
      { curr := getPrevGrid start d, prevDir := d, path := [start], root := root1,
        warnings := w1 } := by
  refine ⟨[], 1, Nat.one_pos, ⟨?_, List.chain'_singleton _⟩, rfl, rfl⟩
  intro s hs
  simp only [List.nil_append, List.mem_singleton] at hs
  subst hs
  exact ⟨hd, Nat.one_pos⟩

theorem traceBuffer_inv (g : FlexGridGraph) (start : FlexMazeIdx) (n buffer : Nat)
    (t : TraceState) (h : TraceInv start t) : TraceInv start (traceBuffer g n buffer t) := by
  induction n generalizing buffer t with
  | zero => exact h
  | succ n ih =>
    unfold traceBuffer
    simp only
    by_cases h1 : g.isSrc t.curr = true
    · rw [if_pos h1]
      exact h
    · rw [if_neg h1]
      by_cases h2 : fr.getLastDir buffer = .UNKNOWN
      · rw [if_pos h2]
        exact h
      · rw [if_neg h2]
        exact ih _ _ (traceInv_step start t _ _ _ h h2)

theorem traceGrid_inv (g : FlexGridGraph) (start : FlexMazeIdx) (fuel : Nat)
    (t t1 : TraceState) (h : TraceInv start t) (ht : traceGrid g fuel t = some t1) :
    TraceInv start t1 := by
  induction fuel generalizing t with
  | zero => simp [traceGrid] at ht
  | succ fuel ih =>
    unfold traceGrid at ht
    simp only at ht
    by_cases h1 : g.isSrc t.curr = false
    · rw [if_pos h1] at ht
      by_cases h2 : g.getPrevAstarNodeDir t.curr = .UNKNOWN
      · rw [if_pos h2] at ht
        simp only [Option.some.injEq] at ht
        subst ht
        exact h
      · rw [if_neg h2] at ht
        exact ih _ (traceInv_step start t _ _ _ h h2) ht
    · rw [if_neg h1] at ht
      simp only [Option.some.injEq] at ht
      subst ht
      exact h

/-- The path written by `traceBackPath` into an empty `path`, from a popped cell that is no
source and whose last direction is not `UNKNOWN`: the cells at which the straight runs of the
walk begin, followed by the cell where the walk stopped. -/
theorem traceBackPath_segs (G : Globals) (g : FlexGridGraph) (w : FlexWavefrontGrid)
    (root : List FlexMazeIdx) (cc1 cc2 : FlexMazeIdx) (hB : 0 < G.WAVEFRONTBUFFERSIZE)
    (hs : g.isSrc w.idx = false) (hl : w.getLastDir ≠ .UNKNOWN) (fuel : Nat) (t : TraceResult)
    (h : traceBackPath G g fuel w [] root cc1 cc2 = some t) :
    ∃ segs, segs ≠ [] ∧ ValidSegs segs ∧ t.path = startsOf w.idx segs ++ [segsEnd w.idx segs] := by
  obtain ⟨B, hB1⟩ : ∃ B, G.WAVEFRONTBUFFERSIZE = B + 1 := ⟨G.WAVEFRONTBUFFERSIZE - 1, by omega⟩
  have hl1 : fr.getLastDir w.backTraceBuffer ≠ .UNKNOWN := hl
  have h1 : TraceInv w.idx (traceBuffer g G.WAVEFRONTBUFFERSIZE w.backTraceBuffer
      { curr := w.idx, prevDir := .UNKNOWN, path := [], root := root, warnings := 0 }) := by
    rw [hB1]
    unfold traceBuffer
    simp only [hs, Bool.false_eq_true, if_false, hl1, ne_eq, not_false_eq_true, if_true,
      List.nil_append]
    exact traceBuffer_inv g w.idx B _ _ (traceInv_first w.idx _ _ _ hl1)
  unfold traceBackPath at h
  simp only at h
  cases htg : traceGrid g fuel (traceBuffer g G.WAVEFRONTBUFFERSIZE w.backTraceBuffer
      { curr := w.idx, prevDir := .UNKNOWN, path := [], root := root, warnings := 0 }) with
  | none => simp [htg] at h
  | some t2 =>
    obtain ⟨init, n, -, hv, hp, hc⟩ := traceGrid_inv g w.idx fuel _ t2 h1 htg
    simp only [htg, Option.some.injEq] at h
    subst h
    refine ⟨init ++ [(t2.prevDir, n)], by simp, hv, ?_⟩
    have hne : t2.path ≠ [] := by
      rw [hp]
      simp
    simp only [if_pos hne]
    rw [startsOf_append, segsEnd_append, hp, hc]

theorem runEnd_coords (a : FlexMazeIdx) (d : frDirEnum) (n : Nat) :
    runEnd a d n = match d with
      | .E => ⟨a.x - n, a.y, a.z⟩
      | .W => ⟨a.x + n, a.y, a.z⟩
      | .N => ⟨a.x, a.y - n, a.z⟩
      | .S => ⟨a.x, a.y + n, a.z⟩
      | .U => ⟨a.x, a.y, a.z - n⟩
      | .D => ⟨a.x, a.y, a.z + n⟩
      | .UNKNOWN => a := by
  induction n with
  | zero => cases d <;> simp [runEnd]
  | succ n ih =>
    rw [runEnd_succ, ih]
    cases d <;> simp [getPrevGrid] <;> omega

theorem runEnd_differ (a : FlexMazeIdx) (d : frDirEnum) (n : Nat) (hd : d ≠ .UNKNOWN)
    (hn : 0 < n) : differInOneAxis a (runEnd a d n) := by
  rw [runEnd_coords]
  unfold differInOneAxis
  cases d <;> simp at hd ⊢ <;> omega

/-- Two consecutive cells of a chain of straight runs differ in exactly one of x, y, z. -/
theorem segs_chain (a : FlexMazeIdx) (segs : List (frDirEnum × Nat))
    (h : ∀ s ∈ segs, s.1 ≠ .UNKNOWN ∧ 0 < s.2) :
    List.Chain' differInOneAxis (startsOf a segs ++ [segsEnd a segs]) := by
  induction segs generalizing a with
  | nil => exact List.chain'_singleton _
  | cons s rest ih =>
    have hs := h s (List.mem_cons_self _ _)
    have ih1 := ih (runEnd a s.1 s.2) (fun x hx => h x (List.mem_cons_of_mem _ hx))
    have e : startsOf a (s :: rest) ++ [segsEnd a (s :: rest)]
        = a :: (startsOf (runEnd a s.1 s.2) rest ++ [segsEnd (runEnd a s.1 s.2) rest]) := rfl
    rw [e, List.chain'_cons']
    refine ⟨?_, ih1⟩
    intro y hy
    have hy1 : y = runEnd a s.1 s.2 := by
      cases rest with
      | nil =>
        simp only [startsOf, List.nil_append, List.head?_cons, Option.mem_def,
          Option.some.injEq] at hy
        rw [← hy]
        rfl
      | cons s2 r2 =>
        simp only [startsOf, List.cons_append, List.head?_cons, Option.mem_def,
          Option.some.injEq] at hy
        exact hy.symm
    rw [hy1]
    exact runEnd_differ a s.1 s.2 hs.1 hs.2

end FlexGridGraph

/-! ## The ways in which `search` returns -/

namespace FlexGridGraph

/-- The three ways in which `search` returns: from its seeding loop at the first destination
cell of `connComps`, from its main loop with an empty wavefront, or from `traceBackPath` after
the main loop popped a destination. -/
theorem search_cases (G : Globals) (g : FlexGridGraph) (fuel : Nat)
    (connComps nextPin path : List FlexMazeIdx) (ccMazeIdx1 ccMazeIdx2 : FlexMazeIdx)
    (centerPt : Int × Int) (r : SearchResult)
    (h : search G g fuel connComps nextPin path ccMazeIdx1 ccMazeIdx2 centerPt = some r) :
    (∃ idx, idx ∈ connComps ∧ g.isDst idx = true ∧ r.found = true ∧ r.path = path ++ [idx]
        ∧ r.connComps = connComps ∧ r.warnings = 0)
    ∨ ((∀ c ∈ connComps, g.isDst c = false)
      ∧ ∃ lr, searchLoop G (g.dstBoxLo nextPin) (dstBoxHi nextPin) centerPt fuel
            (searchInit G (g.dstBoxLo nextPin) (dstBoxHi nextPin) centerPt connComps
              { g with wavefront := [] }).2 0 = some lr
        ∧ ((lr.reached = none ∧ r.found = false ∧ r.path = path ∧ r.connComps = connComps
            ∧ r.warnings = 0)
          ∨ ∃ w t, lr.reached = some w
              ∧ traceBackPath G lr.grid fuel w path connComps ccMazeIdx1 ccMazeIdx2 = some t
              ∧ r.found = true ∧ r.path = t.path ∧ r.connComps = t.root
              ∧ r.warnings = t.warnings)) := by
  have hfst := searchInit_fst G (g.dstBoxLo nextPin) (dstBoxHi nextPin) centerPt connComps
    { g with wavefront := [] }
  unfold search at h
  simp only at h
  rcases hres : searchInit G (g.dstBoxLo nextPin) (dstBoxHi nextPin) centerPt connComps
    { g with wavefront := [] } with ⟨o, g1⟩
  rw [hres] at h hfst
  cases o with
  | some idx =>
    left
    simp only [Option.some.injEq] at h
    subst h
    have hfind : connComps.find? (fun i => g.isDst i) = some idx := hfst.symm
    exact ⟨idx, List.mem_of_find?_eq_some hfind, by simpa using List.find?_some hfind, rfl, rfl,
      rfl, rfl⟩
  | none =>
    right
    have hfind : connComps.find? (fun i => g.isDst i) = none := hfst.symm
    refine ⟨fun c hc => by simpa using List.find?_eq_none.mp hfind c hc, ?_⟩
    simp only at h
    cases hl : searchLoop G (g.dstBoxLo nextPin) (dstBoxHi nextPin) centerPt fuel g1 0 with
    | none => simp [hl] at h
    | some lr =>
      refine ⟨lr, rfl, ?_⟩
      simp only [hl] at h
      cases hr : lr.reached with
      | none =>
        left
        simp only [hr, Option.some.injEq] at h
        subst h
        exact ⟨rfl, rfl, rfl, rfl, rfl⟩
      | some w =>
        right
        simp only [hr] at h
        cases ht : traceBackPath G lr.grid fuel w path connComps ccMazeIdx1 ccMazeIdx2 with
        | none => simp [ht] at h
        | some t =>
          simp only [ht, Option.some.injEq] at h
          subst h
          exact ⟨w, t, rfl, ht, rfl, rfl, rfl, rfl⟩

/-- The destination popped by the main loop of a search that did not return from its seeding
loop was pushed by `expand`: it is no source and its last direction is not `UNKNOWN`. -/
theorem searchLoop_reached_origin (G : Globals) (g : FlexGridGraph) (d1 d2 : FlexMazeIdx)
    (centerPt : Int × Int) (connComps : List FlexMazeIdx)
    (hnd : ∀ c ∈ connComps, g.isDst c = false) (fuel : Nat) (lr : LoopResult)
    (w : FlexWavefrontGrid)
    (hl : searchLoop G d1 d2 centerPt fuel
      (searchInit G d1 d2 centerPt connComps { g with wavefront := [] }).2 0 = some lr)
    (hr : lr.reached = some w) :
    g.isDst w.idx = true ∧ (∃ p q, lr.grid = g.withState p q) ∧ w.NoReversal G
      ∧ g.isSrc w.idx = false ∧ (0 < G.WAVEFRONTBUFFERSIZE → w.getLastDir ≠ .UNKNOWN) := by
  obtain ⟨gx, vx, ⟨⟨px, qx, rfl⟩, hqx⟩, hexit⟩ := searchLoop_exit G d1 d2 centerPt
    (fun s => (∃ p q, s = g.withState p q) ∧ g.QueueOrigin G connComps s.wavefront)
    (fun s v s1 v1 hs hi => (searchIter_origin G d1 d2 centerPt g connComps s v hs).1 s1 v1 hi)
    fuel _ 0 lr hl (searchInit_origin G d1 d2 centerPt g connComps)
  rcases searchIter_inl G d1 d2 centerPt _ vx lr hexit with ⟨-, e⟩ | ⟨w1, rest, hpop, -, hd, e⟩
  · subst e
    exact absurd hr (by simp)
  · subst e
    simp only [Option.some.injEq] at hr
    subst hr
    have hd : g.isDst w1.idx = true := hd
    obtain ⟨h1, h2 | h2⟩ := hqx w1 ((wavefrontPop_perm hpop).subset (List.mem_cons_self _ _))
    · rw [hnd _ h2.2] at hd
      exact absurd hd (by simp)
    · exact ⟨hd, ⟨_, _, rfl⟩, h1, h2.1, h2.2⟩

end FlexGridGraph

/-! ## Only turn points and endpoints enter `path` (C26) -/

namespace FlexGridGraph

/-- Claim C26.  With a buffer of at least one direction and `path` empty on entry, the path of
a search that returns `true` is a chain of straight runs walked back from a destination cell
`c`: `path` holds the cells at which the runs begin, `c` first, and the cell where the last
run ends; every run follows one direction other than `UNKNOWN` for at least one step, two
consecutive runs differ in direction (every interior point of `path` is a cell at which the
route changes direction), and every two consecutive points of `path` differ in exactly one of
x, y, z. -/
theorem search_path_turn_points (G : Globals) (g : FlexGridGraph) (fuel : Nat)
    (connComps nextPin : List FlexMazeIdx) (ccMazeIdx1 ccMazeIdx2 : FlexMazeIdx)
    (centerPt : Int × Int) (r : SearchResult) (hB : 0 < G.WAVEFRONTBUFFERSIZE)
    (h : search G g fuel connComps nextPin [] ccMazeIdx1 ccMazeIdx2 centerPt = some r)
    (hf : r.found = true) :
    ∃ c segs, g.isDst c = true ∧ ValidSegs segs
      ∧ r.path = startsOf c segs ++ [segsEnd c segs]
      ∧ List.Chain' differInOneAxis r.path := by
  rcases search_cases G g fuel connComps nextPin [] ccMazeIdx1 ccMazeIdx2 centerPt r h with
    ⟨idx, -, hd, -, hp, -, -⟩ | ⟨hnd, lr, hl, ⟨-, hnf, -⟩ | ⟨w, t, hr, ht, -, hp, -, -⟩⟩
  · refine ⟨idx, [], hd, ⟨by simp, List.chain'_nil⟩, hp, ?_⟩
    rw [hp]
    exact List.chain'_singleton _
  · rw [hnf] at hf
    exact absurd hf (by simp)
  · obtain ⟨hd, ⟨p1, q1, hgrid⟩, -, hs, hlast⟩ := searchLoop_reached_origin G g _ _ centerPt
      connComps hnd fuel lr w hl hr
    have hs1 : lr.grid.isSrc w.idx = false := by
      rw [hgrid]
      exact hs
    obtain ⟨segs, -, hv, hpath⟩ := traceBackPath_segs G lr.grid w connComps ccMazeIdx1
      ccMazeIdx2 hB hs1 (hlast hB) fuel t ht
    refine ⟨w.idx, segs, hd, hv, hp.trans hpath, ?_⟩
    rw [hp, hpath]
    exact segs_chain w.idx segs hv.1

theorem search_path_turn_points_witness :
    ∃ r, search (sampleGlobals 4) bendGrid 20 [⟨0, 0, 0⟩] [⟨4, 4, 0⟩] [] ⟨0, 0, 0⟩ ⟨0, 0, 0⟩
        (400, 400) = some r
      ∧ r.path = [⟨4, 4, 0⟩, ⟨0, 4, 0⟩, ⟨0, 0, 0⟩]
      ∧ ∃ c segs, bendGrid.isDst c = true ∧ ValidSegs segs
        ∧ r.path = startsOf c segs ++ [segsEnd c segs]
        ∧ List.Chain' differInOneAxis r.path := by
  have hm : (search (sampleGlobals 4) bendGrid 20 [⟨0, 0, 0⟩] [⟨4, 4, 0⟩] [] ⟨0, 0, 0⟩
      ⟨0, 0, 0⟩ (400, 400)).map (fun r => (r.found, r.path))
      = some (true, [⟨4, 4, 0⟩, ⟨0, 4, 0⟩, ⟨0, 0, 0⟩]) := by
    decide
  cases h : search (sampleGlobals 4) bendGrid 20 [⟨0, 0, 0⟩] [⟨4, 4, 0⟩] [] ⟨0, 0, 0⟩
      ⟨0, 0, 0⟩ (400, 400) with
  | none =>
    rw [h] at hm
    exact absurd hm (by simp)
  | some r =>
    rw [h] at hm
    simp only [Option.map_some', Option.some.injEq, Prod.mk.injEq] at hm
    exact ⟨r, rfl, hm.2,
      search_path_turn_points (sampleGlobals 4) bendGrid 20 [⟨0, 0, 0⟩] [⟨4, 4, 0⟩] ⟨0, 0, 0⟩
        ⟨0, 0, 0⟩ (400, 400) r (by decide) h hm.1⟩

end FlexGridGraph

/-! ## The route appended to `connComps`, warnings of the back-trace -/

namespace FlexGridGraph

theorem trailCells_append (c : FlexMazeIdx) (l1 l2 : List frDirEnum) :
    trailCells c (l1 ++ l2) = trailCells c l1 ++ trailCells (l1.foldl getPrevGrid c) l2 := by
  induction l1 generalizing c with
  | nil => rfl
  | cons d r ih =>
    show c :: trailCells (getPrevGrid c d) (r ++ l2) = _
    rw [ih]
    rfl

/-- The first loop of `traceBackPath` on a good trail appends the cells entered by the first
`n` moves of the trail to `root` and prints no warning. -/
theorem traceBuffer_root (g : FlexGridGraph) (n buffer : Nat) (t : TraceState)
    (ds : List frDirEnum) (k : Nat) (hdirs : bufDirs n buffer = padDirs n ds)
    (hg : g.GoodTrail k t.curr ds) :
    (traceBuffer g n buffer t).root = t.root ++ trailCells t.curr (ds.take n)
      ∧ (traceBuffer g n buffer t).warnings = t.warnings := by
  induction n generalizing buffer t ds k with
  | zero => simp [traceBuffer, trailCells]
  | succ n ih =>
    cases ds with
    | nil =>
      have hs : g.isSrc t.curr = true := hg
      simp [traceBuffer, hs, trailCells]
    | cons d r =>
      obtain ⟨h1, h2, -, -, -, h6⟩ := hg
      simp only [bufDirs, padDirs, List.cons.injEq] at hdirs
      have hcur : fr.getLastDir buffer = d := hdirs.1
      have hb : buffer / 2 ^ DIRBITSIZE = buffer / 8 := rfl
      simp only [traceBuffer, h2, Bool.false_eq_true, if_false, hcur, h1, hb, List.take_succ_cons,
        trailCells]
      obtain ⟨i1, i2⟩ := ih (buffer / 8)
        { curr := getPrevGrid t.curr d, prevDir := d,
          path := if d ≠ t.prevDir then t.path ++ [t.curr] else t.path,
          root := t.root ++ [t.curr], warnings := t.warnings } r (k - 1) hdirs.2 h6
      refine ⟨?_, i2⟩
      rw [i1]
      simp

/-- The second loop of `traceBackPath` on a trail whose cells are all committed appends the
cells entered by the moves of the trail to `root` and prints no warning. -/
theorem traceGrid_root (g : FlexGridGraph) (fuel : Nat) (t t1 : TraceState)
    (ds : List frDirEnum) (hg : g.GoodTrail 0 t.curr ds) (h : traceGrid g fuel t = some t1) :
    t1.root = t.root ++ trailCells t.curr ds ∧ t1.warnings = t.warnings := by
  induction fuel generalizing t ds with
  | zero => simp [traceGrid] at h
  | succ fuel ih =>
    cases ds with
    | nil =>
      have hs : g.isSrc t.curr = true := hg
      simp only [traceGrid, hs, Bool.true_eq_false, if_false, Option.some.injEq] at h
      subst h
      simp [trailCells]
    | cons d r =>
      obtain ⟨h1, h2, -, -, h5, h6⟩ := hg
      have hcur : g.getPrevAstarNodeDir t.curr = d := h5 rfl
      simp only [traceGrid, h2, if_true, hcur, h1, if_false] at h
      obtain ⟨i1, i2⟩ := ih _ r h6 h
      refine ⟨?_, i2⟩
      rw [i1]
      simp [trailCells]

/-- The back-trace from a popped cell on a good trail `ds` appends to `root` the cells entered
by the moves of `ds`, from the popped cell back to the first cell after the source, and prints
no warning. -/
theorem traceBackPath_root (G : Globals) (g : FlexGridGraph) (w : FlexWavefrontGrid)
    (path root : List FlexMazeIdx) (cc1 cc2 : FlexMazeIdx) (ds : List frDirEnum)
    (hds : w.dirs G = padDirs G.WAVEFRONTBUFFERSIZE ds)
    (hg : g.GoodTrail G.WAVEFRONTBUFFERSIZE w.idx ds) (fuel : Nat)
    (t : TraceResult) (h : traceBackPath G g fuel w path root cc1 cc2 = some t) :
    t.root = root ++ trailCells w.idx ds ∧ t.warnings = 0 := by
  have hb := traceBuffer_root g G.WAVEFRONTBUFFERSIZE w.backTraceBuffer
    { curr := w.idx, prevDir := .UNKNOWN, path := path, root := root, warnings := 0 } ds
    G.WAVEFRONTBUFFERSIZE hds hg
  have hc := (traceBuffer_path g G.WAVEFRONTBUFFERSIZE w.backTraceBuffer
    { curr := w.idx, prevDir := .UNKNOWN, path := path, root := root, warnings := 0 } ds
    G.WAVEFRONTBUFFERSIZE hds hg).2.2
  have hgood := (traceBuffer_good g G.WAVEFRONTBUFFERSIZE w.backTraceBuffer
    { curr := w.idx, prevDir := .UNKNOWN, path := path, root := root, warnings := 0 } ds
    G.WAVEFRONTBUFFERSIZE hds hg).1
  rw [Nat.sub_self] at hgood
  obtain ⟨b1, b2⟩ := hb
  unfold traceBackPath at h
  simp only at h
  cases htg : traceGrid g fuel (traceBuffer g G.WAVEFRONTBUFFERSIZE w.backTraceBuffer
      { curr := w.idx, prevDir := .UNKNOWN, path := path, root := root, warnings := 0 }) with
  | none => simp [htg] at h
  | some t2 =>
    obtain ⟨g1, g2⟩ := traceGrid_root g fuel _ t2 _ hgood htg
    simp only [htg, Option.some.injEq] at h
    subst h
    constructor
    · show t2.root = _
      rw [g1, b1, hc, List.append_assoc]
      simp only
      rw [← trailCells_append, List.take_append_drop]
    · show t2.warnings = 0
      rw [g2, b2]

theorem trailCells_nonsrc (g : FlexGridGraph) (k : Nat) (c : FlexMazeIdx) (ds : List frDirEnum)
    (hg : g.GoodTrail k c ds) : ∀ x ∈ trailCells c ds, g.isSrc x = false := by
  induction ds generalizing k c with
  | nil => simp [trailCells]
  | cons d r ih =>
    obtain ⟨-, h2, -, -, -, h6⟩ := hg
    intro x hx
    simp only [trailCells, List.mem_cons] at hx
    rcases hx with rfl | hx
    · exact h2
    · exact ih _ _ h6 x hx

theorem trailCells_head (c : FlexMazeIdx) (ds : List frDirEnum) (hne : ds ≠ []) :
    (trailCells c ds).head? = some c := by
  cases ds with
  | nil => exact absurd rfl hne
  | cons d r => rfl

/-- Every two consecutive cells of a good trail are joined by an existing edge, from the later
cell of the walk back to the earlier one. -/
theorem trailCells_chain (g : FlexGridGraph) (k : Nat) (c : FlexMazeIdx) (ds : List frDirEnum)
    (hg : g.GoodTrail k c ds) :
    List.Chain' (fun a b => ∃ d, g.hasEdge b d = true ∧ getNextGrid b d = a)
      (trailCells c ds) := by
  induction ds generalizing k c with
  | nil => exact List.chain'_nil
  | cons d r ih =>
    obtain ⟨-, -, h3, -, -, h6⟩ := hg
    have ih1 := ih _ _ h6
    show List.Chain' _ (c :: trailCells (getPrevGrid c d) r)
    rw [List.chain'_cons']
    refine ⟨?_, ih1⟩
    intro y hy
    cases r with
    | nil => simp [trailCells] at hy
    | cons d2 r2 =>
      simp only [trailCells, List.head?_cons, Option.mem_def, Option.some.injEq] at hy
      subst hy
      exact ⟨d, h3, getNextGrid_getPrevGrid c d⟩

/-- The last cell of a good trail is entered from a source cell along an existing edge. -/
theorem trailCells_last (g : FlexGridGraph) (k : Nat) (c : FlexMazeIdx) (ds : List frDirEnum)
    (hg : g.GoodTrail k c ds) (hne : ds ≠ []) :
    ∃ last s d, (trailCells c ds).getLast? = some last ∧ g.isSrc s = true
      ∧ g.hasEdge s d = true ∧ getNextGrid s d = last := by
  induction ds generalizing k c with
  | nil => exact absurd rfl hne
  | cons d r ih =>
    obtain ⟨-, -, h3, -, -, h6⟩ := hg
    cases r with
    | nil =>
      have hs : g.isSrc (getPrevGrid c d) = true := h6
      exact ⟨c, getPrevGrid c d, d, rfl, hs, h3, getNextGrid_getPrevGrid c d⟩
    | cons d2 r2 =>
      obtain ⟨last, s, e, i1, i2, i3, i4⟩ := ih _ _ h6 (by simp)
      refine ⟨last, s, e, ?_, i2, i3, i4⟩
      show (c :: trailCells (getPrevGrid c d) (d2 :: r2)).getLast? = some last
      rw [show trailCells (getPrevGrid c d) (d2 :: r2)
        = getPrevGrid c d :: trailCells (getPrevGrid (getPrevGrid c d) d2) r2 from rfl,
        List.getLast?_cons_cons]
      exact i1

/-- The state in which the main loop starts: the seeds of `connComps`, each on the good trail
without moves when every cell of `connComps` is a source. -/
theorem searchInit_queueGood (G : Globals) (d1 d2 : FlexMazeIdx) (centerPt : Int × Int)
    (g : FlexGridGraph) (connComps : List FlexMazeIdx)
    (hsrc : ∀ c ∈ connComps, g.isSrc c = true) :
    ∃ seeds, (searchInit G d1 d2 centerPt connComps { g with wavefront := [] }).2
        = g.withState g.prevAstarNodeDir seeds
      ∧ (g.withState g.prevAstarNodeDir seeds).QueueGood G := by
  obtain ⟨seeds, h1, h2⟩ := searchInit_snd G d1 d2 centerPt connComps { g with wavefront := [] }
  refine ⟨seeds, ?_, seeds_queueGood G g _ seeds
    (fun w hw => ⟨(h2 w hw).1, hsrc _ (h2 w hw).2⟩)⟩
  rw [h1]
  show g.withState g.prevAstarNodeDir ([] ++ seeds) = _
  rw [List.nil_append]

end FlexGridGraph

/-! ## The back-trace never meets `UNKNOWN` inside a search (C27) -/

namespace FlexGridGraph

/-- Claim C27.  With a buffer of at least one direction, if `isSrc` is set on every cell of
`connComps` on entry, a search that returns has printed no warning: for the destination cell
popped by the main loop, the buffer phase of `traceBackPath` reads a direction other than
`UNKNOWN` at every cell that is not a source, and the table phase reads a `prevAstarNodeDir`
other than `UNKNOWN` at every cell it visits before it reaches a source. -/
theorem search_back_trace_no_warning (G : Globals) (g : FlexGridGraph) (fuel : Nat)
    (connComps nextPin path : List FlexMazeIdx) (ccMazeIdx1 ccMazeIdx2 : FlexMazeIdx)
    (centerPt : Int × Int) (r : SearchResult) (hB : 0 < G.WAVEFRONTBUFFERSIZE)
    (hsrc : ∀ c ∈ connComps, g.isSrc c = true)
    (h : search G g fuel connComps nextPin path ccMazeIdx1 ccMazeIdx2 centerPt = some r) :
    r.warnings = 0 := by
  rcases search_cases G g fuel connComps nextPin path ccMazeIdx1 ccMazeIdx2 centerPt r h with
    ⟨idx, -, -, -, -, -, hw⟩ | ⟨-, lr, hl, ⟨-, -, -, -, hw⟩ | ⟨w, t, hr, ht, -, -, -, hw⟩⟩
  · exact hw
  · exact hw
  · obtain ⟨seeds, hinit, hq⟩ := searchInit_queueGood G (g.dstBoxLo nextPin) (dstBoxHi nextPin)
      centerPt g connComps hsrc
    rw [hinit] at hl
    obtain ⟨-, -, ds, hds, hg⟩ := searchLoop_reached_good G _ _ centerPt hB g _ seeds hq fuel
      lr w hl hr
    rw [hw]
    exact (traceBackPath_root G lr.grid w path connComps ccMazeIdx1 ccMazeIdx2 ds hds hg fuel t
      ht).2

theorem search_back_trace_no_warning_witness :
    ∃ r, search (sampleGlobals 2) rowGrid 20 [⟨0, 0, 0⟩] [⟨4, 0, 0⟩] [] ⟨0, 0, 0⟩ ⟨0, 0, 0⟩ (0, 0)
        = some r
      ∧ r.found = true ∧ r.path = [⟨4, 0, 0⟩, ⟨0, 0, 0⟩] ∧ r.warnings = 0 := by
  have hm : (search (sampleGlobals 2) rowGrid 20 [⟨0, 0, 0⟩] [⟨4, 0, 0⟩] [] ⟨0, 0, 0⟩
      ⟨0, 0, 0⟩ (0, 0)).map (fun r => (r.found, r.path))
      = some (true, [⟨4, 0, 0⟩, ⟨0, 0, 0⟩]) := by
    decide
  cases h : search (sampleGlobals 2) rowGrid 20 [⟨0, 0, 0⟩] [⟨4, 0, 0⟩] [] ⟨0, 0, 0⟩
      ⟨0, 0, 0⟩ (0, 0) with
  | none =>
    rw [h] at hm
    exact absurd hm (by simp)
  | some r =>
    rw [h] at hm
    simp only [Option.map_some', Option.some.injEq, Prod.mk.injEq] at hm
    exact ⟨r, rfl, hm.1, hm.2,
      search_back_trace_no_warning (sampleGlobals 2) rowGrid 20 [⟨0, 0, 0⟩] [⟨4, 0, 0⟩] []
        ⟨0, 0, 0⟩ ⟨0, 0, 0⟩ (0, 0) r (by decide) (by decide) h⟩

end FlexGridGraph

/-! ## Route validity (C29) -/

namespace FlexGridGraph

/-- Claim C29.  With a buffer of at least one direction, `isSrc` set on every cell of
`connComps` and no destination among them (so the search does not return from its seeding
loop), a search that returns `true` has popped a destination cell `w` whose buffer shows the
last moves of a trail `ds` from a source cell, the chain of moves by which `w` was generated;
the cells that `traceBackPath` appends to `connComps` are the cells entered by the moves of
that trail, from `w` back: they start with the destination cell `w`, contain no source cell,
each consecutive pair is joined by an existing edge, and the last appended cell is joined by an
existing edge to a source cell. -/
theorem search_route_valid (G : Globals) (g : FlexGridGraph) (fuel : Nat)
    (connComps nextPin path : List FlexMazeIdx) (ccMazeIdx1 ccMazeIdx2 : FlexMazeIdx)
    (centerPt : Int × Int) (r : SearchResult) (hB : 0 < G.WAVEFRONTBUFFERSIZE)
    (hsrc : ∀ c ∈ connComps, g.isSrc c = true)
    (hnd : ∀ c ∈ connComps, g.isDst c = false)
    (h : search G g fuel connComps nextPin path ccMazeIdx1 ccMazeIdx2 centerPt = some r)
    (hf : r.found = true) :
    ∃ lr w ds,
      searchLoop G (g.dstBoxLo nextPin) (dstBoxHi nextPin) centerPt fuel
          (searchInit G (g.dstBoxLo nextPin) (dstBoxHi nextPin) centerPt connComps
            { g with wavefront := [] }).2 0 = some lr
        ∧ lr.reached = some w ∧ g.isDst w.idx = true
        ∧ w.dirs G = padDirs G.WAVEFRONTBUFFERSIZE ds
        ∧ lr.grid.GoodTrail G.WAVEFRONTBUFFERSIZE w.idx ds
        ∧ r.connComps = connComps ++ trailCells w.idx ds
        ∧ (trailCells w.idx ds).head? = some w.idx
        ∧ (∀ c ∈ trailCells w.idx ds, g.isSrc c = false)
        ∧ List.Chain' (fun a b => ∃ d, g.hasEdge b d = true ∧ getNextGrid b d = a)
            (trailCells w.idx ds)
        ∧ ∃ last s d, (trailCells w.idx ds).getLast? = some last ∧ g.isSrc s = true
            ∧ g.hasEdge s d = true ∧ getNextGrid s d = last := by
  rcases search_cases G g fuel connComps nextPin path ccMazeIdx1 ccMazeIdx2 centerPt r h with
    ⟨idx, hm, hd, -, -, -, -⟩ | ⟨-, lr, hl, ⟨-, hnf, -⟩ | ⟨w, t, hr, ht, -, -, hroot, -⟩⟩
  · rw [hnd idx hm] at hd
    exact absurd hd (by simp)
  · rw [hnf] at hf
    exact absurd hf (by simp)
  · obtain ⟨seeds, hinit, hq⟩ := searchInit_queueGood G (g.dstBoxLo nextPin) (dstBoxHi nextPin)
      centerPt g connComps hsrc
    have hl0 := hl
    rw [hinit] at hl
    obtain ⟨hd, ⟨p1, q1, hgrid⟩, ds, hds, hg⟩ := searchLoop_reached_good G _ _ centerPt hB g _
      seeds hq fuel lr w hl hr
    obtain ⟨-, -, -, hs, -⟩ := searchLoop_reached_origin G g _ _ centerPt connComps hnd fuel lr
      w hl0 hr
    have hne : ds ≠ [] := by
      rintro rfl
      have h1 : lr.grid.isSrc w.idx = true := hg
      rw [hgrid] at h1
      have h2 : g.isSrc w.idx = true := h1
      rw [hs] at h2
      exact absurd h2 (by simp)
    have hroot1 := (traceBackPath_root G lr.grid w path connComps ccMazeIdx1 ccMazeIdx2 ds hds
      hg fuel t ht).1
    refine ⟨lr, w, ds, hl0, hr, hd, hds, hg, hroot.trans hroot1, trailCells_head _ _ hne, ?_, ?_,
      ?_⟩
    · have := trailCells_nonsrc lr.grid _ _ _ hg
      rw [hgrid] at this
      exact this
    · have := trailCells_chain lr.grid _ _ _ hg
      rw [hgrid] at this
      exact this
    · have := trailCells_last lr.grid _ _ _ hg hne
      rw [hgrid] at this
      exact this

theorem search_route_valid_witness :
    ∃ r, search (blockGlobals 4) blockGrid 20 [⟨0, 0, 0⟩] [⟨2, 0, 0⟩] [] ⟨0, 0, 0⟩ ⟨0, 0, 0⟩
        (200, 0) = some r
      ∧ r.connComps = [⟨0, 0, 0⟩, ⟨2, 0, 0⟩, ⟨2, 1, 0⟩, ⟨1, 1, 0⟩, ⟨0, 1, 0⟩]
      ∧ ∃ lr w ds,
        searchLoop (blockGlobals 4) (blockGrid.dstBoxLo [⟨2, 0, 0⟩]) (dstBoxHi [⟨2, 0, 0⟩])
            (200, 0) 20
            (searchInit (blockGlobals 4) (blockGrid.dstBoxLo [⟨2, 0, 0⟩]) (dstBoxHi [⟨2, 0, 0⟩])
              (200, 0) [⟨0, 0, 0⟩] { blockGrid with wavefront := [] }).2 0 = some lr
          ∧ lr.reached = some w ∧ blockGrid.isDst w.idx = true
          ∧ w.dirs (blockGlobals 4) = padDirs (blockGlobals 4).WAVEFRONTBUFFERSIZE ds
          ∧ lr.grid.GoodTrail (blockGlobals 4).WAVEFRONTBUFFERSIZE w.idx ds
          ∧ r.connComps = [⟨0, 0, 0⟩] ++ trailCells w.idx ds
          ∧ (trailCells w.idx ds).head? = some w.idx
          ∧ (∀ c ∈ trailCells w.idx ds, blockGrid.isSrc c = false)
          ∧ List.Chain' (fun a b => ∃ d, blockGrid.hasEdge b d = true ∧ getNextGrid b d = a)
              (trailCells w.idx ds)
          ∧ ∃ last s d, (trailCells w.idx ds).getLast? = some last ∧ blockGrid.isSrc s = true
              ∧ blockGrid.hasEdge s d = true ∧ getNextGrid s d = last := by
  have hm : (search (blockGlobals 4) blockGrid 20 [⟨0, 0, 0⟩] [⟨2, 0, 0⟩] [] ⟨0, 0, 0⟩
      ⟨0, 0, 0⟩ (200, 0)).map (fun r => (r.found, r.connComps))
      = some (true, [⟨0, 0, 0⟩, ⟨2, 0, 0⟩, ⟨2, 1, 0⟩, ⟨1, 1, 0⟩, ⟨0, 1, 0⟩]) := by
    decide
  cases h : search (blockGlobals 4) blockGrid 20 [⟨0, 0, 0⟩] [⟨2, 0, 0⟩] [] ⟨0, 0, 0⟩
      ⟨0, 0, 0⟩ (200, 0) with
  | none =>
    rw [h] at hm
    exact absurd hm (by simp)
  | some r =>
    rw [h] at hm
    simp only [Option.map_some', Option.some.injEq, Prod.mk.injEq] at hm
    exact ⟨r, rfl, hm.2,
      search_route_valid (blockGlobals 4) blockGrid 20 [⟨0, 0, 0⟩] [⟨2, 0, 0⟩] [] ⟨0, 0, 0⟩
        ⟨0, 0, 0⟩ (200, 0) r (by decide) (by decide) (by decide) h hm.1⟩

end FlexGridGraph

/-! ## Index arguments of `getPoint` in the heuristic (C31) -/

namespace FlexGridGraph

/-- For an in-range cell `src` and an in-range destination box, the lookups of `srcPoint`,
`dstPoint1` and `dstPoint2` are in range, and all four lookups of `getEstCost` are in range if
and only if the cell reached by stepping from `src` once more in `dir` has in-range track
indices. -/
theorem getEstCost_getPointCalls_in_range (X Y Z : Int) (src dstLo dstHi : FlexMazeIdx)
    (dir : frDirEnum) (hs : inDims X Y Z src = true) (h1 : inDims X Y Z dstLo = true)
    (h2 : inDims X Y Z dstHi = true) :
    (∀ p ∈ getEstCost_getPointCalls src dstLo dstHi dir, pointInRange X Y p)
      ↔ pointInRange X Y ((getNextGrid src dir).x, (getNextGrid src dir).y) := by
  simp only [inDims, decide_eq_true_eq] at hs h1 h2
  simp only [getEstCost_getPointCalls, List.mem_cons, List.mem_singleton, List.not_mem_nil,
    or_false, forall_eq_or_imp, forall_eq, pointInRange]
  constructor
  · intro h
    exact h.2.2.2
  · intro h
    exact ⟨⟨hs.1, hs.2.1, hs.2.2.1, hs.2.2.2.1⟩, ⟨h1.1, h1.2.1, h1.2.2.1, h1.2.2.2.1⟩,
      ⟨h2.1, h2.2.1, h2.2.2.1, h2.2.2.2.1⟩, h⟩

/-- Stepping east from a cell of the last column leaves the range of `getPoint`, for every
grid: the lookup of `nextPoint` in `getEstCost(src, .., E)` is out of range there. -/
theorem getEstCost_nextPoint_east (X Y : Int) (src dstLo dstHi : FlexMazeIdx)
    (hx : src.x = X - 1) :
    ∃ p ∈ getEstCost_getPointCalls src dstLo dstHi .E, ¬ pointInRange X Y p := by
  refine ⟨((getNextGrid src .E).x, (getNextGrid src .E).y), by simp [getEstCost_getPointCalls],
    ?_⟩
  simp only [pointInRange, getNextGrid]
  omega

/-- Claim C31, evaluated on the row of five cells (`X = 5`, `Y = 1`, `Z = 1`): the wavefront
cell at `(3,0,0)` entered by a move `E` is expandable by `E`, and `expand` then calls
`getEstCost((4,0,0), (4,0,0), (4,0,0), E)` with the in-range cell `(4,0,0)` and the in-range
destination box `(4,0,0) .. (4,0,0)`.  The calls of `getPoint` it makes have the index
arguments `(4,0)`, `(4,0)`, `(4,0)` and, for `nextPoint`, `(5,0)`, which is not in range
(`5 = X`); the process node of the constants is not the gated one. -/
theorem getEstCost_getPoint_out_of_range :
    rowGrid.isExpandable { sampleCell with xIdx := 3, backTraceBuffer := 4 } .E = true
      ∧ getNextGrid ({ sampleCell with xIdx := 3, backTraceBuffer := 4 } : FlexWavefrontGrid).idx
          .E = ⟨4, 0, 0⟩
      ∧ inDims rowGrid.xDim rowGrid.yDim rowGrid.zDim ⟨4, 0, 0⟩ = true
      ∧ (sampleGlobals 4).DBPROCESSNODE ≠ "GF14_13M_3Mx_2Cx_4Kx_2Hx_2Gx_LB"
      ∧ getEstCost_getPointCalls ⟨4, 0, 0⟩ ⟨4, 0, 0⟩ ⟨4, 0, 0⟩ .E
          = [(4, 0), (4, 0), (4, 0), (5, 0)]
      ∧ expand_getPointCalls { sampleCell with xIdx := 3, backTraceBuffer := 4 } .E ⟨4, 0, 0⟩
          ⟨4, 0, 0⟩ = [(4, 0), (4, 0), (4, 0), (5, 0), (4, 0)]
      ∧ ¬ pointInRange rowGrid.xDim rowGrid.yDim (5, 0)
      ∧ ¬ ∀ p ∈ getEstCost_getPointCalls ⟨4, 0, 0⟩ ⟨4, 0, 0⟩ ⟨4, 0, 0⟩ .E,
          pointInRange rowGrid.xDim rowGrid.yDim p := by
  decide

end FlexGridGraph

/-! ## Index arguments of `getZDir` in the expansion (C32) -/

namespace FlexGridGraph

/-- For every wavefront cell, `expandWavefront` calls `getZDir` with the layer below and with
the layer above the cell: on the bottom layer with `-1`, on the top layer with `Z`. -/
theorem expandWavefront_getZDirCalls_neighbours (currGrid : FlexWavefrontGrid) :
    currGrid.zIdx - 1 ∈ expandWavefront_getZDirCalls currGrid
      ∧ currGrid.zIdx + 1 ∈ expandWavefront_getZDirCalls currGrid := by
  simp [expandWavefront_getZDirCalls, comp_exp_funcs_simd_getZDirCalls]

/-- On the bottom layer and on the top layer of every grid, a call of `getZDir` made by
`expandWavefront` is out of range. -/
theorem expandWavefront_getZDir_boundary (Z : Int) (currGrid : FlexWavefrontGrid)
    (hz : currGrid.zIdx = 0 ∨ currGrid.zIdx = Z - 1) :
    ∃ z ∈ expandWavefront_getZDirCalls currGrid, ¬ layerInRange Z z := by
  rcases hz with hz | hz
  · refine ⟨currGrid.zIdx - 1, (expandWavefront_getZDirCalls_neighbours currGrid).1, ?_⟩
    unfold layerInRange
    omega
  · refine ⟨currGrid.zIdx + 1, (expandWavefront_getZDirCalls_neighbours currGrid).2, ?_⟩
    unfold layerInRange
    omega

/-- Claim C32, evaluated on the row of five cells (`Z = 1`): the first cell that the main loop
of the search from `(0,0,0)` pops is the seed at `(0,0,0)`, an in-range cell that is not
committed and no destination, so the loop calls `expandWavefront` on it; the calls of
`getZDir` then have the arguments `0`, `-1` and `1`, of which `-1` and `1 = Z` are not in
range. -/
theorem expandWavefront_getZDir_out_of_range :
    (wavefrontPop (searchInit (sampleGlobals 4) (rowGrid.dstBoxLo [⟨4, 0, 0⟩])
        (dstBoxHi [⟨4, 0, 0⟩]) (0, 0) [⟨0, 0, 0⟩] { rowGrid with wavefront := [] }).2.wavefront).map
        (fun p => (p.1.idx, rowGrid.getPrevAstarNodeDir p.1.idx, rowGrid.isDst p.1.idx,
          inDims rowGrid.xDim rowGrid.yDim rowGrid.zDim p.1.idx,
          expandWavefront_getZDirCalls p.1))
      = some (⟨0, 0, 0⟩, .UNKNOWN, false, true, [0, -1, 1])
      ∧ ¬ layerInRange rowGrid.zDim (-1) ∧ ¬ layerInRange rowGrid.zDim 1 := by
  decide

end FlexGridGraph

/-! ## History fields of the pushed cell: planar step (C25) -/

namespace FlexGridGraph

theorem toCoord_eq_self (i : Int) (h1 : -2147483648 ≤ i) (h2 : i ≤ frCoordMax) :
    toCoord i = i := by
  unfold toCoord
  unfold frCoordMax at h2
  omega

/-- C25 (counterexample): on the row of five cells (edge length 100, layer width 100),
`expand(longCell, E)` pushes one cell, at `(2,0,0)`, with `layerPathArea = -2147477296`,
`vLengthX = -2147483596` and `tLength = -2147483596`, where the sums of the claim are
`2147480000 + 100 * 100 = 2147490000` and `2147483600 + 100 = 2147483700`: they do not fit the
32-bit `frCoord` and wrap around. -/
theorem expand_planar_sums_wrap :
    rowGrid.isExpandable longCell .E = true
      ∧ (rowGrid.expand (sampleGlobals 2) longCell .E ⟨4, 0, 0⟩ ⟨4, 0, 0⟩ (0, 0)).wavefront.map
          (fun w => (w.idx, w.layerPathArea, w.vLengthX, w.vLengthY, w.tLength))
        = [(⟨2, 0, 0⟩, -2147477296, -2147483596, 0, -2147483596)]
      ∧ longCell.layerPathArea + rowGrid.getEdgeLength longCell.idx .E
          * rowGrid.tech.layerWidth (rowGrid.getLayerNum longCell.zIdx) = 2147490000
      ∧ longCell.vLengthX + rowGrid.getEdgeLength longCell.idx .E = 2147483700
      ∧ longCell.tLength + rowGrid.getEdgeLength longCell.idx .E = 2147483700
      ∧ longCell.vLengthX ≠ frCoordMax ∧ longCell.vLengthY ≠ frCoordMax
      ∧ longCell.tLength ≠ frCoordMax ∧ longCell.getLastDir = .E := by
  decide

/-- C25 (amended): for a planar `d` (E, W, N, S), with `L = getEdgeLength(curr, d)`,
`pathWidth` the width of the layer of `curr`, `next` the cell that `expand(curr, d)` builds,
`tailDir` the direction shifted out of its buffer and `tailIdx = getTailIdx(n, next)`:
`expand` appends exactly `next` to the wavefront when `tailDir = UNKNOWN` or
`prevAstarNodeDir(tailIdx)` is `UNKNOWN` or `tailDir`, and leaves the wavefront as it was
otherwise; `next` has `layerPathArea = curr.layerPathArea + L * pathWidth`,
`prevViaUp = curr.prevViaUp`, `vLength` equal to `curr.vLength` with `L` added to the X
component (`d` in E, W) or to the Y component (`d` in N, S) only when both components of
`curr.vLength` are finite, and `tLength = L` if `curr.lastDir` is neither `UNKNOWN` nor `d`,
else `curr.tLength + L` if `curr.tLength` is finite, else infinite, where every sum is reduced
to the 32-bit `frCoord` by `toCoord`: it is the sum itself whenever the sum lies in
`-2^31 .. 2^31 - 1`. -/
theorem expand_planar_history (G : Globals) (g : FlexGridGraph) (curr : FlexWavefrontGrid)
    (d : frDirEnum) (d1 d2 : FlexMazeIdx) (centerPt : Int × Int)
    (hd : d = .E ∨ d = .W ∨ d = .N ∨ d = .S) :
    let L := g.getEdgeLength curr.idx d
    let pathWidth : Int := g.tech.layerWidth (g.getLayerNum curr.zIdx)
    let shifted := (g.nextWavefrontGrid G curr d d1 d2 centerPt).shiftAddBuffer G d
    let tailDir := shifted.1
    let next := shifted.2
    let tailIdx := getTailIdx G (getNextGrid curr.idx d) next
    ((tailDir = .UNKNOWN ∨ g.getPrevAstarNodeDir tailIdx = .UNKNOWN
          ∨ g.getPrevAstarNodeDir tailIdx = tailDir) →
        (g.expand G curr d d1 d2 centerPt).wavefront = g.wavefront ++ [next])
      ∧ (¬ (tailDir = .UNKNOWN ∨ g.getPrevAstarNodeDir tailIdx = .UNKNOWN
          ∨ g.getPrevAstarNodeDir tailIdx = tailDir) →
        (g.expand G curr d d1 d2 centerPt).wavefront = g.wavefront)
      ∧ next.idx = getNextGrid curr.idx d
      ∧ next.layerPathArea = toCoord (curr.layerPathArea + L * pathWidth)
      ∧ next.prevViaUp = curr.prevViaUp
      ∧ next.vLengthX
          = (if curr.vLengthX ≠ frCoordMax ∧ curr.vLengthY ≠ frCoordMax ∧ (d = .E ∨ d = .W) then
              toCoord (curr.vLengthX + L) else curr.vLengthX)
      ∧ next.vLengthY
          = (if curr.vLengthX ≠ frCoordMax ∧ curr.vLengthY ≠ frCoordMax ∧ (d = .N ∨ d = .S) then
              toCoord (curr.vLengthY + L) else curr.vLengthY)
      ∧ next.tLength
          = (if curr.getLastDir ≠ .UNKNOWN ∧ curr.getLastDir ≠ d then L
             else if curr.tLength ≠ frCoordMax then toCoord (curr.tLength + L)
             else frCoordMax)
      ∧ ∀ i : Int, -2147483648 ≤ i → i ≤ frCoordMax → toCoord i = i := by
  intro L pathWidth shifted tailDir next tailIdx
  have hg1 : g.expand G curr d d1 d2 centerPt = (if tailDir ≠ .UNKNOWN then
      if g.getPrevAstarNodeDir tailIdx = .UNKNOWN ∨ g.getPrevAstarNodeDir tailIdx = tailDir then
        (g.setPrevAstarNodeDir tailIdx tailDir).wavefrontPush next
      else g
    else g.wavefrontPush next) := rfl
  have hnv : ¬ (d = .U ∨ d = .D) := by
    rcases hd with rfl | rfl | rfl | rfl <;> decide
  have hnext : next = ((g.nextWavefrontGrid G curr d d1 d2 centerPt).shiftAddBuffer G d).2 := rfl
  refine ⟨?_, ?_, ?_, ?_, ?_, ?_, ?_, ?_, toCoord_eq_self⟩
  · intro h
    rw [hg1]
    by_cases ht : tailDir = .UNKNOWN
    · rw [if_neg (not_not.mpr ht)]
      rfl
    · rw [if_pos ht, if_pos (h.resolve_left ht)]
      rfl
  · intro h
    rw [hg1]
    push_neg at h
    rw [if_pos h.1, if_neg (not_or.mpr ⟨h.2.1, h.2.2⟩)]
  · exact childGrid_idx G g curr d d1 d2 centerPt
  · rw [hnext]
    simp only [nextWavefrontGrid, FlexWavefrontGrid.shiftAddBuffer, if_neg hnv]
  · rw [hnext]
    simp only [nextWavefrontGrid, FlexWavefrontGrid.shiftAddBuffer, if_neg hnv]
  · rw [hnext]
    simp only [nextWavefrontGrid, FlexWavefrontGrid.shiftAddBuffer, if_neg hnv]
    rcases hd with rfl | rfl | rfl | rfl <;> split_ifs <;> simp_all
  · rw [hnext]
    simp only [nextWavefrontGrid, FlexWavefrontGrid.shiftAddBuffer, if_neg hnv]
    rcases hd with rfl | rfl | rfl | rfl <;> split_ifs <;> simp_all
  · rw [hnext]
    simp only [nextWavefrontGrid, FlexWavefrontGrid.shiftAddBuffer, if_neg hnv]
    split_ifs <;> simp_all

theorem expand_planar_history_witness :
    (frDirEnum.E = .E ∨ frDirEnum.E = .W ∨ frDirEnum.E = .N ∨ frDirEnum.E = .S)
    ∧ (rowGrid.expand (sampleGlobals 2) sampleCell .E ⟨4, 0, 0⟩ ⟨4, 0, 0⟩ (0, 0)).wavefront.map
        (fun w => (w.idx, w.layerPathArea, w.prevViaUp, w.vLengthX, w.vLengthY, w.tLength))
      = [(⟨2, 0, 0⟩, 10000, true, 2147483647, 2147483647, 100)]
    ∧ (let L := rowGrid.getEdgeLength sampleCell.idx .E
      let pathWidth : Int := rowGrid.tech.layerWidth (rowGrid.getLayerNum sampleCell.zIdx)
      let shifted := (rowGrid.nextWavefrontGrid (sampleGlobals 2) sampleCell .E ⟨4, 0, 0⟩
        ⟨4, 0, 0⟩ (0, 0)).shiftAddBuffer (sampleGlobals 2) .E
      let tailDir := shifted.1
      let next := shifted.2
      let tailIdx := getTailIdx (sampleGlobals 2) (getNextGrid sampleCell.idx .E) next
      ((tailDir = .UNKNOWN ∨ rowGrid.getPrevAstarNodeDir tailIdx = .UNKNOWN
            ∨ rowGrid.getPrevAstarNodeDir tailIdx = tailDir) →
          (rowGrid.expand (sampleGlobals 2) sampleCell .E ⟨4, 0, 0⟩ ⟨4, 0, 0⟩ (0, 0)).wavefront
            = rowGrid.wavefront ++ [next])
        ∧ (¬ (tailDir = .UNKNOWN ∨ rowGrid.getPrevAstarNodeDir tailIdx = .UNKNOWN
            ∨ rowGrid.getPrevAstarNodeDir tailIdx = tailDir) →
          (rowGrid.expand (sampleGlobals 2) sampleCell .E ⟨4, 0, 0⟩ ⟨4, 0, 0⟩ (0, 0)).wavefront
            = rowGrid.wavefront)
        ∧ next.idx = getNextGrid sampleCell.idx .E
        ∧ next.layerPathArea = toCoord (sampleCell.layerPathArea + L * pathWidth)
        ∧ next.prevViaUp = sampleCell.prevViaUp
        ∧ next.vLengthX
            = (if sampleCell.vLengthX ≠ frCoordMax ∧ sampleCell.vLengthY ≠ frCoordMax
                  ∧ (frDirEnum.E = .E ∨ frDirEnum.E = .W) then
                toCoord (sampleCell.vLengthX + L) else sampleCell.vLengthX)
        ∧ next.vLengthY
            = (if sampleCell.vLengthX ≠ frCoordMax ∧ sampleCell.vLengthY ≠ frCoordMax
                  ∧ (frDirEnum.E = .N ∨ frDirEnum.E = .S) then
                toCoord (sampleCell.vLengthY + L) else sampleCell.vLengthY)
        ∧ next.tLength
            = (if sampleCell.getLastDir ≠ .UNKNOWN ∧ sampleCell.getLastDir ≠ .E then L
               else if sampleCell.tLength ≠ frCoordMax then toCoord (sampleCell.tLength + L)
               else frCoordMax)
        ∧ ∀ i : Int, -2147483648 ≤ i → i ≤ frCoordMax → toCoord i = i) :=
  ⟨Or.inl rfl, by decide,
    expand_planar_history (sampleGlobals 2) rowGrid sampleCell .E ⟨4, 0, 0⟩ ⟨4, 0, 0⟩ (0, 0)
      (Or.inl rfl)⟩

end FlexGridGraph

end fr
